import Mathlib

/-!
# Ticket-booking client (`src/web/app.js`)

A shallow embedding of `src/web/app.js`:
* `createRemainWSManager` (lines 111-244): the monotonic update rule
  `applyRemainingUpdate`, and the connection multiplexer (`connect`, `scheduleReconnect`,
  `open`, `obj.close`, `enforceCap`, `sync`, `setMax`, `closeAll`) as a step function over
  an explicit state;
* the viewport windower `viewSearch`, the validators `validateRealName` and
  `validateIDCard`, and the actions of the booking session;
* the render scheduler `renderSoon`, the payment poller, logout, and the subscription keys.

Conventions of the embedding:
* a JavaScript `Map` is an association list in insertion order, a `Set` a duplicate-free
  list in insertion order;
* a JavaScript number that can be `NaN` (the result of `Date.parse` or of `Number`) is a
  `JsNum`;
* the pixel lengths of the viewport are doubles, taken as the rationals they are, and every
  arithmetic operation on them returns the double nearest to the exact result
  (`roundDouble`);
* objects created by `connect` live in a heap (`Mux.records`), addressed by their index,
  and every `WebSocket` ever constructed is an entry of `Mux.channels`.
-/

namespace RemainWS

/-! ## JavaScript `Map` as an association list -/

/-- `Map.prototype.get`. -/
def mapGet {α β : Type} [DecidableEq α] : List (α × β) → α → Option β
  | [], _ => none
  | (a, b) :: m, k => if a = k then some b else mapGet m k

/-- `Map.prototype.has`. -/
def mapHas {α β : Type} [DecidableEq α] (m : List (α × β)) (k : α) : Bool :=
  (mapGet m k).isSome

/-- `Map.prototype.set`: an existing key keeps its position, a new key is appended. -/
def mapSet {α β : Type} [DecidableEq α] : List (α × β) → α → β → List (α × β)
  | [], k, v => [(k, v)]
  | (a, b) :: m, k, v => if a = k then (k, v) :: m else (a, b) :: mapSet m k v

/-- `Map.prototype.delete`. -/
def mapDelete {α β : Type} [DecidableEq α] (m : List (α × β)) (k : α) : List (α × β) :=
  m.filter (fun e => decide (e.1 ≠ k))

/-! ## The seat snapshot store and `applyRemainingUpdate` -/

/-- A JavaScript number as produced for a message time (`Date.parse`: milliseconds since the
epoch) or for a remaining count (`Number(data.remaining || 0)`): `NaN` or an integer. -/
inductive JsNum where
  | nan : JsNum
  | num (i : Int) : JsNum
  deriving DecidableEq, Repr

/-- JavaScript truthiness of a number: `NaN` and `0` are falsy. -/
def JsNum.truthy : JsNum → Bool
  | .nan => false
  | .num i => decide (i ≠ 0)

/-- The comparison `tms <= prev` (false when `tms` is `NaN`). -/
def JsNum.le (t : JsNum) (prev : Int) : Bool :=
  match t with
  | .nan => false
  | .num i => decide (i ≤ prev)

/-- The comparison `a !== b` of two numbers: `NaN` differs from every number, itself
included. -/
def JsNum.strictNe : JsNum → JsNum → Bool
  | .num i, .num j => decide (i ≠ j)
  | _, _ => true

/-- A numeral denotes the integer of that value. -/
instance (n : Nat) : OfNat JsNum n := ⟨.num n⟩

/-- An entry of `state.trains`. -/
structure TrainRow where
  train_id : String
  seat_type : String
  remaining_seat_count : JsNum
  deriving DecidableEq, Repr

/-- An entry of `modal.detail.seat_types`. -/
structure SeatTypeInfo where
  seat_type : String
  remaining : JsNum
  deriving DecidableEq, Repr

/-- The object `state.modal`: its `type`, `train?.train_id` and `detail?.seat_types`. -/
structure Modal where
  type : String
  train : Option String
  detail : Option (List SeatTypeInfo)
  deriving DecidableEq, Repr

/-- The state read and written by `applyRemainingUpdate`: `state.trains`, `state.modal`,
the map `lastTime` and the flag `renderScheduled` set by `renderSoon`. -/
structure Store where
  trains : List TrainRow
  modal : Option Modal
  lastTime : List (String × Int)
  renderScheduled : Bool
  deriving DecidableEq, Repr

/-- `keyOf` (line 117): the string trainId|seatType|travelDate. -/
def keyOf (trainId seatType travelDate : String) : String :=
  trainId ++ "|" ++ seatType ++ "|" ++ travelDate

/-- `lastTime.get(k) || 0` (line 128). -/
def prevTime (s : Store) (k : String) : Int :=
  match mapGet s.lastTime k with
  | some v => if v ≠ 0 then v else 0
  | none => 0

/-- The loop over `state.trains` (lines 133-140). -/
def updateRows (rows : List TrainRow) (trainId seatType : String) (remaining : JsNum) :
    List TrainRow :=
  rows.map (fun it =>
    if it.train_id = trainId ∧ it.seat_type = seatType then
      if it.remaining_seat_count.strictNe remaining then
        { it with remaining_seat_count := remaining }
      else it
    else it)

/-- Whether the loop over `state.trains` sets `changed`. -/
def rowsChanged (rows : List TrainRow) (trainId seatType : String) (remaining : JsNum) : Bool :=
  rows.any (fun it =>
    decide (it.train_id = trainId ∧ it.seat_type = seatType) &&
      it.remaining_seat_count.strictNe remaining)

/-- The loop over `m.detail.seat_types` (lines 143-150). -/
def updateSeatTypes (sts : List SeatTypeInfo) (seatType : String) (remaining : JsNum) :
    List SeatTypeInfo :=
  sts.map (fun st =>
    if st.seat_type = seatType then
      if st.remaining.strictNe remaining then { st with remaining := remaining } else st
    else st)

/-- Whether the loop over `m.detail.seat_types` sets `changed`. -/
def seatTypesChanged (sts : List SeatTypeInfo) (seatType : String) (remaining : JsNum) : Bool :=
  sts.any (fun st => decide (st.seat_type = seatType) && st.remaining.strictNe remaining)

/-- The guard of line 142:
`m?.type === "buy" && m.train?.train_id === trainId && m.detail?.seat_types?.length`. -/
def modalMatches (m : Option Modal) (trainId : String) : Option (Modal × List SeatTypeInfo) :=
  match m with
  | none => none
  | some md =>
    if md.type = "buy" ∧ md.train = some trainId then
      match md.detail with
      | none => none
      | some sts => if sts.length ≠ 0 then some (md, sts) else none
    else none

/-- The modal after lines 141-151. -/
def updateModal (m : Option Modal) (trainId seatType : String) (remaining : JsNum) :
    Option Modal :=
  match modalMatches m trainId with
  | none => m
  | some (md, sts) => some { md with detail := some (updateSeatTypes sts seatType remaining) }

/-- Whether lines 141-151 set `changed`. -/
def modalChanged (m : Option Modal) (trainId seatType : String) (remaining : JsNum) : Bool :=
  match modalMatches m trainId with
  | none => false
  | some (_, sts) => seatTypesChanged sts seatType remaining

/-- Lines 132-152: propagate the count into the rows and the open booking session and
call `renderSoon` when something changed. -/
def propagate (s : Store) (trainId seatType : String) (remaining : JsNum) : Store :=
  { s with
    trains := updateRows s.trains trainId seatType remaining
    modal := updateModal s.modal trainId seatType remaining
    renderScheduled :=
      if rowsChanged s.trains trainId seatType remaining ||
          modalChanged s.modal trainId seatType remaining then true
      else s.renderScheduled }

/-- `applyRemainingUpdate` (lines 126-153). -/
def applyRemainingUpdate (s : Store) (trainId seatType travelDate : String)
    (remaining : JsNum) (tms : JsNum) : Store :=
  let k := keyOf trainId seatType travelDate
  let prev := prevTime s k
  if tms.truthy && tms.le prev then s
  else
    let s1 : Store :=
      match tms with
      | .num t => if t ≠ 0 then { s with lastTime := mapSet s.lastTime k t } else s
      | .nan => s
    propagate s1 trainId seatType remaining

/-- The fields of a parsed feed message that the message handler reads
(`undefined` is `none`); `remaining` holds `Number(data.remaining || 0)`. -/
structure MsgData where
  train_id : Option String
  seat_type : Option String
  travel_date : Option String
  remaining : Option JsNum
  time : Option String
  deriving DecidableEq, Repr

/-- `x || dflt` on an optional string: `undefined` and the empty string are falsy. -/
def strOr (x : Option String) (dflt : String) : String :=
  match x with
  | some v => if v = "" then dflt else v
  | none => dflt

/-- `data.time ? Date.parse(data.time) : 0` (line 185); `dateParse` is `Date.parse`. -/
def tmsOf (dateParse : String → JsNum) (time : Option String) : JsNum :=
  match time with
  | some t => if t = "" then .num 0 else dateParse t
  | none => .num 0

/-- The message handler of a channel opened for `trainId`, `seatType`, `travelDate`
(lines 181-188), after `JSON.parse` succeeded with an object. -/
def onMessage (dateParse : String → JsNum) (s : Store) (trainId seatType travelDate : String)
    (data : MsgData) : Store :=
  match data.remaining with
  | none => s
  | some r =>
    applyRemainingUpdate s (strOr data.train_id trainId) (strOr data.seat_type seatType)
      (strOr data.travel_date travelDate) r (tmsOf dateParse data.time)

/-- An update message on a fixed key: its timestamp and its remaining count. -/
structure Update where
  tms : Int
  remaining : JsNum
  deriving DecidableEq, Repr

/-- Feed a sequence of updates on one key through `applyRemainingUpdate`, in delivery
order. -/
def feed (s : Store) (trainId seatType travelDate : String) (us : List Update) : Store :=
  us.foldl (fun st u => applyRemainingUpdate st trainId seatType travelDate u.remaining
    (.num u.tms)) s

/-- Reference operation of the specification: apply an update without the filter, recording
its timestamp as last applied and propagating its count. -/
def applyUnconditional (s : Store) (trainId seatType travelDate : String) (u : Update) :
    Store :=
  propagate { s with lastTime := mapSet s.lastTime (keyOf trainId seatType travelDate) u.tms }
    trainId seatType u.remaining

/-- Reference of the specification: the updates whose timestamp strictly exceeds the
timestamp of every earlier message of the sequence (`earlier` holds the timestamps already
seen). -/
def increasingFrom (earlier : List Int) : List Update → List Update
  | [] => []
  | u :: us =>
    if earlier.all (fun e => decide (e < u.tms)) then
      u :: increasingFrom (earlier ++ [u.tms]) us
    else increasingFrom (earlier ++ [u.tms]) us

/-- The timestamp-increasing subsequence of a message sequence. -/
def increasingSubseq (us : List Update) : List Update := increasingFrom [] us

/-- Apply a sequence of updates without the filter. -/
def feedUnconditional (s : Store) (trainId seatType travelDate : String) (us : List Update) :
    Store :=
  us.foldl (fun st u => applyUnconditional st trainId seatType travelDate u) s

/-- A store with one list row for train G1, seat class `second`, 5 seats left, and the
last-applied timestamp 10 for the key of that row on 2025-01-01. -/
def storeAt10 : Store :=
  { trains := [{ train_id := "G1", seat_type := "second", remaining_seat_count := 5 }]
    modal := none
    lastTime := [(keyOf "G1" "second" "2025-01-01", 10)]
    renderScheduled := false }

/-- A store with the same row and no update applied yet. -/
def storeFresh : Store :=
  { trains := [{ train_id := "G1", seat_type := "second", remaining_seat_count := 5 }]
    modal := none
    lastTime := []
    renderScheduled := false }

/-! ## The connection multiplexer -/

/-- A subscription key as built by `keyOf`. -/
abbrev Key := String

/-- The `readyState` of a `WebSocket`. -/
inductive WsStatus where
  | connecting : WsStatus
  | isOpen : WsStatus
  | closing : WsStatus
  | closed : WsStatus
  deriving DecidableEq, Repr

/-- A channel is live while it is connecting or open: it has been closed neither by the
peer nor by a call of `ws.close()`. -/
def WsStatus.live : WsStatus → Bool
  | .connecting => true
  | .isOpen => true
  | .closing => false
  | .closed => false

/-- A `WebSocket` constructed by `open()`; `owner` is the record `obj` captured by its event
handlers. -/
structure Channel where
  owner : Nat
  status : WsStatus
  deriving DecidableEq, Repr

/-- The object `obj` of `connect` (line 158). `timer` is the delay of the pending timeout
registered under `obj.timer`, `none` when no timeout is pending (never set, cleared, or
already fired). -/
structure ConnRecord where
  ws : Option Nat
  key : Key
  backoffMs : Nat
  timer : Option Nat
  closedByUs : Bool
  deriving DecidableEq, Repr

/-- A value of `Math.random()`: the fraction `num / den` of the interval `[0, 1)`. -/
structure Rand where
  num : Nat
  den : Nat
  lt : num < den

/-- `Math.floor(Math.random() * 250)`. -/
def Rand.jitter (r : Rand) : Nat := r.num * 250 / r.den

/-- The environment of the multiplexer: whether the n-th call of `open()` throws inside its
`try` block (`wsURL` or `new WebSocket(url)` failing), and the n-th value of
`Math.random()`. -/
structure Env where
  wsThrows : Nat → Bool
  random : Nat → Rand

/-- The state closed over by `createRemainWSManager`: the map `conns` (key to record), the
set `desired`, the cap `maxConns`, the heap of records, every channel constructed so far,
and the numbers of calls of `open()` and of `Math.random()` made so far. -/
structure Mux where
  conns : List (Key × Nat)
  desired : List Key
  maxConns : Int
  records : List ConnRecord
  channels : List Channel
  opens : Nat
  randoms : Nat
  deriving DecidableEq, Repr

/-- The state right after `createRemainWSManager()` (lines 112-115). -/
def init : Mux :=
  { conns := [], desired := [], maxConns := 8, records := [], channels := [],
    opens := 0, randoms := 0 }

/-- `Set.prototype.add`. -/
def setAdd (d : List Key) (k : Key) : List Key := if k ∈ d then d else d ++ [k]

/-- `Set.prototype.delete`. -/
def setDelete (d : List Key) (k : Key) : List Key := d.filter (fun x => decide (x ≠ k))

/-- `Array.prototype.slice(0, e)`: a negative end counts from the end of the array. -/
def jsSlice0 {α : Type} (xs : List α) (e : Int) : List α :=
  if 0 ≤ e then xs.take e.toNat else xs.take (xs.length - (-e).toNat)

/-- `ws.close()`: a connecting or open channel starts closing. -/
def wsCloseCall (s : Mux) (w : Nat) : Mux :=
  match s.channels[w]? with
  | none => s
  | some c =>
    if c.status.live then
      { s with channels := s.channels.set w { c with status := .closing } }
    else s

/-- `scheduleReconnect` of record `r` (lines 160-169). `Math.floor(obj.backoffMs * 1.8)` is
`backoffMs * 9 / 5` on naturals. -/
def scheduleReconnect (env : Env) (s : Mux) (r : Nat) : Mux :=
  match s.records[r]? with
  | none => s
  | some obj =>
    if obj.key ∉ s.desired then s
    else
      let wait := min 10000 obj.backoffMs
      { s with
        records := s.records.set r
          { obj with
            backoffMs := min 10000 (obj.backoffMs * 9 / 5)
            timer := some (wait + (env.random s.randoms).jitter) }
        randoms := s.randoms + 1 }

/-- `open` of record `r` (lines 171-199), up to the registration of the event handlers. -/
def openWs (env : Env) (s : Mux) (r : Nat) : Mux :=
  match s.records[r]? with
  | none => s
  | some obj =>
    let s1 : Mux := { s with opens := s.opens + 1 }
    if env.wsThrows s.opens then scheduleReconnect env s1 r
    else
      { s1 with
        channels := s1.channels ++ [{ owner := r, status := .connecting }]
        records := s1.records.set r
          { obj with ws := some s1.channels.length, closedByUs := false } }

/-- What `obj.close` does to the fields of its record: `closedByUs = true` and
`clearTimeout(obj.timer)`. -/
def closedRec (o : ConnRecord) : ConnRecord := { o with closedByUs := true, timer := none }

/-- What `ws.close()` does to a channel: a live channel starts closing. -/
def closingCh (c : Channel) : Channel :=
  if c.status.live then { c with status := .closing } else c

/-- `obj.close` of record `r` (lines 201-205). -/
def close (s : Mux) (r : Nat) : Mux :=
  match s.records[r]? with
  | none => s
  | some obj =>
    let s1 : Mux :=
      { s with records := s.records.set r { obj with closedByUs := true, timer := none } }
    match obj.ws with
    | some w => wsCloseCall s1 w
    | none => s1

/-- `connect(key)` (lines 155-209). -/
def connect (env : Env) (s : Mux) (key : Key) : Mux :=
  if mapHas s.conns key then s
  else
    let r := s.records.length
    let s1 : Mux :=
      { s with
        records := s.records ++
          [{ ws := none, key := key, backoffMs := 500, timer := none, closedByUs := false }]
        conns := mapSet s.conns key r }
    openWs env s1 r

/-- The body of the loop of lines 217-223 for one key of the table. -/
def evictIfUndesired (s : Mux) (k : Key) : Mux :=
  if k ∈ s.desired then s
  else
    let s1 : Mux :=
      match mapGet s.conns k with
      | some r => close s r
      | none => s
    { s1 with conns := mapDelete s1.conns k }

/-- `enforceCap(prioritizedKeys)` (lines 211-225). -/
def enforceCap (env : Env) (s : Mux) (prioritizedKeys : List Key) : Mux :=
  let target := jsSlice0 (prioritizedKeys.filter (fun k => decide (k ∈ s.desired))) s.maxConns
  let s1 : Mux :=
    { s with
      desired := s.desired.foldl (fun d k => if k ∈ target then d else setDelete d k) s.desired }
  let s2 : Mux := (s1.conns.map Prod.fst).foldl evictIfUndesired s1
  s2.desired.foldl (connect env) s2

/-- `sync(prioritizedKeys)` (lines 230-234). -/
def sync (env : Env) (s : Mux) (prioritizedKeys : List Key) : Mux :=
  let s1 : Mux := { s with desired := [] }
  let s2 : Mux := { s1 with desired := prioritizedKeys.foldl setAdd s1.desired }
  enforceCap env s2 prioritizedKeys

/-- `setMax(n)` (line 229) for an integer `n`: `Math.max(1, Math.min(20, Number(n || 8)))`. -/
def setMax (s : Mux) (n : Int) : Mux :=
  { s with maxConns := max 1 (min 20 (if n ≠ 0 then n else 8)) }

/-- The body of the loop of `closeAll` for one key of the table. -/
def closeKey (s : Mux) (k : Key) : Mux :=
  match mapGet s.conns k with
  | some r => close s r
  | none => s

/-- `closeAll()` (lines 235-242). -/
def closeAll (s : Mux) : Mux :=
  let s1 : Mux := { s with desired := [] }
  let s2 : Mux := (s1.conns.map Prod.fst).foldl closeKey s1
  { s2 with conns := [] }

/-- The `open` event of channel `w` (lines 178-180): fires on a connecting channel. -/
def onWsOpen (s : Mux) (w : Nat) : Mux :=
  match s.channels[w]? with
  | none => s
  | some c =>
    if c.status = .connecting then
      let s1 : Mux := { s with channels := s.channels.set w { c with status := .isOpen } }
      match s1.records[c.owner]? with
      | none => s1
      | some obj => { s1 with records := s1.records.set c.owner { obj with backoffMs := 500 } }
    else s

/-- The `close` event of channel `w` (lines 189-192): fires once, on a channel that is not
yet closed (a failed connection attempt, a close by the peer, or the end of a close we
started). -/
def onWsClose (env : Env) (s : Mux) (w : Nat) : Mux :=
  match s.channels[w]? with
  | none => s
  | some c =>
    if c.status = .closed then s
    else
      let s1 : Mux := { s with channels := s.channels.set w { c with status := .closed } }
      match s1.records[c.owner]? with
      | none => s1
      | some obj =>
        let s2 : Mux := { s1 with conns := mapDelete s1.conns obj.key }
        if obj.closedByUs then s2 else scheduleReconnect env s2 c.owner

/-- The `error` event of channel `w` (lines 193-195): the handler calls `ws.close()`. -/
def onWsError (s : Mux) (w : Nat) : Mux := wsCloseCall s w

/-- The pending timeout of record `r` fires (lines 165-168). -/
def onTimer (env : Env) (s : Mux) (r : Nat) : Mux :=
  match s.records[r]? with
  | none => s
  | some obj =>
    match obj.timer with
    | none => s
    | some _ =>
      let s1 : Mux := { s with records := s.records.set r { obj with timer := none } }
      if obj.key ∉ s1.desired then s1 else openWs env s1 r

/-- What can happen to the multiplexer: a call of its interface, or an event of the
browser's event loop. -/
inductive Event where
  | sync (keys : List Key) : Event
  | setMax (n : Int) : Event
  | closeAll : Event
  | wsOpen (w : Nat) : Event
  | wsClose (w : Nat) : Event
  | wsError (w : Nat) : Event
  | timer (r : Nat) : Event
  deriving DecidableEq, Repr

/-- Whether the event is a call of `sync`. -/
def Event.isSync : Event → Bool
  | .sync _ => true
  | _ => false

/-- One handler run to completion. -/
def step (env : Env) (s : Mux) : Event → Mux
  | .sync keys => sync env s keys
  | .setMax n => setMax s n
  | .closeAll => closeAll s
  | .wsOpen w => onWsOpen s w
  | .wsClose w => onWsClose env s w
  | .wsError w => onWsError s w
  | .timer r => onTimer env s r

/-- A sequence of handlers, each run to completion before the next. -/
def run (env : Env) (s : Mux) (es : List Event) : Mux := es.foldl (step env) s

/-- The states the multiplexer can reach from its initial state. -/
inductive Reachable (env : Env) : Mux → Prop where
  | init : Reachable env init
  | step {s : Mux} (e : Event) : Reachable env s → Reachable env (step env s e)

/-- Well-formedness of a multiplexer state: the table has one entry per key, each entry
points to a record of that key, the channel held by a record is owned by it, every channel
is owned by an existing record, a tracked record owns no other channel than the one it
holds and owns none while its retry timer is pending, and the cap lies in [1, 20]. -/
structure WF (s : Mux) : Prop where
  keysNodup : (s.conns.map Prod.fst).Nodup
  tracked : ∀ (k : Key) (r : Nat), (k, r) ∈ s.conns →
    ∃ o : ConnRecord, s.records[r]? = some o ∧ o.key = k
  recWs : ∀ (r : Nat) (o : ConnRecord) (w : Nat), s.records[r]? = some o → o.ws = some w →
    ∃ c : Channel, s.channels[w]? = some c ∧ c.owner = r
  owner : ∀ (w : Nat) (c : Channel), s.channels[w]? = some c → c.owner < s.records.length
  single : ∀ (k : Key) (r w : Nat) (c : Channel), (k, r) ∈ s.conns →
    s.channels[w]? = some c → c.owner = r →
    ∃ o : ConnRecord, s.records[r]? = some o ∧ o.ws = some w
  idle : ∀ (k : Key) (r : Nat) (o : ConnRecord) (w : Nat) (c : Channel), (k, r) ∈ s.conns →
    s.records[r]? = some o → o.timer ≠ none → s.channels[w]? = some c → c.owner ≠ r
  capLo : 1 ≤ s.maxConns
  capHi : s.maxConns ≤ 20

/-- The state `t` differs from `s` at most by removed table entries, changed channel
statuses, changed backoffs and closed-by-us flags, cleared timers, timers set on records
that are untracked or own no channel, a changed desired set and advanced counters: no
record and no channel has been created. -/
structure Frame (s t : Mux) : Prop where
  conns : t.conns.Sublist s.conns
  maxConns : t.maxConns = s.maxConns
  recLen : t.records.length = s.records.length
  recs : ∀ (j : Nat) (o p : ConnRecord), s.records[j]? = some o → t.records[j]? = some p →
    p.key = o.key ∧ p.ws = o.ws
  timers : ∀ (j : Nat) (o p : ConnRecord), s.records[j]? = some o → t.records[j]? = some p →
    p.timer ≠ none →
    o.timer ≠ none ∨
      ∀ (k : Key), (k, j) ∈ t.conns → ∀ (w : Nat) (c : Channel),
        s.channels[w]? = some c → c.owner ≠ j
  chLen : t.channels.length = s.channels.length
  chans : ∀ (w : Nat) (c d : Channel), s.channels[w]? = some c → t.channels[w]? = some d →
    d.owner = c.owner

/-- The live channels whose owning record is tracked in the connection table, as indices
into `Mux.channels`. -/
def trackedLive (s : Mux) : List Nat :=
  (List.range s.channels.length).filter (fun w =>
    match s.channels[w]? with
    | none => false
    | some c => c.status.live && s.conns.any (fun e => decide (e.2 = c.owner)))

/-- All live channels created by the multiplexer, as indices into `Mux.channels`. -/
def liveChannels (s : Mux) : List Nat :=
  (List.range s.channels.length).filter (fun w =>
    match s.channels[w]? with
    | none => false
    | some c => c.status.live)

/-- The channels ever opened through record `r`, as indices into `Mux.channels`. -/
def channelsOf (s : Mux) (r : Nat) : List Nat :=
  (List.range s.channels.length).filter (fun w =>
    match s.channels[w]? with
    | none => false
    | some c => decide (c.owner = r))

/-- Record `r` has been closed by `obj.close` and not reopened: its closed-by-us flag is set
and it has no pending timer. -/
def Evicted (s : Mux) (r : Nat) : Prop :=
  ∃ o : ConnRecord, s.records[r]? = some o ∧ o.closedByUs = true ∧ o.timer = none

/-- From `s` to `t`, record `r` stays evicted and no channel was opened through it: the
owners of the channels of `t` are those of `s` followed by owners other than `r`. -/
def Keeps (r : Nat) (s t : Mux) : Prop :=
  Evicted t r ∧
    ∃ extra : List Nat,
      t.channels.map (fun c => c.owner) = s.channels.map (fun c => c.owner) ++ extra ∧
      r ∉ extra

/-- The value of `obj.backoffMs` after `k` consecutive calls of `scheduleReconnect` that
schedule a retry, starting from 500 (line 163). -/
def backoffSeq : Nat → Nat
  | 0 => 500
  | k + 1 => min 10000 (backoffSeq k * 9 / 5)

/-- The channel currently held by record `r` (`obj.ws`). -/
def currentWs (s : Mux) (r : Nat) : Option Nat := (s.records[r]?).bind (fun o => o.ws)

/-- The channel currently held by record `r` closes without `obj.close` having been
called. -/
def failOnce (env : Env) (s : Mux) (r : Nat) : Mux :=
  match currentWs s r with
  | some w => onWsClose env s w
  | none => s

/-- The state after the `k`-th consecutive unexpected close of the channel of record `r`
(`k = 0` is the first one), each retry timer firing and reopening a channel that then
closes before its `open` event. -/
def afterFailures (env : Env) (s : Mux) (r : Nat) : Nat → Mux
  | 0 => failOnce env s r
  | k + 1 => failOnce env (onTimer env (afterFailures env s r k) r) r

/-- An environment in which `open()` never throws and `Math.random()` returns 0. -/
def calmEnv : Env :=
  { wsThrows := fun _ => false, random := fun _ => ⟨0, 1, Nat.zero_lt_one⟩ }

/-! ## The viewport windower (`viewSearch`, lines 1368-1411) -/

/-- The object `state.virt` (lines 23-29). Lengths are CSS pixels: JavaScript numbers, that
is doubles, each a rational; `overscan` is a number of rows. -/
structure Virt where
  scrollTop : ℚ
  viewportHeight : ℚ
  rowHeight : ℚ
  overscan : Int
  visibleTrainIds : List String
  deriving DecidableEq, Repr

/-- `x || dflt` on a number: 0 is falsy. -/
def numOr (x dflt : ℚ) : ℚ := if x ≠ 0 then x else dflt

/-- `x || dflt` on an integer: 0 is falsy. -/
def intOr (x dflt : Int) : Int := if x ≠ 0 then x else dflt

/-- `Array.prototype.slice(b, e)`: negative indices count from the end, both are clamped to
the array, and the result is empty when the start is not before the end. -/
def jsSlice {α : Type} (xs : List α) (b e : Int) : List α :=
  let n : Int := xs.length
  let b1 : Int := if b < 0 then max (n + b) 0 else min b n
  let e1 : Int := if e < 0 then max (n + e) 0 else min e n
  (xs.drop b1.toNat).take (e1.toNat - b1.toNat)

/-- What `viewSearch` computes in lines 1369-1377: the constants `rowH`, `start`, `end`
(here `end_`), `topSpace`, `bottomSpace`, the rows `items.slice(start, end)` rendered by
`listBody`, and the state `state.virt` with the published `visibleTrainIds`. -/
structure Window where
  rowH : ℚ
  start : Int
  end_ : Int
  topSpace : ℚ
  bottomSpace : ℚ
  rows : List TrainRow
  virt : Virt
  deriving DecidableEq, Repr

/-- Round a rational to the nearest integer, a tie going to the even one. -/
def roundHalfEven (x : ℚ) : Int :=
  if x - ⌊x⌋ < 1 / 2 then ⌊x⌋
  else if 1 / 2 < x - ⌊x⌋ then ⌊x⌋ + 1
  else if ⌊x⌋ % 2 = 0 then ⌊x⌋ else ⌊x⌋ + 1

/-- The exponent of the leading bit of the double nearest to `x`: the binade of `x`, or
-1022 in the subnormal range. The unit in the last place is 2 to this exponent minus 52. -/
def binade (x : ℚ) : Int := max (Int.log 2 |x|) (-1022)

/-- The value of a JavaScript arithmetic operation whose exact result is `x`: the IEEE 754
binary64 number nearest to `x`, a tie going to the even significand (53 significant bits,
the subnormal range included). Results of magnitude 2^1024 and more, which are infinite in
the code, are outside the model: see `windowFinite` and `spacersFinite`. -/
def roundDouble (x : ℚ) : ℚ :=
  if x = 0 then 0
  else (roundHalfEven (x / 2 ^ (binade x - 52)) : ℚ) * 2 ^ (binade x - 52)

/-- The double nearest to an integer, which is an integer again. -/
def roundInt (n : Int) : Int := ⌊roundDouble (n : ℚ)⌋

/-- `viewSearch` (lines 1369-1377) on the viewport state `v` and the list `state.trains`.
Every division, addition, subtraction and multiplication of the code returns the double
nearest to the exact result; `Math.floor`, `Math.ceil`, `Math.max` and `Math.min` are
exact. -/
def viewSearch (v : Virt) (items : List TrainRow) : Window :=
  let rowH := numOr v.rowHeight 132
  let vh := numOr v.viewportHeight 620
  let over := intOr v.overscan 6
  let start : Int := max 0 (roundInt (⌊roundDouble (numOr v.scrollTop 0 / rowH)⌋ - over))
  let end_ : Int :=
    min (items.length : Int)
      (roundInt (⌈roundDouble (roundDouble (numOr v.scrollTop 0 + vh) / rowH)⌉ + over))
  { rowH := rowH
    start := start
    end_ := end_
    topSpace := roundDouble ((start : ℚ) * rowH)
    bottomSpace := roundDouble ((roundInt ((items.length : Int) - end_) : ℚ) * rowH)
    rows := jsSlice items start end_
    virt := { v with visibleTrainIds := (jsSlice items start end_).map (fun t => t.train_id) } }

/-- Every double behind the window of `viewSearch` is finite: the two quotients, the sum and
the two adjustments by the overscan are below 2^1024 in magnitude. This is the range in
which `roundDouble` is the arithmetic of the code; beyond it the code computes with
`Infinity`. -/
def windowFinite (v : Virt) : Prop :=
  let rowH := numOr v.rowHeight 132
  let vh := numOr v.viewportHeight 620
  let over := intOr v.overscan 6
  |roundDouble (numOr v.scrollTop 0 / rowH)| < 2 ^ 1024 ∧
  |roundDouble ((⌊roundDouble (numOr v.scrollTop 0 / rowH)⌋ - over : Int) : ℚ)| < 2 ^ 1024 ∧
  |roundDouble (numOr v.scrollTop 0 + vh)| < 2 ^ 1024 ∧
  |roundDouble (roundDouble (numOr v.scrollTop 0 + vh) / rowH)| < 2 ^ 1024 ∧
  |roundDouble ((⌈roundDouble (roundDouble (numOr v.scrollTop 0 + vh) / rowH)⌉ + over : Int) : ℚ)|
    < 2 ^ 1024

/-- Both spacer products of `viewSearch` are finite: below 2^1024 in magnitude. -/
def spacersFinite (v : Virt) (items : List TrainRow) : Prop :=
  |(viewSearch v items).topSpace| < 2 ^ 1024 ∧ |(viewSearch v items).bottomSpace| < 2 ^ 1024

/-- The height of the list body built in lines 1404-1411 for a non-empty list, every
rendered row taking the estimated row height: leading spacer, rows, trailing spacer. -/
def listBodyHeight (w : Window) : ℚ :=
  w.topSpace + (w.rows.length : ℚ) * w.rowH + w.bottomSpace

/-- A result list of `n` trains G1, G2, ... for the examples. -/
def sampleTrains (n : Nat) : List TrainRow :=
  (List.range n).map (fun i => ⟨"G" ++ toString (i + 1), "second", 5⟩)

/-- The viewport scrolled to 1101.1 px over rows estimated at 100.1 px, 620 px high, with
overscan 6. The two lengths are the doubles nearest to these decimals, written as exact
fractions: 2421344506688307 / 2^41 and 3521955646092083 / 2^45. -/
def virtTenths : Virt :=
  ⟨2421344506688307 / 2199023255552, 620, 3521955646092083 / 35184372088832, 6, []⟩

/-- The viewport scrolled to 242.20588235294116 px over rows estimated at
8.970588235294118 px, 305 px high, with overscan 6. The two lengths are doubles, written as
exact fractions: 4260930943404875 / 2^44 and 5049992229220593 / 2^49. -/
def virtThirtyFourths : Virt :=
  ⟨4260930943404875 / 17592186044416, 305, 5049992229220593 / 562949953421312, 6, []⟩

/-- The viewport scrolled to 2^60 + 256 px (a double) over rows of 3 px, 660 px high, with
overscan 6. -/
def virtHuge : Virt := ⟨1152921504606847232, 660, 3, 6, []⟩

/-! ## Passenger validation (`validateRealName`, `validateIDCard`, lines 289-308) -/

/-- The white space and line terminators removed by `String.prototype.trim`. -/
def isJsSpace (c : Char) : Bool :=
  c.toNat = 0x9 || c.toNat = 0xA || c.toNat = 0xB || c.toNat = 0xC || c.toNat = 0xD ||
  c.toNat = 0x20 || c.toNat = 0xA0 || c.toNat = 0x1680 ||
  (decide (0x2000 ≤ c.toNat) && decide (c.toNat ≤ 0x200A)) ||
  c.toNat = 0x2028 || c.toNat = 0x2029 || c.toNat = 0x202F || c.toNat = 0x205F ||
  c.toNat = 0x3000 || c.toNat = 0xFEFF

/-- `String.prototype.trim` on the characters of a string. -/
def jsTrim (cs : List Char) : List Char :=
  ((cs.dropWhile isJsSpace).reverse.dropWhile isJsSpace).reverse

/-- The upper-case form of a character by `String.prototype.toUpperCase`, given for every
character whose upper-case form is made of ASCII characters only (the letters a to z, the
dotless i, the long s, the sharp s and the Latin ligatures); every other character is left
as it is, which is exact whenever the result is compared with ASCII text, as all uses in
`app.js` do. -/
def upperChar (c : Char) : List Char :=
  if 97 ≤ c.toNat ∧ c.toNat ≤ 122 then [Char.ofNat (c.toNat - 32)]
  else if c.toNat = 0x131 then ['I']
  else if c.toNat = 0x17F then ['S']
  else if c.toNat = 0xDF then ['S', 'S']
  else if c.toNat = 0xFB00 then ['F', 'F']
  else if c.toNat = 0xFB01 then ['F', 'I']
  else if c.toNat = 0xFB02 then ['F', 'L']
  else if c.toNat = 0xFB03 then ['F', 'F', 'I']
  else if c.toNat = 0xFB04 then ['F', 'F', 'L']
  else if c.toNat = 0xFB05 then ['S', 'T']
  else if c.toNat = 0xFB06 then ['S', 'T']
  else [c]

/-- `String.prototype.toUpperCase` on the characters of a string. -/
def jsToUpperCase (cs : List Char) : List Char := cs.flatMap upperChar

/-- `String.prototype.length`: the number of UTF-16 code units. -/
def utf16Length (cs : List Char) : Nat :=
  (cs.map (fun c => if c.toNat < 0x10000 then 1 else 2)).sum

/-- The class `\d` of a regular expression without the `u` flag. -/
def isDigit (c : Char) : Bool := decide (48 ≤ c.toNat) && decide (c.toNat ≤ 57)

/-- The class `[\dX]`. -/
def isDigitOrX (c : Char) : Bool := isDigit c || decide (c = 'X')

/-- The class `[\u4e00-\u9fa5·]` (the middle dot is U+00B7). -/
def isNameChar (c : Char) : Bool :=
  (decide (0x4E00 ≤ c.toNat) && decide (c.toNat ≤ 0x9FA5)) || decide (c.toNat = 0xB7)

/-- `test` of an anchored regular expression made of one character class per position. -/
def matchSeq : List (Char → Bool) → List Char → Bool
  | [], [] => true
  | p :: ps, c :: cs => p c && matchSeq ps cs
  | _, _ => false

/-- `test` of the anchored regular expression `^[class]{lo,hi}$`. -/
def matchRep (p : Char → Bool) : Nat → Nat → List Char → Bool
  | lo, _, [] => decide (lo = 0)
  | lo, hi, c :: cs => p c && decide (0 < hi) && matchRep p (lo - 1) (hi - 1) cs

/-- The three messages of `validateRealName`. -/
def nameMissing : String := "请输入姓名"

/-- Returned for a name of more than 20 code units. -/
def nameTooLong : String := "姓名过长"

/-- Returned for a name that does not match the pattern. -/
def nameFormat : String := "姓名需为2-20位中文字符（可含·）"

/-- `validateRealName` (lines 289-295). -/
def validateRealName (name : String) : String :=
  let s := jsTrim name.toList
  if s = [] then nameMissing
  else if utf16Length s > 20 then nameTooLong
  else if !(matchRep isNameChar 2 20 s) then nameFormat
  else ""

/-- The three messages of `validateIDCard`. -/
def idMissing : String := "请输入身份证号"

/-- Returned for an identifier that does not match the pattern. -/
def idFormat : String := "身份证号格式错误"

/-- Returned for an identifier whose check character is wrong. -/
def idChecksum : String := "身份证校验位不正确"

/-- The array `weights` (line 301). -/
def weights : List Nat := [7, 9, 10, 5, 8, 4, 2, 1, 6, 3, 7, 9, 10, 5, 8, 4, 2]

/-- The array `mapping` (line 302). -/
def mapping : List Char := ['1', '0', 'X', '9', '8', '7', '6', '5', '4', '3', '2']

/-- `Number(c)` for a digit character. -/
def digitVal (c : Char) : Nat := c.toNat - 48

/-- The loop of line 304: the weighted sum of the first 17 characters. -/
def weightedSum (s : List Char) : Nat :=
  (List.range 17).foldl (fun sum i => sum + digitVal (s.getD i '0') * weights.getD i 0) 0

/-- `validateIDCard` (lines 297-308). -/
def validateIDCard (idCard : String) : String :=
  let s := jsToUpperCase (jsTrim idCard.toList)
  if s = [] then idMissing
  else if !(matchSeq (List.replicate 17 isDigit ++ [isDigitOrX]) s) then idFormat
  else if mapping[weightedSum s % 11]? ≠ s[17]? then idChecksum
  else ""

/-- Specification side: a decimal digit. -/
def IsDecimalDigit (c : Char) : Prop := '0' ≤ c ∧ c ≤ '9'

/-- Specification side: 17 decimal digits followed by a digit or `X`. -/
def IdShape (t : List Char) : Prop :=
  t.length = 18 ∧
  (∀ i : Nat, i < 17 → ∀ c : Char, t[i]? = some c → IsDecimalDigit c) ∧
  (∀ c : Char, t[17]? = some c → IsDecimalDigit c ∨ c = 'X')

/-- Specification side: the index into the check-code table, the sum over `i < 17` of
`digit i * weight i`, modulo 11. -/
def checkIndex (t : List Char) : Nat :=
  (∑ i in Finset.range 17, digitVal (t.getD i '0') * weights.getD i 0) % 11

/-- Specification side: a CJK ideograph in U+4E00..U+9FA5 or the middle dot U+00B7. -/
def IsNameChar (c : Char) : Prop :=
  (0x4E00 ≤ c.toNat ∧ c.toNat ≤ 0x9FA5) ∨ c = Char.ofNat 0xB7

/-! ## The booking session (lines 424-445 and 484-830) -/

/-- A passenger draft, an element of `modal.passengers`. -/
structure PassengerDraft where
  passenger_id : String
  use_self : Bool
  real_name : String
  id_card : String
  seat_type : String
  seat_pref : String
  deriving DecidableEq, Repr

/-- The draft pushed by `addPassenger`, `removePassenger` and, without a verified profile,
`openBuyModal`. -/
def blankDraft : PassengerDraft :=
  { passenger_id := "", use_self := false, real_name := "", id_card := "", seat_type := "",
    seat_pref := "" }

/-- The object `e` built for one draft by `buyNext` and `createOrder`: a message per failing
field. -/
structure DraftErrors where
  real_name : Option String
  id_card : Option String
  seat_type : Option String
  deriving DecidableEq, Repr

/-- `Object.keys(e).length === 0`. -/
def DraftErrors.isEmpty (e : DraftErrors) : Bool :=
  e.real_name.isNone && e.id_card.isNone && e.seat_type.isNone

/-- The fields of `profile.data.user_info` read by the booking actions. -/
structure UserInfo where
  real_name_verified : String
  real_name : String
  id_card : String
  deriving DecidableEq, Repr

/-- An element of `state.passengers.items`. -/
structure SavedPassenger where
  passenger_id : String
  real_name : String
  id_card : String
  deriving DecidableEq, Repr

/-- The fields of a train item read by the booking actions (`modal.train`). -/
structure TrainItem where
  train_id : String
  departure_station : String
  arrival_station : String
  deriving DecidableEq, Repr

/-- An element of `detail.seat_types` in the fare detail of a train. -/
structure SeatClassInfo where
  seat_type : String
  remaining : Int
  min_price : ℚ
  deriving DecidableEq, Repr

/-- The modal object of type `buy` (lines 490-498). -/
structure BuyModal where
  step : String
  train : TrainItem
  detail : Option (List SeatClassInfo)
  passengers : List PassengerDraft
  errors : List (Nat × DraftErrors)
  creating : Bool
  deriving DecidableEq, Repr

/-- The value of `state.modal`: `null`, a booking session, or a modal of another type. -/
inductive ModalState where
  | closed : ModalState
  | buy (m : BuyModal) : ModalState
  | other (type : String) : ModalState
  deriving DecidableEq, Repr

/-- The response of the order-creation call: the order id and the seat numbers assigned, in
the order of the passengers. -/
structure OrderResp where
  order_id : String
  seats : List (Option String)
  deriving DecidableEq, Repr

/-- A passenger of the order-creation request. -/
structure OrderPassenger where
  passenger_id : Nat
  use_self : Bool
  real_name : String
  id_card : String
  seat_type : String
  deriving DecidableEq, Repr

/-- The body of the order-creation request (lines 797-808). -/
structure OrderRequest where
  train_id : String
  departure_station : String
  arrival_station : String
  passengers : List OrderPassenger
  deriving DecidableEq, Repr

/-- The part of `state` read and written by the booking actions: whether `state.me.token`
is set, `state.profile.data?.user_info`, `state.passengers.items`, `state.modal`,
`state.toast`, `state.payDraft` and the order id held by `state.payPoll`. Navigation
(`setHash`) and rendering are left out. -/
structure Booking where
  token : Bool
  user : Option UserInfo
  savedPassengers : List SavedPassenger
  modal : ModalState
  toast : Option String
  payDraft : Option (OrderResp × TrainItem)
  payPoll : Option String
  deriving DecidableEq, Repr

/-- `isRealNameVerified` (lines 424-427) on `profile.data?.user_info`. -/
def isRealNameVerified (u : Option UserInfo) : Bool :=
  match u with
  | none => false
  | some info => decide (jsToUpperCase (jsTrim info.real_name_verified.toList) = "VERIFIED".toList)

/-- `ensureBuyRuleVerified` (lines 440-451). `fetched` is the outcome of
`fetchProfileSilently`: `none` when the request fails, otherwise the `user_info` of the
response, which is stored in `state.profile.data`. A request that fails with the status 401
also runs the forced logout of `api` (lines 90-94, `forcedLogout` below) before
`fetchProfileSilently` returns; this function models the guard and its return value and
leaves that logout to `forcedLogout`. -/
def ensureBuyRuleVerified (b : Booking) (fetched : Option (Option UserInfo)) : Booking × Bool :=
  if !b.token then ({ b with toast := some "请先登录" }, false)
  else
    let b1 : Booking :=
      match b.user with
      | some _ => b
      | none =>
        match fetched with
        | some u => { b with user := u }
        | none => b
    let prof : Option UserInfo :=
      match b.user with
      | some u => some u
      | none => fetched.join
    if isRealNameVerified prof then (b1, true)
    else ({ b1 with toast := some "请先完成实名认证" }, false)

/-- `openBuyModal(item)` (lines 484-501). -/
def openBuyModal (b : Booking) (item : TrainItem) : Booking :=
  let canSelf : Bool :=
    isRealNameVerified b.user &&
      (match b.user with
       | some u => decide (u.real_name ≠ "")
       | none => false)
  let firstPassenger : PassengerDraft :=
    match b.user with
    | some u =>
      if canSelf then
        { passenger_id := "", use_self := true, real_name := u.real_name, id_card := u.id_card,
          seat_type := "", seat_pref := "" }
      else blankDraft
    | none => blankDraft
  { b with
    modal := .buy
      { step := "passengers", train := item, detail := none, passengers := [firstPassenger],
        errors := [], creating := false } }

/-- Replace the draft at index `idx` (the mutation of `m.passengers[idx]` in place). -/
def setDraft (m : BuyModal) (idx : Nat) (p : PassengerDraft) : BuyModal :=
  { m with passengers := m.passengers.set idx p }

/-- `actions.useSelfPassenger` (lines 556-578) for the draft index `idx`. -/
def useSelfPassenger (b : Booking) (idx : Nat) : Booking :=
  match b.modal with
  | .buy m =>
    match m.passengers[idx]? with
    | none => b
    | some p =>
      match b.user with
      | some u =>
        if !isRealNameVerified b.user || u.real_name = "" then
          { b with toast := some "请先完成实名认证" }
        else if p.use_self then
          let p1 : PassengerDraft := { p with use_self := false, real_name := "", id_card := "" }
          { b with modal := .buy (setDraft m idx p1) }
        else
          let p1 : PassengerDraft :=
            { p with use_self := true, passenger_id := "", real_name := u.real_name,
                     id_card := u.id_card }
          { b with modal := .buy (setDraft m idx p1) }
      | none => { b with toast := some "请先完成实名认证" }
  | _ => b

/-- The validation of one draft in `buyNext` and `createOrder` (lines 642-650). -/
def draftErrors (p : PassengerDraft) : DraftErrors :=
  let manual : Bool := !p.use_self && decide (jsTrim p.passenger_id.toList = [])
  let nameMsg := validateRealName p.real_name
  let idMsg := validateIDCard p.id_card
  { real_name := if manual && decide (nameMsg ≠ "") then some nameMsg else none
    id_card := if manual && decide (idMsg ≠ "") then some idMsg else none
    seat_type := if p.seat_type = "" then some "请选择席别" else none }

/-- The loop of lines 640-652 from index `i` on: the object `errs`, keyed by draft index. -/
def collectErrors (i : Nat) : List PassengerDraft → List (Nat × DraftErrors)
  | [] => []
  | p :: ps =>
    if (draftErrors p).isEmpty then collectErrors (i + 1) ps
    else (i, draftErrors p) :: collectErrors (i + 1) ps

/-- `actions.buyNext` (lines 634-660). -/
def buyNext (b : Booking) (fetched : Option (Option UserInfo)) : Booking :=
  match b.modal with
  | .buy m =>
    let g := ensureBuyRuleVerified b fetched
    if !g.2 then g.1
    else
      let errs := collectErrors 0 m.passengers
      if errs ≠ [] then
        { g.1 with modal := .buy { m with errors := errs },
                   toast := some "请检查实名信息与席别选择" }
      else { g.1 with modal := .buy { m with errors := errs, step := "confirm" } }
  | _ => b

/-- `actions.buyPrev` (lines 661-666). -/
def buyPrev (b : Booking) : Booking :=
  match b.modal with
  | .buy m => { b with modal := .buy { m with step := "passengers" } }
  | _ => b

/-- `actions.addPassenger` (lines 710-713); without a modal the call throws and changes
nothing. -/
def addPassenger (b : Booking) : Booking :=
  match b.modal with
  | .buy m => { b with modal := .buy { m with passengers := m.passengers ++ [blankDraft] } }
  | _ => b

/-- `actions.removePassenger` (lines 714-719): `splice(idx, 1)`, then a blank draft when the
list became empty. -/
def removePassenger (b : Booking) (idx : Nat) : Booking :=
  match b.modal with
  | .buy m =>
    let ps := m.passengers.eraseIdx idx
    { b with modal := .buy { m with passengers := if ps.length = 0 then [blankDraft] else ps } }
  | _ => b

/-- The values of `data-field` on the inputs of a passenger card. -/
inductive DraftField where
  | passenger_id : DraftField
  | real_name : DraftField
  | id_card : DraftField
  | seat_type : DraftField
  deriving DecidableEq, Repr

/-- `p[field] = el.value`. -/
def setField (p : PassengerDraft) (field : DraftField) (value : String) : PassengerDraft :=
  match field with
  | .passenger_id => { p with passenger_id := value }
  | .real_name => { p with real_name := value }
  | .id_card => { p with id_card := value }
  | .seat_type => { p with seat_type := value }

/-- `actions.updatePassenger` (lines 720-748). -/
def updatePassenger (b : Booking) (idx : Nat) (field : DraftField) (value : String) : Booking :=
  match b.modal with
  | .buy m =>
    match m.passengers[idx]? with
    | none => b
    | some p0 =>
      let p := setField p0 field value
      match field with
      | .passenger_id =>
        let p1 := { p with use_self := false }
        let pid := String.mk (jsTrim value.toList)
        if pid = "" then
          { b with modal := .buy (setDraft m idx { p1 with real_name := "", id_card := "" }) }
        else
          match b.savedPassengers.find? (fun x => decide (x.passenger_id = pid)) with
          | some hit =>
            let p2 : PassengerDraft := { p1 with real_name := hit.real_name, id_card := hit.id_card }
            { b with modal := .buy (setDraft m idx p2) }
          | none => { b with modal := .buy (setDraft m idx p1) }
      | .real_name =>
        { b with modal := .buy (setDraft m idx { p with use_self := false, passenger_id := "" }) }
      | .id_card =>
        { b with modal := .buy (setDraft m idx { p with use_self := false, passenger_id := "" }) }
      | .seat_type => { b with modal := .buy (setDraft m idx p) }
  | _ => b

/-- `actions.pickSeatPref` (lines 749-763) for the draft index `idx` and the seat `seat`. -/
def pickSeatPref (b : Booking) (idx : Nat) (seat : String) : Booking :=
  match b.modal with
  | .buy m =>
    match m.passengers[idx]? with
    | none => b
    | some p0 =>
      let p : PassengerDraft := { p0 with seat_pref := if p0.seat_pref = seat then "" else seat }
      let ps := (m.passengers.set idx p).enum.map (fun x =>
        if x.1 ≠ idx ∧ x.2.seat_type = p.seat_type ∧ x.2.seat_pref = p.seat_pref then
          { x.2 with seat_pref := "" }
        else x.2)
      { b with modal := .buy { m with passengers := ps } }
  | _ => b

/-- The part of `loadTrainDetail` (lines 1248-1267) after a successful response `resp` for
the train `trainId`. -/
def loadTrainDetail (b : Booking) (trainId : String) (resp : List SeatClassInfo) : Booking :=
  match b.modal with
  | .buy m =>
    if m.train.train_id = trainId then
      let m1 : BuyModal := { m with detail := some resp }
      let first : Option SeatClassInfo :=
        match resp.find? (fun x => decide (x.remaining > 0)) with
        | some x => some x
        | none => resp.head?
      match first, m1.passengers.head? with
      | some f, some p0 =>
        if p0.seat_type = "" then
          let ps := m1.passengers.map (fun p => { p with seat_type := f.seat_type })
          { b with modal := .buy { m1 with passengers := ps } }
        else { b with modal := .buy m1 }
      | _, _ => { b with modal := .buy m1 }
    else b
  | _ => b

/-- The body sent by `createOrder`. The id of a draft is empty or the id of a saved passenger,
a string of decimal digits: on these `Number(p.passenger_id || 0) || 0` (line 801) is the
decimal value of the id, and 0 for the empty id. Strings that `Number` reads in another
notation (a sign, a fraction, an exponent, a radix prefix) are not ids and are outside the
model. -/
def orderRequest (m : BuyModal) : OrderRequest :=
  { train_id := m.train.train_id
    departure_station := m.train.departure_station
    arrival_station := m.train.arrival_station
    passengers := m.passengers.map (fun p =>
      { passenger_id := ((String.mk (jsTrim p.passenger_id.toList)).toNat?).getD 0
        use_self := p.use_self
        real_name := p.real_name
        id_card := p.id_card
        seat_type := p.seat_type }) }

/-- `startPayPolling(orderId)` (lines 459-482) as far as `state.payPoll` is concerned. -/
def startPayPolling (b : Booking) (orderId : String) : Booking :=
  let id := String.mk (jsTrim orderId.toList)
  if id = "" then { b with payPoll := none } else { b with payPoll := some id }

/-- `actions.createOrder` (lines 764-823). `outcome` is what the order-creation call does
if it is made: it rejects with a message or resolves with a response. The second component
is the request sent, if any. -/
def createOrder (b : Booking) (fetched : Option (Option UserInfo))
    (outcome : Except String OrderResp) : Booking × Option OrderRequest :=
  match b.modal with
  | .buy m =>
    let g := ensureBuyRuleVerified b fetched
    if !g.2 then (g.1, none)
    else
      let errs := collectErrors 0 m.passengers
      if errs ≠ [] then
        ({ g.1 with modal := .buy { m with errors := errs },
                    toast := some "请检查实名信息与席别选择" }, none)
      else if m.step ≠ "confirm" then
        ({ g.1 with modal := .buy { m with errors := errs, step := "confirm" } }, none)
      else
        let m1 : BuyModal := { m with errors := errs, creating := true }
        match outcome with
        | .ok resp =>
          (startPayPolling
            { g.1 with modal := .closed, payDraft := some (resp, m.train),
                       toast := some "下单成功，请支付" } resp.order_id,
           some (orderRequest m1))
        | .error msg =>
          ({ g.1 with modal := .buy m1, toast := some (if msg ≠ "" then msg else "下单失败") },
           some (orderRequest m1))
  | _ => (b, none)

/-- Specification side: a draft passes validation when a seat class is selected and, if the
draft is neither flagged self nor linked to a saved passenger, its name and identifier
both validate. -/
def DraftValid (p : PassengerDraft) : Prop :=
  p.seat_type ≠ "" ∧
  (p.use_self = false → jsTrim p.passenger_id.toList = [] →
    validateRealName p.real_name = "" ∧ validateIDCard p.id_card = "")

/-- Specification side: no two distinct drafts of the same seat class hold the same
non-empty seat preference. -/
def SingleOwner (ps : List PassengerDraft) : Prop :=
  ∀ (i j : Nat) (p q : PassengerDraft), i ≠ j → ps[i]? = some p → ps[j]? = some q →
    p.seat_type = q.seat_type → p.seat_pref ≠ "" → p.seat_pref ≠ q.seat_pref

/-- A verified profile, as returned by the profile endpoint. -/
def verifiedUser : UserInfo :=
  { real_name_verified := "verified", real_name := "张三", id_card := "11010519491231002X" }

/-- A logged-in state with the verified profile cached and no modal. -/
def sessionBase : Booking :=
  { token := true, user := some verifiedUser, savedPassengers := [], modal := .closed,
    toast := none, payDraft := none, payPoll := none }

/-- A train of the result list. -/
def trainG1 : TrainItem :=
  { train_id := "G1", departure_station := "北京", arrival_station := "上海" }

/-- A manual draft with a seat class and a seat preference. -/
def manualDraft : PassengerDraft :=
  { passenger_id := "", use_self := false, real_name := "李四", id_card := "11010519491231002X",
    seat_type := "second", seat_pref := "01A" }

/-- A booking session with two drafts of the same seat class, the first preferring 01A and
the second 01B. -/
def sessionTwoDrafts : Booking :=
  { sessionBase with
    modal := .buy
      { step := "passengers", train := trainG1, detail := none,
        passengers := [manualDraft, { manualDraft with real_name := "王五", seat_pref := "01B" }],
        errors := [], creating := false } }

/-- The fare detail of train G1: two seat classes with seats left. -/
def faresG1 : List SeatClassInfo :=
  [{ seat_type := "first", remaining := 5, min_price := 933 },
   { seat_type := "second", remaining := 8, min_price := 553 }]

/-- The session reached from `openBuyModal` when the fare detail arrives (the first draft
gets the class `first`), a second draft is added and given the class `second`, both drafts
pick seat 01A, and the class of the second draft is then changed to `first`. -/
def sessionAfterClassChange : Booking :=
  updatePassenger
    (pickSeatPref
      (pickSeatPref
        (updatePassenger
          (addPassenger (loadTrainDetail (openBuyModal sessionBase trainG1) "G1" faresG1))
          1 .seat_type "second")
        0 "01A")
      1 "01A")
    1 .seat_type "first"

/-- A booking session in step `confirm` whose single draft passes validation. -/
def sessionConfirm : Booking :=
  { sessionBase with
    modal := .buy
      { step := "confirm", train := trainG1, detail := some faresG1,
        passengers := [manualDraft], errors := [], creating := false } }

/-- `meta?.next || currentHashForNext()` (lines 443 and 449, with lines 260-262): the return
target of a redirect; `hash` is `location.hash`. -/
def nextTarget (metaNext : Option String) (hash : String) : String :=
  strOr metaNext (if hash ≠ "" then hash else "#/")

/-- The profile `prof` of `ensureBuyRuleVerified` (line 446): the cached one when it has a
`user_info`, otherwise the one fetched (`none` when the request fails or the response has
no `user_info`). -/
def cachedOrFetched (b : Booking) (fetched : Option (Option UserInfo)) : Option UserInfo :=
  match b.user with
  | some u => some u
  | none => fetched.join

/-- The hash passed to `setHash` by `ensureBuyRuleVerified` (lines 443 and 449), `none` when
it returns without redirecting. `enc` is `encodeURIComponent`, `metaNext` is `meta?.next`
and `hash` is `location.hash`. -/
def ensureBuyRuleVerifiedHash (enc : String → String) (b : Booking)
    (fetched : Option (Option UserInfo)) (metaNext : Option String) (hash : String) :
    Option String :=
  if !b.token then some ("#/login?next=" ++ enc (nextTarget metaNext hash))
  else
    if isRealNameVerified (cachedOrFetched b fetched) then none
    else some ("#/account?verify=1&next=" ++ enc (nextTarget metaNext hash))

/-- The branch of the `hashchange` handler for the path `#/order/confirm` (lines 2309-2320):
`trainId` is `q.get("train_id")` and `trains` is `state.trains`. -/
def enterConfirm (b : Booking) (fetched : Option (Option UserInfo)) (trains : List TrainItem)
    (trainId : Option String) : Booking :=
  match trainId with
  | none => b
  | some id =>
    if id = "" then b
    else
      let g := ensureBuyRuleVerified b fetched
      if !g.2 then g.1
      else
        match trains.find? (fun t => decide (t.train_id = id)) with
        | some item => openBuyModal g.1 item
        | none => { g.1 with toast := some "请先在车次列表选择要预订的车次" }

/-! ## The render scheduler (`renderSoon`, lines 51-59) -/

/-- The variable `renderScheduled` and the frame callbacks registered by `renderSoon` that
have not run yet. Two fields record what the callbacks do: `version` counts the mutations
of `state` made so far, and `rendered` lists, oldest first, the version each call of
`render()` made by a callback has read. -/
structure Scheduler where
  renderScheduled : Bool
  callbacks : Nat
  version : Nat
  rendered : List Nat
  deriving DecidableEq, Repr

/-- The scheduler when the script starts (line 51). -/
def Scheduler.init : Scheduler :=
  { renderScheduled := false, callbacks := 0, version := 0, rendered := [] }

/-- `renderSoon()` (lines 52-59): the call of `requestAnimationFrame` registers one
callback. -/
def renderSoon (s : Scheduler) : Scheduler :=
  if s.renderScheduled then s
  else { s with renderScheduled := true, callbacks := s.callbacks + 1 }

/-- A mutation of `state` by a handler. -/
def Scheduler.mutate (s : Scheduler) : Scheduler := { s with version := s.version + 1 }

/-- One registered callback runs (lines 56-57): it resets the flag and calls `render()`,
which reads the current state. -/
def Scheduler.callback (s : Scheduler) : Scheduler :=
  if s.callbacks = 0 then s
  else
    { s with
      callbacks := s.callbacks - 1
      renderScheduled := false
      rendered := s.rendered ++ [s.version] }

/-- A display refresh: every callback registered before it runs. -/
def Scheduler.frame (s : Scheduler) : Scheduler :=
  (List.range s.callbacks).foldl (fun t _ => t.callback) s

/-- What happens to the scheduler: a handler mutates the state, a handler calls
`renderSoon`, or the display refreshes. -/
inductive SchedEvent where
  | mutate : SchedEvent
  | renderSoon : SchedEvent
  | frame : SchedEvent
  deriving DecidableEq, Repr

/-- One event of the scheduler. -/
def Scheduler.step (s : Scheduler) : SchedEvent → Scheduler
  | .mutate => s.mutate
  | .renderSoon => renderSoon s
  | .frame => s.frame

/-- A sequence of events of the scheduler. -/
def Scheduler.run (s : Scheduler) (es : List SchedEvent) : Scheduler := es.foldl Scheduler.step s

/-- A burst of `n` handlers, each mutating the state and calling `renderSoon`. -/
def Scheduler.burst (s : Scheduler) : Nat → Scheduler
  | 0 => s
  | n + 1 => renderSoon (Scheduler.burst s n).mutate

/-! ## The payment poller (`stopPayPolling`, `startPayPolling`, lines 453-482) -/

/-- The object `state.payPoll`: the order polled and the handle of its interval timer. -/
structure PayPoll where
  order_id : String
  timer : Nat
  deriving DecidableEq, Repr

/-- A call of the timer interface made by the poller. -/
inductive TimerCall where
  | setInterval (handle : Nat) : TimerCall
  | clearInterval (handle : Nat) : TimerCall
  deriving DecidableEq, Repr

/-- An interval timer created by `startPayPolling` and not cancelled: its handle and the
order id its callback closes over. -/
structure Interval where
  handle : Nat
  order_id : String
  deriving DecidableEq, Repr

/-- The outcome of a status request sent by a tick: a response with
`resp.order.order_status` (the empty string when missing), the status 401, on which `api`
calls `logout()` before it throws, or any other rejection. -/
inductive PollResult where
  | status (order_status : String) : PollResult
  | unauthorized : PollResult
  | failed : PollResult
  deriving DecidableEq, Repr

/-- The state of the poller: whether `state.me.token` is set, `state.payPoll`, the order id
and status of `state.payInfo`, the interval timers that are not cancelled, the handle the
next `setInterval` returns (handles are positive), the calls of the timer interface made
so far, and the order ids of the status requests awaiting their response. -/
structure Pay where
  token : Bool
  payPoll : Option PayPoll
  payInfo : Option (String × String)
  intervals : List Interval
  nextHandle : Nat
  calls : List TimerCall
  inflight : List String
  deriving DecidableEq, Repr

/-- The poller when the script starts (line 48). -/
def Pay.init (token : Bool) : Pay :=
  { token := token, payPoll := none, payInfo := none, intervals := [], nextHandle := 1,
    calls := [], inflight := [] }

/-- `stopPayPolling()` (lines 453-458). -/
def Pay.stopPayPolling (s : Pay) : Pay :=
  match s.payPoll with
  | some pp =>
    if pp.timer ≠ 0 then
      { s with
        intervals := s.intervals.filter (fun i => decide (i.handle ≠ pp.timer))
        calls := s.calls ++ [.clearInterval pp.timer]
        payPoll := none }
    else { s with payPoll := none }
  | none => { s with payPoll := none }

/-- `startPayPolling(orderId)` (lines 460-482), up to the registration of the callback. -/
def Pay.startPayPolling (s : Pay) (orderId : String) : Pay :=
  let s1 := s.stopPayPolling
  let id := String.mk (jsTrim orderId.toList)
  if id = "" then s1
  else
    { s1 with
      payPoll := some { order_id := id, timer := s1.nextHandle }
      intervals := s1.intervals ++ [{ handle := s1.nextHandle, order_id := id }]
      nextHandle := s1.nextHandle + 1
      calls := s1.calls ++ [.setInterval s1.nextHandle] }

/-- The interval timer `handle` fires (lines 466-471): a cancelled timer does not fire, and
the callback returns at once when there is no credential; otherwise the status request
for the order id of the callback is sent. -/
def Pay.onInterval (s : Pay) (handle : Nat) : Pay :=
  match s.intervals.find? (fun i => decide (i.handle = handle)) with
  | none => s
  | some i => if !s.token then s else { s with inflight := s.inflight ++ [i.order_id] }

/-- The test of line 474 on `resp?.order?.order_status`. -/
def isTerminalStatus (orderStatus : String) : Bool :=
  let st := jsToUpperCase (jsTrim orderStatus.toList)
  decide (st = "ISSUED".toList) || decide (st = "CANCELLED".toList) ||
    decide (st = "REFUNDED".toList) || decide (st = "CHANGED".toList)

/-- The request number `k` of those awaiting their response completes (lines 471-479). -/
def Pay.onResponse (s : Pay) (k : Nat) (res : PollResult) : Pay :=
  match s.inflight[k]? with
  | none => s
  | some id =>
    let s1 : Pay := { s with inflight := s.inflight.eraseIdx k }
    match res with
    | .status st =>
      let s2 : Pay := { s1 with payInfo := some (id, st) }
      if isTerminalStatus st then s2.stopPayPolling else s2
    | .unauthorized => { s1 with token := false }
    | .failed => s1

/-- The part of the `hashchange` handler that concerns the poller (lines 2287 and
2302-2308): `path` is the path of the new hash and `orderId` is
`q.get("order_id") || state.payDraft?.order?.order_id || ""`. -/
def Pay.onHashChange (s : Pay) (path : String) (orderId : String) : Pay :=
  let s1 := if path ≠ "#/pay" then s.stopPayPolling else s
  if path = "#/pay" ∧ orderId ≠ "" then s1.startPayPolling orderId else s1

/-- What happens to the poller: a call of `startPayPolling` (from `createOrder`,
`payPagePay` or `payPageMock`), a call of `stopPayPolling`, a tick of an interval timer, the
response to a status request, a navigation, `loginOK` or `logout`. -/
inductive PayEvent where
  | start (orderId : String) : PayEvent
  | stop : PayEvent
  | interval (handle : Nat) : PayEvent
  | response (k : Nat) (res : PollResult) : PayEvent
  | hashChange (path : String) (orderId : String) : PayEvent
  | login : PayEvent
  | logout : PayEvent
  deriving DecidableEq, Repr

/-- One handler of the poller run to completion. -/
def Pay.step (s : Pay) : PayEvent → Pay
  | .start orderId => s.startPayPolling orderId
  | .stop => s.stopPayPolling
  | .interval handle => s.onInterval handle
  | .response k res => s.onResponse k res
  | .hashChange path orderId => s.onHashChange path orderId
  | .login => { s with token := true }
  | .logout => { s with token := false }

/-- A sequence of handlers of the poller. -/
def Pay.run (s : Pay) (es : List PayEvent) : Pay := es.foldl Pay.step s

/-- The invariant of the poller: handles are positive, the handle recorded in
`state.payPoll` has been handed out, and the interval timers that are not cancelled are
exactly the one recorded in `state.payPoll`, if any. -/
def Pay.Inv (s : Pay) : Prop :=
  1 ≤ s.nextHandle ∧
  (∀ pp : PayPoll, s.payPoll = some pp → pp.timer ≠ 0 ∧ pp.timer < s.nextHandle) ∧
  s.intervals =
    (match s.payPoll with
     | some pp => [{ handle := pp.timer, order_id := pp.order_id }]
     | none => [])

/-! ## Logout (lines 273-280 and 583) and the render that follows -/

/-- The part of `state` and of `location` read by `syncRemainWS` (lines 1226-1246). -/
structure View where
  hash : String
  travel_date : String
  seat_type : String
  visibleTrainIds : List String
  modal : ModalState
  deriving DecidableEq, Repr

/-- The array `keys` built by `syncRemainWS` (lines 1227-1243). -/
def syncKeys (v : View) : List Key :=
  let fromModal : List Key :=
    match v.modal with
    | .buy m =>
      if m.train.train_id ≠ "" then
        ((m.passengers.map (fun p => String.mk (jsTrim p.seat_type.toList))).foldl
          (fun set st => if st ≠ "" then setAdd set st else set) []).map
          (fun st => keyOf m.train.train_id st v.travel_date)
      else []
    | _ => []
  let hash := if v.hash ≠ "" then v.hash else "#/"
  let fromList : List Key :=
    if (hash = "#/trains" ∨ hash = "#/" ∨ "#/search".toList.isPrefixOf hash.toList = true) ∧
        v.seat_type ≠ "" then
      v.visibleTrainIds.map (fun id => keyOf id v.seat_type v.travel_date)
    else []
  fromModal ++ fromList

/-- The client: what `syncRemainWS` reads, the poller (with the credential), the
multiplexer, the scheduler and the toast. -/
structure Client where
  view : View
  pay : Pay
  mux : Mux
  sched : Scheduler
  toast : Option String

/-- `logout()` (lines 273-280): the credential is cleared. -/
def logout (c : Client) : Client := { c with pay := { c.pay with token := false } }

/-- `actions.doLogout` (line 583): `logout(); setToast(...); renderSoon();`. -/
def doLogout (c : Client) : Client :=
  let c1 := logout c
  { c1 with toast := some "已退出登录", sched := renderSoon (renderSoon c1.sched) }

/-- The call of `syncRemainWS()` made by `render()` (line 2269). -/
def syncRemainWS (env : Env) (c : Client) : Client :=
  { c with mux := sync env (setMax c.mux 8) (syncKeys c.view) }

/-- The `hashchange` handler (lines 2284-2322) when the path of the new hash is `#/login`:
it stops the poller (line 2287), none of its loaders applies to this path, and it ends with
`render()` (line 2321), which renders the login view and the modal, if any, and calls
`syncRemainWS()` (line 2269). -/
def onHashChangeLogin (env : Env) (c : Client) : Client :=
  syncRemainWS env { c with pay := c.pay.onHashChange "#/login" "" }

/-- The forced logout of `api` on the status 401 (lines 90-94): `logout()`, then
`setHash("#/login?next=...")`, which sets `location.hash` when it differs from the new hash
(line 249); the `hashchange` handler then runs. `enc` is `encodeURIComponent`. -/
def forcedLogout (enc : String → String) (env : Env) (c : Client) : Client :=
  let c1 := logout c
  let hash := "#/login?next=" ++ enc (nextTarget none c.view.hash)
  if c1.view.hash ≠ hash then
    onHashChangeLogin env { c1 with view := { c1.view with hash := hash } }
  else c1

/-- Specification side: what the claim says of the client after logout: no channel is live,
no backoff timer is pending and no poller is active. -/
def TornDown (c : Client) : Prop :=
  liveChannels c.mux = [] ∧ (∀ o ∈ c.mux.records, o.timer = none) ∧
    c.pay.payPoll = none ∧ c.pay.intervals = []

/-- A client on the payment view of order O1, its poller running. -/
def clientOnPay : Client :=
  { view := { hash := "#/pay?order_id=O1", travel_date := "2025-01-01", seat_type := "",
              visibleTrainIds := [], modal := .closed }
    pay := (Pay.init true).startPayPolling "O1"
    mux := init
    sched := Scheduler.init
    toast := none }

/-- A client on the train list filtered by the seat class `second`, the row of train G1
visible and its channel open. -/
def clientOnTrains : Client :=
  { view := { hash := "#/trains", travel_date := "2025-01-01", seat_type := "second",
              visibleTrainIds := ["G1"], modal := .closed }
    pay := Pay.init true
    mux := onWsOpen (sync calmEnv init [keyOf "G1" "second" "2025-01-01"]) 0
    sched := Scheduler.init
    toast := none }

/-- A client on the train list with the booking session of train G1 open, one passenger in
the seat class `second`, and the channel of that class open. -/
def clientBooking : Client :=
  { view := { hash := "#/trains", travel_date := "2025-01-01", seat_type := "",
              visibleTrainIds := ["G1"],
              modal := .buy { step := "confirm", train := trainG1, detail := some faresG1,
                              passengers := [manualDraft], errors := [], creating := true } }
    pay := Pay.init true
    mux := onWsOpen (sync calmEnv init [keyOf "G1" "second" "2025-01-01"]) 0
    sched := Scheduler.init
    toast := none }

/-! ## Subscription keys (`keyOf`, `parseKey`, lines 117-124) -/

/-- `String.prototype.split` with a separator of one character. -/
def jsSplit (sep : Char) : List Char → List (List Char)
  | [] => [[]]
  | c :: cs =>
    if c = sep then [] :: jsSplit sep cs
    else
      match jsSplit sep cs with
      | p :: ps => (c :: p) :: ps
      | [] => [[c]]

/-- The object returned by `parseKey`; a missing part is `undefined`, here `none`. -/
structure ParsedKey where
  trainId : Option String
  seatType : Option String
  travelDate : Option String
  deriving DecidableEq, Repr

/-- `parseKey(key)` (lines 121-124). -/
def parseKey (key : String) : ParsedKey :=
  let parts := (jsSplit '|' key.toList).map String.mk
  { trainId := parts[0]?, seatType := parts[1]?, travelDate := parts[2]? }

/-! ## Lemmas on maps -/

theorem mapGet_mapSet_self {α β : Type} [DecidableEq α] (m : List (α × β)) (k : α) (v : β) :
    mapGet (mapSet m k v) k = some v := by
  induction m with
  | nil => simp [mapSet, mapGet]
  | cons e m ih =>
    obtain ⟨a, b⟩ := e
    by_cases h : a = k
    · simp [mapSet, mapGet, h]
    · simp [mapSet, mapGet, h, ih]

theorem mapHas_iff {α β : Type} [DecidableEq α] (m : List (α × β)) (k : α) :
    mapHas m k = true ↔ k ∈ m.map Prod.fst := by
  induction m with
  | nil => simp [mapHas, mapGet]
  | cons e m ih =>
    obtain ⟨a, b⟩ := e
    by_cases h : a = k
    · simp [mapHas, mapGet, h]
    · have h' : ¬ k = a := fun hk => h hk.symm
      simp only [mapHas, mapGet, h, if_false, List.map_cons, List.mem_cons, h', false_or]
      exact ih

theorem mapGet_eq_some_of_mem {α β : Type} [DecidableEq α] (m : List (α × β)) (k : α) (v : β)
    (hnd : (m.map Prod.fst).Nodup) (hmem : (k, v) ∈ m) : mapGet m k = some v := by
  induction m with
  | nil => cases hmem
  | cons e m ih =>
    obtain ⟨a, b⟩ := e
    simp only [List.map_cons, List.nodup_cons] at hnd
    rcases List.mem_cons.mp hmem with h | h
    · cases h
      simp [mapGet]
    · have hne : a ≠ k := by
        intro hak
        apply hnd.1
        rw [hak]
        exact List.mem_map_of_mem Prod.fst h
      simp only [mapGet, hne, if_false]
      exact ih hnd.2 h

theorem mem_of_mapGet_eq_some {α β : Type} [DecidableEq α] (m : List (α × β)) (k : α) (v : β)
    (h : mapGet m k = some v) : (k, v) ∈ m := by
  induction m with
  | nil => simp [mapGet] at h
  | cons e m ih =>
    obtain ⟨a, b⟩ := e
    by_cases hak : a = k
    · simp only [mapGet, hak, if_true, Option.some.injEq] at h
      subst hak; subst h
      exact List.mem_cons_self _ _
    · simp only [mapGet, hak, if_false] at h
      exact List.mem_cons_of_mem _ (ih h)

theorem mapSet_of_not_mem {α β : Type} [DecidableEq α] (m : List (α × β)) (k : α) (v : β)
    (h : k ∉ m.map Prod.fst) : mapSet m k v = m ++ [(k, v)] := by
  induction m with
  | nil => rfl
  | cons e m ih =>
    obtain ⟨a, b⟩ := e
    simp only [List.map_cons, List.mem_cons, not_or] at h
    have hne : a ≠ k := fun hak => h.1 hak.symm
    simp [mapSet, hne, ih h.2]

/-! ## Lemmas on lists used as heaps and sets -/

theorem getElem?_set_map {α : Type} (l : List α) (i j : Nat) (a : α) :
    (l.set i a)[j]? = if j = i then (l[i]?).map (fun _ => a) else l[j]? := by
  rw [List.getElem?_set]
  by_cases h : i = j
  · subst h
    by_cases hlt : i < l.length
    · simp [hlt, List.getElem?_eq_getElem hlt]
    · simp [hlt, List.getElem?_eq_none (not_lt.mp hlt)]
  · have h' : ¬ j = i := fun e => h e.symm
    simp [h, h']

theorem getElem?_snoc {α : Type} (l : List α) (j : Nat) (a : α) :
    (l ++ [a])[j]? = if j = l.length then some a else l[j]? := by
  by_cases h : j = l.length
  · subst h; simp
  · rcases Nat.lt_or_gt_of_ne h with hlt | hgt
    · simp [h, List.getElem?_append_left hlt]
    · have hle : l.length ≤ j := Nat.le_of_lt hgt
      rw [List.getElem?_append_right hle, if_neg h, List.getElem?_eq_none hle]
      have : 1 ≤ j - l.length := by omega
      exact List.getElem?_eq_none (by simpa using this)

theorem mem_foldl_setAdd (keys : List Key) :
    ∀ (acc : List Key) (k : Key), k ∈ keys.foldl setAdd acc ↔ k ∈ acc ∨ k ∈ keys := by
  induction keys with
  | nil => intro acc k; simp
  | cons a keys ih =>
    intro acc k
    simp only [List.foldl_cons, ih, List.mem_cons]
    unfold setAdd
    by_cases ha : a ∈ acc
    · simp only [ha, if_true]
      constructor
      · rintro (h | h)
        · exact Or.inl h
        · exact Or.inr (Or.inr h)
      · rintro (h | h | h)
        · exact Or.inl h
        · subst h; exact Or.inl ha
        · exact Or.inr h
    · simp only [ha, if_false, List.mem_append, List.mem_singleton]
      tauto

theorem nodup_foldl_setAdd (keys : List Key) :
    ∀ acc : List Key, acc.Nodup → (keys.foldl setAdd acc).Nodup := by
  induction keys with
  | nil => intro acc h; exact h
  | cons a keys ih =>
    intro acc h
    simp only [List.foldl_cons]
    apply ih
    unfold setAdd
    by_cases ha : a ∈ acc
    · simp [ha, h]
    · simp only [ha, if_false]
      rw [List.nodup_append]
      refine ⟨h, List.nodup_singleton a, ?_⟩
      intro x hx hx'
      simp only [List.mem_singleton] at hx'
      subst hx'
      exact ha hx

theorem foldl_setDelete (target : List Key) (xs : List Key) :
    ∀ acc : List Key,
      xs.foldl (fun d k => if k ∈ target then d else setDelete d k) acc
        = acc.filter (fun x => decide (x ∈ target ∨ x ∉ xs)) := by
  induction xs with
  | nil =>
    intro acc
    simp
  | cons a xs ih =>
    intro acc
    simp only [List.foldl_cons, ih]
    by_cases ha : a ∈ target
    · simp only [ha, if_true]
      apply List.filter_congr
      intro x _
      by_cases hx : x = a
      · subst hx; simp [ha]
      · simp [hx]
    · simp only [ha, if_false, setDelete, List.filter_filter]
      apply List.filter_congr
      intro x _
      by_cases hx : x = a
      · subst hx; simp [ha]
      · simp [hx]

theorem jsSlice0_of_nonneg {α : Type} (xs : List α) (e : Int) (h : 0 ≤ e) :
    jsSlice0 xs e = xs.take e.toNat := by
  simp [jsSlice0, h]

/-! ## Effect of the primitives on each component of the state -/

/-- What `ws.close()` does to a channel. -/
theorem wsCloseCall_channels_get (s : Mux) (w j : Nat) :
    (wsCloseCall s w).channels[j]? =
      if j = w then (s.channels[w]?).map
        (fun c => if c.status.live then { c with status := WsStatus.closing } else c)
      else s.channels[j]? := by
  unfold wsCloseCall
  cases hw : s.channels[w]? with
  | none =>
    by_cases hj : j = w
    · subst hj; simp [hw]
    · simp [hj]
  | some c =>
    by_cases hl : c.status.live = true
    · simp only [hl, if_true, getElem?_set_map, hw, Option.map_some']
    · by_cases hj : j = w
      · subst hj; simp [hl, hw]
      · simp [hl, hj]

theorem wsCloseCall_other (s : Mux) (w : Nat) :
    (wsCloseCall s w).conns = s.conns ∧ (wsCloseCall s w).desired = s.desired ∧
    (wsCloseCall s w).maxConns = s.maxConns ∧ (wsCloseCall s w).records = s.records ∧
    (wsCloseCall s w).opens = s.opens ∧ (wsCloseCall s w).randoms = s.randoms ∧
    (wsCloseCall s w).channels.length = s.channels.length := by
  unfold wsCloseCall
  cases s.channels[w]? with
  | none => simp
  | some c =>
    by_cases hl : c.status.live = true <;> simp [hl]

theorem close_records_get (s : Mux) (r j : Nat) :
    (close s r).records[j]? =
      if j = r then (s.records[r]?).map
        (fun o => { o with closedByUs := true, timer := none })
      else s.records[j]? := by
  unfold close
  cases hr : s.records[r]? with
  | none =>
    by_cases hj : j = r
    · subst hj; simp [hr]
    · simp [hj]
  | some o =>
    dsimp only
    split
    · rename_i w hws
      simp only [(wsCloseCall_other _ w).2.2.2.1, getElem?_set_map, hr, Option.map_some']
    · simp only [getElem?_set_map, hr, Option.map_some']

theorem close_channels_get (s : Mux) (r j : Nat) :
    (close s r).channels[j]? =
      if (s.records[r]?).bind (fun o => o.ws) = some j then (s.channels[j]?).map
        (fun c => if c.status.live then { c with status := WsStatus.closing } else c)
      else s.channels[j]? := by
  unfold close
  cases hr : s.records[r]? with
  | none => simp
  | some o =>
    dsimp only
    cases hws : o.ws with
    | none => simp [hws]
    | some w =>
      simp only [wsCloseCall_channels_get, Option.some_bind, hws, Option.some.injEq]
      by_cases hj : j = w
      · subst hj; simp
      · have hj' : ¬ w = j := fun e => hj e.symm
        simp [hj, hj']

theorem close_other (s : Mux) (r : Nat) :
    (close s r).conns = s.conns ∧ (close s r).desired = s.desired ∧
    (close s r).maxConns = s.maxConns ∧ (close s r).opens = s.opens ∧
    (close s r).randoms = s.randoms ∧ (close s r).records.length = s.records.length ∧
    (close s r).channels.length = s.channels.length := by
  unfold close
  cases s.records[r]? with
  | none => simp
  | some o =>
    dsimp only
    split
    · rename_i w hws
      have h := wsCloseCall_other
        { s with records := s.records.set r { o with closedByUs := true, timer := none } } w
      simp only [h.1, h.2.1, h.2.2.1, h.2.2.2.1, h.2.2.2.2.1, h.2.2.2.2.2.1, h.2.2.2.2.2.2,
        List.length_set, and_self]
    · simp

theorem scheduleReconnect_records_get (env : Env) (s : Mux) (r j : Nat) :
    (scheduleReconnect env s r).records[j]? =
      if j = r then (s.records[r]?).map (fun o =>
        if o.key ∈ s.desired then
          { o with
            backoffMs := min 10000 (o.backoffMs * 9 / 5)
            timer := some (min 10000 o.backoffMs + (env.random s.randoms).jitter) }
        else o)
      else s.records[j]? := by
  unfold scheduleReconnect
  cases hr : s.records[r]? with
  | none =>
    by_cases hj : j = r
    · subst hj; simp [hr]
    · simp [hj]
  | some o =>
    by_cases hd : o.key ∈ s.desired
    · simp only [hd, not_true_eq_false, if_false, if_true, getElem?_set_map, hr,
        Option.map_some']
    · by_cases hj : j = r
      · subst hj; simp [hd, hr]
      · simp [hd, hj]

theorem scheduleReconnect_other (env : Env) (s : Mux) (r : Nat) :
    (scheduleReconnect env s r).conns = s.conns ∧
    (scheduleReconnect env s r).desired = s.desired ∧
    (scheduleReconnect env s r).maxConns = s.maxConns ∧
    (scheduleReconnect env s r).channels = s.channels ∧
    (scheduleReconnect env s r).opens = s.opens ∧
    (scheduleReconnect env s r).records.length = s.records.length := by
  unfold scheduleReconnect
  cases s.records[r]? with
  | none => simp
  | some o =>
    by_cases hd : o.key ∈ s.desired <;> simp [hd]

theorem openWs_records_get (env : Env) (s : Mux) (r j : Nat) :
    (openWs env s r).records[j]? =
      if j = r then (s.records[r]?).map (fun o =>
        if env.wsThrows s.opens then
          if o.key ∈ s.desired then
            { o with
              backoffMs := min 10000 (o.backoffMs * 9 / 5)
              timer := some (min 10000 o.backoffMs + (env.random s.randoms).jitter) }
          else o
        else { o with ws := some s.channels.length, closedByUs := false })
      else s.records[j]? := by
  unfold openWs
  cases hr : s.records[r]? with
  | none =>
    by_cases hj : j = r
    · subst hj; simp [hr]
    · simp [hj]
  | some o =>
    by_cases ht : env.wsThrows s.opens = true
    · simp only [ht, if_true, scheduleReconnect_records_get, hr, Option.map_some']
    · simp only [ht, Bool.false_eq_true, if_false, getElem?_set_map, hr, Option.map_some']

theorem openWs_channels (env : Env) (s : Mux) (r : Nat) :
    (openWs env s r).channels =
      if (s.records[r]?).isSome ∧ env.wsThrows s.opens = false then
        s.channels ++ [{ owner := r, status := WsStatus.connecting }]
      else s.channels := by
  unfold openWs
  cases hr : s.records[r]? with
  | none => simp
  | some o =>
    by_cases ht : env.wsThrows s.opens = true
    · simp [ht, (scheduleReconnect_other env _ r).2.2.2.1]
    · simp [ht]

theorem openWs_other (env : Env) (s : Mux) (r : Nat) :
    (openWs env s r).conns = s.conns ∧ (openWs env s r).desired = s.desired ∧
    (openWs env s r).maxConns = s.maxConns ∧
    (openWs env s r).records.length = s.records.length ∧
    (openWs env s r).opens = (if (s.records[r]?).isSome then s.opens + 1 else s.opens) := by
  unfold openWs
  cases hr : s.records[r]? with
  | none => simp
  | some o =>
    have h := scheduleReconnect_other env { s with opens := s.opens + 1 } r
    by_cases ht : env.wsThrows s.opens = true
    · simp only [ht, if_true, h.1, h.2.1, h.2.2.1, h.2.2.2.2.1, h.2.2.2.2.2, Option.isSome_some,
        and_self]
    · simp [ht]

/-! ## Frames and well-formedness -/

theorem getElem?_some_of_length_eq {α β : Type} (l : List α) (m : List β) (j : Nat) (a : α)
    (hlen : m.length = l.length) (h : l[j]? = some a) : ∃ b, m[j]? = some b := by
  have hj : j < l.length := (List.getElem?_eq_some.mp h).1
  cases hm : m[j]? with
  | some b => exact ⟨b, rfl⟩
  | none =>
    have := List.getElem?_eq_none_iff.mp hm
    omega

theorem Frame.frameRefl (s : Mux) : Frame s s where
  conns := List.Sublist.refl _
  maxConns := rfl
  recLen := rfl
  recs := by
    intro j o p h1 h2
    rw [h1] at h2
    cases h2
    exact ⟨rfl, rfl⟩
  timers := by
    intro j o p h1 h2 hp
    rw [h1] at h2
    cases h2
    exact Or.inl hp
  chLen := rfl
  chans := by
    intro w c d h1 h2
    rw [h1] at h2
    cases h2
    rfl

theorem Frame.frameTrans {s t u : Mux} (f : Frame s t) (g : Frame t u) : Frame s u where
  conns := g.conns.trans f.conns
  maxConns := g.maxConns.trans f.maxConns
  recLen := g.recLen.trans f.recLen
  recs := by
    intro j o p h1 h2
    obtain ⟨q, hq⟩ := getElem?_some_of_length_eq s.records t.records j o f.recLen h1
    have a := f.recs j o q h1 hq
    have b := g.recs j q p hq h2
    exact ⟨b.1.trans a.1, b.2.trans a.2⟩
  timers := by
    intro j o p h1 h2 hp
    obtain ⟨q, hq⟩ := getElem?_some_of_length_eq s.records t.records j o f.recLen h1
    rcases g.timers j q p hq h2 hp with hq' | hfree
    · rcases f.timers j o q h1 hq hq' with ho | hfree
      · exact Or.inl ho
      · exact Or.inr (fun k hk w c hc => hfree k (g.conns.subset hk) w c hc)
    · refine Or.inr (fun k hk w c hc => ?_)
      obtain ⟨d, hd⟩ := getElem?_some_of_length_eq s.channels t.channels w c f.chLen hc
      have := hfree k hk w d hd
      rw [f.chans w c d hc hd] at this
      exact this
  chLen := g.chLen.trans f.chLen
  chans := by
    intro w c d h1 h2
    obtain ⟨e, he⟩ := getElem?_some_of_length_eq s.channels t.channels w c f.chLen h1
    exact (g.chans w e d he h2).trans (f.chans w c e h1 he)

theorem WF.of_frame {s t : Mux} (h : WF s) (f : Frame s t) : WF t where
  keysNodup := (f.conns.map Prod.fst).nodup h.keysNodup
  tracked := by
    intro k r hk
    obtain ⟨o, ho, hkey⟩ := h.tracked k r (f.conns.subset hk)
    obtain ⟨p, hp⟩ := getElem?_some_of_length_eq s.records t.records r o f.recLen ho
    exact ⟨p, hp, (f.recs r o p ho hp).1.trans hkey⟩
  recWs := by
    intro r p w hp hw
    obtain ⟨o, ho⟩ := getElem?_some_of_length_eq t.records s.records r p f.recLen.symm hp
    have hop := f.recs r o p ho hp
    obtain ⟨c, hc, hown⟩ := h.recWs r o w ho (hop.2 ▸ hw)
    obtain ⟨d, hd⟩ := getElem?_some_of_length_eq s.channels t.channels w c f.chLen hc
    exact ⟨d, hd, (f.chans w c d hc hd).trans hown⟩
  owner := by
    intro w d hd
    obtain ⟨c, hc⟩ := getElem?_some_of_length_eq t.channels s.channels w d f.chLen.symm hd
    rw [f.chans w c d hc hd, f.recLen]
    exact h.owner w c hc
  single := by
    intro k r w d hk hd hown
    obtain ⟨c, hc⟩ := getElem?_some_of_length_eq t.channels s.channels w d f.chLen.symm hd
    obtain ⟨o, ho, hws⟩ := h.single k r w c (f.conns.subset hk) hc
      ((f.chans w c d hc hd).symm.trans hown)
    obtain ⟨p, hp⟩ := getElem?_some_of_length_eq s.records t.records r o f.recLen ho
    exact ⟨p, hp, (f.recs r o p ho hp).2.trans hws⟩
  idle := by
    intro k r p w d hk hp htim hd
    obtain ⟨o, ho⟩ := getElem?_some_of_length_eq t.records s.records r p f.recLen.symm hp
    obtain ⟨c, hc⟩ := getElem?_some_of_length_eq t.channels s.channels w d f.chLen.symm hd
    rw [f.chans w c d hc hd]
    rcases f.timers r o p ho hp htim with ho' | hfree
    · exact h.idle k r o w c (f.conns.subset hk) ho ho' hc
    · exact hfree k hk w c hc
  capLo := f.maxConns ▸ h.capLo
  capHi := f.maxConns ▸ h.capHi

theorem frame_wsCloseCall (s : Mux) (w : Nat) : Frame s (wsCloseCall s w) := by
  have h := wsCloseCall_other s w
  refine ⟨by rw [h.1], h.2.2.1, by rw [h.2.2.2.1], ?_, ?_, h.2.2.2.2.2.2, ?_⟩
  · intro j o p h1 h2
    rw [h.2.2.2.1, h1] at h2
    cases h2
    exact ⟨rfl, rfl⟩
  · intro j o p h1 h2 hp
    rw [h.2.2.2.1, h1] at h2
    cases h2
    exact Or.inl hp
  · intro j c d h1 h2
    rw [wsCloseCall_channels_get] at h2
    by_cases hj : j = w
    · subst hj
      simp only [if_true, h1, Option.map_some', Option.some.injEq] at h2
      subst h2
      by_cases hl : c.status.live = true <;> simp [hl]
    · simp only [hj, if_false, h1, Option.some.injEq] at h2
      subst h2
      rfl

theorem frame_close (s : Mux) (r : Nat) : Frame s (close s r) := by
  have h := close_other s r
  refine ⟨by rw [h.1], h.2.2.1, h.2.2.2.2.2.1, ?_, ?_, h.2.2.2.2.2.2, ?_⟩
  · intro j o p h1 h2
    rw [close_records_get] at h2
    by_cases hj : j = r
    · subst hj
      simp only [if_true, h1, Option.map_some', Option.some.injEq] at h2
      subst h2
      exact ⟨rfl, rfl⟩
    · simp only [hj, if_false, h1, Option.some.injEq] at h2
      subst h2
      exact ⟨rfl, rfl⟩
  · intro j o p h1 h2 hp
    rw [close_records_get] at h2
    by_cases hj : j = r
    · subst hj
      simp only [if_true, h1, Option.map_some', Option.some.injEq] at h2
      subst h2
      exact absurd rfl hp
    · simp only [hj, if_false, h1, Option.some.injEq] at h2
      subst h2
      exact Or.inl hp
  · intro j c d h1 h2
    rw [close_channels_get] at h2
    by_cases hj : (s.records[r]?).bind (fun o => o.ws) = some j
    · simp only [hj, if_true, h1, Option.map_some', Option.some.injEq] at h2
      subst h2
      by_cases hl : c.status.live = true <;> simp [hl]
    · simp only [hj, if_false, h1, Option.some.injEq] at h2
      subst h2
      rfl

theorem frame_scheduleReconnect (env : Env) (s : Mux) (r : Nat)
    (hfree : ∀ (k : Key), (k, r) ∈ s.conns → ∀ (w : Nat) (c : Channel),
      s.channels[w]? = some c → c.owner ≠ r) :
    Frame s (scheduleReconnect env s r) := by
  have h := scheduleReconnect_other env s r
  refine ⟨by rw [h.1], h.2.2.1, h.2.2.2.2.2, ?_, ?_, by rw [h.2.2.2.1], ?_⟩
  · intro j o p h1 h2
    rw [scheduleReconnect_records_get] at h2
    by_cases hj : j = r
    · subst hj
      simp only [if_true, h1, Option.map_some', Option.some.injEq] at h2
      subst h2
      by_cases hd : o.key ∈ s.desired <;> simp [hd]
    · simp only [hj, if_false, h1, Option.some.injEq] at h2
      subst h2
      exact ⟨rfl, rfl⟩
  · intro j o p h1 h2 hp
    rw [scheduleReconnect_records_get] at h2
    by_cases hj : j = r
    · subst hj
      right
      rw [h.1]
      exact hfree
    · simp only [hj, if_false, h1, Option.some.injEq] at h2
      subst h2
      exact Or.inl hp
  · intro j c d h1 h2
    rw [h.2.2.2.1, h1] at h2
    cases h2
    rfl

theorem WF_openWs (env : Env) (s : Mux) (r : Nat) (h : WF s)
    (hfree : ∀ (k : Key), (k, r) ∈ s.conns → ∀ (w : Nat) (c : Channel),
      s.channels[w]? = some c → c.owner ≠ r)
    (htimer : ∀ (k : Key) (o : ConnRecord), (k, r) ∈ s.conns → s.records[r]? = some o →
      o.timer = none) :
    WF (openWs env s r) := by
  cases hr : s.records[r]? with
  | none =>
    have : openWs env s r = s := by simp [openWs, hr]
    rw [this]; exact h
  | some o =>
    by_cases ht : env.wsThrows s.opens = true
    · have : openWs env s r = scheduleReconnect env { s with opens := s.opens + 1 } r := by
        simp [openWs, hr, ht]
      rw [this]
      have h1 : WF { s with opens := s.opens + 1 } :=
        ⟨h.keysNodup, h.tracked, h.recWs, h.owner, h.single, h.idle, h.capLo, h.capHi⟩
      exact h1.of_frame (frame_scheduleReconnect env _ r hfree)
    · have hoth := openWs_other env s r
      have hch := openWs_channels env s r
      simp only [hr, Option.isSome_some, ht, true_and] at hch
      have hch' : (openWs env s r).channels
          = s.channels ++ [{ owner := r, status := WsStatus.connecting }] := by
        rw [hch]; simp
      have hrec : ∀ j, (openWs env s r).records[j]? =
          if j = r then some { o with ws := some s.channels.length, closedByUs := false }
          else s.records[j]? := by
        intro j
        rw [openWs_records_get]
        simp [hr, ht]
      have hrlt : r < s.records.length := (List.getElem?_eq_some.mp hr).1
      refine ⟨by rw [hoth.1]; exact h.keysNodup, ?_, ?_, ?_, ?_, ?_,
        by rw [hoth.2.2.1]; exact h.capLo, by rw [hoth.2.2.1]; exact h.capHi⟩
      · intro k j hk
        rw [hoth.1] at hk
        obtain ⟨q, hq, hkey⟩ := h.tracked k j hk
        rw [hrec]
        by_cases hj : j = r
        · subst hj
          rw [hr] at hq
          cases hq
          exact ⟨{ o with ws := some s.channels.length, closedByUs := false }, by simp, hkey⟩
        · exact ⟨q, by simp [hj, hq], hkey⟩
      · intro j p w hp hw
        rw [hrec] at hp
        rw [hch', getElem?_snoc]
        by_cases hj : j = r
        · subst hj
          simp only [if_true, Option.some.injEq] at hp
          subst hp
          simp only [Option.some.injEq] at hw
          subst hw
          exact ⟨{ owner := j, status := WsStatus.connecting }, by simp, rfl⟩
        · simp only [hj, if_false] at hp
          obtain ⟨c, hc, hown⟩ := h.recWs j p w hp hw
          have hwlt : w < s.channels.length := (List.getElem?_eq_some.mp hc).1
          exact ⟨c, by simp [Nat.ne_of_lt hwlt, hc], hown⟩
      · intro w c hc
        rw [hch', getElem?_snoc] at hc
        rw [hoth.2.2.2.1]
        by_cases hw : w = s.channels.length
        · simp only [hw, if_true, Option.some.injEq] at hc
          subst hc
          exact hrlt
        · simp only [hw, if_false] at hc
          exact h.owner w c hc
      · intro k j w c hk hc hown
        rw [hoth.1] at hk
        rw [hch', getElem?_snoc] at hc
        rw [hrec]
        by_cases hw : w = s.channels.length
        · simp only [hw, if_true, Option.some.injEq] at hc
          subst hc
          simp only at hown
          subst hown
          exact ⟨{ o with ws := some s.channels.length, closedByUs := false }, by simp,
            by simp [hw]⟩
        · simp only [hw, if_false] at hc
          by_cases hj : j = r
          · subst hj
            exact absurd hown (hfree k hk w c hc)
          · obtain ⟨q, hq, hws⟩ := h.single k j w c hk hc hown
            exact ⟨q, by simp [hj, hq], hws⟩
      · intro k j p w c hk hp htim hc
        rw [hoth.1] at hk
        rw [hrec] at hp
        rw [hch', getElem?_snoc] at hc
        by_cases hj : j = r
        · subst hj
          simp only [if_true, Option.some.injEq] at hp
          subst hp
          exact absurd (htimer k o hk hr) htim
        · simp only [hj, if_false] at hp
          by_cases hw : w = s.channels.length
          · simp only [hw, if_true, Option.some.injEq] at hc
            subst hc
            exact fun e => hj e.symm
          · simp only [hw, if_false] at hc
            exact h.idle k j p w c hk hp htim hc

theorem WF_connect (env : Env) (s : Mux) (key : Key) (h : WF s) : WF (connect env s key) := by
  unfold connect
  by_cases hhas : mapHas s.conns key = true
  · simp only [hhas, if_true]; exact h
  · simp only [hhas, Bool.false_eq_true, if_false]
    have hnot : key ∉ s.conns.map Prod.fst := fun hm => hhas ((mapHas_iff _ _).mpr hm)
    rw [mapSet_of_not_mem _ _ _ hnot]
    have hold : ∀ (k : Key) (j : Nat), (k, j) ∈ s.conns → j < s.records.length := by
      intro k j hk
      obtain ⟨q, hq, _⟩ := h.tracked k j hk
      exact (List.getElem?_eq_some.mp hq).1
    have h1 : WF { s with
        records := s.records ++
          [{ ws := none, key := key, backoffMs := 500, timer := none, closedByUs := false }]
        conns := s.conns ++ [(key, s.records.length)] } := by
      refine ⟨?_, ?_, ?_, ?_, ?_, ?_, h.capLo, h.capHi⟩
      · simp only [List.map_append, List.map_cons, List.map_nil]
        rw [List.nodup_append]
        refine ⟨h.keysNodup, List.nodup_singleton _, ?_⟩
        intro x hx hx'
        simp only [List.mem_singleton] at hx'
        subst hx'
        exact hnot hx
      · intro k j hk
        simp only [getElem?_snoc]
        rcases List.mem_append.mp hk with hk | hk
        · obtain ⟨q, hq, hkey⟩ := h.tracked k j hk
          have := hold k j hk
          exact ⟨q, by simp [Nat.ne_of_lt this, hq], hkey⟩
        · simp only [List.mem_singleton, Prod.mk.injEq] at hk
          obtain ⟨rfl, rfl⟩ := hk
          exact ⟨{ ws := none, key := k, backoffMs := 500, timer := none, closedByUs := false },
            by simp, rfl⟩
      · intro j p w hp hw
        simp only [getElem?_snoc] at hp
        by_cases hj : j = s.records.length
        · simp only [hj, if_true, Option.some.injEq] at hp
          subst hp
          simp at hw
        · simp only [hj, if_false] at hp
          exact h.recWs j p w hp hw
      · intro w c hc
        have := h.owner w c hc
        simp only [List.length_append, List.length_singleton]
        omega
      · intro k j w c hk hc hown
        simp only [getElem?_snoc]
        have hlt := h.owner w c hc
        rcases List.mem_append.mp hk with hk | hk
        · obtain ⟨q, hq, hws⟩ := h.single k j w c hk hc hown
          have := hold k j hk
          exact ⟨q, by simp [Nat.ne_of_lt this, hq], hws⟩
        · simp only [List.mem_singleton, Prod.mk.injEq] at hk
          obtain ⟨rfl, rfl⟩ := hk
          omega
      · intro k j p w c hk hp htim hc
        simp only [getElem?_snoc] at hp
        rcases List.mem_append.mp hk with hk | hk
        · have := hold k j hk
          simp only [Nat.ne_of_lt this, if_false] at hp
          exact h.idle k j p w c hk hp htim hc
        · simp only [List.mem_singleton, Prod.mk.injEq] at hk
          obtain ⟨rfl, rfl⟩ := hk
          simp only [if_true, Option.some.injEq] at hp
          subst hp
          exact absurd rfl htim
    apply WF_openWs env _ _ h1
    · intro k _ w c hc
      exact Nat.ne_of_lt (h.owner w c hc)
    · intro k o _ ho
      simp only [getElem?_snoc, if_true, Option.some.injEq] at ho
      subst ho
      rfl

theorem foldl_preserves {σ β : Type} (P : σ → Prop) (f : σ → β → σ)
    (hstep : ∀ s x, P s → P (f s x)) (xs : List β) : ∀ s, P s → P (xs.foldl f s) := by
  induction xs with
  | nil => intro s h; exact h
  | cons x xs ih => intro s h; exact ih _ (hstep s x h)

theorem frame_of_eq (s t : Mux) (hc : t.conns.Sublist s.conns) (hm : t.maxConns = s.maxConns)
    (hr : t.records = s.records) (hch : t.channels = s.channels) : Frame s t where
  conns := hc
  maxConns := hm
  recLen := by rw [hr]
  recs := by
    intro j o p h1 h2
    rw [hr, h1] at h2
    cases h2
    exact ⟨rfl, rfl⟩
  timers := by
    intro j o p h1 h2 hp
    rw [hr, h1] at h2
    cases h2
    exact Or.inl hp
  chLen := by rw [hch]
  chans := by
    intro w c d h1 h2
    rw [hch, h1] at h2
    cases h2
    rfl

theorem frame_setChannel (s : Mux) (w : Nat) (c d : Channel) (hc : s.channels[w]? = some c)
    (hown : d.owner = c.owner) : Frame s { s with channels := s.channels.set w d } where
  conns := List.Sublist.refl _
  maxConns := rfl
  recLen := rfl
  recs := by
    intro j o p h1 h2
    simp only [h1, Option.some.injEq] at h2
    subst h2
    exact ⟨rfl, rfl⟩
  timers := by
    intro j o p h1 h2 hp
    simp only [h1, Option.some.injEq] at h2
    subst h2
    exact Or.inl hp
  chLen := by simp
  chans := by
    intro j a b h1 h2
    simp only [getElem?_set_map] at h2
    by_cases hj : j = w
    · subst hj
      simp only [if_true, hc, Option.map_some', Option.some.injEq] at h2
      rw [hc] at h1
      cases h1
      subst h2
      exact hown
    · simp only [hj, if_false, h1, Option.some.injEq] at h2
      subst h2
      rfl

theorem frame_setRecord (s : Mux) (r : Nat) (o p : ConnRecord) (ho : s.records[r]? = some o)
    (hkey : p.key = o.key) (hws : p.ws = o.ws) (htim : p.timer ≠ none → o.timer ≠ none) :
    Frame s { s with records := s.records.set r p } where
  conns := List.Sublist.refl _
  maxConns := rfl
  recLen := by simp
  recs := by
    intro j a b h1 h2
    simp only [getElem?_set_map] at h2
    by_cases hj : j = r
    · subst hj
      simp only [if_true, ho, Option.map_some', Option.some.injEq] at h2
      rw [ho] at h1
      cases h1
      subst h2
      exact ⟨hkey, hws⟩
    · simp only [hj, if_false, h1, Option.some.injEq] at h2
      subst h2
      exact ⟨rfl, rfl⟩
  timers := by
    intro j a b h1 h2 hb
    simp only [getElem?_set_map] at h2
    by_cases hj : j = r
    · subst hj
      simp only [if_true, ho, Option.map_some', Option.some.injEq] at h2
      rw [ho] at h1
      cases h1
      subst h2
      exact Or.inl (htim hb)
    · simp only [hj, if_false, h1, Option.some.injEq] at h2
      subst h2
      exact Or.inl hb
  chLen := rfl
  chans := by
    intro w c d h1 h2
    simp only [h1, Option.some.injEq] at h2
    subst h2
    rfl

theorem frame_setConns (s : Mux) (cs : List (Key × Nat)) (h : cs.Sublist s.conns) :
    Frame s { s with conns := cs } :=
  frame_of_eq s _ h rfl rfl rfl

theorem mapDelete_sublist (m : List (Key × Nat)) (k : Key) : (mapDelete m k).Sublist m :=
  List.filter_sublist _

theorem frame_evictIfUndesired (s : Mux) (k : Key) : Frame s (evictIfUndesired s k) := by
  unfold evictIfUndesired
  by_cases hk : k ∈ s.desired
  · simp only [hk, if_true]; exact Frame.frameRefl s
  · simp only [hk, if_false]
    cases hg : mapGet s.conns k with
    | none => exact frame_setConns s _ (mapDelete_sublist _ _)
    | some r =>
      exact (frame_close s r).frameTrans (frame_setConns _ _ (mapDelete_sublist _ _))

theorem frame_closeKey (s : Mux) (k : Key) : Frame s (closeKey s k) := by
  unfold closeKey
  cases hg : mapGet s.conns k with
  | none => exact Frame.frameRefl s
  | some r => exact frame_close s r

theorem frame_foldl (f : Mux → Key → Mux) (hf : ∀ s k, Frame s (f s k)) (ks : List Key)
    (s : Mux) : Frame s (ks.foldl f s) :=
  foldl_preserves (fun t => Frame s t) f (fun t k ht => ht.frameTrans (hf t k)) ks s (Frame.frameRefl s)

theorem frame_closeAll (s : Mux) : Frame s (closeAll s) := by
  unfold closeAll
  have h1 : Frame s { s with desired := [] } :=
    frame_of_eq s _ (List.Sublist.refl _) rfl rfl rfl
  have h2 := frame_foldl closeKey frame_closeKey
    (({ s with desired := [] } : Mux).conns.map Prod.fst) { s with desired := [] }
  exact (h1.frameTrans h2).frameTrans (frame_setConns _ _ (List.nil_sublist _))

theorem frame_onWsOpen (s : Mux) (w : Nat) : Frame s (onWsOpen s w) := by
  unfold onWsOpen
  cases hc : s.channels[w]? with
  | none => exact Frame.frameRefl s
  | some c =>
    by_cases hst : c.status = WsStatus.connecting
    · simp only [hst, if_true]
      have h1 := frame_setChannel s w c ({ c with status := WsStatus.isOpen }) hc rfl
      cases ho : s.records[c.owner]? with
      | none => simpa [ho] using h1
      | some o =>
        have h2 := frame_setRecord
          ({ s with channels := s.channels.set w ({ c with status := WsStatus.isOpen }) } : Mux)
          c.owner o ({ o with backoffMs := 500 }) ho rfl rfl (fun h => h)
        simpa [ho] using h1.frameTrans h2
    · simp only [hst, if_false]; exact Frame.frameRefl s

theorem frame_onWsError (s : Mux) (w : Nat) : Frame s (onWsError s w) :=
  frame_wsCloseCall s w

theorem WF_onWsClose (env : Env) (s : Mux) (w : Nat) (h : WF s) : WF (onWsClose env s w) := by
  unfold onWsClose
  cases hc : s.channels[w]? with
  | none => exact h
  | some c =>
    by_cases hst : c.status = WsStatus.closed
    · simp only [hst, if_true]; exact h
    · simp only [hst, if_false]
      have f1 := frame_setChannel s w c ({ c with status := WsStatus.closed }) hc rfl
      cases ho : s.records[c.owner]? with
      | none => simpa [ho] using h.of_frame f1
      | some o =>
        have f2 := frame_setConns
          ({ s with channels := s.channels.set w ({ c with status := WsStatus.closed }) } : Mux)
          (mapDelete s.conns o.key) (mapDelete_sublist _ _)
        have h2 := h.of_frame (f1.frameTrans f2)
        by_cases hcl : o.closedByUs = true
        · simpa [ho, hcl] using h2
        · have h3 := h2.of_frame (frame_scheduleReconnect env _ c.owner (by
            intro k hk
            exfalso
            simp only [mapDelete, List.mem_filter, decide_eq_true_eq] at hk
            obtain ⟨q, hq, hkey⟩ := h.tracked k c.owner hk.1
            rw [ho] at hq
            cases hq
            exact hk.2 hkey.symm))
          simpa [ho, hcl] using h3

theorem WF_onTimer (env : Env) (s : Mux) (r : Nat) (h : WF s) : WF (onTimer env s r) := by
  unfold onTimer
  cases ho : s.records[r]? with
  | none => exact h
  | some o =>
    cases ht : o.timer with
    | none => simpa [ht] using h
    | some d =>
      have f1 := frame_setRecord s r o ({ o with timer := none }) ho rfl rfl
        (fun hne => absurd rfl hne)
      have h1 := h.of_frame f1
      by_cases hk : o.key ∈ s.desired
      · have h2 := WF_openWs env _ r h1 (by
          intro k hkr w c hc
          exact h.idle k r o w c hkr ho (by simp [ht]) hc) (by
          intro k p _ hp
          simp only [getElem?_set_map, if_true, ho, Option.map_some', Option.some.injEq] at hp
          subst hp
          rfl)
        simpa [ht, hk] using h2
      · simpa [ht, hk] using h1

theorem WF_setMax (s : Mux) (n : Int) (h : WF s) : WF (setMax s n) where
  keysNodup := h.keysNodup
  tracked := h.tracked
  recWs := h.recWs
  owner := h.owner
  single := h.single
  idle := h.idle
  capLo := by simp [setMax]
  capHi := by
    simp only [setMax]
    split <;> omega

theorem WF_enforceCap (env : Env) (s : Mux) (keys : List Key) (h : WF s) :
    WF (enforceCap env s keys) := by
  unfold enforceCap
  apply foldl_preserves WF (connect env) (fun t k ht => WF_connect env t k ht)
  apply WF.of_frame _ (frame_foldl evictIfUndesired frame_evictIfUndesired _ _)
  exact h.of_frame (frame_of_eq s _ (List.Sublist.refl _) rfl rfl rfl)

theorem WF_sync (env : Env) (s : Mux) (keys : List Key) (h : WF s) :
    WF (sync env s keys) := by
  unfold sync
  apply WF_enforceCap
  exact h.of_frame (frame_of_eq s _ (List.Sublist.refl _) rfl rfl rfl)

theorem WF_init : WF init where
  keysNodup := by simp [init]
  tracked := by intro k r hk; simp [init] at hk
  recWs := by intro r o w h; simp [init] at h
  owner := by intro w c h; simp [init] at h
  single := by intro k r w c hk; simp [init] at hk
  idle := by intro k r o w c hk; simp [init] at hk
  capLo := by simp [init]
  capHi := by simp [init]

theorem WF_step (env : Env) (s : Mux) (e : Event) (h : WF s) : WF (step env s e) := by
  cases e with
  | sync keys => exact WF_sync env s keys h
  | setMax n => exact WF_setMax s n h
  | closeAll => exact h.of_frame (frame_closeAll s)
  | wsOpen w => exact h.of_frame (frame_onWsOpen s w)
  | wsClose w => exact WF_onWsClose env s w h
  | wsError w => exact h.of_frame (frame_onWsError s w)
  | timer r => exact WF_onTimer env s r h

theorem WF_of_reachable (env : Env) (s : Mux) (h : Reachable env s) : WF s := by
  induction h with
  | init => exact WF_init
  | step e _ ih => exact WF_step env _ e ih

theorem WF_run (env : Env) (es : List Event) : ∀ s, WF s → WF (run env s es) :=
  foldl_preserves WF (step env) (fun s e h => WF_step env s e h) es

theorem reachable_run (env : Env) (es : List Event) :
    ∀ s, Reachable env s → Reachable env (run env s es) :=
  foldl_preserves (Reachable env) (step env) (fun _ e h => Reachable.step e h) es

/-! ## What `sync` does to the desired set and to the keys of the table -/

theorem evictIfUndesired_desired (s : Mux) (k : Key) :
    (evictIfUndesired s k).desired = s.desired := by
  unfold evictIfUndesired
  by_cases hk : k ∈ s.desired
  · simp [hk]
  · cases hg : mapGet s.conns k with
    | none => simp [hk]
    | some r => simp [hk, (close_other s r).2.1]

theorem evictIfUndesired_conns (s : Mux) (k : Key) :
    (evictIfUndesired s k).conns = if k ∈ s.desired then s.conns else mapDelete s.conns k := by
  unfold evictIfUndesired
  by_cases hk : k ∈ s.desired
  · simp [hk]
  · cases hg : mapGet s.conns k with
    | none => simp [hk]
    | some r => simp [hk, (close_other s r).1]

theorem foldl_evict_desired (ks : List Key) :
    ∀ s : Mux, (ks.foldl evictIfUndesired s).desired = s.desired := by
  induction ks with
  | nil => intro s; rfl
  | cons k ks ih => intro s; simp only [List.foldl_cons, ih, evictIfUndesired_desired]

theorem foldl_evict_conns (ks : List Key) :
    ∀ s : Mux, (ks.foldl evictIfUndesired s).conns
      = s.conns.filter (fun e => decide (e.1 ∈ s.desired ∨ e.1 ∉ ks)) := by
  induction ks with
  | nil => intro s; simp
  | cons k ks ih =>
    intro s
    simp only [List.foldl_cons, ih, evictIfUndesired_desired, evictIfUndesired_conns]
    by_cases hk : k ∈ s.desired
    · simp only [hk, if_true]
      apply List.filter_congr
      intro e _
      by_cases he : e.1 = k
      · simp [he, hk]
      · simp [he]
    · simp only [hk, if_false, mapDelete, List.filter_filter]
      apply List.filter_congr
      intro e _
      by_cases he : e.1 = k
      · simp [he, hk]
      · simp [he]

theorem connect_desired (env : Env) (s : Mux) (k : Key) :
    (connect env s k).desired = s.desired := by
  unfold connect
  by_cases hh : mapHas s.conns k = true
  · simp [hh]
  · simp only [hh, Bool.false_eq_true, if_false, (openWs_other env _ _).2.1]

theorem connect_conns (env : Env) (s : Mux) (k : Key) :
    (connect env s k).conns
      = if k ∈ s.conns.map Prod.fst then s.conns else s.conns ++ [(k, s.records.length)] := by
  unfold connect
  by_cases hh : mapHas s.conns k = true
  · have := (mapHas_iff _ _).mp hh
    simp only [hh, if_true, this]
  · have hnot : k ∉ s.conns.map Prod.fst := fun hm => hh ((mapHas_iff _ _).mpr hm)
    simp only [hh, Bool.false_eq_true, if_false, (openWs_other env _ _).1, hnot]
    exact mapSet_of_not_mem _ _ _ hnot

theorem foldl_connect_desired (env : Env) (ks : List Key) :
    ∀ s : Mux, (ks.foldl (connect env) s).desired = s.desired := by
  induction ks with
  | nil => intro s; rfl
  | cons k ks ih => intro s; simp only [List.foldl_cons, ih, connect_desired]

theorem mem_connect_keys (env : Env) (s : Mux) (k x : Key) :
    x ∈ (connect env s k).conns.map Prod.fst ↔ x ∈ s.conns.map Prod.fst ∨ x = k := by
  rw [connect_conns]
  by_cases hk : k ∈ s.conns.map Prod.fst
  · simp only [hk, if_true]
    constructor
    · exact Or.inl
    · rintro (h | h)
      · exact h
      · subst h; exact hk
  · simp only [hk, if_false, List.map_append, List.mem_append, List.map_cons, List.map_nil,
      List.mem_singleton]

theorem nodup_connect_keys (env : Env) (s : Mux) (k : Key)
    (h : (s.conns.map Prod.fst).Nodup) : ((connect env s k).conns.map Prod.fst).Nodup := by
  rw [connect_conns]
  by_cases hk : k ∈ s.conns.map Prod.fst
  · simp only [hk, if_true]; exact h
  · simp only [hk, if_false, List.map_append, List.map_cons, List.map_nil]
    rw [List.nodup_append]
    refine ⟨h, List.nodup_singleton _, ?_⟩
    intro x hx hx'
    simp only [List.mem_singleton] at hx'
    subst hx'
    exact hk hx

theorem mem_foldl_connect_keys (env : Env) (ks : List Key) :
    ∀ (s : Mux) (x : Key),
      x ∈ (ks.foldl (connect env) s).conns.map Prod.fst ↔ x ∈ s.conns.map Prod.fst ∨ x ∈ ks := by
  induction ks with
  | nil => intro s x; simp
  | cons k ks ih =>
    intro s x
    simp only [List.foldl_cons, ih, mem_connect_keys, List.mem_cons]
    tauto

theorem nodup_foldl_connect_keys (env : Env) (ks : List Key) :
    ∀ s : Mux, (s.conns.map Prod.fst).Nodup →
      ((ks.foldl (connect env) s).conns.map Prod.fst).Nodup := by
  induction ks with
  | nil => intro s h; exact h
  | cons k ks ih => intro s h; exact ih _ (nodup_connect_keys env s k h)

/-- The desired set computed by `sync`: the distinct keys of the list, in order of first
occurrence, that occur among the entries kept by `slice(0, maxConns)`. -/
theorem sync_desired (env : Env) (s : Mux) (keys : List Key) :
    (sync env s keys).desired
      = (keys.foldl setAdd []).filter (fun k => decide (k ∈ jsSlice0 keys s.maxConns)) := by
  unfold sync enforceCap
  simp only [foldl_connect_desired, foldl_evict_desired, foldl_setDelete]
  have hfil : keys.filter (fun k => decide (k ∈ keys.foldl setAdd [])) = keys := by
    rw [List.filter_eq_self]
    intro a ha
    simp [mem_foldl_setAdd, ha]
  rw [hfil]
  apply List.filter_congr
  intro x hx
  simp [hx]

theorem mem_sync_desired (env : Env) (s : Mux) (keys : List Key) (hcap : 0 ≤ s.maxConns)
    (k : Key) : k ∈ (sync env s keys).desired ↔ k ∈ keys.take s.maxConns.toNat := by
  rw [sync_desired, jsSlice0_of_nonneg _ _ hcap]
  simp only [List.mem_filter, mem_foldl_setAdd, List.not_mem_nil, false_or, decide_eq_true_eq]
  constructor
  · exact fun h => h.2
  · exact fun h => ⟨List.mem_of_mem_take h, h⟩

theorem nodup_sync_desired (env : Env) (s : Mux) (keys : List Key) :
    (sync env s keys).desired.Nodup := by
  rw [sync_desired]
  exact (nodup_foldl_setAdd keys [] List.nodup_nil).filter _

/-- The table after `sync`: the old entries whose key is still desired, followed by fresh
entries. -/
theorem sync_conns (env : Env) (s : Mux) (keys : List Key) :
    (sync env s keys).conns
      = ((sync env s keys).desired.foldl (connect env)
          ((s.conns.map Prod.fst).foldl evictIfUndesired
            { s with desired := (sync env s keys).desired })).conns := by
  rw [sync_desired]
  unfold sync enforceCap
  simp only [foldl_evict_desired, foldl_setDelete]
  have hfil : keys.filter (fun k => decide (k ∈ keys.foldl setAdd [])) = keys := by
    rw [List.filter_eq_self]
    intro a ha
    simp [mem_foldl_setAdd, ha]
  rw [hfil]
  have hd : (keys.foldl setAdd []).filter
      (fun x => decide (x ∈ jsSlice0 keys s.maxConns ∨ x ∉ keys.foldl setAdd []))
      = (keys.foldl setAdd []).filter (fun k => decide (k ∈ jsSlice0 keys s.maxConns)) := by
    apply List.filter_congr
    intro x hx
    simp [hx]
  rw [hd]

theorem mem_sync_conns (env : Env) (s : Mux) (keys : List Key) (k : Key) :
    k ∈ (sync env s keys).conns.map Prod.fst ↔ k ∈ (sync env s keys).desired := by
  rw [sync_conns, mem_foldl_connect_keys, foldl_evict_conns]
  simp only [List.mem_map, List.mem_filter, decide_eq_true_eq, Prod.exists,
    exists_and_right, exists_eq_right]
  constructor
  · rintro (⟨hex, hd | hn⟩ | h)
    · exact hd
    · exact absurd hex hn
    · exact h
  · exact Or.inr

theorem nodup_sync_conns (env : Env) (s : Mux) (keys : List Key)
    (hnd : (s.conns.map Prod.fst).Nodup) : ((sync env s keys).conns.map Prod.fst).Nodup := by
  rw [sync_conns]
  apply nodup_foldl_connect_keys
  rw [foldl_evict_conns]
  exact ((List.filter_sublist _).map Prod.fst).nodup hnd

theorem length_le_of_nodup_of_mem_take {keys l : List Key} {n : Nat} (hnd : l.Nodup)
    (hsub : ∀ k, k ∈ l → k ∈ keys.take n) : l.length ≤ n := by
  have h1 : l.length ≤ (keys.take n).length := (hnd.subperm (fun k hk => hsub k hk)).length_le
  have h2 : (keys.take n).length ≤ n := by simp
  omega

/-! ## The cap -/

theorem sync_conns_length_le (env : Env) (s : Mux) (keys : List Key) (hcap : 0 ≤ s.maxConns)
    (hnd : (s.conns.map Prod.fst).Nodup) :
    (sync env s keys).conns.length ≤ s.maxConns.toNat := by
  have h := @length_le_of_nodup_of_mem_take keys _ s.maxConns.toNat
    (nodup_sync_conns env s keys hnd)
    (fun k hk => (mem_sync_desired env s keys hcap k).mp ((mem_sync_conns env s keys k).mp hk))
  simpa using h

theorem sync_desired_length_le (env : Env) (s : Mux) (keys : List Key)
    (hcap : 0 ≤ s.maxConns) : (sync env s keys).desired.length ≤ s.maxConns.toNat :=
  @length_le_of_nodup_of_mem_take keys _ _ (nodup_sync_desired env s keys)
    (fun k hk => (mem_sync_desired env s keys hcap k).mp hk)

theorem trackedLive_length_le (s : Mux) (h : WF s) :
    (trackedLive s).length ≤ s.conns.length := by
  have hmem : ∀ w ∈ trackedLive s, ∃ c : Channel, s.channels[w]? = some c ∧
      ∃ k : Key, (k, c.owner) ∈ s.conns := by
    intro w hw
    simp only [trackedLive, List.mem_filter] at hw
    cases hc : s.channels[w]? with
    | none => simp [hc] at hw
    | some c =>
      simp only [hc, Bool.and_eq_true, List.any_eq_true, decide_eq_true_eq] at hw
      obtain ⟨_, _, ⟨⟨k, r⟩, he, hr⟩⟩ := hw
      simp only at hr
      subst hr
      exact ⟨c, rfl, k, he⟩
  have hnd : (trackedLive s).Nodup := (List.nodup_range _).filter _
  have hinj : ∀ x ∈ trackedLive s, ∀ y ∈ trackedLive s,
      (fun w => ((s.channels[w]?).map (fun c => c.owner)).getD 0) x
        = (fun w => ((s.channels[w]?).map (fun c => c.owner)).getD 0) y → x = y := by
    intro x hx y hy hxy
    obtain ⟨c, hc, k, hk⟩ := hmem x hx
    obtain ⟨d, hd, k2, _⟩ := hmem y hy
    simp only [hc, hd, Option.map_some', Option.getD_some] at hxy
    obtain ⟨o, ho, hws⟩ := h.single k c.owner x c hk hc rfl
    obtain ⟨o2, ho2, hws2⟩ := h.single k c.owner y d hk hd hxy.symm
    rw [ho] at ho2
    cases ho2
    rw [hws] at hws2
    exact Option.some.inj hws2
  have hsub : (trackedLive s).map (fun w => ((s.channels[w]?).map (fun c => c.owner)).getD 0)
      ⊆ s.conns.map Prod.snd := by
    intro r hr
    obtain ⟨w, hw, rfl⟩ := List.mem_map.mp hr
    obtain ⟨c, hc, k, hk⟩ := hmem w hw
    simp only [hc, Option.map_some', Option.getD_some]
    exact List.mem_map.mpr ⟨(k, c.owner), hk, rfl⟩
  have hlen := ((List.Nodup.map_on hinj hnd).subperm hsub).length_le
  simpa using hlen

theorem onWsClose_conns_sublist (env : Env) (s : Mux) (w : Nat) :
    (onWsClose env s w).conns.Sublist s.conns := by
  unfold onWsClose
  cases hc : s.channels[w]? with
  | none => exact List.Sublist.refl _
  | some c =>
    by_cases hst : c.status = WsStatus.closed
    · simp only [hst, if_true]; exact List.Sublist.refl _
    · simp only [hst, if_false]
      cases ho : s.records[c.owner]? with
      | none => exact List.Sublist.refl _
      | some o =>
        by_cases hcl : o.closedByUs = true
        · simp only [hcl, if_true]; exact mapDelete_sublist _ _
        · simp only [hcl, Bool.false_eq_true, if_false, (scheduleReconnect_other env _ _).1]
          exact mapDelete_sublist _ _

theorem onTimer_conns (env : Env) (s : Mux) (r : Nat) : (onTimer env s r).conns = s.conns := by
  unfold onTimer
  cases ho : s.records[r]? with
  | none => rfl
  | some o =>
    cases ht : o.timer with
    | none => simp [ht]
    | some d =>
      by_cases hk : o.key ∈ s.desired
      · simp [ht, hk, (openWs_other env _ _).1]
      · simp [ht, hk]

theorem step_conns_sublist (env : Env) (s : Mux) (e : Event)
    (he : e.isSync = false) : (step env s e).conns.Sublist s.conns := by
  cases e with
  | sync keys => simp [Event.isSync] at he
  | setMax n => exact List.Sublist.refl _
  | closeAll => exact (frame_closeAll s).conns
  | wsOpen w => exact (frame_onWsOpen s w).conns
  | wsClose w => exact onWsClose_conns_sublist env s w
  | wsError w => exact (frame_onWsError s w).conns
  | timer r =>
    show (onTimer env s r).conns.Sublist s.conns
    rw [onTimer_conns]

theorem run_conns_sublist (env : Env) (es : List Event) :
    ∀ s : Mux, (∀ e ∈ es, e.isSync = false) → (run env s es).conns.Sublist s.conns := by
  induction es with
  | nil => intro s _; exact List.Sublist.refl _
  | cons e es ih =>
    intro s h
    have h1 := step_conns_sublist env s e (h e (List.mem_cons_self _ _))
    have h2 := ih (step env s e) (fun x hx => h x (List.mem_cons_of_mem _ hx))
    exact h2.trans h1

theorem trackedLive_eq_nil_of_conns (s : Mux) (h : s.conns = []) : trackedLive s = [] := by
  unfold trackedLive
  rw [List.filter_eq_nil_iff]
  intro w _
  cases hc : s.channels[w]? with
  | none => simp
  | some c => simp [h]

/-- C3: for every cap in [1, 20], every prior state whose table has one entry per key and
every list of desired keys (duplicates allowed), right after `sync(keys)` the desired set
and the keys of the connection table are exactly the keys occurring among the first
`maxConns` entries of the list, each without repetition, so each holds at most `maxConns`
keys. -/
theorem sync_cap (env : Env) (s : Mux) (keys : List Key)
    (hlo : 1 ≤ s.maxConns) (hhi : s.maxConns ≤ 20) (hnd : (s.conns.map Prod.fst).Nodup) :
    (∀ k, k ∈ (sync env s keys).desired ↔ k ∈ keys.take s.maxConns.toNat) ∧
    (∀ k, k ∈ (sync env s keys).conns.map Prod.fst ↔ k ∈ keys.take s.maxConns.toNat) ∧
    (sync env s keys).desired.Nodup ∧
    ((sync env s keys).conns.map Prod.fst).Nodup ∧
    ((sync env s keys).desired.length : Int) ≤ s.maxConns ∧
    ((sync env s keys).conns.length : Int) ≤ s.maxConns ∧
    s.maxConns.toNat ≤ 20 := by
  have hcap : 0 ≤ s.maxConns := by omega
  have h1 := sync_desired_length_le env s keys hcap
  have h2 := sync_conns_length_le env s keys hcap hnd
  refine ⟨mem_sync_desired env s keys hcap, ?_, nodup_sync_desired env s keys,
    nodup_sync_conns env s keys hnd, by omega, by omega, by omega⟩
  intro k
  rw [mem_sync_conns, mem_sync_desired env s keys hcap]

/-- Witness of C3: with cap 2, `sync` of the list A, A, B, C keeps the keys of its first two
entries (the single key A). -/
theorem sync_cap_witness :
    (sync calmEnv (setMax init 2) ["A", "A", "B", "C"]).desired = ["A"] ∧
    ((sync calmEnv (setMax init 2) ["A", "A", "B", "C"]).conns.length : Int)
      ≤ (setMax init 2).maxConns :=
  ⟨by decide,
    (sync_cap calmEnv (setMax init 2) ["A", "A", "B", "C"] (by decide) (by decide)
      (by decide)).2.2.2.2.2.1⟩

/-- C7 (as amended): for every non-zero integer `n`, `setMax(n)` sets the cap to
`min(20, max(1, n))`; `setMax(0)` sets it to 8 (the default replaces a falsy argument); in
both cases the cap lies in [1, 20] and is the one the next `sync` truncates with. -/
theorem setMax_clamp (env : Env) (s : Mux) (n : Int) (keys : List Key) :
    (n ≠ 0 → (setMax s n).maxConns = min 20 (max 1 n)) ∧
    (setMax s 0).maxConns = 8 ∧
    1 ≤ (setMax s n).maxConns ∧ (setMax s n).maxConns ≤ 20 ∧
    (∀ k, k ∈ (sync env (setMax s n) keys).desired
      ↔ k ∈ keys.take (setMax s n).maxConns.toNat) ∧
    (∀ k, k ∈ (sync env (setMax s n) keys).conns.map Prod.fst
      ↔ k ∈ keys.take (setMax s n).maxConns.toNat) := by
  have hlo : 1 ≤ (setMax s n).maxConns := by simp [setMax]
  have hhi : (setMax s n).maxConns ≤ 20 := by
    simp only [setMax]
    split <;> omega
  refine ⟨?_, by simp [setMax], hlo, hhi, mem_sync_desired env _ keys (by omega), ?_⟩
  · intro hn
    simp only [setMax, hn, ne_eq, not_false_eq_true, if_true]
    omega
  · intro k
    rw [mem_sync_conns, mem_sync_desired env _ keys (by omega)]

/-- Witness of C7: `setMax(25)` sets the cap to 20. -/
theorem setMax_clamp_witness : (setMax init 25).maxConns = min 20 (max 1 25) :=
  (setMax_clamp calmEnv init 25 []).1 (by decide)

/-- Counterexample to C7 as stated: `setMax(0)` sets the cap to 8, while 0 clamped into
[1, 20] is 1. -/
theorem setMax_zero : (setMax init 0).maxConns = 8 ∧ min 20 (max 1 (0 : Int)) = 1 ∧
    (setMax init 0).maxConns ≠ min 20 (max 1 (0 : Int)) := by
  decide

/-- C4 (as amended): from any reachable state, after `sync(keys)` and any further
interleaving of `setMax`, `closeAll`, channel events and timer firings (until the next
`sync`), the number of live channels owned by records of the connection table is at most
the cap `maxConns` that was in force at that `sync`; and before the first `sync` there is
no such channel. -/
theorem trackedLive_le_cap (env : Env) (s : Mux) (hs : Reachable env s) (keys : List Key)
    (es : List Event) (hes : ∀ e ∈ es, e.isSync = false) :
    ((trackedLive (run env (sync env s keys) es)).length : Int) ≤ s.maxConns ∧
    trackedLive (run env init es) = [] := by
  have hwf := WF_of_reachable env s hs
  have hcap : 0 ≤ s.maxConns := by have := hwf.capLo; omega
  constructor
  · have h1 := trackedLive_length_le _ (WF_run env es _ (WF_sync env s keys hwf))
    have h2 := (run_conns_sublist env es (sync env s keys) hes).length_le
    have h3 := sync_conns_length_le env s keys hcap hwf.keysNodup
    omega
  · apply trackedLive_eq_nil_of_conns
    have h := run_conns_sublist env es init hes
    exact List.eq_nil_of_sublist_nil h

/-- Witness of C4: with cap 1, after `sync([A, B])`, a lowering `setMax(1)` and the open
event of the first channel, one live channel is owned by a tracked record. -/
theorem trackedLive_le_cap_witness :
    ((trackedLive (run calmEnv (sync calmEnv (setMax init 1) ["A", "B"])
      [Event.wsOpen 0, Event.setMax 1])).length : Int) ≤ (setMax init 1).maxConns :=
  (trackedLive_le_cap calmEnv (setMax init 1) (Reachable.step (Event.setMax 1) Reachable.init)
    ["A", "B"] [Event.wsOpen 0, Event.setMax 1] (by decide)).1

/-- Counterexample to C4 as stated: with the default cap 8, `sync([A, B])` opens two
channels; `setMax(1)` then lowers `maxConns` to 1 while both channels stay live (the new cap
takes effect at the next `sync`). -/
theorem liveChannels_exceed_after_setMax :
    liveChannels (run calmEnv init [Event.sync ["A", "B"], Event.setMax 1]) = [0, 1] ∧
    trackedLive (run calmEnv init [Event.sync ["A", "B"], Event.setMax 1]) = [0, 1] ∧
    (run calmEnv init [Event.sync ["A", "B"], Event.setMax 1]).maxConns = 1 := by
  decide

/-! ## The eviction loop of `enforceCap`, record by record and channel by channel -/

theorem closedRec_closedRec (o : ConnRecord) : closedRec (closedRec o) = closedRec o := rfl

theorem closingCh_closingCh (c : Channel) : closingCh (closingCh c) = closingCh c := by
  obtain ⟨o, st⟩ := c
  cases st <;> rfl

theorem closingCh_not_live (c : Channel) : (closingCh c).status.live = false := by
  obtain ⟨o, st⟩ := c
  cases st <;> rfl

theorem closingCh_owner (c : Channel) : (closingCh c).owner = c.owner := by
  obtain ⟨o, st⟩ := c
  cases st <;> rfl

theorem mapGet_mapDelete_ne {α β : Type} [DecidableEq α] (m : List (α × β)) (k x : α)
    (h : x ≠ k) : mapGet (mapDelete m k) x = mapGet m x := by
  induction m with
  | nil => rfl
  | cons e m ih =>
    obtain ⟨a, b⟩ := e
    by_cases hak : a = k
    · have hax : ¬ a = x := fun e => h (e.symm.trans hak)
      simp only [mapDelete, List.filter_cons, hak, ne_eq, not_true_eq_false, decide_False,
        Bool.false_eq_true, if_false] at ih ⊢
      simp only [mapGet, hak ▸ hax, if_false]
      rw [← hak] at ih ⊢
      simpa [mapDelete] using ih
    · simp only [mapDelete, List.filter_cons, ne_eq, hak, not_false_eq_true, decide_True,
        if_true, mapGet] at ih ⊢
      by_cases hax : a = x
      · simp [hax]
      · simp only [hax, if_false]
        exact ih

theorem evict_records_get (s : Mux) (k : Key) (j : Nat) :
    (evictIfUndesired s k).records[j]? =
      if k ∉ s.desired ∧ mapGet s.conns k = some j then (s.records[j]?).map closedRec
      else s.records[j]? := by
  unfold evictIfUndesired
  by_cases hk : k ∈ s.desired
  · simp [hk]
  · cases hg : mapGet s.conns k with
    | none => simp [hk]
    | some r =>
      simp only [hk, if_false, not_false_eq_true, true_and, Option.some.injEq]
      have := close_records_get s r j
      by_cases hj : j = r
      · subst hj
        simp only [if_true] at this ⊢
        exact this
      · have hj' : ¬ r = j := fun e => hj e.symm
        simp only [hj, if_false] at this
        simp only [hj', if_false]
        exact this

theorem evict_channels_get (s : Mux) (k : Key) (w : Nat) :
    (evictIfUndesired s k).channels[w]? =
      if k ∉ s.desired ∧ ∃ r, mapGet s.conns k = some r ∧
          (s.records[r]?).bind (fun o => o.ws) = some w then
        (s.channels[w]?).map closingCh
      else s.channels[w]? := by
  unfold evictIfUndesired
  by_cases hk : k ∈ s.desired
  · simp [hk]
  · cases hg : mapGet s.conns k with
    | none => simp [hk]
    | some r =>
      simp only [hk, if_false, not_false_eq_true, true_and, Option.some.injEq,
        exists_eq_left']
      exact close_channels_get s r w

theorem evict_ws (s : Mux) (k : Key) (r : Nat) :
    ((evictIfUndesired s k).records[r]?).bind (fun o => o.ws)
      = (s.records[r]?).bind (fun o => o.ws) := by
  rw [evict_records_get]
  split
  · cases s.records[r]? <;> rfl
  · rfl

theorem evict_mapGet_ne (s : Mux) (k x : Key) (h : x ≠ k) :
    mapGet (evictIfUndesired s k).conns x = mapGet s.conns x := by
  rw [evictIfUndesired_conns]
  split
  · rfl
  · exact mapGet_mapDelete_ne _ _ _ h

theorem foldl_evict_records (ks : List Key) :
    ∀ (st : Mux) (j : Nat), ks.Nodup →
      ((∃ k ∈ ks, k ∉ st.desired ∧ mapGet st.conns k = some j) →
        (ks.foldl evictIfUndesired st).records[j]? = (st.records[j]?).map closedRec) ∧
      ((¬ ∃ k ∈ ks, k ∉ st.desired ∧ mapGet st.conns k = some j) →
        (ks.foldl evictIfUndesired st).records[j]? = st.records[j]?) := by
  induction ks with
  | nil =>
    intro st j _
    exact ⟨fun h => by simp at h, fun _ => rfl⟩
  | cons k ks ih =>
    intro st j hnd
    rw [List.nodup_cons] at hnd
    have hrest : (∃ x ∈ ks, x ∉ (evictIfUndesired st k).desired ∧
        mapGet (evictIfUndesired st k).conns x = some j)
        ↔ ∃ x ∈ ks, x ∉ st.desired ∧ mapGet st.conns x = some j := by
      constructor
      · rintro ⟨x, hx, hd, hg⟩
        have hxk : x ≠ k := fun e => hnd.1 (e ▸ hx)
        rw [evictIfUndesired_desired] at hd
        rw [evict_mapGet_ne _ _ _ hxk] at hg
        exact ⟨x, hx, hd, hg⟩
      · rintro ⟨x, hx, hd, hg⟩
        have hxk : x ≠ k := fun e => hnd.1 (e ▸ hx)
        refine ⟨x, hx, ?_, ?_⟩
        · rw [evictIfUndesired_desired]; exact hd
        · rw [evict_mapGet_ne _ _ _ hxk]; exact hg
    have ih' := ih (evictIfUndesired st k) j hnd.2
    rw [hrest] at ih'
    simp only [List.foldl_cons]
    by_cases hE : ∃ x ∈ ks, x ∉ st.desired ∧ mapGet st.conns x = some j
    · refine ⟨fun _ => ?_, fun hn => ?_⟩
      · rw [ih'.1 hE, evict_records_get]
        split
        · cases st.records[j]? <;> rfl
        · rfl
      · exfalso
        obtain ⟨x, hx, hd, hg⟩ := hE
        exact hn ⟨x, List.mem_cons_of_mem _ hx, hd, hg⟩
    · by_cases hk : k ∉ st.desired ∧ mapGet st.conns k = some j
      · refine ⟨fun _ => ?_, fun hn => ?_⟩
        · rw [ih'.2 hE, evict_records_get, if_pos hk]
        · exact absurd ⟨k, List.mem_cons_self _ _, hk.1, hk.2⟩ hn
      · refine ⟨fun h => ?_, fun _ => ?_⟩
        · exfalso
          obtain ⟨x, hx, hd, hg⟩ := h
          rcases List.mem_cons.mp hx with hxk | hx
          · subst hxk; exact hk ⟨hd, hg⟩
          · exact hE ⟨x, hx, hd, hg⟩
        · rw [ih'.2 hE, evict_records_get, if_neg hk]

theorem foldl_evict_ws (ks : List Key) :
    ∀ (st : Mux) (r : Nat),
      ((ks.foldl evictIfUndesired st).records[r]?).bind (fun o => o.ws)
        = (st.records[r]?).bind (fun o => o.ws) := by
  induction ks with
  | nil => intro st r; rfl
  | cons k ks ih => intro st r; simp only [List.foldl_cons, ih, evict_ws]

theorem foldl_evict_channels (ks : List Key) :
    ∀ (st : Mux) (w : Nat), ks.Nodup →
      ((∃ k ∈ ks, k ∉ st.desired ∧ ∃ r, mapGet st.conns k = some r ∧
          (st.records[r]?).bind (fun o => o.ws) = some w) →
        (ks.foldl evictIfUndesired st).channels[w]? = (st.channels[w]?).map closingCh) ∧
      ((¬ ∃ k ∈ ks, k ∉ st.desired ∧ ∃ r, mapGet st.conns k = some r ∧
          (st.records[r]?).bind (fun o => o.ws) = some w) →
        (ks.foldl evictIfUndesired st).channels[w]? = st.channels[w]?) := by
  induction ks with
  | nil =>
    intro st w _
    exact ⟨fun h => by simp at h, fun _ => rfl⟩
  | cons k ks ih =>
    intro st w hnd
    rw [List.nodup_cons] at hnd
    have hrest : (∃ x ∈ ks, x ∉ (evictIfUndesired st k).desired ∧
        ∃ r, mapGet (evictIfUndesired st k).conns x = some r ∧
          ((evictIfUndesired st k).records[r]?).bind (fun o => o.ws) = some w)
        ↔ ∃ x ∈ ks, x ∉ st.desired ∧ ∃ r, mapGet st.conns x = some r ∧
          (st.records[r]?).bind (fun o => o.ws) = some w := by
      constructor
      · rintro ⟨x, hx, hd, r, hg, hw⟩
        have hxk : x ≠ k := fun e => hnd.1 (e ▸ hx)
        rw [evictIfUndesired_desired] at hd
        rw [evict_mapGet_ne _ _ _ hxk] at hg
        rw [evict_ws] at hw
        exact ⟨x, hx, hd, r, hg, hw⟩
      · rintro ⟨x, hx, hd, r, hg, hw⟩
        have hxk : x ≠ k := fun e => hnd.1 (e ▸ hx)
        refine ⟨x, hx, ?_, r, ?_, ?_⟩
        · rw [evictIfUndesired_desired]; exact hd
        · rw [evict_mapGet_ne _ _ _ hxk]; exact hg
        · rw [evict_ws]; exact hw
    have ih' := ih (evictIfUndesired st k) w hnd.2
    rw [hrest] at ih'
    simp only [List.foldl_cons]
    by_cases hE : ∃ x ∈ ks, x ∉ st.desired ∧ ∃ r, mapGet st.conns x = some r ∧
        (st.records[r]?).bind (fun o => o.ws) = some w
    · refine ⟨fun _ => ?_, fun hn => ?_⟩
      · rw [ih'.1 hE, evict_channels_get]
        split
        · cases st.channels[w]? with
          | none => rfl
          | some c => simp [closingCh_closingCh]
        · rfl
      · exfalso
        obtain ⟨x, hx, hd, hg⟩ := hE
        exact hn ⟨x, List.mem_cons_of_mem _ hx, hd, hg⟩
    · by_cases hk : k ∉ st.desired ∧ ∃ r, mapGet st.conns k = some r ∧
          (st.records[r]?).bind (fun o => o.ws) = some w
      · refine ⟨fun _ => ?_, fun hn => ?_⟩
        · rw [ih'.2 hE, evict_channels_get, if_pos hk]
        · exact absurd ⟨k, List.mem_cons_self _ _, hk.1, hk.2⟩ hn
      · refine ⟨fun h => ?_, fun _ => ?_⟩
        · exfalso
          obtain ⟨x, hx, hd, hg⟩ := h
          rcases List.mem_cons.mp hx with hxk | hx
          · subst hxk; exact hk ⟨hd, hg⟩
          · exact hE ⟨x, hx, hd, hg⟩
        · rw [ih'.2 hE, evict_channels_get, if_neg hk]

/-! ## The connection loop of `enforceCap` -/

theorem connect_records_get_old (env : Env) (s : Mux) (k : Key) (j : Nat)
    (hj : j < s.records.length) : (connect env s k).records[j]? = s.records[j]? := by
  unfold connect
  by_cases hh : mapHas s.conns k = true
  · simp [hh]
  · simp only [hh, Bool.false_eq_true, if_false]
    rw [openWs_records_get]
    simp only [Nat.ne_of_lt hj, if_false, getElem?_snoc]

theorem connect_channels_get_old (env : Env) (s : Mux) (k : Key) (w : Nat)
    (hw : w < s.channels.length) : (connect env s k).channels[w]? = s.channels[w]? := by
  unfold connect
  by_cases hh : mapHas s.conns k = true
  · simp [hh]
  · simp only [hh, Bool.false_eq_true, if_false]
    rw [openWs_channels]
    split
    · simp only [getElem?_snoc, Nat.ne_of_lt hw, if_false]
    · rfl

theorem connect_lengths (env : Env) (s : Mux) (k : Key) :
    s.records.length ≤ (connect env s k).records.length ∧
    s.channels.length ≤ (connect env s k).channels.length := by
  unfold connect
  by_cases hh : mapHas s.conns k = true
  · simp [hh]
  · simp only [hh, Bool.false_eq_true, if_false]
    constructor
    · rw [(openWs_other env _ _).2.2.2.1]
      simp
    · rw [openWs_channels]
      split <;> simp

theorem connect_maxConns (env : Env) (s : Mux) (k : Key) :
    (connect env s k).maxConns = s.maxConns := by
  unfold connect
  by_cases hh : mapHas s.conns k = true
  · simp [hh]
  · simp only [hh, Bool.false_eq_true, if_false, (openWs_other env _ _).2.2.1]

theorem connect_opens (env : Env) (s : Mux) (k : Key) :
    (connect env s k).opens = if k ∈ s.conns.map Prod.fst then s.opens else s.opens + 1 := by
  unfold connect
  by_cases hh : mapHas s.conns k = true
  · have := (mapHas_iff _ _).mp hh
    simp only [hh, if_true, this]
  · have hnot : k ∉ s.conns.map Prod.fst := fun hm => hh ((mapHas_iff _ _).mpr hm)
    simp only [hh, Bool.false_eq_true, if_false, (openWs_other env _ _).2.2.2.2, hnot,
      getElem?_snoc, if_true, Option.isSome_some]

/-- The record and the channel created by `connect` for a key that is not in the table, when
`open()` does not throw. -/
theorem connect_new (env : Env) (s : Mux) (k : Key) (hk : k ∉ s.conns.map Prod.fst)
    (hno : env.wsThrows s.opens = false) :
    (connect env s k).records[s.records.length]?
      = some { ws := some s.channels.length, key := k, backoffMs := 500, timer := none,
               closedByUs := false } ∧
    (connect env s k).channels[s.channels.length]?
      = some { owner := s.records.length, status := WsStatus.connecting } := by
  have hh : ¬ mapHas s.conns k = true := fun h => hk ((mapHas_iff _ _).mp h)
  unfold connect
  simp only [hh, Bool.false_eq_true, if_false]
  constructor
  · rw [openWs_records_get]
    simp [getElem?_snoc, hno]
  · rw [openWs_channels]
    simp [getElem?_snoc, hno]

theorem foldl_connect_lengths (env : Env) (ks : List Key) :
    ∀ st : Mux, st.records.length ≤ (ks.foldl (connect env) st).records.length ∧
      st.channels.length ≤ (ks.foldl (connect env) st).channels.length := by
  induction ks with
  | nil => intro st; exact ⟨le_refl _, le_refl _⟩
  | cons k ks ih =>
    intro st
    have h1 := connect_lengths env st k
    have h2 := ih (connect env st k)
    simp only [List.foldl_cons]
    omega

theorem foldl_connect_records_get_old (env : Env) (ks : List Key) :
    ∀ (st : Mux) (j : Nat), j < st.records.length →
      (ks.foldl (connect env) st).records[j]? = st.records[j]? := by
  induction ks with
  | nil => intro st j _; rfl
  | cons k ks ih =>
    intro st j hj
    simp only [List.foldl_cons]
    rw [ih _ j (by have := (connect_lengths env st k).1; omega),
      connect_records_get_old env st k j hj]

theorem foldl_connect_channels_get_old (env : Env) (ks : List Key) :
    ∀ (st : Mux) (w : Nat), w < st.channels.length →
      (ks.foldl (connect env) st).channels[w]? = st.channels[w]? := by
  induction ks with
  | nil => intro st w _; rfl
  | cons k ks ih =>
    intro st w hw
    simp only [List.foldl_cons]
    rw [ih _ w (by have := (connect_lengths env st k).2; omega),
      connect_channels_get_old env st k w hw]

theorem foldl_connect_maxConns (env : Env) (ks : List Key) :
    ∀ st : Mux, (ks.foldl (connect env) st).maxConns = st.maxConns := by
  induction ks with
  | nil => intro st; rfl
  | cons k ks ih => intro st; simp only [List.foldl_cons, ih, connect_maxConns]

theorem foldl_connect_conns_mono (env : Env) (ks : List Key) :
    ∀ (st : Mux) (e : Key × Nat), e ∈ st.conns → e ∈ (ks.foldl (connect env) st).conns := by
  induction ks with
  | nil => intro st e h; exact h
  | cons k ks ih =>
    intro st e h
    simp only [List.foldl_cons]
    apply ih
    rw [connect_conns]
    split
    · exact h
    · exact List.mem_append_left _ h

theorem foldl_connect_conns_fresh (env : Env) (ks : List Key) :
    ∀ (st : Mux) (k : Key) (r : Nat), (k, r) ∈ (ks.foldl (connect env) st).conns →
      (k, r) ∈ st.conns ∨ st.records.length ≤ r := by
  induction ks with
  | nil => intro st k r h; exact Or.inl h
  | cons x ks ih =>
    intro st k r h
    simp only [List.foldl_cons] at h
    rcases ih _ k r h with h1 | h1
    · rw [connect_conns] at h1
      split at h1
      · exact Or.inl h1
      · rcases List.mem_append.mp h1 with h2 | h2
        · exact Or.inl h2
        · simp only [List.mem_singleton, Prod.mk.injEq] at h2
          exact Or.inr (le_of_eq h2.2.symm)
    · have := (connect_lengths env st x).1
      exact Or.inr (by omega)

theorem foldl_connect_opens (env : Env) (ks : List Key) :
    ∀ st : Mux, ks.Nodup →
      (ks.foldl (connect env) st).opens
        = st.opens + (ks.filter (fun k => decide (k ∉ st.conns.map Prod.fst))).length := by
  induction ks with
  | nil => intro st _; simp
  | cons k ks ih =>
    intro st hnd
    rw [List.nodup_cons] at hnd
    simp only [List.foldl_cons]
    rw [ih _ hnd.2, connect_opens]
    have hfil : ks.filter (fun x => decide (x ∉ (connect env st k).conns.map Prod.fst))
        = ks.filter (fun x => decide (x ∉ st.conns.map Prod.fst)) := by
      apply List.filter_congr
      intro x hx
      have hxk : x ≠ k := fun e => hnd.1 (e ▸ hx)
      simp only [mem_connect_keys, hxk, or_false]
    rw [hfil]
    by_cases hk : k ∈ st.conns.map Prod.fst
    · simp [hk]
    · simp [hk]
      omega

/-- With `open()` never throwing, every entry of the table created by the connection loop
holds a fresh connecting channel. -/
theorem foldl_connect_fresh_channel (env : Env) (hno : ∀ n, env.wsThrows n = false)
    (base : Mux) (ks : List Key) :
    ∀ st : Mux, WF st → base.records.length ≤ st.records.length →
      base.channels.length ≤ st.channels.length →
      (∀ (k : Key) (r : Nat), (k, r) ∈ st.conns → base.records.length ≤ r →
        ∃ w, (st.records[r]?).bind (fun o => o.ws) = some w ∧ base.channels.length ≤ w ∧
          st.channels[w]? = some { owner := r, status := WsStatus.connecting }) →
      ∀ (k : Key) (r : Nat), (k, r) ∈ (ks.foldl (connect env) st).conns →
        base.records.length ≤ r →
        ∃ w, ((ks.foldl (connect env) st).records[r]?).bind (fun o => o.ws) = some w ∧
          base.channels.length ≤ w ∧
          (ks.foldl (connect env) st).channels[w]?
            = some { owner := r, status := WsStatus.connecting } := by
  induction ks with
  | nil => intro st _ _ _ h; exact h
  | cons x ks ih =>
    intro st hwf hrl hcl h
    simp only [List.foldl_cons]
    have hlen := connect_lengths env st x
    apply ih (connect env st x) (WF_connect env st x hwf) (by omega) (by omega)
    intro k r hk hr
    rw [connect_conns] at hk
    by_cases hx : x ∈ st.conns.map Prod.fst
    · simp only [hx, if_true] at hk
      obtain ⟨w, hw, hbw, hc⟩ := h k r hk hr
      obtain ⟨o, ho, _⟩ := hwf.tracked k r hk
      have hrlt : r < st.records.length := (List.getElem?_eq_some.mp ho).1
      have hwlt : w < st.channels.length := (List.getElem?_eq_some.mp hc).1
      exact ⟨w, by rw [connect_records_get_old env st x r hrlt]; exact hw, hbw,
        by rw [connect_channels_get_old env st x w hwlt]; exact hc⟩
    · simp only [hx, if_false] at hk
      rcases List.mem_append.mp hk with hk | hk
      · obtain ⟨w, hw, hbw, hc⟩ := h k r hk hr
        obtain ⟨o, ho, _⟩ := hwf.tracked k r hk
        have hrlt : r < st.records.length := (List.getElem?_eq_some.mp ho).1
        have hwlt : w < st.channels.length := (List.getElem?_eq_some.mp hc).1
        exact ⟨w, by rw [connect_records_get_old env st x r hrlt]; exact hw, hbw,
          by rw [connect_channels_get_old env st x w hwlt]; exact hc⟩
      · simp only [List.mem_singleton, Prod.mk.injEq] at hk
        obtain ⟨rfl, rfl⟩ := hk
        have hnew := connect_new env st k hx (hno _)
        exact ⟨st.channels.length, by rw [hnew.1]; rfl, hcl, hnew.2⟩

/-! ## `sync` as eviction followed by connection -/

theorem sync_eq (env : Env) (s : Mux) (keys : List Key) :
    sync env s keys
      = (sync env s keys).desired.foldl (connect env)
          ((s.conns.map Prod.fst).foldl evictIfUndesired
            { s with desired := (sync env s keys).desired }) := by
  rw [sync_desired]
  unfold sync enforceCap
  simp only [foldl_evict_desired, foldl_setDelete]
  have hfil : keys.filter (fun k => decide (k ∈ keys.foldl setAdd [])) = keys := by
    rw [List.filter_eq_self]
    intro a ha
    simp [mem_foldl_setAdd, ha]
  rw [hfil]
  have hd : (keys.foldl setAdd []).filter
      (fun x => decide (x ∈ jsSlice0 keys s.maxConns ∨ x ∉ keys.foldl setAdd []))
      = (keys.foldl setAdd []).filter (fun k => decide (k ∈ jsSlice0 keys s.maxConns)) := by
    apply List.filter_congr
    intro x hx
    simp [hx]
  rw [hd]

theorem evictIfUndesired_opens (s : Mux) (k : Key) :
    (evictIfUndesired s k).opens = s.opens := by
  unfold evictIfUndesired
  by_cases hk : k ∈ s.desired
  · simp [hk]
  · cases hg : mapGet s.conns k with
    | none => simp [hk]
    | some r => simp [hk, (close_other s r).2.2.2.1]

theorem foldl_evict_opens (ks : List Key) :
    ∀ s : Mux, (ks.foldl evictIfUndesired s).opens = s.opens := by
  induction ks with
  | nil => intro s; rfl
  | cons k ks ih => intro s; simp only [List.foldl_cons, ih, evictIfUndesired_opens]

theorem foldl_evict_id (ks : List Key) (st : Mux) (h : ∀ k ∈ ks, k ∈ st.desired) :
    ks.foldl evictIfUndesired st = st := by
  induction ks with
  | nil => rfl
  | cons k ks ih =>
    have hk : k ∈ st.desired := h k (List.mem_cons_self _ _)
    have h1 : evictIfUndesired st k = st := by simp [evictIfUndesired, hk]
    simp only [List.foldl_cons, h1]
    exact ih (fun x hx => h x (List.mem_cons_of_mem _ hx))

theorem foldl_connect_id (env : Env) (ks : List Key) (st : Mux)
    (h : ∀ k ∈ ks, k ∈ st.conns.map Prod.fst) : ks.foldl (connect env) st = st := by
  induction ks with
  | nil => rfl
  | cons k ks ih =>
    have hk : mapHas st.conns k = true := (mapHas_iff _ _).mpr (h k (List.mem_cons_self _ _))
    have h1 : connect env st k = st := by simp [connect, hk]
    simp only [List.foldl_cons, h1]
    exact ih (fun x hx => h x (List.mem_cons_of_mem _ hx))

theorem sync_maxConns (env : Env) (s : Mux) (keys : List Key) :
    (sync env s keys).maxConns = s.maxConns := by
  rw [sync_eq, foldl_connect_maxConns]
  exact (frame_foldl evictIfUndesired frame_evictIfUndesired _ _).maxConns

theorem sync_idem (env : Env) (s : Mux) (keys : List Key) :
    sync env (sync env s keys) keys = sync env s keys := by
  have hd : (sync env (sync env s keys) keys).desired = (sync env s keys).desired := by
    rw [sync_desired, sync_desired, sync_maxConns]
  rw [sync_eq env (sync env s keys) keys, hd]
  have heta : ({ sync env s keys with desired := (sync env s keys).desired } : Mux)
      = sync env s keys := rfl
  rw [heta, foldl_evict_id, foldl_connect_id]
  · intro k hk
    exact (mem_sync_conns env s keys k).mpr hk
  · intro k hk
    exact (mem_sync_conns env s keys k).mp hk

theorem mem_conns_iff_mapGet (s : Mux) (h : (s.conns.map Prod.fst).Nodup) (k : Key) (r : Nat) :
    (k, r) ∈ s.conns ↔ mapGet s.conns k = some r :=
  ⟨mapGet_eq_some_of_mem _ _ _ h, mem_of_mapGet_eq_some _ _ _⟩

/-- The state between the two loops of `enforceCap`. -/
theorem WF_evicted (s : Mux) (d : List Key) (h : WF s) :
    WF ((s.conns.map Prod.fst).foldl evictIfUndesired { s with desired := d }) ∧
    ((s.conns.map Prod.fst).foldl evictIfUndesired { s with desired := d }).records.length
      = s.records.length ∧
    ((s.conns.map Prod.fst).foldl evictIfUndesired { s with desired := d }).channels.length
      = s.channels.length := by
  have f1 : Frame s { s with desired := d } :=
    frame_of_eq s _ (List.Sublist.refl _) rfl rfl rfl
  have f2 := f1.frameTrans (frame_foldl evictIfUndesired frame_evictIfUndesired
    (s.conns.map Prod.fst) { s with desired := d })
  exact ⟨h.of_frame f2, f2.recLen, f2.chLen⟩

theorem sync_records_old (env : Env) (s : Mux) (keys : List Key) (h : WF s) (j : Nat)
    (hj : j < s.records.length) :
    ((∃ k, (k, j) ∈ s.conns ∧ k ∉ (sync env s keys).desired) →
      (sync env s keys).records[j]? = (s.records[j]?).map closedRec) ∧
    ((¬ ∃ k, (k, j) ∈ s.conns ∧ k ∉ (sync env s keys).desired) →
      (sync env s keys).records[j]? = s.records[j]?) := by
  have hev := WF_evicted s (sync env s keys).desired h
  have hold : (sync env s keys).records[j]?
      = ((s.conns.map Prod.fst).foldl evictIfUndesired
          { s with desired := (sync env s keys).desired }).records[j]? := by
    conv_lhs => rw [sync_eq]
    exact foldl_connect_records_get_old env _ _ j (by omega)
  have hchar := foldl_evict_records (s.conns.map Prod.fst)
    { s with desired := (sync env s keys).desired } j h.keysNodup
  have hiff : (∃ k ∈ s.conns.map Prod.fst, k ∉ (sync env s keys).desired ∧
      mapGet s.conns k = some j) ↔ ∃ k, (k, j) ∈ s.conns ∧ k ∉ (sync env s keys).desired := by
    constructor
    · rintro ⟨k, _, hd, hg⟩
      exact ⟨k, (mem_conns_iff_mapGet s h.keysNodup k j).mpr hg, hd⟩
    · rintro ⟨k, hk, hd⟩
      exact ⟨k, List.mem_map.mpr ⟨(k, j), hk, rfl⟩, hd,
        (mem_conns_iff_mapGet s h.keysNodup k j).mp hk⟩
  rw [hold]
  exact ⟨fun hx => hchar.1 (hiff.mpr hx), fun hx => hchar.2 (fun hy => hx (hiff.mp hy))⟩

theorem sync_channels_old (env : Env) (s : Mux) (keys : List Key) (h : WF s) (w : Nat)
    (hw : w < s.channels.length) :
    ((∃ k r, (k, r) ∈ s.conns ∧ k ∉ (sync env s keys).desired ∧
        (s.records[r]?).bind (fun o => o.ws) = some w) →
      (sync env s keys).channels[w]? = (s.channels[w]?).map closingCh) ∧
    ((¬ ∃ k r, (k, r) ∈ s.conns ∧ k ∉ (sync env s keys).desired ∧
        (s.records[r]?).bind (fun o => o.ws) = some w) →
      (sync env s keys).channels[w]? = s.channels[w]?) := by
  have hev := WF_evicted s (sync env s keys).desired h
  have hold : (sync env s keys).channels[w]?
      = ((s.conns.map Prod.fst).foldl evictIfUndesired
          { s with desired := (sync env s keys).desired }).channels[w]? := by
    conv_lhs => rw [sync_eq]
    exact foldl_connect_channels_get_old env _ _ w (by omega)
  have hchar := foldl_evict_channels (s.conns.map Prod.fst)
    { s with desired := (sync env s keys).desired } w h.keysNodup
  have hiff : (∃ k ∈ s.conns.map Prod.fst, k ∉ (sync env s keys).desired ∧
      ∃ r, mapGet s.conns k = some r ∧ (s.records[r]?).bind (fun o => o.ws) = some w)
      ↔ ∃ k r, (k, r) ∈ s.conns ∧ k ∉ (sync env s keys).desired ∧
        (s.records[r]?).bind (fun o => o.ws) = some w := by
    constructor
    · rintro ⟨k, _, hd, r, hg, hws⟩
      exact ⟨k, r, (mem_conns_iff_mapGet s h.keysNodup k r).mpr hg, hd, hws⟩
    · rintro ⟨k, r, hk, hd, hws⟩
      exact ⟨k, List.mem_map.mpr ⟨(k, r), hk, rfl⟩, hd, r,
        (mem_conns_iff_mapGet s h.keysNodup k r).mp hk, hws⟩
  rw [hold]
  exact ⟨fun hx => hchar.1 (hiff.mpr hx), fun hx => hchar.2 (fun hy => hx (hiff.mp hy))⟩

theorem sync_conns_kept (env : Env) (s : Mux) (keys : List Key) (k : Key) (r : Nat)
    (hk : (k, r) ∈ s.conns) (hd : k ∈ (sync env s keys).desired) :
    (k, r) ∈ (sync env s keys).conns := by
  rw [sync_eq]
  apply foldl_connect_conns_mono
  rw [foldl_evict_conns]
  simp only [List.mem_filter, decide_eq_true_eq]
  exact ⟨hk, Or.inl hd⟩

theorem sync_conns_fresh (env : Env) (s : Mux) (keys : List Key) (h : WF s) (k : Key)
    (r : Nat) (hk : (k, r) ∈ (sync env s keys).conns) :
    ((k, r) ∈ s.conns ∧ k ∈ (sync env s keys).desired) ∨ s.records.length ≤ r := by
  have hev := WF_evicted s (sync env s keys).desired h
  have hd : k ∈ (sync env s keys).desired :=
    (mem_sync_conns env s keys k).mp (List.mem_map.mpr ⟨(k, r), hk, rfl⟩)
  rw [sync_eq] at hk
  rcases foldl_connect_conns_fresh env _ _ k r hk with h1 | h1
  · rw [foldl_evict_conns] at h1
    exact Or.inl ⟨(List.mem_filter.mp h1).1, hd⟩
  · exact Or.inr (by omega)

theorem sync_opens (env : Env) (s : Mux) (keys : List Key) :
    (sync env s keys).opens = s.opens +
      ((sync env s keys).desired.filter (fun k => decide (k ∉ s.conns.map Prod.fst))).length := by
  conv_lhs => rw [sync_eq]
  rw [foldl_connect_opens env _ _ (nodup_sync_desired env s keys), foldl_evict_opens]
  congr 2
  apply List.filter_congr
  intro x hx
  rw [foldl_evict_conns, decide_eq_decide, not_iff_not]
  simp only [List.mem_map, List.mem_filter, decide_eq_true_eq]
  constructor
  · rintro ⟨e, ⟨he, _⟩, rfl⟩
    exact ⟨e, he, rfl⟩
  · rintro ⟨e, he, rfl⟩
    exact ⟨e, ⟨he, Or.inl hx⟩, rfl⟩

theorem ws_of_bind {s : Mux} {r w : Nat} (h : (s.records[r]?).bind (fun o => o.ws) = some w) :
    ∃ o : ConnRecord, s.records[r]? = some o ∧ o.ws = some w := by
  cases ho : s.records[r]? with
  | none => simp [ho] at h
  | some o =>
    rw [ho] at h
    exact ⟨o, rfl, h⟩

theorem connect_channels_le_opens (env : Env) (s : Mux) (k : Key) :
    (connect env s k).channels.length + s.opens
      ≤ s.channels.length + (connect env s k).opens := by
  unfold connect
  by_cases hh : mapHas s.conns k = true
  · simp [hh]
  · simp only [hh, Bool.false_eq_true, if_false]
    rw [openWs_channels, (openWs_other env _ _).2.2.2.2]
    simp only [getElem?_snoc, if_true, Option.isSome_some, true_and]
    split
    · simp only [List.length_append, List.length_singleton]
      omega
    · simp

theorem foldl_connect_channels_le_opens (env : Env) (ks : List Key) :
    ∀ st : Mux, (ks.foldl (connect env) st).channels.length + st.opens
      ≤ st.channels.length + (ks.foldl (connect env) st).opens := by
  induction ks with
  | nil => intro st; exact le_refl _
  | cons k ks ih =>
    intro st
    have h1 := connect_channels_le_opens env st k
    have h2 := ih (connect env st k)
    simp only [List.foldl_cons]
    omega

theorem sync_channels_le_opens (env : Env) (s : Mux) (keys : List Key) (h : WF s) :
    (sync env s keys).channels.length + s.opens
      ≤ s.channels.length + (sync env s keys).opens := by
  have hev := WF_evicted s (sync env s keys).desired h
  have hop := foldl_evict_opens (s.conns.map Prod.fst)
    { s with desired := (sync env s keys).desired }
  have h1 := foldl_connect_channels_le_opens env (sync env s keys).desired
    ((s.conns.map Prod.fst).foldl evictIfUndesired
      { s with desired := (sync env s keys).desired })
  rw [← sync_eq] at h1
  rw [hev.2.2, hop] at h1
  exact h1

/-- C6: for every well-formed table T and key list L with truncated set D (the keys among
the first `maxConns` entries of L), `sync(L)`
* closes and removes exactly the records whose key is in T but not in D (the record gets
  `closedByUs`, its timer is cleared, its channel starts closing, its key leaves the table);
* keeps the identical record and channel for every key in both, and leaves every other old
  record and channel as it was;
* creates a fresh record, entered in the table, for exactly the keys in D but not in T, and
  calls `open()` once for each of them (which yields a fresh connecting channel unless
  `open()` throws);
* does nothing when repeated with the same list. -/
theorem sync_reconciles (env : Env) (s : Mux) (keys : List Key) (h : WF s) :
    (∀ (k : Key) (r : Nat), (k, r) ∈ s.conns → k ∉ keys.take s.maxConns.toNat →
      k ∉ (sync env s keys).conns.map Prod.fst ∧
      (sync env s keys).records[r]? = (s.records[r]?).map closedRec ∧
      ∀ w, (s.records[r]?).bind (fun o => o.ws) = some w →
        (sync env s keys).channels[w]? = (s.channels[w]?).map closingCh) ∧
    (∀ (k : Key) (r : Nat), (k, r) ∈ s.conns → k ∈ keys.take s.maxConns.toNat →
      (k, r) ∈ (sync env s keys).conns ∧
      (sync env s keys).records[r]? = s.records[r]? ∧
      ∀ w, (s.records[r]?).bind (fun o => o.ws) = some w →
        (sync env s keys).channels[w]? = s.channels[w]?) ∧
    (∀ (k : Key), k ∈ keys.take s.maxConns.toNat → k ∉ s.conns.map Prod.fst →
      ∃ (r : Nat) (o : ConnRecord), s.records.length ≤ r ∧ (k, r) ∈ (sync env s keys).conns ∧
        (sync env s keys).records[r]? = some o ∧ o.key = k ∧
        (∀ w, o.ws = some w → s.channels.length ≤ w) ∧
        ((∀ n, env.wsThrows n = false) → ∃ w, o.ws = some w ∧
          (sync env s keys).channels[w]?
            = some { owner := r, status := WsStatus.connecting })) ∧
    (∀ (k : Key) (r : Nat), (k, r) ∈ (sync env s keys).conns →
      ((k, r) ∈ s.conns ∧ k ∈ keys.take s.maxConns.toNat) ∨
      (s.records.length ≤ r ∧ k ∈ keys.take s.maxConns.toNat ∧ k ∉ s.conns.map Prod.fst)) ∧
    (∀ (j : Nat), j < s.records.length →
      (¬ ∃ k, (k, j) ∈ s.conns ∧ k ∉ keys.take s.maxConns.toNat) →
      (sync env s keys).records[j]? = s.records[j]?) ∧
    (∀ (w : Nat) (c : Channel), s.channels[w]? = some c →
      (sync env s keys).channels[w]? = some c ∨
      ∃ k, (k, c.owner) ∈ s.conns ∧ k ∉ keys.take s.maxConns.toNat) ∧
    (sync env s keys).opens = s.opens +
      ((keys.take s.maxConns.toNat).dedup.filter
        (fun k => decide (k ∉ s.conns.map Prod.fst))).length ∧
    (sync env s keys).channels.length + s.opens
      ≤ s.channels.length + (sync env s keys).opens ∧
    sync env (sync env s keys) keys = sync env s keys := by
  have hcap : 0 ≤ s.maxConns := by have := h.capLo; omega
  have hD : ∀ k, k ∈ keys.take s.maxConns.toNat ↔ k ∈ (sync env s keys).desired :=
    fun k => (mem_sync_desired env s keys hcap k).symm
  have hwf' := WF_sync env s keys h
  have hsame : ∀ (k1 k2 : Key) (r : Nat), (k1, r) ∈ s.conns → (k2, r) ∈ s.conns → k1 = k2 := by
    intro k1 k2 r h1 h2
    obtain ⟨o1, ho1, hk1⟩ := h.tracked k1 r h1
    obtain ⟨o2, ho2, hk2⟩ := h.tracked k2 r h2
    rw [ho1] at ho2
    cases ho2
    exact hk1.symm.trans hk2
  have hown : ∀ (k1 k2 : Key) (r1 r2 w : Nat), (k1, r1) ∈ s.conns → (k2, r2) ∈ s.conns →
      (s.records[r1]?).bind (fun o => o.ws) = some w →
      (s.records[r2]?).bind (fun o => o.ws) = some w → k1 = k2 := by
    intro k1 k2 r1 r2 w h1 h2 hw1 hw2
    obtain ⟨o1, ho1, hws1⟩ := ws_of_bind hw1
    obtain ⟨o2, ho2, hws2⟩ := ws_of_bind hw2
    obtain ⟨c1, hc1, hr1⟩ := h.recWs r1 o1 w ho1 hws1
    obtain ⟨c2, hc2, hr2⟩ := h.recWs r2 o2 w ho2 hws2
    rw [hc1] at hc2
    cases hc2
    have : r1 = r2 := hr1.symm.trans hr2
    subst this
    exact hsame k1 k2 r1 h1 h2
  have hwlt : ∀ (r w : Nat), (s.records[r]?).bind (fun o => o.ws) = some w →
      w < s.channels.length := by
    intro r w hw
    obtain ⟨o, ho, hws⟩ := ws_of_bind hw
    obtain ⟨c, hc, _⟩ := h.recWs r o w ho hws
    exact (List.getElem?_eq_some.mp hc).1
  have hrlt : ∀ (k : Key) (r : Nat), (k, r) ∈ s.conns → r < s.records.length := by
    intro k r hk
    obtain ⟨o, ho, _⟩ := h.tracked k r hk
    exact (List.getElem?_eq_some.mp ho).1
  refine ⟨?_, ?_, ?_, ?_, ?_, ?_, ?_, sync_channels_le_opens env s keys h,
    sync_idem env s keys⟩
  · intro k r hk hnd
    have hd : k ∉ (sync env s keys).desired := fun hx => hnd ((hD k).mpr hx)
    refine ⟨fun hx => hd ((mem_sync_conns env s keys k).mp hx), ?_, ?_⟩
    · exact (sync_records_old env s keys h r (hrlt k r hk)).1 ⟨k, hk, hd⟩
    · intro w hw
      exact (sync_channels_old env s keys h w (hwlt r w hw)).1 ⟨k, r, hk, hd, hw⟩
  · intro k r hk hin
    have hd : k ∈ (sync env s keys).desired := (hD k).mp hin
    refine ⟨sync_conns_kept env s keys k r hk hd, ?_, ?_⟩
    · apply (sync_records_old env s keys h r (hrlt k r hk)).2
      rintro ⟨k2, hk2, hd2⟩
      exact hd2 (hsame k k2 r hk hk2 ▸ hd)
    · intro w hw
      apply (sync_channels_old env s keys h w (hwlt r w hw)).2
      rintro ⟨k2, r2, hk2, hd2, hw2⟩
      exact hd2 (hown k k2 r r2 w hk hk2 hw hw2 ▸ hd)
  · intro k hin hnew
    have hd : k ∈ (sync env s keys).desired := (hD k).mp hin
    obtain ⟨⟨k0, r⟩, hmem, hfst⟩ := List.mem_map.mp ((mem_sync_conns env s keys k).mpr hd)
    simp only at hfst
    subst hfst
    have hfresh : s.records.length ≤ r := by
      rcases sync_conns_fresh env s keys h k0 r hmem with h1 | h1
      · exact absurd (List.mem_map.mpr ⟨(k0, r), h1.1, rfl⟩) hnew
      · exact h1
    obtain ⟨o, ho, hkey⟩ := hwf'.tracked k0 r hmem
    refine ⟨r, o, hfresh, hmem, ho, hkey, ?_, ?_⟩
    · intro w hw
      by_contra hlt
      have hlt' : w < s.channels.length := by omega
      obtain ⟨c, hc, hcr⟩ := hwf'.recWs r o w ho hw
      obtain ⟨c0, hc0⟩ : ∃ c0, s.channels[w]? = some c0 :=
        ⟨s.channels.get ⟨w, hlt'⟩, List.getElem?_eq_getElem hlt'⟩
      have hown0 := h.owner w c0 hc0
      have hsync := sync_channels_old env s keys h w hlt'
      by_cases hx : ∃ k r, (k, r) ∈ s.conns ∧ k ∉ (sync env s keys).desired ∧
          (s.records[r]?).bind (fun o => o.ws) = some w
      · have := hsync.1 hx
        rw [hc, hc0] at this
        simp only [Option.map_some', Option.some.injEq] at this
        rw [this, closingCh_owner] at hcr
        omega
      · have := hsync.2 hx
        rw [hc, hc0] at this
        simp only [Option.some.injEq] at this
        rw [this] at hcr
        omega
    · intro hno
      have hev := WF_evicted s (sync env s keys).desired h
      have hf := foldl_connect_fresh_channel env hno
        ((s.conns.map Prod.fst).foldl evictIfUndesired
          { s with desired := (sync env s keys).desired })
        (sync env s keys).desired
        ((s.conns.map Prod.fst).foldl evictIfUndesired
          { s with desired := (sync env s keys).desired })
        hev.1 (le_refl _) (le_refl _)
        (by
          intro k1 r1 hk1 hr1
          obtain ⟨o1, ho1, _⟩ := hev.1.tracked k1 r1 hk1
          have := (List.getElem?_eq_some.mp ho1).1
          omega)
      rw [← sync_eq] at hf
      obtain ⟨w, hw, _, hc⟩ := hf k0 r hmem (by rw [hev.2.1]; exact hfresh)
      rw [ho] at hw
      exact ⟨w, hw, hc⟩
  · intro k r hk
    have hd : k ∈ (sync env s keys).desired :=
      (mem_sync_conns env s keys k).mp (List.mem_map.mpr ⟨(k, r), hk, rfl⟩)
    rcases sync_conns_fresh env s keys h k r hk with h1 | h1
    · exact Or.inl ⟨h1.1, (hD k).mpr hd⟩
    · refine Or.inr ⟨h1, (hD k).mpr hd, ?_⟩
      intro hx
      obtain ⟨⟨k1, r1⟩, hm, hf⟩ := List.mem_map.mp hx
      simp only at hf
      subst hf
      have hkept := sync_conns_kept env s keys k1 r1 hm hd
      have hr1 := hrlt k1 r1 hm
      have heq : r1 = r := by
        have hnd := hwf'.keysNodup
        have e1 := mapGet_eq_some_of_mem _ _ _ hnd hkept
        have e2 := mapGet_eq_some_of_mem _ _ _ hnd hk
        rw [e1] at e2
        exact Option.some.inj e2
      omega
  · intro j hj hnot
    apply (sync_records_old env s keys h j hj).2
    rintro ⟨k, hk, hd⟩
    exact hnot ⟨k, hk, fun hx => hd ((hD k).mp hx)⟩
  · intro w c hc
    have hlt : w < s.channels.length := (List.getElem?_eq_some.mp hc).1
    by_cases hx : ∃ k r, (k, r) ∈ s.conns ∧ k ∉ (sync env s keys).desired ∧
        (s.records[r]?).bind (fun o => o.ws) = some w
    · right
      obtain ⟨k, r, hk, hd, hw⟩ := hx
      obtain ⟨o, ho, hws⟩ := ws_of_bind hw
      obtain ⟨c1, hc1, hr1⟩ := h.recWs r o w ho hws
      rw [hc] at hc1
      cases hc1
      exact ⟨k, hr1 ▸ hk, fun hin => hd ((hD k).mp hin)⟩
    · left
      rw [(sync_channels_old env s keys h w hlt).2 hx, hc]
  · rw [sync_opens]
    congr 1
    apply List.Perm.length_eq
    apply List.Perm.filter
    rw [List.perm_ext_iff_of_nodup (nodup_sync_desired env s keys) (List.nodup_dedup _)]
    intro k
    rw [List.mem_dedup]
    exact (hD k).symm

/-- Witness of C6: with cap 2, `sync([A, B, C])` then `sync([C, A])` leaves the table with
A's original record 0 (with its original channel 0, untouched) and a fresh record 2 for C,
and has closed the record of B, whose channel 1 is closing; a repeated `sync([C, A])`
changes nothing. -/
theorem sync_reconciles_witness :
    (sync calmEnv (setMax init 2) ["A", "B", "C"]).conns = [("A", 0), ("B", 1)] ∧
    (sync calmEnv (sync calmEnv (setMax init 2) ["A", "B", "C"]) ["C", "A"]).conns
      = [("A", 0), ("C", 2)] ∧
    (sync calmEnv (sync calmEnv (setMax init 2) ["A", "B", "C"]) ["C", "A"]).channels
      = [{ owner := 0, status := WsStatus.connecting },
         { owner := 1, status := WsStatus.closing },
         { owner := 2, status := WsStatus.connecting }] ∧
    (sync calmEnv (sync calmEnv (setMax init 2) ["A", "B", "C"]) ["C", "A"]).records[0]?
      = (sync calmEnv (setMax init 2) ["A", "B", "C"]).records[0]? ∧
    sync calmEnv (sync calmEnv (sync calmEnv (setMax init 2) ["A", "B", "C"]) ["C", "A"])
        ["C", "A"]
      = sync calmEnv (sync calmEnv (setMax init 2) ["A", "B", "C"]) ["C", "A"] :=
  ⟨by decide, by decide, by decide,
    ((sync_reconciles calmEnv (sync calmEnv (setMax init 2) ["A", "B", "C"]) ["C", "A"]
      (WF_sync calmEnv _ _ (WF_setMax init 2 WF_init))).2.1 "A" 0 (by decide) (by decide)).2.1,
    (sync_reconciles calmEnv (sync calmEnv (setMax init 2) ["A", "B", "C"]) ["C", "A"]
      (WF_sync calmEnv _ _ (WF_setMax init 2 WF_init))).2.2.2.2.2.2.2.2⟩

/-! ## Records that reconnect after their close handler removed them from the table -/

/-- C5 (evaluation of the code at the failing input): with the default cap, after
`sync([A])`, an unexpected close of the channel, a second `sync([A])` (the next render)
and the firing of the first record's retry timer, key A has two records with a live
channel each (channels 1 and 2), the table tracks only record 1, and a later `sync([])`
closes channel 1 only: channel 2, owned by the untracked record 0, stays live. -/
theorem reconnect_leaves_untracked_channel :
    (run calmEnv init [Event.sync ["A"], Event.wsClose 0]).conns = [] ∧
    (run calmEnv init [Event.sync ["A"], Event.wsClose 0]).records.map (fun o => o.timer)
      = [some 500] ∧
    (run calmEnv init
      [Event.sync ["A"], Event.wsClose 0, Event.sync ["A"], Event.timer 0]).conns
      = [("A", 1)] ∧
    (run calmEnv init
      [Event.sync ["A"], Event.wsClose 0, Event.sync ["A"], Event.timer 0]).records.map
        (fun o => (o.key, o.ws)) = [("A", some 2), ("A", some 1)] ∧
    liveChannels (run calmEnv init
      [Event.sync ["A"], Event.wsClose 0, Event.sync ["A"], Event.timer 0]) = [1, 2] ∧
    trackedLive (run calmEnv init
      [Event.sync ["A"], Event.wsClose 0, Event.sync ["A"], Event.timer 0]) = [1] ∧
    liveChannels (run calmEnv init
      [Event.sync ["A"], Event.wsClose 0, Event.sync ["A"], Event.timer 0, Event.sync []])
      = [2] := by
  decide

/-- C8 (evaluation of the code at the failing input): after `sync([A])`, an unexpected
close of the channel and the firing of the retry timer, the reopened channel 1 belongs to a
record that is no longer in the table; `closeAll()` then empties the desired set and the
table but leaves channel 1 live. -/
theorem closeAll_leaves_untracked_channel :
    (run calmEnv init [Event.sync ["A"], Event.wsClose 0, Event.timer 0]).conns = [] ∧
    liveChannels (run calmEnv init [Event.sync ["A"], Event.wsClose 0, Event.timer 0])
      = [1] ∧
    (run calmEnv init
      [Event.sync ["A"], Event.wsClose 0, Event.timer 0, Event.closeAll]).desired = [] ∧
    (run calmEnv init
      [Event.sync ["A"], Event.wsClose 0, Event.timer 0, Event.closeAll]).conns = [] ∧
    liveChannels (run calmEnv init
      [Event.sync ["A"], Event.wsClose 0, Event.timer 0, Event.closeAll]) = [1] := by
  decide

/-! ## Evicted records never open a channel again -/

theorem owners_eq_of_frame {s t : Mux} (f : Frame s t) :
    t.channels.map (fun c => c.owner) = s.channels.map (fun c => c.owner) := by
  apply List.ext_getElem?
  intro w
  simp only [List.getElem?_map]
  cases hc : s.channels[w]? with
  | none =>
    have : t.channels[w]? = none := by
      rw [List.getElem?_eq_none_iff] at hc ⊢
      rw [f.chLen]; exact hc
    rw [this]
  | some c =>
    obtain ⟨d, hd⟩ := getElem?_some_of_length_eq s.channels t.channels w c f.chLen hc
    rw [hd]
    simp only [Option.map_some', Option.some.injEq]
    exact f.chans w c d hc hd

theorem channelsOf_eq (u : Mux) (r : Nat) :
    channelsOf u r = (List.range u.channels.length).filter
      (fun w => decide ((u.channels.map (fun c => c.owner))[w]? = some r)) := by
  unfold channelsOf
  apply List.filter_congr
  intro w _
  rw [List.getElem?_map]
  cases u.channels[w]? <;> simp

theorem channelsOf_eq_of_owners (s t : Mux) (r : Nat) (extra : List Nat)
    (h : t.channels.map (fun c => c.owner) = s.channels.map (fun c => c.owner) ++ extra)
    (hr : r ∉ extra) : channelsOf t r = channelsOf s r := by
  have hlen : t.channels.length = s.channels.length + extra.length := by
    have := congrArg List.length h
    simpa using this
  rw [channelsOf_eq, channelsOf_eq, h, hlen, List.range_add, List.filter_append]
  have h2 : ((List.range extra.length).map (fun x => s.channels.length + x)).filter
      (fun w => decide ((s.channels.map (fun c => c.owner) ++ extra)[w]? = some r)) = [] := by
    rw [List.filter_eq_nil_iff]
    intro w hw
    obtain ⟨i, _, rfl⟩ := List.mem_map.mp hw
    simp only [decide_eq_true_eq]
    rw [List.getElem?_append_right (by simp)]
    simp only [List.length_map, Nat.add_sub_cancel_left]
    intro hi
    obtain ⟨hlt, hget⟩ := List.getElem?_eq_some.mp hi
    exact hr (hget ▸ List.getElem_mem hlt)
  rw [h2, List.append_nil]
  apply List.filter_congr
  intro w hw
  rw [List.mem_range] at hw
  rw [List.getElem?_append_left (by simpa using hw)]

theorem Keeps.keepsRefl {r : Nat} {s : Mux} (h : Evicted s r) : Keeps r s s :=
  ⟨h, [], by simp, by simp⟩

theorem Keeps.keepsTrans {r : Nat} {s t u : Mux} (f : Keeps r s t) (g : Keeps r t u) :
    Keeps r s u := by
  obtain ⟨_, e1, h1, n1⟩ := f
  obtain ⟨ev, e2, h2, n2⟩ := g
  refine ⟨ev, e1 ++ e2, ?_, ?_⟩
  · rw [h2, h1, List.append_assoc]
  · simp [n1, n2]

theorem keeps_foldl {β : Type} (r : Nat) (f : Mux → β → Mux)
    (hf : ∀ (st : Mux) (x : β), Evicted st r → Keeps r st (f st x)) (xs : List β) :
    ∀ s : Mux, Evicted s r → Keeps r s (xs.foldl f s) := by
  induction xs with
  | nil => intro s h; exact Keeps.keepsRefl h
  | cons x xs ih =>
    intro s h
    have h1 := hf s x h
    exact h1.keepsTrans (ih _ h1.1)

theorem evicted_of_records_eq {s t : Mux} {r : Nat} (h : t.records[r]? = s.records[r]?)
    (hev : Evicted s r) : Evicted t r := by
  obtain ⟨o, ho, h1, h2⟩ := hev
  exact ⟨o, by rw [h, ho], h1, h2⟩

theorem keeps_of_same (r : Nat) (s t : Mux) (hrec : t.records[r]? = s.records[r]?)
    (hch : t.channels.map (fun c => c.owner) = s.channels.map (fun c => c.owner))
    (hev : Evicted s r) : Keeps r s t :=
  ⟨evicted_of_records_eq hrec hev, [], by simp [hch], by simp⟩

theorem keeps_of_frame {r : Nat} {s t : Mux} (f : Frame s t)
    (hrec : t.records[r]? = s.records[r]?) (hev : Evicted s r) : Keeps r s t :=
  keeps_of_same r s t hrec (owners_eq_of_frame f) hev

theorem evicted_close (s : Mux) (r j : Nat) (hev : Evicted s j) : Evicted (close s r) j := by
  obtain ⟨o, ho, h1, h2⟩ := hev
  by_cases hj : j = r
  · subst hj
    exact ⟨closedRec o, by rw [close_records_get]; simp [ho, closedRec], rfl, rfl⟩
  · exact ⟨o, by rw [close_records_get]; simp [hj, ho], h1, h2⟩

theorem keeps_close (s : Mux) (r j : Nat) (hev : Evicted s j) : Keeps j s (close s r) :=
  ⟨evicted_close s r j hev, [], by simp [owners_eq_of_frame (frame_close s r)], by simp⟩

/-- `obj.close` evicts its record. -/
theorem evicted_of_close (s : Mux) (r : Nat) (o : ConnRecord) (ho : s.records[r]? = some o) :
    Evicted (close s r) r :=
  ⟨closedRec o, by rw [close_records_get]; simp [ho, closedRec], rfl, rfl⟩

theorem keeps_wsCloseCall (s : Mux) (w j : Nat) (hev : Evicted s j) :
    Keeps j s (wsCloseCall s w) :=
  keeps_of_same j s _ (by rw [(wsCloseCall_other s w).2.2.2.1])
    (owners_eq_of_frame (frame_wsCloseCall s w)) hev

theorem keeps_scheduleReconnect (env : Env) (s : Mux) (r j : Nat) (hne : j ≠ r)
    (hev : Evicted s j) : Keeps j s (scheduleReconnect env s r) :=
  keeps_of_same j s _ (by rw [scheduleReconnect_records_get]; simp [hne])
    (by rw [(scheduleReconnect_other env s r).2.2.2.1]) hev

theorem keeps_openWs (env : Env) (s : Mux) (r j : Nat) (hne : j ≠ r) (hev : Evicted s j) :
    Keeps j s (openWs env s r) := by
  refine ⟨evicted_of_records_eq (by rw [openWs_records_get]; simp [hne]) hev, ?_⟩
  rw [openWs_channels]
  split
  · exact ⟨[r], by simp, by simpa using hne⟩
  · exact ⟨[], by simp, by simp⟩

theorem keeps_connect (env : Env) (s : Mux) (k : Key) (j : Nat) (hev : Evicted s j) :
    Keeps j s (connect env s k) := by
  have hj : j < s.records.length := by
    obtain ⟨o, ho, _⟩ := hev
    exact (List.getElem?_eq_some.mp ho).1
  unfold connect
  by_cases hh : mapHas s.conns k = true
  · simp only [hh, if_true]; exact Keeps.keepsRefl hev
  · simp only [hh, Bool.false_eq_true, if_false]
    have h1 : Keeps j s { s with
        records := s.records ++
          [{ ws := none, key := k, backoffMs := 500, timer := none, closedByUs := false }]
        conns := mapSet s.conns k s.records.length } :=
      keeps_of_same j s _ (by simp [getElem?_snoc, Nat.ne_of_lt hj]) rfl hev
    exact h1.keepsTrans (keeps_openWs env _ _ j (Nat.ne_of_lt hj) h1.1)

theorem keeps_evictIfUndesired (s : Mux) (k : Key) (j : Nat) (hev : Evicted s j) :
    Keeps j s (evictIfUndesired s k) := by
  unfold evictIfUndesired
  by_cases hk : k ∈ s.desired
  · simp only [hk, if_true]; exact Keeps.keepsRefl hev
  · simp only [hk, if_false]
    cases hg : mapGet s.conns k with
    | none => exact keeps_of_same j s _ rfl rfl hev
    | some r =>
      have h1 := keeps_close s r j hev
      exact h1.keepsTrans (keeps_of_same j _ _ rfl rfl h1.1)

theorem keeps_closeKey (s : Mux) (k : Key) (j : Nat) (hev : Evicted s j) :
    Keeps j s (closeKey s k) := by
  unfold closeKey
  cases hg : mapGet s.conns k with
  | none => exact Keeps.keepsRefl hev
  | some r => exact keeps_close s r j hev

theorem keeps_sync (env : Env) (s : Mux) (keys : List Key) (j : Nat) (hev : Evicted s j) :
    Keeps j s (sync env s keys) := by
  have heq := sync_eq env s keys
  generalize (sync env s keys).desired = d at heq
  rw [heq]
  have h1 : Keeps j s { s with desired := d } := keeps_of_same j s _ rfl rfl hev
  have h2 := keeps_foldl j evictIfUndesired (fun st k h => keeps_evictIfUndesired st k j h)
    (s.conns.map Prod.fst) _ h1.1
  have h3 := keeps_foldl j (connect env) (fun st k h => keeps_connect env st k j h) d _ h2.1
  exact (h1.keepsTrans h2).keepsTrans h3

theorem keeps_closeAll (s : Mux) (j : Nat) (hev : Evicted s j) : Keeps j s (closeAll s) := by
  unfold closeAll
  have h1 : Keeps j s { s with desired := [] } := keeps_of_same j s _ rfl rfl hev
  have h2 := keeps_foldl j closeKey (fun st k h => keeps_closeKey st k j h)
    (s.conns.map Prod.fst) _ h1.1
  exact (h1.keepsTrans h2).keepsTrans (keeps_of_same j _ _ rfl rfl h2.1)

theorem keeps_onWsOpen (s : Mux) (w j : Nat) (hev : Evicted s j) :
    Keeps j s (onWsOpen s w) := by
  refine ⟨?_, [], by simp [owners_eq_of_frame (frame_onWsOpen s w)], by simp⟩
  obtain ⟨o, ho, h1, h2⟩ := hev
  unfold onWsOpen
  cases hc : s.channels[w]? with
  | none => exact ⟨o, ho, h1, h2⟩
  | some c =>
    by_cases hst : c.status = WsStatus.connecting
    · simp only [hst, if_true]
      cases hr : s.records[c.owner]? with
      | none => exact ⟨o, ho, h1, h2⟩
      | some p =>
        by_cases hj : j = c.owner
        · subst hj
          rw [ho] at hr
          cases hr
          exact ⟨{ o with backoffMs := 500 }, by simp [getElem?_set_map, ho], h1, h2⟩
        · exact ⟨o, by simp [getElem?_set_map, hj, ho], h1, h2⟩
    · simp only [hst, if_false]; exact ⟨o, ho, h1, h2⟩

theorem keeps_onWsClose (env : Env) (s : Mux) (w j : Nat) (hev : Evicted s j) :
    Keeps j s (onWsClose env s w) := by
  unfold onWsClose
  cases hc : s.channels[w]? with
  | none => exact Keeps.keepsRefl hev
  | some c =>
    by_cases hst : c.status = WsStatus.closed
    · simp only [hst, if_true]; exact Keeps.keepsRefl hev
    · simp only [hst, if_false]
      have f1 := frame_setChannel s w c ({ c with status := WsStatus.closed }) hc rfl
      have h1 := keeps_of_frame f1 rfl hev
      cases ho : s.records[c.owner]? with
      | none => exact h1
      | some o =>
        have f2 := f1.frameTrans (frame_setConns _ (mapDelete s.conns o.key)
          (mapDelete_sublist _ _))
        have h2 := keeps_of_frame f2 rfl hev
        by_cases hcl : o.closedByUs = true
        · simp only [hcl, if_true]; exact h2
        · simp only [hcl, Bool.false_eq_true, if_false]
          have hne : j ≠ c.owner := by
            rintro rfl
            obtain ⟨p, hp, hp1, _⟩ := hev
            rw [ho] at hp
            cases hp
            exact hcl hp1
          exact h2.keepsTrans (keeps_scheduleReconnect env _ _ j hne h2.1)

theorem keeps_onTimer (env : Env) (s : Mux) (r j : Nat) (hev : Evicted s j) :
    Keeps j s (onTimer env s r) := by
  unfold onTimer
  cases ho : s.records[r]? with
  | none => exact Keeps.keepsRefl hev
  | some o =>
    cases ht : o.timer with
    | none => simp only [ht]; exact Keeps.keepsRefl hev
    | some d =>
      have hne : j ≠ r := by
        rintro rfl
        obtain ⟨p, hp, _, hp2⟩ := hev
        rw [ho] at hp
        cases hp
        rw [ht] at hp2
        cases hp2
      have h1 : Keeps j s { s with records := s.records.set r { o with timer := none } } :=
        keeps_of_same j s _ (by simp [getElem?_set_map, hne]) rfl hev
      by_cases hk : o.key ∈ s.desired
      · simp only [ht, hk, not_true_eq_false, if_false]
        exact h1.keepsTrans (keeps_openWs env _ _ j hne h1.1)
      · simp only [ht, hk, not_false_eq_true, if_true]
        exact h1

theorem keeps_step (env : Env) (s : Mux) (e : Event) (j : Nat) (hev : Evicted s j) :
    Keeps j s (step env s e) := by
  cases e with
  | sync keys => exact keeps_sync env s keys j hev
  | setMax n => exact keeps_of_same j s _ rfl rfl hev
  | closeAll => exact keeps_closeAll s j hev
  | wsOpen w => exact keeps_onWsOpen s w j hev
  | wsClose w => exact keeps_onWsClose env s w j hev
  | wsError w => exact keeps_wsCloseCall s w j hev
  | timer r => exact keeps_onTimer env s r j hev

theorem keeps_run (env : Env) (es : List Event) (j : Nat) :
    ∀ s : Mux, Evicted s j → Keeps j s (run env s es) :=
  keeps_foldl j (step env) (fun st e h => keeps_step env st e j h) es

theorem foldl_closeKey_conns (ks : List Key) :
    ∀ s : Mux, (ks.foldl closeKey s).conns = s.conns := by
  induction ks with
  | nil => intro s; rfl
  | cons k ks ih =>
    intro s
    simp only [List.foldl_cons, ih]
    unfold closeKey
    cases mapGet s.conns k with
    | none => rfl
    | some r => exact (close_other s r).1

theorem foldl_closeKey_evicted (ks : List Key) :
    ∀ (s : Mux) (k : Key) (r : Nat) (o : ConnRecord), k ∈ ks → mapGet s.conns k = some r →
      s.records[r]? = some o → Evicted (ks.foldl closeKey s) r := by
  induction ks with
  | nil => intro s k r o hk; cases hk
  | cons x ks ih =>
    intro s k r o hk hg ho
    simp only [List.foldl_cons]
    rcases List.mem_cons.mp hk with hkx | hk
    · subst hkx
      have h1 : Evicted (closeKey s k) r := by
        unfold closeKey
        rw [hg]
        exact evicted_of_close s r o ho
      exact (keeps_foldl r closeKey (fun st y h => keeps_closeKey st y r h) ks _ h1).1
    · have hc : (closeKey s x).conns = s.conns := foldl_closeKey_conns [x] s
      obtain ⟨p, hp⟩ := getElem?_some_of_length_eq s.records (closeKey s x).records r o
        (frame_closeKey s x).recLen ho
      exact ih (closeKey s x) k r p hk (by rw [hc]; exact hg) hp

theorem evicted_closeAll (s : Mux) (h : WF s) (k : Key) (r : Nat) (hk : (k, r) ∈ s.conns) :
    Evicted (closeAll s) r := by
  obtain ⟨o, ho, _⟩ := h.tracked k r hk
  have hg := mapGet_eq_some_of_mem _ _ _ h.keysNodup hk
  have h1 := foldl_closeKey_evicted (s.conns.map Prod.fst) { s with desired := [] } k r o
    (List.mem_map.mpr ⟨(k, r), hk, rfl⟩) hg ho
  obtain ⟨p, hp, hp1, hp2⟩ := h1
  exact ⟨p, hp, hp1, hp2⟩

theorem evicted_sync (env : Env) (s : Mux) (h : WF s) (keys : List Key) (k : Key) (r : Nat)
    (hk : (k, r) ∈ s.conns) (hd : k ∉ keys.take s.maxConns.toNat) :
    Evicted (sync env s keys) r := by
  obtain ⟨o, ho, _⟩ := h.tracked k r hk
  have hcap : 0 ≤ s.maxConns := by have := h.capLo; omega
  have hd' : k ∉ (sync env s keys).desired :=
    fun hx => hd ((mem_sync_desired env s keys hcap k).mp hx)
  have hrec := (sync_records_old env s keys h r (List.getElem?_eq_some.mp ho).1).1
    ⟨k, hk, hd'⟩
  exact ⟨closedRec o, by rw [hrec, ho]; rfl, rfl, rfl⟩

theorem onTimer_not_desired (env : Env) (s : Mux) (r : Nat) (o : ConnRecord)
    (ho : s.records[r]? = some o) (hk : o.key ∉ s.desired) :
    (onTimer env s r).channels = s.channels ∧ (onTimer env s r).opens = s.opens := by
  unfold onTimer
  rw [ho]
  dsimp only
  split
  · exact ⟨rfl, rfl⟩
  · simp [hk]

/-- C10: `obj.close` leaves its record evicted (closed-by-us flag set, no pending timer);
`sync` does so for every record of the table whose key is outside the truncated list and
`closeAll` for every record of the table; once a record is evicted, whatever happens next
(any sequence of `sync`, `setMax`, `closeAll`, channel events and timer firings) it stays
evicted and no channel is ever opened through it; and a retry timer that fires while its
key is not in the desired set opens nothing. -/
theorem evicted_never_reopens (env : Env) (s : Mux) (h : WF s) :
    (∀ (r : Nat) (o : ConnRecord), s.records[r]? = some o → Evicted (close s r) r) ∧
    (∀ (keys : List Key) (k : Key) (r : Nat), (k, r) ∈ s.conns →
      k ∉ keys.take s.maxConns.toNat → Evicted (sync env s keys) r) ∧
    (∀ (k : Key) (r : Nat), (k, r) ∈ s.conns → Evicted (closeAll s) r) ∧
    (∀ (r : Nat) (es : List Event), Evicted s r →
      Evicted (run env s es) r ∧ channelsOf (run env s es) r = channelsOf s r) ∧
    (∀ (r : Nat) (o : ConnRecord), s.records[r]? = some o → o.key ∉ s.desired →
      (onTimer env s r).channels = s.channels ∧ (onTimer env s r).opens = s.opens) := by
  refine ⟨fun r o ho => evicted_of_close s r o ho,
    fun keys k r hk hd => evicted_sync env s h keys k r hk hd,
    fun k r hk => evicted_closeAll s h k r hk, ?_,
    fun r o ho hk => onTimer_not_desired env s r o ho hk⟩
  intro r es hev
  obtain ⟨hev', extra, hown, hnot⟩ := keeps_run env es r s hev
  exact ⟨hev', channelsOf_eq_of_owners s _ r extra hown hnot⟩

/-- Witness of C10: after `sync([A])`, the call `sync([])` evicts record 0; the close event
of its channel, a later `sync([A])` and a timer event for record 0 open no channel through
it (its only channel remains channel 0). -/
theorem evicted_never_reopens_witness :
    Evicted (sync calmEnv (sync calmEnv init ["A"]) []) 0 ∧
    channelsOf (run calmEnv (sync calmEnv (sync calmEnv init ["A"]) [])
      [Event.wsClose 0, Event.sync ["A"], Event.timer 0]) 0 = [0] :=
  ⟨(evicted_never_reopens calmEnv (sync calmEnv init ["A"])
      (WF_sync calmEnv init ["A"] WF_init)).2.1 [] "A" 0 (by decide) (by decide),
    by decide⟩

/-! ## Backoff -/

theorem backoffSeq_le (k : Nat) : backoffSeq k ≤ 10000 := by
  cases k with
  | zero => decide
  | succ k => exact Nat.min_le_left _ _

theorem backoffSeq_ge_six (n : Nat) : backoffSeq (6 + n) = 10000 := by
  induction n with
  | zero => decide
  | succ n ih =>
    show min 10000 (backoffSeq (6 + n) * 9 / 5) = 10000
    rw [ih]
    decide

theorem jitter_lt (r : Rand) : r.jitter < 250 := by
  unfold Rand.jitter
  have h := r.lt
  rw [Nat.div_lt_iff_lt_mul (by omega)]
  omega

theorem scheduleReconnect_randoms (env : Env) (s : Mux) (r : Nat) (o : ConnRecord)
    (ho : s.records[r]? = some o) (hk : o.key ∈ s.desired) :
    (scheduleReconnect env s r).randoms = s.randoms + 1 := by
  unfold scheduleReconnect
  simp [ho, hk]

/-- An unexpected close of a channel whose record is still wanted schedules a retry. -/
theorem onWsClose_unexpected (env : Env) (s : Mux) (w : Nat) (c : Channel) (p : ConnRecord)
    (hc : s.channels[w]? = some c) (hst : c.status ≠ WsStatus.closed)
    (hp : s.records[c.owner]? = some p) (hcl : p.closedByUs = false)
    (hk : p.key ∈ s.desired) :
    (onWsClose env s w).records[c.owner]? = some
      { p with
        backoffMs := min 10000 (p.backoffMs * 9 / 5)
        timer := some (min 10000 p.backoffMs + (env.random s.randoms).jitter) } ∧
    (onWsClose env s w).desired = s.desired ∧
    (onWsClose env s w).randoms = s.randoms + 1 := by
  unfold onWsClose
  simp only [hc, hst, if_false, hp, hcl, Bool.false_eq_true]
  refine ⟨?_, ?_, ?_⟩
  · rw [scheduleReconnect_records_get]
    simp [hp, hk, hcl]
  · rw [(scheduleReconnect_other env _ _).2.1]
  · exact scheduleReconnect_randoms env _ c.owner p hp hk

/-- A retry timer that fires while the key is desired reopens a channel. -/
theorem onTimer_reopen (env : Env) (s : Mux) (r d : Nat) (p : ConnRecord)
    (hno : env.wsThrows s.opens = false) (hp : s.records[r]? = some p)
    (ht : p.timer = some d) (hk : p.key ∈ s.desired) :
    (onTimer env s r).records[r]? = some
      { p with timer := none, ws := some s.channels.length, closedByUs := false } ∧
    (onTimer env s r).channels[s.channels.length]?
      = some { owner := r, status := WsStatus.connecting } ∧
    (onTimer env s r).desired = s.desired ∧
    (onTimer env s r).randoms = s.randoms := by
  unfold onTimer
  simp only [hp, ht, hk, not_true_eq_false, if_false]
  refine ⟨?_, ?_, ?_, ?_⟩
  · rw [openWs_records_get]
    simp [getElem?_set_map, hp, hno]
  · rw [openWs_channels]
    simp [getElem?_set_map, hp, hno]
  · rw [(openWs_other env _ _).2.1]
  · unfold openWs
    simp [getElem?_set_map, hp, hno]

theorem failOnce_after_timer (env : Env) (s : Mux) (r d : Nat) (p : ConnRecord)
    (hno : env.wsThrows s.opens = false) (hp : s.records[r]? = some p)
    (ht : p.timer = some d) (hk : p.key ∈ s.desired) :
    (failOnce env (onTimer env s r) r).records[r]? = some
      { p with
        ws := some s.channels.length
        closedByUs := false
        backoffMs := min 10000 (p.backoffMs * 9 / 5)
        timer := some (min 10000 p.backoffMs + (env.random s.randoms).jitter) } ∧
    (failOnce env (onTimer env s r) r).desired = s.desired ∧
    (failOnce env (onTimer env s r) r).randoms = s.randoms + 1 := by
  obtain ⟨h1, h2, h3, h4⟩ := onTimer_reopen env s r d p hno hp ht hk
  have hcur : currentWs (onTimer env s r) r = some s.channels.length := by
    simp [currentWs, h1]
  unfold failOnce
  rw [hcur]
  have h := onWsClose_unexpected env (onTimer env s r) s.channels.length
    { owner := r, status := WsStatus.connecting }
    { p with timer := none, ws := some s.channels.length, closedByUs := false }
    h2 (by intro hx; cases hx) h1 rfl (by rw [h3]; exact hk)
  rw [h3, h4] at h
  exact h

/-- The retry scheduled after each of `k + 1` consecutive unexpected closes. -/
theorem afterFailures_record (env : Env) (hno : ∀ n, env.wsThrows n = false) (s : Mux)
    (r w : Nat) (o : ConnRecord) (c : Channel) (ho : s.records[r]? = some o)
    (hws : o.ws = some w) (hcl : o.closedByUs = false) (hb : o.backoffMs = 500)
    (hk : o.key ∈ s.desired) (hc : s.channels[w]? = some c) (hown : c.owner = r)
    (hst : c.status ≠ WsStatus.closed) (k : Nat) :
    (afterFailures env s r k).desired = s.desired ∧
    (afterFailures env s r k).randoms = s.randoms + k + 1 ∧
    ∃ p : ConnRecord, (afterFailures env s r k).records[r]? = some p ∧
      p.key = o.key ∧ p.closedByUs = false ∧ p.backoffMs = backoffSeq (k + 1) ∧
      p.timer = some (backoffSeq k + (env.random (s.randoms + k)).jitter) := by
  induction k with
  | zero =>
    have hcur : currentWs s r = some w := by simp [currentWs, ho, hws]
    subst hown
    have h := onWsClose_unexpected env s w c o hc hst ho hcl hk
    simp only [afterFailures, failOnce, hcur]
    refine ⟨h.2.1, h.2.2, _, h.1, rfl, hcl, ?_, ?_⟩
    · simp [backoffSeq, hb]
    · simp [backoffSeq, hb]
  | succ k ih =>
    obtain ⟨hd, hr, p, hp, hkey, hpc, hpb, hpt⟩ := ih
    have h := failOnce_after_timer env (afterFailures env s r k) r _ p (hno _) hp hpt
      (by rw [hd, hkey]; exact hk)
    simp only [afterFailures]
    refine ⟨h.2.1.trans hd, by rw [h.2.2, hr]; omega, _, h.1, hkey, rfl, ?_, ?_⟩
    · show min 10000 (p.backoffMs * 9 / 5) = backoffSeq (k + 1 + 1)
      rw [hpb]
      rfl
    · show some (min 10000 p.backoffMs + _) = some _
      rw [hpb, hr, Nat.min_eq_right (backoffSeq_le _), Nat.add_assoc s.randoms k 1]

theorem onWsOpen_resets (s : Mux) (w : Nat) (c : Channel) (p : ConnRecord)
    (hc : s.channels[w]? = some c) (hst : c.status = WsStatus.connecting)
    (hp : s.records[c.owner]? = some p) :
    (onWsOpen s w).records[c.owner]? = some { p with backoffMs := 500 } := by
  unfold onWsOpen
  simp [hc, hst, hp, getElem?_set_map]

/-- C9 (as amended): within one record whose key stays desired and whose `obj.backoffMs`
is 500 (a fresh record, or after an `open` event), the retry scheduled after the `k`-th
consecutive unexpected close (`k = 0, 1, 2, ...`, each reopened channel closing before its
`open` event) is delayed by `b k` milliseconds plus a jitter `j` with `0 ≤ j < 250`, where
`b 0 = 500` and `b (k + 1) = min(10000, floor(1.8 * b k))`, that is 500, 900, 1620, 2916,
5248, 9446 and then 10000; and the `open` event of a channel resets the base delay of its
record to 500. -/
theorem backoff_schedule (env : Env) (hno : ∀ n, env.wsThrows n = false) (s : Mux)
    (r w : Nat) (o : ConnRecord) (c : Channel) (ho : s.records[r]? = some o)
    (hws : o.ws = some w) (hcl : o.closedByUs = false) (hb : o.backoffMs = 500)
    (hk : o.key ∈ s.desired) (hc : s.channels[w]? = some c) (hown : c.owner = r)
    (hst : c.status ≠ WsStatus.closed) :
    (∀ k : Nat, ∃ p : ConnRecord, (afterFailures env s r k).records[r]? = some p ∧
      p.timer = some (backoffSeq k + (env.random (s.randoms + k)).jitter) ∧
      (env.random (s.randoms + k)).jitter < 250) ∧
    (List.range 7).map backoffSeq = [500, 900, 1620, 2916, 5248, 9446, 10000] ∧
    (∀ k : Nat, 6 ≤ k → backoffSeq k = 10000) ∧
    (∀ k : Nat, backoffSeq (k + 1) = min 10000 (backoffSeq k * 9 / 5)) ∧
    (c.status = WsStatus.connecting →
      (onWsOpen s w).records[r]? = some { o with backoffMs := 500 }) ∧
    (∀ (t : Mux) (v : Nat) (d : Channel) (p : ConnRecord), t.channels[v]? = some d →
      d.status = WsStatus.connecting → t.records[d.owner]? = some p →
      (onWsOpen t v).records[d.owner]? = some { p with backoffMs := 500 }) := by
  refine ⟨?_, by decide, ?_, fun _ => rfl, ?_, ?_⟩
  · intro k
    obtain ⟨_, _, p, hp, _, _, _, hpt⟩ :=
      afterFailures_record env hno s r w o c ho hws hcl hb hk hc hown hst k
    exact ⟨p, hp, hpt, jitter_lt _⟩
  · intro k hk6
    obtain ⟨n, rfl⟩ := Nat.exists_eq_add_of_le hk6
    exact backoffSeq_ge_six n
  · intro hconn
    subst hown
    exact onWsOpen_resets s w c o hc hconn ho
  · intro t v d p hd hconn hp
    exact onWsOpen_resets t v d p hd hconn hp

/-- Witness of C9: after `sync([A])`, the fifth consecutive unexpected close of record 0
schedules its retry after 5248 ms (jitter 0 in this environment). -/
theorem backoff_schedule_witness :
    ∃ p : ConnRecord,
      (afterFailures calmEnv (sync calmEnv init ["A"]) 0 4).records[0]? = some p ∧
      p.timer = some (backoffSeq 4 + (calmEnv.random ((sync calmEnv init ["A"]).randoms + 4)).jitter) ∧
      (calmEnv.random ((sync calmEnv init ["A"]).randoms + 4)).jitter < 250 :=
  (backoff_schedule calmEnv (fun _ => rfl) (sync calmEnv init ["A"]) 0 0
    { ws := some 0, key := "A", backoffMs := 500, timer := none, closedByUs := false }
    { owner := 0, status := WsStatus.connecting } (by decide) rfl rfl rfl (by decide)
    (by decide) rfl (by decide)).1 4

/-- Counterexample to C9 as stated: the retry after the fifth consecutive unexpected close
(`k = 4`) is scheduled with base delay 5248 ms, while `min(10000, 500 * 1.8^4)` is 5248.8. -/
theorem backoff_fifth_retry :
    (run calmEnv init [Event.sync ["A"], Event.wsClose 0, Event.timer 0, Event.wsClose 1,
      Event.timer 0, Event.wsClose 2, Event.timer 0, Event.wsClose 3, Event.timer 0,
      Event.wsClose 4]).records.map (fun o => o.timer) = [some 5248] ∧
    backoffSeq 4 = 5248 ∧
    ((5248 : ℚ) ≠ min 10000 (500 * (9 / 5) ^ 4)) := by
  refine ⟨by decide, by decide, ?_⟩
  norm_num [min_def]

/-! ## Rounding to the nearest double -/

theorem roundHalfEven_ge (x : ℚ) : ⌊x⌋ ≤ roundHalfEven x := by
  unfold roundHalfEven
  split
  · exact le_refl _
  · split
    · omega
    · split <;> omega

theorem roundHalfEven_le (x : ℚ) : roundHalfEven x ≤ ⌈x⌉ := by
  have hfl := Int.floor_le x
  by_cases hx : x = ⌊x⌋
  · have h0 : x - ⌊x⌋ < 1 / 2 := by rw [← hx]; norm_num
    unfold roundHalfEven
    rw [if_pos h0]
    exact Int.floor_le_ceil x
  · have hlt : (⌊x⌋ : ℚ) < x := lt_of_le_of_ne hfl (fun h => hx h.symm)
    have hc : ⌊x⌋ + 1 ≤ ⌈x⌉ := by
      rw [Int.add_one_le_iff, Int.lt_ceil]
      exact hlt
    unfold roundHalfEven
    split
    · omega
    · split
      · exact hc
      · split <;> omega

theorem le_roundHalfEven (x : ℚ) (m : Int) (h : (m : ℚ) ≤ x) : m ≤ roundHalfEven x :=
  le_trans (Int.le_floor.mpr h) (roundHalfEven_ge x)

theorem roundHalfEven_le_of_le (x : ℚ) (m : Int) (h : x ≤ (m : ℚ)) : roundHalfEven x ≤ m :=
  le_trans (roundHalfEven_le x) (Int.ceil_le.mpr h)

theorem roundHalfEven_err (x : ℚ) : |(roundHalfEven x : ℚ) - x| ≤ 1 / 2 := by
  have hfl := Int.floor_le x
  have hlt := Int.lt_floor_add_one x
  unfold roundHalfEven
  split
  · rename_i h
    rw [abs_le]
    constructor <;> linarith
  · rename_i h
    have h' : 1 / 2 ≤ x - ⌊x⌋ := not_lt.mp h
    split
    · push_cast
      rw [abs_le]
      constructor <;> linarith
    · rename_i h2
      have h2' : x - ⌊x⌋ ≤ 1 / 2 := not_lt.mp h2
      split
      · rw [abs_le]
        constructor <;> linarith
      · push_cast
        rw [abs_le]
        constructor <;> linarith

theorem roundHalfEven_eq_of_near (x : ℚ) (m : Int) (h : |x - m| < 1 / 2) :
    roundHalfEven x = m := by
  rw [abs_lt] at h
  have h1 := roundHalfEven_err x
  rw [abs_le] at h1
  have hlt : ((roundHalfEven x : Int) : ℚ) < (m : ℚ) + 1 := by linarith [h.1, h.2, h1.1, h1.2]
  have hgt : (m : ℚ) - 1 < ((roundHalfEven x : Int) : ℚ) := by linarith [h.1, h.2, h1.1, h1.2]
  have a : roundHalfEven x < m + 1 := by exact_mod_cast hlt
  have b : m - 1 < roundHalfEven x := by exact_mod_cast hgt
  omega

/-- A tie between two integers goes to the even one. -/
theorem roundHalfEven_tie (k : Int) :
    roundHalfEven ((k : ℚ) + 1 / 2) = if k % 2 = 0 then k else k + 1 := by
  have hf : ⌊(k : ℚ) + 1 / 2⌋ = k := by
    rw [Int.floor_eq_iff]
    constructor <;> norm_num
  unfold roundHalfEven
  rw [hf]
  have : (k : ℚ) + 1 / 2 - k = 1 / 2 := by ring
  rw [this, if_neg (lt_irrefl _), if_neg (lt_irrefl _)]

theorem binade_le_of_lt (x : ℚ) (k : Int) (hx : x ≠ 0) (hk : -1022 ≤ k) (h : |x| < 2 ^ (k + 1)) :
    binade x ≤ k := by
  unfold binade
  apply max_le _ hk
  have hpos : 0 < |x| := abs_pos.mpr hx
  have := (Int.lt_zpow_iff_log_lt (b := 2) (by norm_num) hpos).mp (by simpa using h)
  omega

theorem pow_binade_le (x : ℚ) (hx : (2 : ℚ) ^ (-1022 : Int) ≤ |x|) :
    (2 : ℚ) ^ binade x ≤ |x| := by
  have hpos : 0 < |x| := lt_of_lt_of_le (zpow_pos (by norm_num) _) hx
  have hlog : (-1022 : Int) ≤ Int.log 2 |x| :=
    (Int.zpow_le_iff_le_log (b := 2) (by norm_num) hpos).mp (by simpa using hx)
  unfold binade
  rw [max_eq_left hlog]
  have := Int.zpow_log_le_self (b := 2) (r := |x|) (by norm_num) hpos
  simpa using this

theorem binade_eq (x : ℚ) (e : Int) (he : -1022 ≤ e) (h1 : (2 : ℚ) ^ e ≤ |x|)
    (h2 : |x| < 2 ^ (e + 1)) : binade x = e := by
  have hpos : 0 < |x| := lt_of_lt_of_le (zpow_pos (by norm_num) _) h1
  have a : e ≤ Int.log 2 |x| :=
    (Int.zpow_le_iff_le_log (b := 2) (by norm_num) hpos).mp (by simpa using h1)
  have b : Int.log 2 |x| < e + 1 :=
    (Int.lt_zpow_iff_log_lt (b := 2) (by norm_num) hpos).mp (by simpa using h2)
  unfold binade
  rw [max_eq_left (by omega)]
  omega

/-- The rounding error is at most half a unit in the last place. -/
theorem roundDouble_err (x : ℚ) : |roundDouble x - x| ≤ 2 ^ (binade x - 53) := by
  unfold roundDouble
  split
  · rename_i h
    rw [h]
    simp only [sub_zero, abs_zero]
    exact le_of_lt (zpow_pos (by norm_num) _)
  · have hu : (0 : ℚ) < 2 ^ (binade x - 52) := zpow_pos (by norm_num) _
    have herr := roundHalfEven_err (x / 2 ^ (binade x - 52))
    have heq : (roundHalfEven (x / 2 ^ (binade x - 52)) : ℚ) * 2 ^ (binade x - 52) - x =
        ((roundHalfEven (x / 2 ^ (binade x - 52)) : ℚ) - x / 2 ^ (binade x - 52)) *
          2 ^ (binade x - 52) := by
      field_simp
    rw [heq, abs_mul, abs_of_pos hu]
    have h53 : (2 : ℚ) ^ (binade x - 53) = 1 / 2 * 2 ^ (binade x - 52) := by
      rw [show binade x - 53 = (binade x - 52) + (-1) by ring, zpow_add₀ (by norm_num)]
      norm_num
      ring
    rw [h53]
    exact mul_le_mul_of_nonneg_right herr (le_of_lt hu)

/-- Below 2^52 the rounding error is at most a quarter. -/
theorem roundDouble_err_quarter (x : ℚ) (h0 : 0 ≤ x) (h : x < 2 ^ (52 : Nat)) :
    |roundDouble x - x| ≤ 1 / 4 := by
  by_cases hx : x = 0
  · rw [hx]
    simp [roundDouble]
  · have hb : binade x ≤ 51 := by
      apply binade_le_of_lt x 51 hx (by norm_num)
      rw [abs_of_nonneg h0]
      have : (2 : ℚ) ^ ((51 : Int) + 1) = 2 ^ (52 : Nat) := by norm_num
      rw [this]
      exact h
    refine le_trans (roundDouble_err x) ?_
    have : (2 : ℚ) ^ (binade x - 53) ≤ 2 ^ (-2 : Int) :=
      zpow_le_zpow_right₀ (by norm_num) (by omega)
    refine le_trans this ?_
    norm_num

/-- The rounding error relative to the magnitude, or absolute in the subnormal range. -/
theorem roundDouble_err_rel (x : ℚ) :
    |roundDouble x - x| ≤ |x| / 2 ^ (53 : Nat) ∨ |roundDouble x - x| ≤ 2 ^ (-1075 : Int) := by
  by_cases hx : (2 : ℚ) ^ (-1022 : Int) ≤ |x|
  · left
    refine le_trans (roundDouble_err x) ?_
    have h := pow_binade_le x hx
    rw [show binade x - 53 = binade x + (-53) by ring, zpow_add₀ (by norm_num)]
    have h53 : (2 : ℚ) ^ (-53 : Int) = 1 / 2 ^ (53 : Nat) := by
      rw [zpow_neg]
      norm_num
    rw [h53, mul_one_div]
    exact div_le_div_of_nonneg_right h (by positivity)
  · right
    have hlt : |x| < 2 ^ (-1022 : Int) := not_le.mp hx
    by_cases h0 : x = 0
    · rw [h0]
      simp only [roundDouble, if_true, sub_zero, abs_zero]
      exact le_of_lt (zpow_pos (by norm_num) _)
    · have hb : binade x ≤ -1022 := by
        unfold binade
        apply max_le _ (le_refl _)
        have hpos : 0 < |x| := abs_pos.mpr h0
        have := (Int.lt_zpow_iff_log_lt (b := 2) (x := -1022) (by norm_num) hpos).mp
          (by rw [Nat.cast_ofNat]; exact hlt)
        omega
      refine le_trans (roundDouble_err x) ?_
      exact zpow_le_zpow_right₀ (by norm_num) (by omega)

/-- An integer below `x` stays below the double nearest to `x` (magnitudes below 2^53). -/
theorem le_roundDouble (x : ℚ) (n : Int) (hx : |x| < 2 ^ (53 : Nat)) (h : (n : ℚ) ≤ x) :
    (n : ℚ) ≤ roundDouble x := by
  unfold roundDouble
  split
  · rename_i h0
    rw [h0] at h
    exact h
  · rename_i h0
    have hb : binade x ≤ 52 := by
      apply binade_le_of_lt x 52 h0 (by norm_num)
      have : (2 : ℚ) ^ ((52 : Int) + 1) = 2 ^ (53 : Nat) := by norm_num
      rw [this]
      exact hx
    obtain ⟨k, hk⟩ : ∃ k : Nat, (k : Int) = 52 - binade x := ⟨(52 - binade x).toNat, by omega⟩
    have hu : (2 : ℚ) ^ (binade x - 52) = 1 / 2 ^ k := by
      rw [show binade x - 52 = -(k : Int) by omega, zpow_neg, zpow_natCast]
      norm_num
    rw [hu]
    have hpos : (0 : ℚ) < 2 ^ k := by positivity
    have hm : ((n * 2 ^ k : Int) : ℚ) ≤ x / (1 / 2 ^ k) := by
      push_cast
      rw [div_div_eq_mul_div, div_one]
      exact mul_le_mul_of_nonneg_right h (le_of_lt hpos)
    have hr := le_roundHalfEven _ _ hm
    have hr' : ((n * 2 ^ k : Int) : ℚ) ≤ (roundHalfEven (x / (1 / 2 ^ k)) : ℚ) := by
      exact_mod_cast hr
    push_cast at hr'
    rw [mul_one_div, le_div_iff₀ hpos]
    exact hr'

/-- An integer above `x` stays above the double nearest to `x` (magnitudes below 2^53). -/
theorem roundDouble_le (x : ℚ) (n : Int) (hx : |x| < 2 ^ (53 : Nat)) (h : x ≤ (n : ℚ)) :
    roundDouble x ≤ (n : ℚ) := by
  unfold roundDouble
  split
  · rename_i h0
    rw [h0] at h
    exact h
  · rename_i h0
    have hb : binade x ≤ 52 := by
      apply binade_le_of_lt x 52 h0 (by norm_num)
      have : (2 : ℚ) ^ ((52 : Int) + 1) = 2 ^ (53 : Nat) := by norm_num
      rw [this]
      exact hx
    obtain ⟨k, hk⟩ : ∃ k : Nat, (k : Int) = 52 - binade x := ⟨(52 - binade x).toNat, by omega⟩
    have hu : (2 : ℚ) ^ (binade x - 52) = 1 / 2 ^ k := by
      rw [show binade x - 52 = -(k : Int) by omega, zpow_neg, zpow_natCast]
      norm_num
    rw [hu]
    have hpos : (0 : ℚ) < 2 ^ k := by positivity
    have hm : x / (1 / 2 ^ k) ≤ ((n * 2 ^ k : Int) : ℚ) := by
      push_cast
      rw [div_div_eq_mul_div, div_one]
      exact mul_le_mul_of_nonneg_right h (le_of_lt hpos)
    have hr := roundHalfEven_le_of_le _ _ hm
    have hr' : (roundHalfEven (x / (1 / 2 ^ k)) : ℚ) ≤ ((n * 2 ^ k : Int) : ℚ) := by
      exact_mod_cast hr
    push_cast at hr'
    rw [mul_one_div, div_le_iff₀ hpos]
    exact hr'

/-- Integers of magnitude below 2^53 are doubles. -/
theorem roundDouble_intCast (n : Int) (h : |n| < 2 ^ (53 : Nat)) :
    roundDouble (n : ℚ) = n := by
  have hx : |(n : ℚ)| < 2 ^ (53 : Nat) := by
    rw [← Int.cast_abs]
    exact_mod_cast h
  exact le_antisymm (roundDouble_le _ n hx (le_refl _)) (le_roundDouble _ n hx (le_refl _))

theorem roundDouble_nonneg (x : ℚ) (h : 0 ≤ x) : 0 ≤ roundDouble x := by
  unfold roundDouble
  split
  · exact le_refl _
  · have hu : (0 : ℚ) < 2 ^ (binade x - 52) := zpow_pos (by norm_num) _
    have h0 : ((0 : Int) : ℚ) ≤ x / 2 ^ (binade x - 52) := by
      simpa using div_nonneg h (le_of_lt hu)
    have hr : (0 : Int) ≤ roundHalfEven (x / 2 ^ (binade x - 52)) := le_roundHalfEven _ _ h0
    exact mul_nonneg (by exact_mod_cast hr) (le_of_lt hu)

theorem roundInt_of_lt (n : Int) (h : |n| < 2 ^ (53 : Nat)) : roundInt n = n := by
  unfold roundInt
  rw [roundDouble_intCast n h, Int.floor_intCast]

/-- The double nearest to an integer is an integer. -/
theorem roundInt_cast (n : Int) : ((roundInt n : Int) : ℚ) = roundDouble (n : ℚ) := by
  by_cases h : |n| < 2 ^ (53 : Nat)
  · rw [roundInt_of_lt n h, roundDouble_intCast n h]
  · have hge : (2 : ℚ) ^ (53 : Int) ≤ |(n : ℚ)| := by
      rw [← Int.cast_abs]
      have : (2 : Int) ^ (53 : Nat) ≤ |n| := not_lt.mp h
      have h2 : ((2 ^ (53 : Nat) : Int) : ℚ) ≤ ((|n| : Int) : ℚ) := by exact_mod_cast this
      have e : (2 : ℚ) ^ (53 : Int) = ((2 ^ (53 : Nat) : Int) : ℚ) := by norm_num
      rw [e]
      exact h2
    have hpos : 0 < |(n : ℚ)| := lt_of_lt_of_le (zpow_pos (by norm_num) _) hge
    have hlog : (53 : Int) ≤ Int.log 2 |(n : ℚ)| :=
      (Int.zpow_le_iff_le_log (b := 2) (by norm_num) hpos).mp (by simpa using hge)
    have hb : 53 ≤ binade (n : ℚ) := le_trans hlog (le_max_left _ _)
    have hn0 : (n : ℚ) ≠ 0 := by
      intro h0
      rw [h0, abs_zero] at hpos
      exact lt_irrefl _ hpos
    obtain ⟨k, hk⟩ : ∃ k : Nat, (k : Int) = binade (n : ℚ) - 52 :=
      ⟨(binade (n : ℚ) - 52).toNat, by omega⟩
    have hval : roundDouble (n : ℚ) =
        ((roundHalfEven ((n : ℚ) / 2 ^ (binade (n : ℚ) - 52)) * 2 ^ k : Int) : ℚ) := by
      unfold roundDouble
      rw [if_neg hn0, ← hk, zpow_natCast]
      push_cast
      rfl
    unfold roundInt
    rw [hval, Int.floor_intCast]

theorem roundDouble_err_lt_inv (q : ℚ) (s r : Nat) (hr : 0 < r) (hs : s < 2 ^ 53)
    (hr2 : r < 2 ^ 53) (hq : q = (s : ℚ) / r) : |roundDouble q - q| < 1 / (r : ℚ) := by
  have hrpos : (0 : ℚ) < r := by exact_mod_cast hr
  have hs' : (s : ℚ) < 2 ^ (53 : Nat) := by exact_mod_cast hs
  have hr' : (r : ℚ) < 2 ^ (53 : Nat) := by exact_mod_cast hr2
  have hq0 : 0 ≤ q := by rw [hq]; positivity
  rcases roundDouble_err_rel q with h | h
  · refine lt_of_le_of_lt h ?_
    rw [abs_of_nonneg hq0, hq, div_div, div_lt_div_iff₀ (by positivity) hrpos]
    have : (s : ℚ) * r < 1 * (r * 2 ^ (53 : Nat)) := by
      rw [one_mul, mul_comm (r : ℚ)]
      exact mul_lt_mul_of_pos_right hs' hrpos
    exact this
  · refine lt_of_le_of_lt h ?_
    rw [lt_div_iff₀ hrpos]
    have e : (2 : ℚ) ^ (-1075 : Int) ≤ 2 ^ (-53 : Int) :=
      zpow_le_zpow_right₀ (by norm_num) (by norm_num)
    have e2 : (2 : ℚ) ^ (-53 : Int) * 2 ^ (53 : Nat) = 1 := by
      rw [zpow_neg]
      norm_num
    have e3 : (0 : ℚ) < 2 ^ (-1075 : Int) := zpow_pos (by norm_num) _
    calc (2 : ℚ) ^ (-1075 : Int) * r < 2 ^ (-1075 : Int) * 2 ^ (53 : Nat) :=
          mul_lt_mul_of_pos_left hr' e3
      _ ≤ 2 ^ (-53 : Int) * 2 ^ (53 : Nat) := mul_le_mul_of_nonneg_right e (by positivity)
      _ = 1 := e2

/-- The double nearest to a positive rational from its binade and its rounded significand. -/
theorem roundDouble_eval (x : ℚ) (e m : Int) (hx : 0 < x) (he : -1022 ≤ e)
    (h1 : (2 : ℚ) ^ e ≤ x) (h2 : x < 2 ^ (e + 1))
    (hm : roundHalfEven (x / 2 ^ (e - 52)) = m) :
    roundDouble x = (m : ℚ) * 2 ^ (e - 52) := by
  have hb := binade_eq x e he (by rw [abs_of_pos hx]; exact h1) (by rw [abs_of_pos hx]; exact h2)
  unfold roundDouble
  rw [if_neg (ne_of_gt hx), hb, hm]

/-- A double operation whose exact result is below 2^1023 does not overflow. -/
theorem roundDouble_lt_of_lt (x : ℚ) (h0 : 0 ≤ x) (h : x < 2 ^ 1023) :
    |roundDouble x| < 2 ^ 1024 := by
  rw [abs_of_nonneg (roundDouble_nonneg x h0)]
  by_cases hx : x = 0
  · rw [hx]
    unfold roundDouble
    rw [if_pos rfl]
    positivity
  · have hb : binade x ≤ 1022 := by
      apply binade_le_of_lt x 1022 hx (by norm_num)
      rw [abs_of_nonneg h0]
      have e : (2 : ℚ) ^ ((1022 : Int) + 1) = 2 ^ 1023 := by
        rw [show ((1022 : Int) + 1) = ((1023 : Nat) : Int) by norm_num, zpow_natCast]
      rw [e]
      exact h
    have herr := (abs_le.mp (roundDouble_err x)).2
    have hu : (2 : ℚ) ^ (binade x - 53) ≤ 2 ^ (969 : Int) :=
      zpow_le_zpow_right₀ (by norm_num) (by omega)
    have e969 : (2 : ℚ) ^ (969 : Int) = 2 ^ 969 := by
      rw [show (969 : Int) = ((969 : Nat) : Int) by norm_num, zpow_natCast]
    have hbig : (2 : ℚ) ^ 1023 + 2 ^ 969 < 2 ^ 1024 := by norm_num
    rw [e969] at hu
    linarith

/-! ## The viewport window -/

theorem jsSlice_getElem? {α : Type} (xs : List α) (b e : Int) (hb : 0 ≤ b) (he : 0 ≤ e)
    (i : Nat) :
    (jsSlice xs b e)[i]? = if b + i < e then xs[b.toNat + i]? else none := by
  unfold jsSlice
  simp only [not_lt.mpr hb, not_lt.mpr he, if_false, List.getElem?_take, List.getElem?_drop]
  by_cases hbn : b ≤ (xs.length : Int)
  · rw [min_eq_left hbn]
    by_cases hen : e ≤ (xs.length : Int)
    · rw [min_eq_left hen]
      by_cases hlt : b + i < e
      · rw [if_pos hlt, if_pos (by omega)]
      · rw [if_neg hlt, if_neg (by omega)]
    · rw [min_eq_right (by omega)]
      by_cases hin : (i : Int) < xs.length - b
      · rw [if_pos (by omega), if_pos (by omega)]
      · rw [if_neg (by omega)]
        have hnone : xs[b.toNat + i]? = none := List.getElem?_eq_none (by omega)
        rw [hnone]
        simp
  · have hbn2 : min b (xs.length : Int) = xs.length := min_eq_right (by omega)
    have hnone : xs[b.toNat + i]? = none := List.getElem?_eq_none (by omega)
    have hnone2 : xs[(xs.length : Int).toNat + i]? = none :=
      List.getElem?_eq_none (by omega)
    rw [hbn2, hnone, hnone2]
    simp

theorem jsSlice_length {α : Type} (xs : List α) (b e : Int) (hb : 0 ≤ b)
    (hbe : b ≤ e) (hen : e ≤ (xs.length : Int)) : ((jsSlice xs b e).length : Int) = e - b := by
  unfold jsSlice
  simp only [not_lt.mpr hb, not_lt.mpr (le_trans hb hbe), if_false, List.length_take,
    List.length_drop]
  rw [min_eq_left (le_trans hbe hen), min_eq_left hen]
  omega

theorem viewSearch_consts (v : Virt) (items : List TrainRow) (hH : 0 < v.viewportHeight)
    (hR : 0 < v.rowHeight) :
    (viewSearch v items).rowH = v.rowHeight ∧
    (viewSearch v items).start
      = max 0 (roundInt (⌊roundDouble (v.scrollTop / v.rowHeight)⌋ - intOr v.overscan 6)) ∧
    (viewSearch v items).end_
      = min (items.length : Int)
          (roundInt (⌈roundDouble (roundDouble (v.scrollTop + v.viewportHeight) /
            v.rowHeight)⌉ + intOr v.overscan 6)) := by
  have h1 : numOr v.rowHeight 132 = v.rowHeight := by simp [numOr, ne_of_gt hR]
  have h2 : numOr v.viewportHeight 620 = v.viewportHeight := by simp [numOr, ne_of_gt hH]
  have h3 : numOr v.scrollTop 0 = v.scrollTop := by
    unfold numOr
    split
    · rfl
    · rename_i h; simp only [ne_eq, not_not] at h; exact h.symm
  simp only [viewSearch, h1, h2, h3, and_self]

theorem intOr_eq (o : Int) : intOr o 6 = if o = 0 then 6 else o := by
  unfold intOr
  by_cases h : o = 0 <;> simp [h]

/-- `Math.floor` of a double quotient against the floor of the exact quotient. -/
theorem floor_roundDouble (q : ℚ) (h0 : 0 ≤ q) (h : q < 2 ^ (53 : Nat)) :
    ⌊q⌋ ≤ ⌊roundDouble q⌋ ∧ ⌊roundDouble q⌋ ≤ ⌊q⌋ + 1 := by
  have habs : |q| < 2 ^ (53 : Nat) := by rw [abs_of_nonneg h0]; exact h
  constructor
  · rw [Int.le_floor]
    exact le_roundDouble q ⌊q⌋ habs (Int.floor_le q)
  · have hle : roundDouble q ≤ ((⌊q⌋ + 1 : Int) : ℚ) :=
      roundDouble_le q (⌊q⌋ + 1) habs (by push_cast; exact le_of_lt (Int.lt_floor_add_one q))
    exact Int.le_of_lt_add_one (Int.floor_lt.mpr (lt_of_le_of_lt hle (by push_cast; linarith)))

/-- The double quotient `(S + H) / R` against the exact quotient. -/
theorem quot_err (S H R : ℚ) (hS : 0 ≤ S) (hH : 0 < H)
    (hR : (2 : ℚ) ^ (-1074 : Int) ≤ R) (hq : (S + H) / R < 2 ^ (51 : Nat)) :
    |roundDouble (roundDouble (S + H) / R) - (S + H) / R| ≤ 3 / 4 ∧
    0 ≤ roundDouble (S + H) / R ∧ roundDouble (S + H) / R < 2 ^ (52 : Nat) := by
  have hRpos : 0 < R := lt_of_lt_of_le (zpow_pos (by norm_num) _) hR
  have hsum : 0 < S + H := by linarith
  have ha0 : 0 ≤ roundDouble (S + H) := roundDouble_nonneg _ (le_of_lt hsum)
  have h1 : |roundDouble (S + H) / R - (S + H) / R| ≤ 1 / 2 := by
    rw [← sub_div, abs_div, abs_of_pos hRpos, div_le_iff₀ hRpos]
    rcases roundDouble_err_rel (S + H) with h | h
    · refine le_trans h ?_
      rw [abs_of_pos hsum]
      have hq' : S + H < 2 ^ (51 : Nat) * R := (div_lt_iff₀ hRpos).mp hq
      rw [div_le_iff₀ (by positivity)]
      have : (2 : ℚ) ^ (51 : Nat) * R ≤ 1 / 2 * R * 2 ^ (53 : Nat) := by
        have e : (1 : ℚ) / 2 * R * 2 ^ (53 : Nat) = 2 ^ (52 : Nat) * R := by ring
        rw [e]
        exact mul_le_mul_of_nonneg_right (by norm_num) (le_of_lt hRpos)
      linarith
    · refine le_trans h ?_
      have e : (2 : ℚ) ^ (-1075 : Int) = 1 / 2 * 2 ^ (-1074 : Int) := by
        rw [show (-1075 : Int) = -1074 + -1 by norm_num, zpow_add₀ (by norm_num)]
        norm_num
      rw [e]
      exact mul_le_mul_of_nonneg_left hR (by norm_num)
  have hy0 : 0 ≤ roundDouble (S + H) / R := div_nonneg ha0 (le_of_lt hRpos)
  have hy1 : roundDouble (S + H) / R < 2 ^ (52 : Nat) := by
    have := (abs_le.mp h1).2
    have e : (2 : ℚ) ^ (52 : Nat) = 2 ^ (51 : Nat) + 2 ^ (51 : Nat) := by norm_num
    have big : (1 : ℚ) / 2 < 2 ^ (51 : Nat) := by norm_num
    linarith
  have h2 := roundDouble_err_quarter _ hy0 hy1
  refine ⟨?_, hy0, hy1⟩
  have h1' := abs_le.mp h1
  have h2' := abs_le.mp h2
  rw [abs_le]
  constructor <;> linarith [h1'.1, h1'.2, h2'.1, h2'.2]

/-- `Math.ceil` of the double quotient against the ceiling of the exact quotient. -/
theorem ceil_roundDouble (S H R : ℚ) (hS : 0 ≤ S) (hH : 0 < H)
    (hR : (2 : ℚ) ^ (-1074 : Int) ≤ R) (hq : (S + H) / R < 2 ^ (51 : Nat)) :
    ⌈(S + H) / R⌉ - 1 ≤ ⌈roundDouble (roundDouble (S + H) / R)⌉ ∧
    ⌈roundDouble (roundDouble (S + H) / R)⌉ ≤ ⌈(S + H) / R⌉ + 1 := by
  obtain ⟨herr, _, _⟩ := quot_err S H R hS hH hR hq
  have herr' := abs_le.mp herr
  constructor
  · have : ⌈(S + H) / R⌉ ≤ ⌈roundDouble (roundDouble (S + H) / R)⌉ + 1 := by
      rw [Int.ceil_le]
      push_cast
      have := Int.le_ceil (roundDouble (roundDouble (S + H) / R))
      linarith [herr'.1]
    omega
  · rw [Int.ceil_le]
    push_cast
    have := Int.le_ceil ((S + H) / R)
    linarith [herr'.2]

/-- For integers below 2^53, `Math.floor` of the double quotient is the floor of the exact
quotient. -/
theorem floor_roundDouble_int (s r : Nat) (hr : 0 < r) (hs : s < 2 ^ 53) (hr2 : r < 2 ^ 53) :
    ⌊roundDouble ((s : ℚ) / r)⌋ = ⌊(s : ℚ) / r⌋ := by
  have hrpos : (0 : ℚ) < r := by exact_mod_cast hr
  have hq0 : (0 : ℚ) ≤ (s : ℚ) / r := by positivity
  have hqlt : (s : ℚ) / r < 2 ^ (53 : Nat) := by
    rw [div_lt_iff₀ hrpos]
    have h1 : (s : ℚ) < 2 ^ (53 : Nat) := by exact_mod_cast hs
    have h2 : (1 : ℚ) ≤ r := by exact_mod_cast hr
    nlinarith [h1, h2]
  apply le_antisymm _ (floor_roundDouble _ hq0 hqlt).1
  have herr := roundDouble_err_lt_inv ((s : ℚ) / r) s r hr hs hr2 rfl
  have hgap : (1 : ℚ) / r ≤ ((⌊(s : ℚ) / r⌋ + 1 : Int) : ℚ) - (s : ℚ) / r := by
    have hlt := Int.lt_floor_add_one ((s : ℚ) / r)
    rw [div_lt_iff₀ hrpos] at hlt
    have hint : (s : Int) < (⌊(s : ℚ) / r⌋ + 1) * r := by exact_mod_cast hlt
    have hint2 : (s : Int) + 1 ≤ (⌊(s : ℚ) / r⌋ + 1) * r := hint
    have hq : ((s : Int) + 1 : ℚ) ≤ ((⌊(s : ℚ) / r⌋ + 1 : Int) : ℚ) * r := by exact_mod_cast hint2
    rw [div_le_iff₀ hrpos, sub_mul, div_mul_cancel₀ _ (ne_of_gt hrpos)]
    push_cast at hq ⊢
    linarith
  have h2 := (abs_lt.mp herr).2
  have hlt : roundDouble ((s : ℚ) / r) < ((⌊(s : ℚ) / r⌋ + 1 : Int) : ℚ) := by linarith
  exact Int.le_of_lt_add_one (Int.floor_lt.mpr hlt)

/-- For integers below 2^53, `Math.ceil` of the double quotient is the ceiling of the exact
quotient. -/
theorem ceil_roundDouble_int (s r : Nat) (hr : 0 < r) (hs : s < 2 ^ 53) (hr2 : r < 2 ^ 53) :
    ⌈roundDouble ((s : ℚ) / r)⌉ = ⌈(s : ℚ) / r⌉ := by
  have hrpos : (0 : ℚ) < r := by exact_mod_cast hr
  have hq0 : (0 : ℚ) ≤ (s : ℚ) / r := by positivity
  have hqlt : (s : ℚ) / r < 2 ^ (53 : Nat) := by
    rw [div_lt_iff₀ hrpos]
    have h1 : (s : ℚ) < 2 ^ (53 : Nat) := by exact_mod_cast hs
    have h2 : (1 : ℚ) ≤ r := by exact_mod_cast hr
    nlinarith [h1, h2]
  have habs : |(s : ℚ) / r| < 2 ^ (53 : Nat) := by rw [abs_of_nonneg hq0]; exact hqlt
  apply le_antisymm
  · rw [Int.ceil_le]
    exact roundDouble_le _ _ habs (Int.le_ceil _)
  · have herr := roundDouble_err_lt_inv ((s : ℚ) / r) s r hr hs hr2 rfl
    have hgap : (1 : ℚ) / r ≤ (s : ℚ) / r - ((⌈(s : ℚ) / r⌉ - 1 : Int) : ℚ) := by
      have hlt := Int.ceil_lt_add_one ((s : ℚ) / r)
      have hlt2 : ((⌈(s : ℚ) / r⌉ - 1 : Int) : ℚ) < (s : ℚ) / r := by
        push_cast
        linarith
      rw [lt_div_iff₀ hrpos] at hlt2
      have hint : (⌈(s : ℚ) / r⌉ - 1) * r < (s : Int) := by exact_mod_cast hlt2
      have hint2 : (⌈(s : ℚ) / r⌉ - 1) * r + 1 ≤ (s : Int) := hint
      have hq : (((⌈(s : ℚ) / r⌉ - 1) * r + 1 : Int) : ℚ) ≤ ((s : Int) : ℚ) := by
        exact_mod_cast hint2
      rw [div_le_iff₀ hrpos, sub_mul, div_mul_cancel₀ _ (ne_of_gt hrpos)]
      push_cast at hq ⊢
      linarith
    have h1 := (abs_lt.mp herr).1
    have hlt : ((⌈(s : ℚ) / r⌉ - 1 : Int) : ℚ) < roundDouble ((s : ℚ) / r) := by linarith
    have := Int.lt_ceil.mpr hlt
    omega

theorem viewSearch_start_nonneg (v : Virt) (items : List TrainRow) :
    0 ≤ (viewSearch v items).start := le_max_left _ _

theorem viewSearch_end_le (v : Virt) (items : List TrainRow) :
    (viewSearch v items).end_ ≤ (items.length : Int) := min_le_left _ _

/-- The window of `viewSearch` from the two double quotients, for quotients below 2^51: the
subtraction and the addition of the overscan are exact. -/
theorem viewSearch_core (v : Virt) (items : List TrainRow) (hS : 0 ≤ v.scrollTop)
    (hH : 0 < v.viewportHeight) (hR : (2 : ℚ) ^ (-1074 : Int) ≤ v.rowHeight)
    (hO : 0 ≤ v.overscan) (hO2 : v.overscan ≤ 2 ^ 51)
    (hq : (v.scrollTop + v.viewportHeight) / v.rowHeight < 2 ^ (51 : Nat)) :
    (viewSearch v items).start
      = max 0 (⌊roundDouble (v.scrollTop / v.rowHeight)⌋
          - (if v.overscan = 0 then 6 else v.overscan)) ∧
    (viewSearch v items).end_
      = min (items.length : Int)
          (⌈roundDouble (roundDouble (v.scrollTop + v.viewportHeight) / v.rowHeight)⌉
            + (if v.overscan = 0 then 6 else v.overscan)) ∧
    ⌊v.scrollTop / v.rowHeight⌋ ≤ ⌊roundDouble (v.scrollTop / v.rowHeight)⌋ ∧
    ⌊roundDouble (v.scrollTop / v.rowHeight)⌋ ≤ ⌊v.scrollTop / v.rowHeight⌋ + 1 ∧
    ⌈(v.scrollTop + v.viewportHeight) / v.rowHeight⌉ - 1
      ≤ ⌈roundDouble (roundDouble (v.scrollTop + v.viewportHeight) / v.rowHeight)⌉ ∧
    ⌈roundDouble (roundDouble (v.scrollTop + v.viewportHeight) / v.rowHeight)⌉
      ≤ ⌈(v.scrollTop + v.viewportHeight) / v.rowHeight⌉ + 1 ∧
    0 ≤ ⌊v.scrollTop / v.rowHeight⌋ ∧
    ⌊v.scrollTop / v.rowHeight⌋ < ⌈(v.scrollTop + v.viewportHeight) / v.rowHeight⌉ ∧
    ⌈(v.scrollTop + v.viewportHeight) / v.rowHeight⌉ ≤ 2 ^ 51 := by
  have hRpos : 0 < v.rowHeight := lt_of_lt_of_le (zpow_pos (by norm_num) _) hR
  have hc := viewSearch_consts v items hH hRpos
  have hq0 : 0 ≤ v.scrollTop / v.rowHeight := div_nonneg hS (le_of_lt hRpos)
  have hqle : v.scrollTop / v.rowHeight < (v.scrollTop + v.viewportHeight) / v.rowHeight :=
    div_lt_div_of_pos_right (by linarith) hRpos
  have hq53 : v.scrollTop / v.rowHeight < 2 ^ (53 : Nat) := by
    have : (2 : ℚ) ^ (51 : Nat) < 2 ^ (53 : Nat) := by norm_num
    linarith
  have hf := floor_roundDouble _ hq0 hq53
  have hce := ceil_roundDouble v.scrollTop v.viewportHeight v.rowHeight hS hH hR hq
  have hfl0 : 0 ≤ ⌊v.scrollTop / v.rowHeight⌋ := Int.floor_nonneg.mpr hq0
  have hflc : ⌊v.scrollTop / v.rowHeight⌋
      < ⌈(v.scrollTop + v.viewportHeight) / v.rowHeight⌉ := by
    rw [Int.lt_ceil]
    exact lt_of_le_of_lt (Int.floor_le _) hqle
  have hcb : ⌈(v.scrollTop + v.viewportHeight) / v.rowHeight⌉ ≤ 2 ^ 51 := by
    rw [Int.ceil_le]
    push_cast
    exact le_of_lt hq
  have ho : intOr v.overscan 6 = if v.overscan = 0 then 6 else v.overscan := intOr_eq _
  have ho1 : 1 ≤ (if v.overscan = 0 then 6 else v.overscan) := by split <;> omega
  have ho2 : (if v.overscan = 0 then 6 else v.overscan) ≤ 2 ^ 51 := by
    split
    · norm_num
    · exact hO2
  have e53 : (2 : Int) ^ (53 : Nat) = 4 * 2 ^ 51 := by norm_num
  have e51 : (0 : Int) < 2 ^ 51 := by norm_num
  refine ⟨?_, ?_, hf.1, hf.2, hce.1, hce.2, hfl0, hflc, hcb⟩
  · rw [hc.2.1, ho, roundInt_of_lt]
    rw [abs_lt]
    constructor <;> omega
  · rw [hc.2.2, ho, roundInt_of_lt]
    rw [abs_lt]
    constructor <;> omega

/-- Below 2^51 rows and with the bottom of the viewport below 2^1023, every double behind
the window of `viewSearch` is finite. -/
theorem windowFinite_of_lt (v : Virt) (hS : 0 ≤ v.scrollTop)
    (hH : 0 < v.viewportHeight) (hR : (2 : ℚ) ^ (-1074 : Int) ≤ v.rowHeight)
    (hO : 0 ≤ v.overscan) (hO2 : v.overscan ≤ 2 ^ 51)
    (hq : (v.scrollTop + v.viewportHeight) / v.rowHeight < 2 ^ (51 : Nat))
    (hfin : v.scrollTop + v.viewportHeight < 2 ^ 1023) : windowFinite v := by
  have hRpos : 0 < v.rowHeight := lt_of_lt_of_le (zpow_pos (by norm_num) _) hR
  have h1 : numOr v.rowHeight 132 = v.rowHeight := by simp [numOr, ne_of_gt hRpos]
  have h2 : numOr v.viewportHeight 620 = v.viewportHeight := by simp [numOr, ne_of_gt hH]
  have h3 : numOr v.scrollTop 0 = v.scrollTop := by
    unfold numOr
    split
    · rfl
    · rename_i h; simp only [ne_eq, not_not] at h; exact h.symm
  obtain ⟨-, -, c3, c4, c5, c6, c7, c8, c9⟩ := viewSearch_core v [] hS hH hR hO hO2 hq
  have ho : intOr v.overscan 6 = if v.overscan = 0 then 6 else v.overscan := intOr_eq _
  have ho1 : 1 ≤ (if v.overscan = 0 then 6 else v.overscan) := by split <;> omega
  have ho2 : (if v.overscan = 0 then 6 else v.overscan) ≤ 2 ^ 51 := by
    split
    · norm_num
    · exact hO2
  have hq0 : 0 ≤ v.scrollTop / v.rowHeight := div_nonneg hS (le_of_lt hRpos)
  have big : (2 : ℚ) ^ 53 < 2 ^ 1023 := by norm_num
  have e51 : (0 : Int) < 2 ^ 51 := by norm_num
  have e53 : (2 : Int) ^ (53 : Nat) = 4 * 2 ^ 51 := by norm_num
  have small : ∀ n : Int, |n| < 2 ^ (53 : Nat) → |roundDouble (n : ℚ)| < 2 ^ 1024 := by
    intro n hn
    rw [roundDouble_intCast n hn]
    have h53 : |(n : ℚ)| < 2 ^ 53 := by
      have : ((|n| : Int) : ℚ) < ((2 ^ (53 : Nat) : Int) : ℚ) := by exact_mod_cast hn
      rw [Int.cast_abs] at this
      push_cast at this
      exact this
    have : (2 : ℚ) ^ 53 < 2 ^ 1024 := by norm_num
    linarith
  have hfl : (⌊roundDouble (v.scrollTop / v.rowHeight)⌋ : ℚ)
      ≤ roundDouble (v.scrollTop / v.rowHeight) := Int.floor_le _
  have hq1 := quot_err v.scrollTop v.viewportHeight v.rowHeight hS hH hR hq
  unfold windowFinite
  simp only [h1, h2, h3, ho]
  refine ⟨?_, ?_, ?_, ?_, ?_⟩
  · have hnn := roundDouble_nonneg _ hq0
    rw [abs_of_nonneg hnn]
    have hlt : roundDouble (v.scrollTop / v.rowHeight)
        < ((⌊roundDouble (v.scrollTop / v.rowHeight)⌋ + 1 : Int) : ℚ) := by
      push_cast
      exact Int.lt_floor_add_one _
    have hle : ((⌊roundDouble (v.scrollTop / v.rowHeight)⌋ + 1 : Int) : ℚ)
        ≤ ((2 ^ 53 : Int) : ℚ) := by
      have : ⌊roundDouble (v.scrollTop / v.rowHeight)⌋ + 1 ≤ 2 ^ 53 := by omega
      exact_mod_cast this
    have : ((2 ^ 53 : Int) : ℚ) < 2 ^ 1024 := by norm_num
    linarith
  · apply small
    rw [abs_lt]
    constructor <;> omega
  · exact roundDouble_lt_of_lt _ (by linarith) hfin
  · have hnn := roundDouble_nonneg _ hq1.2.1
    rw [abs_of_nonneg hnn]
    have := (abs_le.mp hq1.1).2
    have e : (2 : ℚ) ^ (51 : Nat) + 3 / 4 < 2 ^ 1024 := by norm_num
    linarith
  · apply small
    rw [abs_lt]
    constructor <;> omega

/-- With the bottom of the viewport and the height of the list below 2^1023, both spacer
products of `viewSearch` are finite. -/
theorem spacersFinite_of_lt (v : Virt) (items : List TrainRow) (hS : 0 ≤ v.scrollTop)
    (hH : 0 < v.viewportHeight) (hR : (2 : ℚ) ^ (-1074 : Int) ≤ v.rowHeight)
    (hO : 0 ≤ v.overscan) (hO2 : v.overscan ≤ 2 ^ 51)
    (hq : (v.scrollTop + v.viewportHeight) / v.rowHeight < 2 ^ (51 : Nat))
    (hN : items.length < 2 ^ 32)
    (hfin : v.scrollTop + v.viewportHeight < 2 ^ 1023)
    (hfin2 : (items.length : ℚ) * v.rowHeight < 2 ^ 1023) : spacersFinite v items := by
  have hRpos : 0 < v.rowHeight := lt_of_lt_of_le (zpow_pos (by norm_num) _) hR
  obtain ⟨c1, c2, c3, c4, c5, c6, c7, c8, c9⟩ := viewSearch_core v items hS hH hR hO hO2 hq
  have hc := viewSearch_consts v items hH hRpos
  have ho1 : 1 ≤ (if v.overscan = 0 then 6 else v.overscan) := by split <;> omega
  have hst0 := viewSearch_start_nonneg v items
  have hendN := viewSearch_end_le v items
  have hend0 : 0 ≤ (viewSearch v items).end_ := by
    rw [c2]
    exact le_min (by omega) (by omega)
  have hle : (viewSearch v items).start ≤ ⌊v.scrollTop / v.rowHeight⌋ := by
    rw [c1]
    exact max_le c7 (by omega)
  have hstS : ((viewSearch v items).start : ℚ) * v.rowHeight ≤ v.scrollTop := by
    have hle2 : ((viewSearch v items).start : ℚ) ≤ v.scrollTop / v.rowHeight :=
      le_trans (by exact_mod_cast hle) (Int.floor_le _)
    rw [le_div_iff₀ hRpos] at hle2
    exact hle2
  have htop : (viewSearch v items).topSpace
      = roundDouble (((viewSearch v items).start : ℚ) * v.rowHeight) := by
    have : (viewSearch v items).topSpace
        = roundDouble (((viewSearch v items).start : ℚ) * (viewSearch v items).rowH) := rfl
    rw [this, hc.1]
  have hdl : |(items.length : Int) - (viewSearch v items).end_| < 2 ^ (53 : Nat) := by
    have hNi : (items.length : Int) < 2 ^ 32 := by exact_mod_cast hN
    rw [abs_lt]
    constructor <;> omega
  have hbot : (viewSearch v items).bottomSpace
      = roundDouble ((((items.length : Int) - (viewSearch v items).end_ : Int) : ℚ)
          * v.rowHeight) := by
    have : (viewSearch v items).bottomSpace
        = roundDouble ((roundInt ((items.length : Int) - (viewSearch v items).end_) : ℚ)
            * (viewSearch v items).rowH) := rfl
    rw [this, hc.1, roundInt_of_lt _ hdl]
  constructor
  · rw [htop]
    exact roundDouble_lt_of_lt _
      (mul_nonneg (by exact_mod_cast hst0) (le_of_lt hRpos)) (by linarith)
  · rw [hbot]
    apply roundDouble_lt_of_lt
    · exact mul_nonneg (by exact_mod_cast (by omega : 0 ≤ (items.length : Int)
        - (viewSearch v items).end_)) (le_of_lt hRpos)
    · have : ((((items.length : Int) - (viewSearch v items).end_ : Int)) : ℚ) * v.rowHeight
          ≤ (items.length : ℚ) * v.rowHeight := by
        apply mul_le_mul_of_nonneg_right _ (le_of_lt hRpos)
        have : (items.length : Int) - (viewSearch v items).end_ ≤ (items.length : Int) := by
          omega
        exact_mod_cast this
      linarith

/-- The window of `viewSearch` for integer pixel sizes: both quotients are floored and
ceiled as the exact quotients are, and both spacer products are exact. -/
theorem viewSearch_exact (v : Virt) (items : List TrainRow) (s h r : Nat)
    (hs : v.scrollTop = s) (hh : v.viewportHeight = h) (hr : v.rowHeight = r)
    (hh0 : 0 < h) (hr0 : 0 < r) (hO : 0 ≤ v.overscan) (hO2 : v.overscan ≤ 2 ^ 51)
    (hN : items.length < 2 ^ 32) (hsh : s + h < 2 ^ 51) (hr53 : r < 2 ^ 53)
    (hNr : items.length * r < 2 ^ 53) :
    (viewSearch v items).start
      = max 0 (⌊v.scrollTop / v.rowHeight⌋ - (if v.overscan = 0 then 6 else v.overscan)) ∧
    (viewSearch v items).end_
      = min (items.length : Int) (⌈(v.scrollTop + v.viewportHeight) / v.rowHeight⌉
          + (if v.overscan = 0 then 6 else v.overscan)) ∧
    (viewSearch v items).topSpace = ((viewSearch v items).start : ℚ) * v.rowHeight ∧
    (viewSearch v items).bottomSpace
      = (((items.length : Int) - (viewSearch v items).end_ : Int) : ℚ) * v.rowHeight := by
  have hS : 0 ≤ v.scrollTop := by rw [hs]; positivity
  have hH : 0 < v.viewportHeight := by rw [hh]; exact_mod_cast hh0
  have hRpos : 0 < v.rowHeight := by rw [hr]; exact_mod_cast hr0
  have hR1 : (1 : ℚ) ≤ v.rowHeight := by rw [hr]; exact_mod_cast hr0
  have hR : (2 : ℚ) ^ (-1074 : Int) ≤ v.rowHeight :=
    le_trans (zpow_le_one_of_nonpos₀ (by norm_num) (by norm_num)) hR1
  have hq : (v.scrollTop + v.viewportHeight) / v.rowHeight < 2 ^ (51 : Nat) := by
    rw [div_lt_iff₀ hRpos]
    have h1 : v.scrollTop + v.viewportHeight < 2 ^ (51 : Nat) := by
      rw [hs, hh]
      exact_mod_cast hsh
    have h2 : (0 : ℚ) < 2 ^ (51 : Nat) := by positivity
    nlinarith
  obtain ⟨h1, h2, h3, h4, h5, h6, h7, h8, h9⟩ := viewSearch_core v items hS hH hR hO hO2 hq
  have hc := viewSearch_consts v items hH hRpos
  have ho1 : 1 ≤ (if v.overscan = 0 then 6 else v.overscan) := by split <;> omega
  have hNi : (items.length : Int) < 2 ^ 32 := by exact_mod_cast hN
  have hend0 : 0 ≤ (viewSearch v items).end_ := by
    rw [h2]
    exact le_min (by omega) (by omega)
  have hendN := viewSearch_end_le v items
  have htop : (viewSearch v items).topSpace
      = roundDouble (((viewSearch v items).start : ℚ) * v.rowHeight) := by
    have : (viewSearch v items).topSpace
        = roundDouble (((viewSearch v items).start : ℚ) * (viewSearch v items).rowH) := rfl
    rw [this, hc.1]
  have hbot : (viewSearch v items).bottomSpace
      = roundDouble ((((items.length : Int) - (viewSearch v items).end_ : Int) : ℚ)
          * v.rowHeight) := by
    have : (viewSearch v items).bottomSpace
        = roundDouble ((roundInt ((items.length : Int) - (viewSearch v items).end_) : ℚ)
            * (viewSearch v items).rowH) := rfl
    rw [this, hc.1, roundInt_of_lt]
    rw [abs_lt]
    constructor <;> omega
  have hfe : ⌊roundDouble (v.scrollTop / v.rowHeight)⌋ = ⌊v.scrollTop / v.rowHeight⌋ := by
    rw [hs, hr]
    exact floor_roundDouble_int s r hr0 (by omega) hr53
  have hsum : roundDouble (v.scrollTop + v.viewportHeight) = ((s + h : Nat) : ℚ) := by
    rw [hs, hh]
    have := roundDouble_intCast ((s + h : Nat) : Int)
      (by rw [abs_of_nonneg (by positivity)]; exact_mod_cast (by omega : s + h < 2 ^ 53))
    push_cast at this ⊢
    exact this
  have hce : ⌈roundDouble (roundDouble (v.scrollTop + v.viewportHeight) / v.rowHeight)⌉
      = ⌈(v.scrollTop + v.viewportHeight) / v.rowHeight⌉ := by
    rw [hsum, hr]
    have := ceil_roundDouble_int (s + h) r hr0 (by omega) hr53
    rw [this, hs, hh]
    push_cast
    rfl
  have hstart : (viewSearch v items).start
      = max 0 (⌊v.scrollTop / v.rowHeight⌋
          - (if v.overscan = 0 then 6 else v.overscan)) := by rw [h1, hfe]
  have hend : (viewSearch v items).end_
      = min (items.length : Int) (⌈(v.scrollTop + v.viewportHeight) / v.rowHeight⌉
          + (if v.overscan = 0 then 6 else v.overscan)) := by rw [h2, hce]
  have hst0 := viewSearch_start_nonneg v items
  have hstS : ((viewSearch v items).start : ℚ) * (r : ℚ) ≤ (s : ℚ) := by
    have hle : (viewSearch v items).start ≤ ⌊v.scrollTop / v.rowHeight⌋ := by
      rw [hstart]
      exact max_le h7 (by omega)
    have hle2 : ((viewSearch v items).start : ℚ) ≤ v.scrollTop / v.rowHeight :=
      le_trans (by exact_mod_cast hle) (Int.floor_le _)
    rw [hs, hr, le_div_iff₀ (by exact_mod_cast hr0)] at hle2
    exact hle2
  refine ⟨hstart, hend, ?_, ?_⟩
  · rw [htop, hr]
    have hprod : ((viewSearch v items).start : ℚ) * (r : ℚ)
        = (((viewSearch v items).start * (r : Int) : Int) : ℚ) := by push_cast; rfl
    rw [hprod]
    apply roundDouble_intCast
    have hnn : 0 ≤ (viewSearch v items).start * (r : Int) :=
      mul_nonneg hst0 (by positivity)
    rw [abs_of_nonneg hnn]
    have hlt : (((viewSearch v items).start * (r : Int) : Int) : ℚ) < ((2 ^ 53 : Int) : ℚ) := by
      rw [← hprod]
      have : (s : ℚ) < ((2 ^ 53 : Int) : ℚ) := by
        have : s < 2 ^ 53 := by omega
        exact_mod_cast this
      linarith
    exact_mod_cast hlt
  · rw [hbot, hr]
    have hprod : (((items.length : Int) - (viewSearch v items).end_ : Int) : ℚ) * (r : ℚ)
        = ((((items.length : Int) - (viewSearch v items).end_) * (r : Int) : Int) : ℚ) := by
      push_cast; rfl
    rw [hprod]
    apply roundDouble_intCast
    have hd0 : 0 ≤ (items.length : Int) - (viewSearch v items).end_ := by omega
    have hnn : 0 ≤ ((items.length : Int) - (viewSearch v items).end_) * (r : Int) :=
      mul_nonneg hd0 (by positivity)
    rw [abs_of_nonneg hnn]
    have hle : ((items.length : Int) - (viewSearch v items).end_) * (r : Int)
        ≤ (items.length : Int) * (r : Int) :=
      mul_le_mul_of_nonneg_right (by omega) (by positivity)
    have hNr2 : (items.length : Int) * (r : Int) < 2 ^ 53 := by exact_mod_cast hNr
    omega

theorem sampleTrains_length (n : Nat) : (sampleTrains n).length = n := by
  simp [sampleTrains]

/-- The double quotient 1101.1 / 100.1 is 11, above the exact quotient. -/
theorem virtTenths_quot : roundDouble (virtTenths.scrollTop / virtTenths.rowHeight) = 11 := by
  rw [roundDouble_eval _ 3 6192449487634432 (by norm_num [virtTenths]) (by norm_num)
    (by norm_num [virtTenths]) (by norm_num [virtTenths])]
  · norm_num
  · apply roundHalfEven_eq_of_near
    rw [abs_lt]
    constructor <;> norm_num [virtTenths]

/-- The double quotient (2^60 + 256) / 3 is 6004799503160663 * 2^6. -/
theorem virtHuge_quot :
    roundDouble (virtHuge.scrollTop / virtHuge.rowHeight) = 384307168202282432 := by
  rw [roundDouble_eval _ 58 6004799503160663 (by norm_num [virtHuge]) (by norm_num)
    (by norm_num [virtHuge]) (by norm_num [virtHuge])]
  · norm_num
  · apply roundHalfEven_eq_of_near
    rw [abs_lt]
    constructor <;> norm_num [virtHuge]

/-- The double difference 384307168202282432 - 6 is 384307168202282432 again: doubles of
this size are 64 apart. -/
theorem virtHuge_sub : roundInt (384307168202282432 - 6) = 384307168202282432 := by
  unfold roundInt
  rw [roundDouble_eval _ 58 6004799503160663 (by norm_num) (by norm_num)
    (by norm_num) (by norm_num)]
  · norm_num
  · apply roundHalfEven_eq_of_near
    rw [abs_lt]
    constructor <;> norm_num

/-- The double quotient 242.20588235294116 / 8.970588235294118 is just below 27. -/
theorem virtThirtyFourths_quot :
    roundDouble (virtThirtyFourths.scrollTop / virtThirtyFourths.rowHeight)
      = 7599824371187711 / 281474976710656 := by
  rw [roundDouble_eval _ 4 7599824371187711 (by norm_num [virtThirtyFourths]) (by norm_num)
    (by norm_num [virtThirtyFourths]) (by norm_num [virtThirtyFourths])]
  · norm_num
  · apply roundHalfEven_eq_of_near
    rw [abs_lt]
    constructor <;> norm_num [virtThirtyFourths]

/-- The double sum 242.20588235294116 + 305 is a tie, which goes to the even significand. -/
theorem virtThirtyFourths_sum :
    roundDouble (virtThirtyFourths.scrollTop + virtThirtyFourths.viewportHeight)
      = 2406636921737939 / 4398046511104 := by
  rw [roundDouble_eval _ 9 4813273843475878 (by norm_num [virtThirtyFourths]) (by norm_num)
    (by norm_num [virtThirtyFourths]) (by norm_num [virtThirtyFourths])]
  · norm_num
  · have e : (virtThirtyFourths.scrollTop + virtThirtyFourths.viewportHeight)
        / 2 ^ ((9 : Int) - 52) = ((4813273843475877 : Int) : ℚ) + 1 / 2 := by
      norm_num [virtThirtyFourths]
    rw [e, roundHalfEven_tie]
    norm_num

/-- The double quotient of that sum by 8.970588235294118 is just above 61. -/
theorem virtThirtyFourths_quot2 :
    roundDouble ((2406636921737939 / 4398046511104 : ℚ) / virtThirtyFourths.rowHeight)
      = 8584986789675009 / 140737488355328 := by
  rw [roundDouble_eval _ 5 8584986789675009 (by norm_num [virtThirtyFourths]) (by norm_num)
    (by norm_num [virtThirtyFourths]) (by norm_num [virtThirtyFourths])]
  · norm_num
  · apply roundHalfEven_eq_of_near
    rw [abs_lt]
    constructor <;> norm_num [virtThirtyFourths]

/-- C11 (as amended): for every scroll offset S ≥ 0, viewport height H > 0, row-height
estimate R > 0 (at least the least positive double), integer overscan 0 ≤ O ≤ 2^51 and
list of length N < 2^32 with (S+H)/R < 2^51, S + H < 2^1023 and N * R < 2^1023, no
operation of `viewSearch` overflows and, with the effective overscan O' = O when O ≠ 0
and O' = 6 (the default) when O = 0, `viewSearch` computes `start = max(0, f - O')` and
`end = min(N, c + O')`, where `f` is `Math.floor` of the double quotient S/R, which is
floor(S/R) or floor(S/R) + 1, and `c` is `Math.ceil` of the double quotient (S+H)/R, which
is within 1 of ceil((S+H)/R); the leading spacer is the double product `start * R` and
the trailing spacer the double product `(N - end) * R`; the visible ids are the ids of the
items at indices `start, start + 1, ...` below `end`, in list order. When S, H and R are
integers with S + H < 2^51, R < 2^53 and N * R < 2^53, `f = floor(S/R)`,
`c = ceil((S+H)/R)` and both products are exact. -/
theorem viewSearch_window (v : Virt) (items : List TrainRow) (hS : 0 ≤ v.scrollTop)
    (hH : 0 < v.viewportHeight) (hR : (2 : ℚ) ^ (-1074 : Int) ≤ v.rowHeight)
    (hO : 0 ≤ v.overscan) (hO2 : v.overscan ≤ 2 ^ 51) (hN : items.length < 2 ^ 32)
    (hq : (v.scrollTop + v.viewportHeight) / v.rowHeight < 2 ^ (51 : Nat))
    (hfin : v.scrollTop + v.viewportHeight < 2 ^ 1023)
    (hfin2 : (items.length : ℚ) * v.rowHeight < 2 ^ 1023) :
    windowFinite v ∧ spacersFinite v items ∧
    (viewSearch v items).start
      = max 0 (⌊roundDouble (v.scrollTop / v.rowHeight)⌋
          - (if v.overscan = 0 then 6 else v.overscan)) ∧
    (viewSearch v items).end_
      = min (items.length : Int)
          (⌈roundDouble (roundDouble (v.scrollTop + v.viewportHeight) / v.rowHeight)⌉
            + (if v.overscan = 0 then 6 else v.overscan)) ∧
    (⌊roundDouble (v.scrollTop / v.rowHeight)⌋ = ⌊v.scrollTop / v.rowHeight⌋ ∨
      ⌊roundDouble (v.scrollTop / v.rowHeight)⌋ = ⌊v.scrollTop / v.rowHeight⌋ + 1) ∧
    ⌈(v.scrollTop + v.viewportHeight) / v.rowHeight⌉ - 1
      ≤ ⌈roundDouble (roundDouble (v.scrollTop + v.viewportHeight) / v.rowHeight)⌉ ∧
    ⌈roundDouble (roundDouble (v.scrollTop + v.viewportHeight) / v.rowHeight)⌉
      ≤ ⌈(v.scrollTop + v.viewportHeight) / v.rowHeight⌉ + 1 ∧
    (viewSearch v items).topSpace
      = roundDouble (((viewSearch v items).start : ℚ) * v.rowHeight) ∧
    (viewSearch v items).bottomSpace
      = roundDouble ((((items.length : Int) - (viewSearch v items).end_ : Int) : ℚ)
          * v.rowHeight) ∧
    (∀ i : Nat, (viewSearch v items).virt.visibleTrainIds[i]?
      = if (viewSearch v items).start + i < (viewSearch v items).end_ then
          (items[(viewSearch v items).start.toNat + i]?).map (fun t => t.train_id)
        else none) ∧
    (viewSearch v items).rows.map (fun t => t.train_id)
      = (viewSearch v items).virt.visibleTrainIds ∧
    (∀ s h r : Nat, v.scrollTop = s → v.viewportHeight = h → v.rowHeight = r →
      s + h < 2 ^ 51 → r < 2 ^ 53 → items.length * r < 2 ^ 53 →
      (viewSearch v items).start
        = max 0 (⌊v.scrollTop / v.rowHeight⌋ - (if v.overscan = 0 then 6 else v.overscan)) ∧
      (viewSearch v items).end_
        = min (items.length : Int) (⌈(v.scrollTop + v.viewportHeight) / v.rowHeight⌉
            + (if v.overscan = 0 then 6 else v.overscan)) ∧
      (viewSearch v items).topSpace = ((viewSearch v items).start : ℚ) * v.rowHeight ∧
      (viewSearch v items).bottomSpace
        = (((items.length : Int) - (viewSearch v items).end_ : Int) : ℚ) * v.rowHeight) := by
  have hRpos : 0 < v.rowHeight := lt_of_lt_of_le (zpow_pos (by norm_num) _) hR
  obtain ⟨h1, h2, h3, h4, h5, h6, h7, h8, h9⟩ := viewSearch_core v items hS hH hR hO hO2 hq
  have hc := viewSearch_consts v items hH hRpos
  have ho1 : 1 ≤ (if v.overscan = 0 then 6 else v.overscan) := by split <;> omega
  have hNi : (items.length : Int) < 2 ^ 32 := by exact_mod_cast hN
  have hend0 : 0 ≤ (viewSearch v items).end_ := by
    rw [h2]
    exact le_min (by omega) (by omega)
  have hendN := viewSearch_end_le v items
  have htop : (viewSearch v items).topSpace
      = roundDouble (((viewSearch v items).start : ℚ) * v.rowHeight) := by
    have : (viewSearch v items).topSpace
        = roundDouble (((viewSearch v items).start : ℚ) * (viewSearch v items).rowH) := rfl
    rw [this, hc.1]
  have hbot : (viewSearch v items).bottomSpace
      = roundDouble ((((items.length : Int) - (viewSearch v items).end_ : Int) : ℚ)
          * v.rowHeight) := by
    have : (viewSearch v items).bottomSpace
        = roundDouble ((roundInt ((items.length : Int) - (viewSearch v items).end_) : ℚ)
            * (viewSearch v items).rowH) := rfl
    rw [this, hc.1, roundInt_of_lt]
    rw [abs_lt]
    constructor <;> omega
  refine ⟨windowFinite_of_lt v hS hH hR hO hO2 hq hfin,
    spacersFinite_of_lt v items hS hH hR hO hO2 hq hN hfin hfin2,
    h1, h2, by omega, h5, h6, htop, hbot, ?_, rfl, ?_⟩
  · intro i
    have hvis : (viewSearch v items).virt.visibleTrainIds
        = (jsSlice items (viewSearch v items).start (viewSearch v items).end_).map
            (fun t => t.train_id) := rfl
    rw [hvis, List.getElem?_map,
      jsSlice_getElem? items _ _ (viewSearch_start_nonneg v items) hend0]
    split <;> rfl
  · intro s h r hs hh hr hsh hr53 hNr
    have hh0 : 0 < h := by
      have : (0 : ℚ) < (h : ℚ) := by rw [← hh]; exact hH
      exact_mod_cast this
    have hr0 : 0 < r := by
      have : (0 : ℚ) < (r : ℚ) := by rw [← hr]; exact hRpos
      exact_mod_cast this
    exact viewSearch_exact v items s h r hs hh hr hh0 hr0 hO hO2 hN hsh hr53 hNr

/-- Witness of C11: scroll offset 1320, viewport 660, rows of 132 and overscan 2 over twenty
items give the window from 8 to 17 with a leading spacer of 1056 and a trailing spacer of
396. -/
theorem viewSearch_window_witness :
    (viewSearch ⟨1320, 660, 132, 2, []⟩ (sampleTrains 20)).start = 8 ∧
    (viewSearch ⟨1320, 660, 132, 2, []⟩ (sampleTrains 20)).end_ = 17 ∧
    (viewSearch ⟨1320, 660, 132, 2, []⟩ (sampleTrains 20)).topSpace = 1056 ∧
    (viewSearch ⟨1320, 660, 132, 2, []⟩ (sampleTrains 20)).bottomSpace = 396 := by
  have h := (viewSearch_window ⟨1320, 660, 132, 2, []⟩ (sampleTrains 20) (by norm_num)
    (by norm_num) (by norm_num) (by norm_num) (by norm_num)
    (by rw [sampleTrains_length]; norm_num) (by norm_num) (by norm_num)
    (by rw [sampleTrains_length]; norm_num)).2.2.2.2.2.2.2.2.2.2.2
    1320 660 132 (by norm_num) (by norm_num) (by norm_num) (by norm_num) (by norm_num)
    (by rw [sampleTrains_length]; norm_num)
  obtain ⟨h1, h2, h3, h4⟩ := h
  have e1 : (viewSearch ⟨1320, 660, 132, 2, []⟩ (sampleTrains 20)).start = 8 := by
    rw [h1]; norm_num
  have e2 : (viewSearch ⟨1320, 660, 132, 2, []⟩ (sampleTrains 20)).end_ = 17 := by
    rw [h2, sampleTrains_length]; norm_num
  refine ⟨e1, e2, ?_, ?_⟩
  · rw [h3, e1]; norm_num
  · rw [h4, e2, sampleTrains_length]; norm_num

/-- Counterexample to C11 as stated, in three parts. With overscan 0 in the viewport state,
scroll offset 1320 and rows of 132, `viewSearch` starts the window at row 4 (it uses the
default overscan 6), while `max(0, floor(S/R) - O)` is 10. At scroll offset 1101.1 with
rows of 100.1 and overscan 6 the double quotient is 11, so the window starts at row 5,
while `max(0, floor(S/R) - O)` is 4. At scroll offset 2^60 + 256 with rows of 3 and
overscan 6 the window starts at 384307168202282432, which is `Math.floor` of the double
quotient: the subtraction of the overscan is lost in rounding. -/
theorem viewSearch_window_counter :
    ((viewSearch ⟨1320, 660, 132, 0, []⟩ (sampleTrains 20)).start = 4 ∧
      max 0 (⌊(1320 : ℚ) / 132⌋ - 0) = 10) ∧
    ((viewSearch virtTenths (sampleTrains 20)).start = 5 ∧
      max 0 (⌊virtTenths.scrollTop / virtTenths.rowHeight⌋ - virtTenths.overscan) = 4) ∧
    ((viewSearch virtHuge (sampleTrains 20)).start = 384307168202282432 ∧
      ⌊roundDouble (virtHuge.scrollTop / virtHuge.rowHeight)⌋ - virtHuge.overscan
        = 384307168202282426 ∧
      max 0 (⌊virtHuge.scrollTop / virtHuge.rowHeight⌋ - virtHuge.overscan)
        = 384307168202282404) := by
  refine ⟨⟨?_, by norm_num⟩, ⟨?_, by norm_num [virtTenths]⟩, ?_, ?_, by norm_num [virtHuge]⟩
  · rw [(viewSearch_exact ⟨1320, 660, 132, 0, []⟩ (sampleTrains 20) 1320 660 132
      (by norm_num) (by norm_num) (by norm_num) (by norm_num) (by norm_num) (by norm_num)
      (by norm_num) (by rw [sampleTrains_length]; norm_num) (by norm_num) (by norm_num)
      (by rw [sampleTrains_length]; norm_num)).1]
    norm_num
  · rw [(viewSearch_core virtTenths (sampleTrains 20) (by norm_num [virtTenths])
      (by norm_num [virtTenths]) (by norm_num [virtTenths]) (by norm_num [virtTenths])
      (by norm_num [virtTenths]) (by norm_num [virtTenths])).1, virtTenths_quot]
    norm_num [virtTenths]
  · rw [(viewSearch_consts virtHuge (sampleTrains 20) (by norm_num [virtHuge])
      (by norm_num [virtHuge])).2.1, virtHuge_quot]
    have e : (⌊(384307168202282432 : ℚ)⌋ - intOr virtHuge.overscan 6 : Int)
        = 384307168202282432 - 6 := by
      norm_num [virtHuge, intOr]
    rw [e, virtHuge_sub]
    norm_num
  · rw [virtHuge_quot]
    norm_num [virtHuge]

/-- C12 (as amended): for any scroll offset S ≥ 0, viewport height H > 0, row height R > 0
(at least the least positive double) and overscan 0 ≤ O ≤ 2^51 with (S+H)/R < 2^51 and
S + H < 2^1023, and any list, no operation behind the window overflows and the window
computed by `viewSearch` satisfies `start ≤ floor(S/R)` and
`end ≥ min(N, ceil((S+H)/R))`, floor and ceiling being those of the exact quotients. -/
theorem viewSearch_covers (v : Virt) (items : List TrainRow) (hS : 0 ≤ v.scrollTop)
    (hH : 0 < v.viewportHeight) (hR : (2 : ℚ) ^ (-1074 : Int) ≤ v.rowHeight)
    (hO : 0 ≤ v.overscan) (hO2 : v.overscan ≤ 2 ^ 51)
    (hq : (v.scrollTop + v.viewportHeight) / v.rowHeight < 2 ^ (51 : Nat))
    (hfin : v.scrollTop + v.viewportHeight < 2 ^ 1023) :
    windowFinite v ∧
    (viewSearch v items).start ≤ ⌊v.scrollTop / v.rowHeight⌋ ∧
    min (items.length : Int) ⌈(v.scrollTop + v.viewportHeight) / v.rowHeight⌉
      ≤ (viewSearch v items).end_ := by
  obtain ⟨h1, h2, h3, h4, h5, h6, h7, h8, h9⟩ := viewSearch_core v items hS hH hR hO hO2 hq
  have ho1 : 1 ≤ (if v.overscan = 0 then 6 else v.overscan) := by split <;> omega
  refine ⟨windowFinite_of_lt v hS hH hR hO hO2 hq hfin, ?_, ?_⟩
  · rw [h1]
    exact max_le h7 (by omega)
  · rw [h2]
    exact min_le_min (le_refl _) (by omega)

/-- Witness of C12: at scroll offset 1320 with a viewport of 660, rows of 132 and overscan 2
over twenty items, the window starts at or before row 10 and ends at or after row 15. -/
theorem viewSearch_covers_witness :
    (viewSearch ⟨1320, 660, 132, 2, []⟩ (sampleTrains 20)).start ≤ ⌊(1320 : ℚ) / 132⌋ ∧
    min ((sampleTrains 20).length : Int) ⌈((1320 : ℚ) + 660) / 132⌉
      ≤ (viewSearch ⟨1320, 660, 132, 2, []⟩ (sampleTrains 20)).end_ :=
  (viewSearch_covers ⟨1320, 660, 132, 2, []⟩ (sampleTrains 20) (by norm_num) (by norm_num)
    (by norm_num) (by norm_num) (by norm_num) (by norm_num) (by norm_num)).2

/-- Counterexample to C12 as stated, in two parts. Over a list of three rows, with scroll
offset 0, viewport 660 and rows of 132, the window ends at 3 while `ceil((S+H)/R)` is 5.
At scroll offset 2^60 + 256 with rows of 3 and overscan 6 the window starts at
384307168202282432, above `floor(S/R) = 384307168202282410`: the double quotient is 22
above the exact one and the subtraction of the overscan is lost in rounding. -/
theorem viewSearch_covers_counter :
    ((viewSearch ⟨0, 660, 132, 6, []⟩ (sampleTrains 3)).end_ = 3 ∧
      ⌈((0 : ℚ) + 660) / 132⌉ = 5) ∧
    ((viewSearch virtHuge (sampleTrains 20)).start = 384307168202282432 ∧
      ⌊virtHuge.scrollTop / virtHuge.rowHeight⌋ = 384307168202282410) := by
  refine ⟨⟨?_, by norm_num⟩, ?_, by norm_num [virtHuge]⟩
  · rw [(viewSearch_exact ⟨0, 660, 132, 6, []⟩ (sampleTrains 3) 0 660 132
      (by norm_num) (by norm_num) (by norm_num) (by norm_num) (by norm_num) (by norm_num)
      (by norm_num) (by rw [sampleTrains_length]; norm_num) (by norm_num) (by norm_num)
      (by rw [sampleTrains_length]; norm_num)).2.1, sampleTrains_length]
    norm_num
  · rw [(viewSearch_consts virtHuge (sampleTrains 20) (by norm_num [virtHuge])
      (by norm_num [virtHuge])).2.1, virtHuge_quot]
    have e : (⌊(384307168202282432 : ℚ)⌋ - intOr virtHuge.overscan 6 : Int)
        = 384307168202282432 - 6 := by
      norm_num [virtHuge, intOr]
    rw [e, virtHuge_sub]
    norm_num

/-- C13 (as amended): for any scroll offset S ≥ 0, viewport height H > 0, row height R > 0
(at least the least positive double) and overscan 0 ≤ O ≤ 2^51 with (S+H)/R < 2^51 and
S + H < 2^1023, and any list, no operation behind the window overflows and, with the
effective overscan O' = O when O ≠ 0 and O' = 6 when O = 0, the number of rows in the
window is bounded independently of N: `end - start ≤ ceil(H/R) + 2 * O' + 2`. -/
theorem viewSearch_bounded (v : Virt) (items : List TrainRow) (hS : 0 ≤ v.scrollTop)
    (hH : 0 < v.viewportHeight) (hR : (2 : ℚ) ^ (-1074 : Int) ≤ v.rowHeight)
    (hO : 0 ≤ v.overscan) (hO2 : v.overscan ≤ 2 ^ 51)
    (hq : (v.scrollTop + v.viewportHeight) / v.rowHeight < 2 ^ (51 : Nat))
    (hfin : v.scrollTop + v.viewportHeight < 2 ^ 1023) :
    windowFinite v ∧
    (viewSearch v items).end_ - (viewSearch v items).start
      ≤ ⌈v.viewportHeight / v.rowHeight⌉
        + 2 * (if v.overscan = 0 then 6 else v.overscan) + 2 := by
  obtain ⟨h1, h2, h3, h4, h5, h6, h7, h8, h9⟩ := viewSearch_core v items hS hH hR hO hO2 hq
  refine ⟨windowFinite_of_lt v hS hH hR hO hO2 hq hfin, ?_⟩
  rw [h1, h2]
  have hadd : ⌈(v.scrollTop + v.viewportHeight) / v.rowHeight⌉
      ≤ ⌈v.scrollTop / v.rowHeight⌉ + ⌈v.viewportHeight / v.rowHeight⌉ := by
    rw [add_div]
    exact Int.ceil_add_le _ _
  have hcf := Int.ceil_le_floor_add_one (v.scrollTop / v.rowHeight)
  have hmin := min_le_right (items.length : Int)
    (⌈roundDouble (roundDouble (v.scrollTop + v.viewportHeight) / v.rowHeight)⌉
      + (if v.overscan = 0 then 6 else v.overscan))
  have hmax := le_max_right (0 : Int)
    (⌊roundDouble (v.scrollTop / v.rowHeight)⌋ - (if v.overscan = 0 then 6 else v.overscan))
  omega

/-- Witness of C13: at scroll offset 1320 with viewport 660, rows of 132 and overscan 2, the
window over twenty items has at most `ceil(660/132) + 2 * 2 + 2` rows. -/
theorem viewSearch_bounded_witness :
    (viewSearch ⟨1320, 660, 132, 2, []⟩ (sampleTrains 20)).end_
        - (viewSearch ⟨1320, 660, 132, 2, []⟩ (sampleTrains 20)).start
      ≤ ⌈(660 : ℚ) / 132⌉ + 2 * (if (2 : Int) = 0 then 6 else 2) + 2 :=
  (viewSearch_bounded ⟨1320, 660, 132, 2, []⟩ (sampleTrains 20) (by norm_num) (by norm_num)
    (by norm_num) (by norm_num) (by norm_num) (by norm_num) (by norm_num)).2

/-- Counterexample to C13 as stated, in two parts. With overscan 0 in the viewport state,
scroll offset 1320, viewport 132 and rows of 132 over a list of 20 rows, the window runs
from 4 to 17, that is 13 rows, while `ceil(H/R) + 2 * O + 1` is 2. At scroll offset
242.20588235294116 with viewport 305, rows of 8.970588235294118 and overscan 6 over a list
of 100 rows, the double quotients are just below 27 and just above 61, so the window runs
from 20 to 68, that is 48 rows, while `ceil(H/R) + 2 * O + 1` is 47. -/
theorem viewSearch_bounded_counter :
    ((viewSearch ⟨1320, 132, 132, 0, []⟩ (sampleTrains 20)).start = 4 ∧
      (viewSearch ⟨1320, 132, 132, 0, []⟩ (sampleTrains 20)).end_ = 17 ∧
      ⌈(132 : ℚ) / 132⌉ + 2 * 0 + 1 = 2) ∧
    ((viewSearch virtThirtyFourths (sampleTrains 100)).start = 20 ∧
      (viewSearch virtThirtyFourths (sampleTrains 100)).end_ = 68 ∧
      ⌈virtThirtyFourths.viewportHeight / virtThirtyFourths.rowHeight⌉
        + 2 * virtThirtyFourths.overscan + 1 = 47) := by
  have h := viewSearch_exact ⟨1320, 132, 132, 0, []⟩ (sampleTrains 20) 1320 132 132
    (by norm_num) (by norm_num) (by norm_num) (by norm_num) (by norm_num) (by norm_num)
    (by norm_num) (by rw [sampleTrains_length]; norm_num) (by norm_num) (by norm_num)
    (by rw [sampleTrains_length]; norm_num)
  have k := viewSearch_core virtThirtyFourths (sampleTrains 100)
    (by norm_num [virtThirtyFourths]) (by norm_num [virtThirtyFourths])
    (by norm_num [virtThirtyFourths]) (by norm_num [virtThirtyFourths])
    (by norm_num [virtThirtyFourths]) (by norm_num [virtThirtyFourths])
  have c1 : ⌈virtThirtyFourths.viewportHeight / virtThirtyFourths.rowHeight⌉ = 34 := by
    rw [Int.ceil_eq_iff]
    constructor <;> norm_num [virtThirtyFourths]
  have c2 : ⌈(8584986789675009 / 140737488355328 : ℚ)⌉ = 62 := by
    rw [Int.ceil_eq_iff]
    constructor <;> norm_num
  refine ⟨⟨?_, ?_, by norm_num⟩, ?_, ?_, ?_⟩
  · rw [h.1]; norm_num
  · rw [h.2.1, sampleTrains_length]; norm_num
  · rw [k.1, virtThirtyFourths_quot]
    norm_num [virtThirtyFourths]
  · rw [k.2.1, virtThirtyFourths_sum, virtThirtyFourths_quot2, sampleTrains_length, c2]
    norm_num [virtThirtyFourths]
  · rw [c1]
    norm_num [virtThirtyFourths]

/-- For integer pixel sizes, when the window is not empty-by-overshoot (`start ≤ end`), the
spacers and the rendered rows add up to the height of the whole list. -/
theorem listBodyHeight_of_le (v : Virt) (items : List TrainRow) (s h r : Nat)
    (hs : v.scrollTop = s) (hh : v.viewportHeight = h) (hr : v.rowHeight = r)
    (hh0 : 0 < h) (hr0 : 0 < r) (hO : 0 ≤ v.overscan) (hO2 : v.overscan ≤ 2 ^ 51)
    (hN : items.length < 2 ^ 32) (hsh : s + h < 2 ^ 51) (hr53 : r < 2 ^ 53)
    (hNr : items.length * r < 2 ^ 53)
    (hle : (viewSearch v items).start ≤ (viewSearch v items).end_) :
    listBodyHeight (viewSearch v items) = (items.length : ℚ) * v.rowHeight := by
  obtain ⟨-, -, h3, h4⟩ := viewSearch_exact v items s h r hs hh hr hh0 hr0 hO hO2 hN hsh hr53 hNr
  have hRpos : 0 < v.rowHeight := by rw [hr]; exact_mod_cast hr0
  have hH : 0 < v.viewportHeight := by rw [hh]; exact_mod_cast hh0
  have hc := viewSearch_consts v items hH hRpos
  have hlen := jsSlice_length items _ _ (viewSearch_start_nonneg v items) hle
    (viewSearch_end_le v items)
  have hrows : (((viewSearch v items).rows.length : Int) : ℚ)
      = (((viewSearch v items).end_ - (viewSearch v items).start : Int) : ℚ) := by
    have : (viewSearch v items).rows
        = jsSlice items (viewSearch v items).start (viewSearch v items).end_ := rfl
    rw [this, hlen]
  unfold listBodyHeight
  rw [h3, h4, hc.1]
  have e : ((viewSearch v items).rows.length : ℚ)
      = (((viewSearch v items).rows.length : Int) : ℚ) := by push_cast; rfl
  rw [e, hrows]
  push_cast
  ring

/-- C14 (evaluation of the code at the failing input): with scroll offset 1980 left from a
longer list, viewport 660, rows of 132, overscan 6 and a list of one row, the window is
`start = 9`, `end = 1`: no row is rendered, the leading spacer is 1188 px and the trailing
spacer 0, so the list body is 1188 px high while the whole list is 132 px. -/
theorem viewSearch_overshoot :
    (viewSearch ⟨1980, 660, 132, 6, []⟩ [⟨"G1", "a", 3⟩]).start = 9 ∧
    (viewSearch ⟨1980, 660, 132, 6, []⟩ [⟨"G1", "a", 3⟩]).end_ = 1 ∧
    (viewSearch ⟨1980, 660, 132, 6, []⟩ [⟨"G1", "a", 3⟩]).rows = [] ∧
    listBodyHeight (viewSearch ⟨1980, 660, 132, 6, []⟩ [⟨"G1", "a", 3⟩]) = 1188 ∧
    ((1 : Nat) : ℚ) * 132 = 132 := by
  obtain ⟨h1, h2, h3, h4⟩ := viewSearch_exact ⟨1980, 660, 132, 6, []⟩ [⟨"G1", "a", 3⟩]
    1980 660 132 (by norm_num) (by norm_num) (by norm_num) (by norm_num) (by norm_num)
    (by norm_num) (by norm_num) (by norm_num) (by norm_num) (by norm_num) (by norm_num)
  have e1 : (viewSearch ⟨1980, 660, 132, 6, []⟩ [⟨"G1", "a", 3⟩]).start = 9 := by
    rw [h1]; norm_num
  have e2 : (viewSearch ⟨1980, 660, 132, 6, []⟩ [⟨"G1", "a", 3⟩]).end_ = 1 := by
    rw [h2]; norm_num
  have e3 : (viewSearch ⟨1980, 660, 132, 6, []⟩ [⟨"G1", "a", 3⟩]).rows = [] := by
    have : (viewSearch ⟨1980, 660, 132, 6, []⟩ [⟨"G1", "a", 3⟩]).rows
        = jsSlice [⟨"G1", "a", 3⟩]
            (viewSearch ⟨1980, 660, 132, 6, []⟩ [⟨"G1", "a", 3⟩]).start
            (viewSearch ⟨1980, 660, 132, 6, []⟩ [⟨"G1", "a", 3⟩]).end_ := rfl
    rw [this, e1, e2]
    simp [jsSlice]
  refine ⟨e1, e2, e3, ?_, by norm_num⟩
  unfold listBodyHeight
  rw [h3, h4, e1, e2, e3]
  have : (viewSearch ⟨1980, 660, 132, 6, []⟩ [⟨"G1", "a", 3⟩]).rowH = 132 :=
    (viewSearch_consts ⟨1980, 660, 132, 6, []⟩ [⟨"G1", "a", 3⟩] (by norm_num)
      (by norm_num)).1
  rw [this]
  norm_num

/-! ## Passenger validation -/

theorem isDigit_iff (c : Char) : isDigit c = true ↔ IsDecimalDigit c := by
  unfold isDigit IsDecimalDigit
  simp only [Bool.and_eq_true, decide_eq_true_eq]
  rw [Char.le_def, Char.le_def]
  rfl

theorem isDigitOrX_iff (c : Char) : isDigitOrX c = true ↔ IsDecimalDigit c ∨ c = 'X' := by
  unfold isDigitOrX
  simp only [Bool.or_eq_true, decide_eq_true_eq, isDigit_iff]

theorem isNameChar_iff (c : Char) : isNameChar c = true ↔ IsNameChar c := by
  unfold isNameChar IsNameChar
  simp only [Bool.or_eq_true, Bool.and_eq_true, decide_eq_true_eq]
  constructor
  · rintro (h | h)
    · exact Or.inl h
    · right
      rw [← h]
      exact (Char.ofNat_toNat c).symm
  · rintro (h | h)
    · exact Or.inl h
    · right
      rw [h]
      decide

theorem matchSeq_iff (ps : List (Char → Bool)) :
    ∀ cs : List Char, matchSeq ps cs = true ↔
      cs.length = ps.length ∧
      ∀ (i : Nat) (p : Char → Bool) (c : Char), ps[i]? = some p → cs[i]? = some c → p c = true := by
  induction ps with
  | nil =>
    intro cs
    cases cs with
    | nil => simp [matchSeq]
    | cons c cs => simp [matchSeq]
  | cons p ps ih =>
    intro cs
    cases cs with
    | nil => simp [matchSeq]
    | cons c cs =>
      simp only [matchSeq, Bool.and_eq_true, ih, List.length_cons, Nat.add_right_cancel_iff]
      constructor
      · rintro ⟨hp, hlen, hall⟩
        refine ⟨hlen, ?_⟩
        intro i q d hq hd
        cases i with
        | zero =>
          simp only [List.getElem?_cons_zero, Option.some.injEq] at hq hd
          subst hq; subst hd
          exact hp
        | succ i =>
          simp only [List.getElem?_cons_succ] at hq hd
          exact hall i q d hq hd
      · rintro ⟨hlen, hall⟩
        refine ⟨hall 0 p c (by simp) (by simp), hlen, ?_⟩
        intro i q d hq hd
        exact hall (i + 1) q d (by simpa using hq) (by simpa using hd)

theorem matchSeq_id_iff (t : List Char) :
    matchSeq (List.replicate 17 isDigit ++ [isDigitOrX]) t = true ↔ IdShape t := by
  rw [matchSeq_iff]
  unfold IdShape
  constructor
  · rintro ⟨hlen, hall⟩
    refine ⟨by simpa using hlen, ?_, ?_⟩
    · intro i hi c hc
      rw [← isDigit_iff]
      apply hall i isDigit c _ hc
      rw [List.getElem?_append_left (by simpa using hi), List.getElem?_replicate, if_pos hi]
    · intro c hc
      rw [← isDigitOrX_iff]
      apply hall 17 isDigitOrX c _ hc
      rw [List.getElem?_append_right (by simp)]
      simp
  · rintro ⟨hlen, hdig, hlast⟩
    refine ⟨by simpa using hlen, ?_⟩
    intro i p c hp hc
    by_cases hi : i < 17
    · rw [List.getElem?_append_left (by simpa using hi)] at hp
      simp only [List.getElem?_replicate, hi, if_true, Option.some.injEq] at hp
      subst hp
      exact (isDigit_iff c).mpr (hdig i hi c hc)
    · have hi17 : i = 17 := by
        have := (List.getElem?_eq_some.mp hc).1
        omega
      subst hi17
      rw [List.getElem?_append_right (by simp)] at hp
      simp only [List.length_replicate, Nat.sub_self, List.getElem?_cons_zero,
        Option.some.injEq] at hp
      subst hp
      exact (isDigitOrX_iff c).mpr (hlast c hc)

theorem foldl_range_eq_sum (f : Nat → Nat) (n : Nat) :
    (List.range n).foldl (fun sum i => sum + f i) 0 = ∑ i in Finset.range n, f i := by
  induction n with
  | zero => simp
  | succ n ih =>
    rw [List.range_succ, List.foldl_append, ih, Finset.sum_range_succ]
    rfl

theorem weightedSum_mod (t : List Char) : weightedSum t % 11 = checkIndex t := by
  unfold weightedSum checkIndex
  rw [foldl_range_eq_sum (fun i => digitVal (t.getD i '0') * weights.getD i 0)]

theorem matchRep_iff (p : Char → Bool) (cs : List Char) :
    ∀ lo hi : Nat, matchRep p lo hi cs = true ↔
      lo ≤ cs.length ∧ cs.length ≤ hi ∧ ∀ c ∈ cs, p c = true := by
  induction cs with
  | nil =>
    intro lo hi
    simp [matchRep]
  | cons c cs ih =>
    intro lo hi
    simp only [matchRep, Bool.and_eq_true, decide_eq_true_eq, ih, List.length_cons,
      List.mem_cons, forall_eq_or_imp]
    constructor
    · rintro ⟨⟨hp, hhi⟩, hlo, hlen, hall⟩
      exact ⟨by omega, by omega, hp, hall⟩
    · rintro ⟨hlo, hlen, hp, hall⟩
      exact ⟨⟨hp, by omega⟩, by omega, by omega, hall⟩

theorem utf16Length_of_name (cs : List Char) (h : ∀ c ∈ cs, isNameChar c = true) :
    utf16Length cs = cs.length := by
  induction cs with
  | nil => rfl
  | cons c cs ih =>
    have hc := h c (List.mem_cons_self _ _)
    have hlt : c.toNat < 0x10000 := by
      simp only [isNameChar, Bool.or_eq_true, Bool.and_eq_true, decide_eq_true_eq] at hc
      omega
    have ih' := ih (fun d hd => h d (List.mem_cons_of_mem _ hd))
    simp only [utf16Length, List.map_cons, List.sum_cons, hlt, if_true, List.length_cons] at ih' ⊢
    omega

/-- C15: with `t` the input trimmed and upper-cased, `validateIDCard` returns the empty
string iff `t` is 17 decimal digits followed by a digit or `X` and the check-code table
entry at index (sum over i < 17 of digit i times weight i) mod 11 equals `t[17]`; it
returns the checksum message when `t` has that shape and the check character differs, the
format message when `t` is non-empty and not of that shape, and the missing-value message
when `t` is empty; the three messages are non-empty and distinct. -/
theorem validateIDCard_spec (s : String) :
    (validateIDCard s = "" ↔
      IdShape (jsToUpperCase (jsTrim s.toList)) ∧
      mapping[checkIndex (jsToUpperCase (jsTrim s.toList))]?
        = (jsToUpperCase (jsTrim s.toList))[17]?) ∧
    (IdShape (jsToUpperCase (jsTrim s.toList)) →
      mapping[checkIndex (jsToUpperCase (jsTrim s.toList))]?
        ≠ (jsToUpperCase (jsTrim s.toList))[17]? →
      validateIDCard s = idChecksum) ∧
    (jsToUpperCase (jsTrim s.toList) ≠ [] → ¬ IdShape (jsToUpperCase (jsTrim s.toList)) →
      validateIDCard s = idFormat) ∧
    (jsToUpperCase (jsTrim s.toList) = [] → validateIDCard s = idMissing) ∧
    idMissing ≠ "" ∧ idFormat ≠ "" ∧ idChecksum ≠ "" ∧
    idMissing ≠ idFormat ∧ idMissing ≠ idChecksum ∧ idFormat ≠ idChecksum := by
  have hm : idMissing ≠ "" := by decide
  have hf : idFormat ≠ "" := by decide
  have hc : idChecksum ≠ "" := by decide
  generalize ht : jsToUpperCase (jsTrim s.toList) = t
  have hv : validateIDCard s =
      if t = [] then idMissing
      else if !(matchSeq (List.replicate 17 isDigit ++ [isDigitOrX]) t) then idFormat
      else if mapping[weightedSum t % 11]? ≠ t[17]? then idChecksum
      else "" := by
    unfold validateIDCard
    simp only [ht]
  have hshape_ne : IdShape t → t ≠ [] := by
    rintro ⟨hlen, _⟩ rfl
    simp at hlen
  rw [hv, weightedSum_mod]
  refine ⟨?_, ?_, ?_, ?_, hm, hf, hc, by decide, by decide, by decide⟩
  · by_cases he : t = []
    · simp only [he, if_true]
      constructor
      · intro h; exact absurd h hm
      · rintro ⟨hs, _⟩; exact absurd he (by simpa [he] using hshape_ne (he ▸ hs))
    · simp only [he, if_false]
      by_cases hs : IdShape t
      · have hmatch := (matchSeq_id_iff t).mpr hs
        simp only [hmatch, Bool.not_true, Bool.false_eq_true, if_false]
        by_cases hk : mapping[checkIndex t]? = t[17]?
        · simp [hk, hs]
        · simp only [ne_eq, hk, not_false_eq_true, if_true, hs, true_and, iff_false]
          exact hc
      · have hmatch : matchSeq (List.replicate 17 isDigit ++ [isDigitOrX]) t = false := by
          rw [Bool.eq_false_iff]
          exact fun h => hs ((matchSeq_id_iff t).mp h)
        simp only [hmatch, Bool.not_false, if_true, hs, false_and, iff_false]
        exact hf
  · intro hs hk
    have hmatch := (matchSeq_id_iff t).mpr hs
    rw [if_neg (hshape_ne hs), hmatch, if_neg (by decide), if_pos hk]
  · intro he hs
    have hmatch : matchSeq (List.replicate 17 isDigit ++ [isDigitOrX]) t = false := by
      rw [Bool.eq_false_iff]
      exact fun h => hs ((matchSeq_id_iff t).mp h)
    rw [if_neg he, hmatch, if_pos (by decide)]
  · intro he
    rw [if_pos he]

/-- Witness of C15: the identifier 11010519491231002X is valid, also with a lower-case x
and surrounding blanks, and 110105194912310021 yields the checksum message. -/
theorem validateIDCard_spec_witness :
    validateIDCard "11010519491231002X" = "" ∧
    validateIDCard " 11010519491231002x " = "" ∧
    validateIDCard "110105194912310021" = idChecksum ∧
    validateIDCard "1101051949" = idFormat :=
  ⟨by decide, by decide, by decide,
    (validateIDCard_spec "1101051949").2.2.1 (by decide)
      (by
        rintro ⟨hlen, _⟩
        revert hlen
        decide)⟩

/-- C16: `validateRealName` returns the empty string iff the trimmed name has between 2 and
20 characters, each a CJK ideograph in U+4E00..U+9FA5 or the middle dot; otherwise it
returns one of its three messages, none of which is empty. -/
theorem validateRealName_spec (s : String) :
    (validateRealName s = "" ↔
      2 ≤ (jsTrim s.toList).length ∧ (jsTrim s.toList).length ≤ 20 ∧
      ∀ c ∈ jsTrim s.toList, IsNameChar c) ∧
    (validateRealName s ≠ "" →
      validateRealName s = nameMissing ∨ validateRealName s = nameTooLong ∨
      validateRealName s = nameFormat) ∧
    nameMissing ≠ "" ∧ nameTooLong ≠ "" ∧ nameFormat ≠ "" := by
  have hm : nameMissing ≠ "" := by decide
  have hl : nameTooLong ≠ "" := by decide
  have hf : nameFormat ≠ "" := by decide
  generalize ht : jsTrim s.toList = t
  have hv : validateRealName s =
      if t = [] then nameMissing
      else if utf16Length t > 20 then nameTooLong
      else if !(matchRep isNameChar 2 20 t) then nameFormat
      else "" := by
    unfold validateRealName
    simp only [ht]
  rw [hv]
  have hmatch : matchRep isNameChar 2 20 t = true ↔
      2 ≤ t.length ∧ t.length ≤ 20 ∧ ∀ c ∈ t, IsNameChar c := by
    rw [matchRep_iff]
    simp only [isNameChar_iff]
  refine ⟨?_, ?_, hm, hl, hf⟩
  · by_cases he : t = []
    · subst he
      simp only [if_true, List.length_nil]
      constructor
      · intro h; exact absurd h hm
      · rintro ⟨h, _⟩; omega
    · simp only [he, if_false]
      by_cases hlong : utf16Length t > 20
      · simp only [hlong, if_true]
        constructor
        · intro h; exact absurd h hl
        · rintro ⟨_, h20, hall⟩
          have := utf16Length_of_name t (fun c hc => (isNameChar_iff c).mpr (hall c hc))
          omega
      · simp only [hlong, if_false]
        by_cases hr : matchRep isNameChar 2 20 t = true
        · simp only [hr, Bool.not_true, Bool.false_eq_true, if_false, true_iff]
          exact hmatch.mp hr
        · have hr' : matchRep isNameChar 2 20 t = false := Bool.eq_false_iff.mpr hr
          simp only [hr', Bool.not_false, if_true]
          constructor
          · intro h; exact absurd h hf
          · intro h; exact absurd (hmatch.mpr h) hr
  · intro _
    by_cases he : t = []
    · simp [he]
    · by_cases hlong : utf16Length t > 20
      · simp [he, hlong]
      · by_cases hr : matchRep isNameChar 2 20 t = true
        · simp [he, hlong, hr] at *
        · have hr' : matchRep isNameChar 2 20 t = false := Bool.eq_false_iff.mpr hr
          simp [he, hlong, hr']

/-- Witness of C16: a one-character name is rejected with the format message. -/
theorem validateRealName_spec_witness :
    validateRealName "张" = nameMissing ∨ validateRealName "张" = nameTooLong ∨
      validateRealName "张" = nameFormat :=
  (validateRealName_spec "张").2.1 (by decide)

/-! ## The booking session -/

theorem ensureBuyRuleVerified_modal (b : Booking) (fetched : Option (Option UserInfo)) :
    (ensureBuyRuleVerified b fetched).1.modal = b.modal := by
  unfold ensureBuyRuleVerified
  by_cases ht : b.token = true
  · simp only [ht, Bool.not_true, Bool.false_eq_true, if_false]
    cases hu : b.user with
    | some u => dsimp only; split <;> rfl
    | none =>
      cases fetched with
      | none => dsimp only; split <;> simp [hu]
      | some v => dsimp only; split <;> rfl
  · simp [ht]

theorem draftErrors_real_name (p : PassengerDraft) :
    (draftErrors p).real_name =
      if p.use_self = false ∧ jsTrim p.passenger_id.toList = [] ∧
          validateRealName p.real_name ≠ "" then
        some (validateRealName p.real_name)
      else none := by
  unfold draftErrors
  by_cases h1 : p.use_self = false <;> by_cases h2 : jsTrim p.passenger_id.toList = [] <;>
    by_cases h3 : validateRealName p.real_name = "" <;> simp [h1, h2, h3]

theorem draftErrors_id_card (p : PassengerDraft) :
    (draftErrors p).id_card =
      if p.use_self = false ∧ jsTrim p.passenger_id.toList = [] ∧
          validateIDCard p.id_card ≠ "" then
        some (validateIDCard p.id_card)
      else none := by
  unfold draftErrors
  by_cases h1 : p.use_self = false <;> by_cases h2 : jsTrim p.passenger_id.toList = [] <;>
    by_cases h3 : validateIDCard p.id_card = "" <;> simp [h1, h2, h3]

theorem draftErrors_seat_type (p : PassengerDraft) :
    (draftErrors p).seat_type = if p.seat_type = "" then some "请选择席别" else none := rfl

theorem draftErrors_isEmpty_iff (p : PassengerDraft) :
    (draftErrors p).isEmpty = true ↔ DraftValid p := by
  unfold DraftErrors.isEmpty DraftValid
  rw [draftErrors_real_name, draftErrors_id_card, draftErrors_seat_type]
  by_cases h0 : p.seat_type = "" <;> by_cases h1 : p.use_self = false <;>
    by_cases h2 : jsTrim p.passenger_id.toList = [] <;>
    by_cases h3 : validateRealName p.real_name = "" <;>
    by_cases h4 : validateIDCard p.id_card = "" <;> simp [h0, h1, h2, h3, h4]

theorem mem_collectErrors (ps : List PassengerDraft) :
    ∀ (i j : Nat) (e : DraftErrors), (j, e) ∈ collectErrors i ps ↔
      ∃ (k : Nat) (p : PassengerDraft), ps[k]? = some p ∧ j = i + k ∧ e = draftErrors p ∧
        (draftErrors p).isEmpty = false := by
  induction ps with
  | nil => intro i j e; simp [collectErrors]
  | cons q ps ih =>
    intro i j e
    have hrest : (j, e) ∈ collectErrors (i + 1) ps ↔
        ∃ (k : Nat) (p : PassengerDraft), (q :: ps)[k + 1]? = some p ∧ j = i + (k + 1) ∧
          e = draftErrors p ∧ (draftErrors p).isEmpty = false := by
      rw [ih]
      constructor
      · rintro ⟨k, p, hk, hj, he, hne⟩
        exact ⟨k, p, by simpa using hk, by omega, he, hne⟩
      · rintro ⟨k, p, hk, hj, he, hne⟩
        exact ⟨k, p, by simpa using hk, by omega, he, hne⟩
    unfold collectErrors
    by_cases hq : (draftErrors q).isEmpty = true
    · simp only [hq, if_true]
      rw [hrest]
      constructor
      · rintro ⟨k, p, hk, hj, he, hne⟩
        exact ⟨k + 1, p, hk, hj, he, hne⟩
      · rintro ⟨k, p, hk, hj, he, hne⟩
        cases k with
        | zero =>
          simp only [List.getElem?_cons_zero, Option.some.injEq] at hk
          subst hk
          rw [hq] at hne
          cases hne
        | succ k => exact ⟨k, p, hk, hj, he, hne⟩
    · simp only [hq, Bool.false_eq_true, if_false, List.mem_cons, Prod.mk.injEq]
      rw [hrest]
      constructor
      · rintro (⟨hj, he⟩ | ⟨k, p, hk, hj, he, hne⟩)
        · exact ⟨0, q, by simp, by omega, he, Bool.eq_false_iff.mpr hq⟩
        · exact ⟨k + 1, p, hk, hj, he, hne⟩
      · rintro ⟨k, p, hk, hj, he, hne⟩
        cases k with
        | zero =>
          simp only [List.getElem?_cons_zero, Option.some.injEq] at hk
          subst hk
          exact Or.inl ⟨by omega, he⟩
        | succ k => exact Or.inr ⟨k, p, hk, hj, he, hne⟩

theorem collectErrors_eq_nil_iff (ps : List PassengerDraft) (i : Nat) :
    collectErrors i ps = [] ↔ ∀ p ∈ ps, DraftValid p := by
  constructor
  · intro h p hp
    rw [← draftErrors_isEmpty_iff]
    by_contra hne
    obtain ⟨k, hk⟩ := List.mem_iff_getElem?.mp hp
    have : (i + k, draftErrors p) ∈ collectErrors i ps :=
      (mem_collectErrors ps i (i + k) (draftErrors p)).mpr
        ⟨k, p, hk, rfl, rfl, Bool.eq_false_iff.mpr hne⟩
    rw [h] at this
    cases this
  · intro h
    rw [List.eq_nil_iff_forall_not_mem]
    rintro ⟨j, e⟩ hje
    obtain ⟨k, p, hk, _, _, hne⟩ := (mem_collectErrors ps i j e).mp hje
    have hv := (draftErrors_isEmpty_iff p).mpr (h p (List.getElem?_mem hk))
    rw [hv] at hne
    cases hne

/-- C17: with the entry guard satisfied and the session in step `passengers`, `buyNext`
leaves the drafts as they are and moves to step `confirm` iff every draft passes
validation; otherwise the step stays `passengers` and the error map has an entry for
exactly the failing drafts, the entry of a draft listing exactly its failing fields with
the validator's message; and in that case `createOrder` ends in the same state and sends
no order. -/
theorem buyNext_validates (b : Booking) (m : BuyModal) (fetched : Option (Option UserInfo))
    (outcome : Except String OrderResp) (hb : b.modal = .buy m)
    (hstep : m.step = "passengers") (hg : (ensureBuyRuleVerified b fetched).2 = true) :
    (∃ m1 : BuyModal, (buyNext b fetched).modal = .buy m1 ∧
      m1.passengers = m.passengers ∧
      (m1.step = "confirm" ↔ ∀ p ∈ m.passengers, DraftValid p) ∧
      (¬ (∀ p ∈ m.passengers, DraftValid p) → m1.step = "passengers") ∧
      (∀ (i : Nat) (e : DraftErrors), (i, e) ∈ m1.errors ↔
        ∃ p : PassengerDraft, m.passengers[i]? = some p ∧ ¬ DraftValid p ∧
          e = draftErrors p)) ∧
    (∀ p : PassengerDraft,
      ((draftErrors p).real_name =
        if p.use_self = false ∧ jsTrim p.passenger_id.toList = [] ∧
            validateRealName p.real_name ≠ "" then some (validateRealName p.real_name)
        else none) ∧
      ((draftErrors p).id_card =
        if p.use_self = false ∧ jsTrim p.passenger_id.toList = [] ∧
            validateIDCard p.id_card ≠ "" then some (validateIDCard p.id_card)
        else none) ∧
      ((draftErrors p).seat_type = if p.seat_type = "" then some "请选择席别" else none)) ∧
    (¬ (∀ p ∈ m.passengers, DraftValid p) →
      createOrder b fetched outcome = (buyNext b fetched, none)) := by
  have hmem : ∀ (i : Nat) (e : DraftErrors), (i, e) ∈ collectErrors 0 m.passengers ↔
      ∃ p : PassengerDraft, m.passengers[i]? = some p ∧ ¬ DraftValid p ∧ e = draftErrors p := by
    intro i e
    rw [mem_collectErrors]
    constructor
    · rintro ⟨k, p, hk, hj, he, hne⟩
      have hik : i = k := by omega
      subst hik
      refine ⟨p, hk, ?_, he⟩
      intro hv
      rw [(draftErrors_isEmpty_iff p).mpr hv] at hne
      cases hne
    · rintro ⟨p, hk, hv, he⟩
      refine ⟨i, p, hk, by omega, he, ?_⟩
      rw [Bool.eq_false_iff]
      exact fun h => hv ((draftErrors_isEmpty_iff p).mp h)
  refine ⟨?_, fun p => ⟨draftErrors_real_name p, draftErrors_id_card p,
    draftErrors_seat_type p⟩, ?_⟩
  · by_cases hall : ∀ p ∈ m.passengers, DraftValid p
    · have hnil := (collectErrors_eq_nil_iff m.passengers 0).mpr hall
      refine ⟨{ m with errors := [], step := "confirm" }, ?_, rfl, ?_, ?_, ?_⟩
      · unfold buyNext
        simp [hb, hg, hnil]
      · exact ⟨fun _ => hall, fun _ => rfl⟩
      · intro h; exact absurd hall h
      · intro i e
        rw [← hmem, hnil]
    · have hne : collectErrors 0 m.passengers ≠ [] :=
        fun h => hall ((collectErrors_eq_nil_iff m.passengers 0).mp h)
      refine ⟨{ m with errors := collectErrors 0 m.passengers }, ?_, rfl, ?_, ?_, ?_⟩
      · unfold buyNext
        simp [hb, hg, hne]
      · constructor
        · intro h
          rw [show ({ m with errors := collectErrors 0 m.passengers } : BuyModal).step = m.step
            from rfl, hstep] at h
          exact absurd h (by decide)
        · intro h; exact absurd h hall
      · intro _; exact hstep
      · exact hmem
  · intro hall
    have hne : collectErrors 0 m.passengers ≠ [] :=
      fun h => hall ((collectErrors_eq_nil_iff m.passengers 0).mp h)
    unfold createOrder buyNext
    simp [hb, hg, hne]

/-- Witness of C17: the session just opened for a verified user holds one draft without a
seat class, so `createOrder` ends where `buyNext` ends and sends nothing. -/
theorem buyNext_validates_witness :
    createOrder (openBuyModal sessionBase trainG1) none (.error "x") =
      (buyNext (openBuyModal sessionBase trainG1) none, none) :=
  (buyNext_validates (openBuyModal sessionBase trainG1)
    { step := "passengers", train := trainG1, detail := none,
      passengers := [{ passenger_id := "", use_self := true, real_name := "张三",
                       id_card := "11010519491231002X", seat_type := "", seat_pref := "" }],
      errors := [], creating := false }
    none (.error "x") (by decide) rfl (by decide)).2.2
    (fun h => (h _ (List.mem_singleton.mpr rfl)).1 rfl)

theorem useSelfPassenger_modal (b : Booking) (m : BuyModal) (u : UserInfo) (idx : Nat)
    (p : PassengerDraft) (hb : b.modal = .buy m) (hu : b.user = some u)
    (hv : isRealNameVerified (some u) = true) (hn : u.real_name ≠ "")
    (hp : m.passengers[idx]? = some p) :
    useSelfPassenger b idx =
      { b with modal := .buy (setDraft m idx
          (if p.use_self then { p with use_self := false, real_name := "", id_card := "" }
           else { p with use_self := true, passenger_id := "", real_name := u.real_name,
                         id_card := u.id_card })) } := by
  unfold useSelfPassenger
  rw [hb]
  dsimp only
  rw [hp]
  dsimp only
  rw [hu]
  dsimp only
  rw [hv]
  simp only [Bool.not_true, Bool.false_or, decide_eq_true_eq, hn, if_false]
  split <;> rfl

/-- C18: for a booking session, a manual draft at index `idx` and a verified profile with a
non-empty name, the first `useSelfPassenger` fills the draft from the profile and the second
leaves it with self-flag false and name and identifier empty, with its seat class and seat
preference as before; the other drafts and the number of drafts are unchanged. -/
theorem useSelfPassenger_round_trip (b : Booking) (m : BuyModal) (u : UserInfo) (idx : Nat)
    (p : PassengerDraft) (hb : b.modal = .buy m) (hu : b.user = some u)
    (hv : isRealNameVerified (some u) = true) (hn : u.real_name ≠ "")
    (hp : m.passengers[idx]? = some p) (hm : p.use_self = false) :
    (∃ m1 p1, (useSelfPassenger b idx).modal = .buy m1 ∧ m1.passengers[idx]? = some p1 ∧
      p1.use_self = true ∧ p1.real_name = u.real_name ∧ p1.id_card = u.id_card) ∧
    (∃ m2 p2, (useSelfPassenger (useSelfPassenger b idx) idx).modal = .buy m2 ∧
      m2.passengers[idx]? = some p2 ∧
      p2.use_self = false ∧ p2.real_name = "" ∧ p2.id_card = "" ∧
      p2.seat_type = p.seat_type ∧ p2.seat_pref = p.seat_pref ∧
      m2.passengers.length = m.passengers.length ∧
      (∀ j : Nat, j ≠ idx → m2.passengers[j]? = m.passengers[j]?) ∧
      m2.step = m.step ∧ m2.train = m.train ∧ m2.detail = m.detail) := by
  have hlt : idx < m.passengers.length := by
    by_contra hge
    rw [List.getElem?_eq_none (by omega)] at hp
    cases hp
  have h1 := useSelfPassenger_modal b m u idx p hb hu hv hn hp
  rw [hm] at h1
  simp only [Bool.false_eq_true, if_false] at h1
  have hp1 : (setDraft m idx
      { p with use_self := true, passenger_id := "", real_name := u.real_name,
               id_card := u.id_card }).passengers[idx]? =
      some { p with use_self := true, passenger_id := "", real_name := u.real_name,
                    id_card := u.id_card } := by
    simp [setDraft, List.getElem?_set, hlt]
  have h2 := useSelfPassenger_modal (useSelfPassenger b idx) _ u idx _
    (by rw [h1]) (by rw [h1]; exact hu) hv hn hp1
  simp only [if_true] at h2
  refine ⟨⟨setDraft m idx
      { p with use_self := true, passenger_id := "", real_name := u.real_name,
               id_card := u.id_card },
      { p with use_self := true, passenger_id := "", real_name := u.real_name,
               id_card := u.id_card }, by rw [h1], hp1, rfl, rfl, rfl⟩, ?_⟩
  refine ⟨setDraft (setDraft m idx
      { p with use_self := true, passenger_id := "", real_name := u.real_name,
               id_card := u.id_card }) idx
      { passenger_id := "", use_self := false, real_name := "", id_card := "",
        seat_type := p.seat_type, seat_pref := p.seat_pref },
      { passenger_id := "", use_self := false, real_name := "", id_card := "",
        seat_type := p.seat_type, seat_pref := p.seat_pref },
      by rw [h2], ?_, rfl, rfl, rfl, rfl, rfl, ?_, ?_, rfl, rfl, rfl⟩
  · simp [setDraft, List.getElem?_set, hlt]
  · simp [setDraft]
  · intro j hj
    simp [setDraft, List.getElem?_set, Ne.symm hj]

/-- Witness of C18: the first draft of a two-draft session, toggled to self and back. -/
theorem useSelfPassenger_round_trip_witness :
    ∃ m2 p2, (useSelfPassenger (useSelfPassenger sessionTwoDrafts 0) 0).modal = .buy m2 ∧
      m2.passengers[0]? = some p2 ∧ p2.use_self = false ∧ p2.real_name = "" ∧ p2.id_card = "" ∧
      p2.seat_type = "second" ∧ p2.seat_pref = "01A" :=
  match (useSelfPassenger_round_trip sessionTwoDrafts
    { step := "passengers", train := trainG1, detail := none,
      passengers := [manualDraft, { manualDraft with real_name := "王五", seat_pref := "01B" }],
      errors := [], creating := false }
    verifiedUser 0 manualDraft rfl rfl (by decide) (by decide) rfl rfl).2 with
  | ⟨m2, p2, h1, h2, h3, h4, h5, h6, h7, _⟩ => ⟨m2, p2, h1, h2, h3, h4, h5, h6, h7⟩

/-- C19: for a booking session, a draft index `idx` and a seat `c` different from the
current preference of draft `idx`, after `pickSeatPref idx c` draft `idx` prefers `c` and
is otherwise unchanged, every other draft of the same seat class that preferred `c` has
an empty preference and is otherwise unchanged, and every other draft is unchanged. -/
theorem pickSeatPref_last_writer (b : Booking) (m : BuyModal) (idx : Nat) (c : String)
    (p : PassengerDraft) (hb : b.modal = .buy m) (hp : m.passengers[idx]? = some p)
    (hc : c ≠ p.seat_pref) :
    ∃ m1, (pickSeatPref b idx c).modal = .buy m1 ∧
      m1.passengers.length = m.passengers.length ∧
      m1.passengers[idx]? = some { p with seat_pref := c } ∧
      (∀ (j : Nat) (q : PassengerDraft), j ≠ idx → m.passengers[j]? = some q →
        m1.passengers[j]? =
          some (if q.seat_type = p.seat_type ∧ q.seat_pref = c then { q with seat_pref := "" }
                else q)) ∧
      m1.step = m.step ∧ m1.train = m.train ∧ m1.detail = m.detail := by
  have hlt : idx < m.passengers.length := by
    by_contra hge
    rw [List.getElem?_eq_none (by omega)] at hp
    cases hp
  have hne : ¬ p.seat_pref = c := fun h => hc h.symm
  unfold pickSeatPref
  rw [hb]
  dsimp only
  rw [hp]
  dsimp only
  simp only [hne, if_false]
  refine ⟨_, rfl, ?_, ?_, ?_, rfl, rfl, rfl⟩
  · simp [List.enum]
  · simp [List.getElem?_map, List.getElem?_enum, List.getElem?_set, hlt]
  · intro j q hj hq
    simp only [List.getElem?_map, List.getElem?_enum, List.getElem?_set, Ne.symm hj, if_false,
      hq, Option.map_some']
    simp [hj]

/-- Witness of C19: the second draft of a two-draft session picks the seat the first draft
prefers. -/
theorem pickSeatPref_last_writer_witness :
    ∃ m1, (pickSeatPref sessionTwoDrafts 1 "01A").modal = .buy m1 ∧
      m1.passengers.length = 2 ∧
      m1.passengers[1]? = some { manualDraft with real_name := "王五", seat_pref := "01A" } :=
  match pickSeatPref_last_writer sessionTwoDrafts
    { step := "passengers", train := trainG1, detail := none,
      passengers := [manualDraft, { manualDraft with real_name := "王五", seat_pref := "01B" }],
      errors := [], creating := false }
    1 "01A" { manualDraft with real_name := "王五", seat_pref := "01B" } rfl rfl (by decide) with
  | ⟨m1, h1, h2, h3, _⟩ => ⟨m1, h1, h2, h3⟩

/-- C20 fails in the code: in the session reached from `openBuyModal` by `loadTrainDetail`
(which gives the first draft the class `first`), `addPassenger`, `updatePassenger` giving
the second draft the class `second`, `pickSeatPref` of seat 01A by both drafts and a final
`updatePassenger` changing the class of the second draft to `first`, both drafts have
class `first` and preference 01A. -/
theorem updatePassenger_breaks_single_owner :
    sessionAfterClassChange.modal = .buy
      { step := "passengers", train := trainG1, detail := some faresG1,
        passengers :=
          [{ passenger_id := "", use_self := true, real_name := "张三",
             id_card := "11010519491231002X", seat_type := "first", seat_pref := "01A" },
           { passenger_id := "", use_self := false, real_name := "", id_card := "",
             seat_type := "first", seat_pref := "01A" }],
        errors := [], creating := false } ∧
    ∀ m, sessionAfterClassChange.modal = .buy m → ¬ SingleOwner m.passengers := by
  have h0 : sessionAfterClassChange.modal = .buy
      { step := "passengers", train := trainG1, detail := some faresG1,
        passengers :=
          [{ passenger_id := "", use_self := true, real_name := "张三",
             id_card := "11010519491231002X", seat_type := "first", seat_pref := "01A" },
           { passenger_id := "", use_self := false, real_name := "", id_card := "",
             seat_type := "first", seat_pref := "01A" }],
        errors := [], creating := false } := by decide
  refine ⟨h0, ?_⟩
  intro m hm h
  rw [h0] at hm
  cases hm
  exact h 0 1 _ _ (by decide) rfl rfl rfl (by decide) rfl

/-! ## Order creation and the entry guard -/

/-- C21 fails in the code: when the order-creation call rejects for a session in step
`confirm` whose drafts all pass validation, `createOrder` has sent one request, the
session keeps its drafts and its step, no payment state and no poller exist, and the flag
`creating` is still true. -/
theorem createOrder_failure_keeps_creating :
    createOrder sessionConfirm none (.error "余票不足") =
      ({ sessionConfirm with
          modal := .buy
            { step := "confirm", train := trainG1, detail := some faresG1,
              passengers := [manualDraft], errors := [], creating := true }
          toast := some "余票不足" },
       some
        { train_id := "G1", departure_station := "北京", arrival_station := "上海",
          passengers :=
            [{ passenger_id := 0, use_self := false, real_name := "李四",
               id_card := "11010519491231002X", seat_type := "second" }] }) := by
  decide

theorem ensureBuyRuleVerified_snd (b : Booking) (fetched : Option (Option UserInfo)) :
    (ensureBuyRuleVerified b fetched).2 =
      (b.token && isRealNameVerified (cachedOrFetched b fetched)) := by
  unfold ensureBuyRuleVerified cachedOrFetched
  cases ht : b.token
  · rfl
  · simp only [Bool.not_true, Bool.false_eq_true, if_false, Bool.true_and]
    cases hu : b.user with
    | some u => dsimp only; split <;> rename_i h <;> simp [h]
    | none =>
      dsimp only
      split
      · rename_i h; exact h.symm
      · rename_i h; exact (Bool.eq_false_iff.mpr h).symm

theorem buyNext_of_guard_false (b : Booking) (fetched : Option (Option UserInfo))
    (hg : (ensureBuyRuleVerified b fetched).2 = false) :
    (buyNext b fetched).modal = b.modal := by
  unfold buyNext
  cases hb : b.modal with
  | buy m =>
    simp only [hg, Bool.not_false, if_true]
    rw [ensureBuyRuleVerified_modal, hb]
  | closed => simp [hb]
  | other t => simp [hb]

theorem createOrder_of_guard_false (b : Booking) (fetched : Option (Option UserInfo))
    (outcome : Except String OrderResp) (hg : (ensureBuyRuleVerified b fetched).2 = false) :
    (createOrder b fetched outcome).1.modal = b.modal ∧
      (createOrder b fetched outcome).2 = none := by
  unfold createOrder
  cases hb : b.modal with
  | buy m =>
    simp only [hg, Bool.not_false, if_true]
    rw [ensureBuyRuleVerified_modal, hb]
    simp
  | closed => simp [hb]
  | other t => simp [hb]

theorem enterConfirm_of_guard_false (b : Booking) (fetched : Option (Option UserInfo))
    (trains : List TrainItem) (trainId : Option String)
    (hg : (ensureBuyRuleVerified b fetched).2 = false) :
    (enterConfirm b fetched trains trainId).modal = b.modal := by
  unfold enterConfirm
  cases trainId with
  | none => rfl
  | some id =>
    dsimp only
    split
    · rfl
    · simp only [hg, Bool.not_false, if_true]
      exact ensureBuyRuleVerified_modal b fetched

/-- C26: `ensureBuyRuleVerified` returns true iff the credential is set and the verification
status of the cached profile, or of the fetched one when none is cached, equals VERIFIED
after trimming and upper-casing; then it does not redirect. Without a credential it
redirects to the login view, with one and without a verified profile to the account view
with `verify=1`, each time with the encoded return target as the `next` parameter. When it
returns false, `enterConfirm` opens no session, `buyNext` does not advance and
`createOrder` sends nothing: the modal is left as it was. -/
theorem ensureBuyRuleVerified_guard (enc : String → String) (b : Booking)
    (fetched : Option (Option UserInfo)) (metaNext : Option String) (hash : String) :
    ((ensureBuyRuleVerified b fetched).2 = true ↔
      b.token = true ∧
      ∃ u : UserInfo, cachedOrFetched b fetched = some u ∧
        jsToUpperCase (jsTrim u.real_name_verified.toList) = "VERIFIED".toList) ∧
    ((ensureBuyRuleVerified b fetched).2 = true →
      ensureBuyRuleVerifiedHash enc b fetched metaNext hash = none) ∧
    (b.token = false →
      (ensureBuyRuleVerified b fetched).2 = false ∧
      ensureBuyRuleVerifiedHash enc b fetched metaNext hash =
        some ("#/login?next=" ++ enc (nextTarget metaNext hash))) ∧
    (b.token = true → (ensureBuyRuleVerified b fetched).2 = false →
      ensureBuyRuleVerifiedHash enc b fetched metaNext hash =
        some ("#/account?verify=1&next=" ++ enc (nextTarget metaNext hash))) ∧
    ((ensureBuyRuleVerified b fetched).2 = false →
      ∀ (trains : List TrainItem) (trainId : Option String)
        (outcome : Except String OrderResp),
        (enterConfirm b fetched trains trainId).modal = b.modal ∧
        (buyNext b fetched).modal = b.modal ∧
        (createOrder b fetched outcome).1.modal = b.modal ∧
        (createOrder b fetched outcome).2 = none) := by
  have hsnd := ensureBuyRuleVerified_snd b fetched
  refine ⟨?_, ?_, ?_, ?_, ?_⟩
  · rw [hsnd, Bool.and_eq_true]
    refine and_congr_right (fun _ => ?_)
    generalize cachedOrFetched b fetched = prof
    cases prof with
    | none => simp [isRealNameVerified]
    | some u => simp [isRealNameVerified]
  · intro h
    rw [hsnd, Bool.and_eq_true] at h
    unfold ensureBuyRuleVerifiedHash
    simp [h.1, h.2]
  · intro ht
    refine ⟨by rw [hsnd, ht]; rfl, ?_⟩
    unfold ensureBuyRuleVerifiedHash
    simp [ht]
  · intro ht h
    rw [hsnd, ht, Bool.true_and] at h
    unfold ensureBuyRuleVerifiedHash
    simp [ht, h]
  · intro h trains trainId outcome
    exact ⟨enterConfirm_of_guard_false b fetched trains trainId h,
      buyNext_of_guard_false b fetched h,
      createOrder_of_guard_false b fetched outcome h⟩

/-- Witness of C26: a logged-in user whose profile, fetched because none is cached, says
`pending` is sent to the account view with the confirm page as return target, and no
session is opened. -/
theorem ensureBuyRuleVerified_guard_witness :
    ensureBuyRuleVerifiedHash (fun x => x) { sessionBase with user := none }
        (some (some { verifiedUser with real_name_verified := "pending" }))
        (some "#/order/confirm?train_id=G1") "#/trains" =
      some ("#/account?verify=1&next=" ++ "#/order/confirm?train_id=G1") :=
  (ensureBuyRuleVerified_guard (fun x => x) { sessionBase with user := none }
    (some (some { verifiedUser with real_name_verified := "pending" }))
    (some "#/order/confirm?train_id=G1") "#/trains").2.2.2.1 rfl (by decide)

/-! ## The render scheduler -/

/-- The invariant of the scheduler: one callback is pending when the flag is set, none
otherwise. -/
theorem renderSoon_inv (s : Scheduler)
    (h : s.callbacks = if s.renderScheduled then 1 else 0) :
    (renderSoon s).callbacks = if (renderSoon s).renderScheduled then 1 else 0 := by
  unfold renderSoon
  cases hr : s.renderScheduled
  · simp [hr] at h ⊢
    exact h
  · simp [hr] at h ⊢
    exact h

theorem callback_inv (s : Scheduler)
    (h : s.callbacks = if s.renderScheduled then 1 else 0) :
    s.callback.callbacks = 0 ∧ s.callback.renderScheduled = false := by
  unfold Scheduler.callback
  cases hr : s.renderScheduled
  · simp [hr] at h
    simp [h, hr]
  · simp [hr] at h
    simp [h]

theorem frame_eq_callback (s : Scheduler)
    (h : s.callbacks = if s.renderScheduled then 1 else 0) : s.frame = s.callback := by
  unfold Scheduler.frame
  cases hr : s.renderScheduled
  · simp [hr] at h
    simp [h, Scheduler.callback]
  · simp [hr] at h
    simp [h, List.range_succ]

theorem sched_step_inv (s : Scheduler) (e : SchedEvent)
    (h : s.callbacks = if s.renderScheduled then 1 else 0) :
    (s.step e).callbacks = if (s.step e).renderScheduled then 1 else 0 := by
  cases e with
  | mutate => exact h
  | renderSoon => exact renderSoon_inv s h
  | frame =>
    show s.frame.callbacks = if s.frame.renderScheduled then 1 else 0
    rw [frame_eq_callback s h, (callback_inv s h).1, (callback_inv s h).2]
    rfl

theorem sched_run_inv (es : List SchedEvent) :
    ∀ s : Scheduler, (s.callbacks = if s.renderScheduled then 1 else 0) →
      (s.run es).callbacks = if (s.run es).renderScheduled then 1 else 0 := by
  induction es with
  | nil => intro s h; exact h
  | cons e es ih => intro s h; exact ih (s.step e) (sched_step_inv s e h)

theorem burst_spec (s : Scheduler) (h : s.callbacks = if s.renderScheduled then 1 else 0) :
    ∀ n : Nat, 1 ≤ n →
      (s.burst n).callbacks = 1 ∧ (s.burst n).renderScheduled = true ∧
      (s.burst n).version = s.version + n ∧ (s.burst n).rendered = s.rendered := by
  have key : ∀ t : Scheduler, (t.callbacks = if t.renderScheduled then 1 else 0) →
      (renderSoon t.mutate).callbacks = 1 ∧ (renderSoon t.mutate).renderScheduled = true ∧
      (renderSoon t.mutate).version = t.version + 1 ∧
      (renderSoon t.mutate).rendered = t.rendered := by
    intro t ht
    unfold renderSoon Scheduler.mutate
    cases hr : t.renderScheduled
    · simp [hr] at ht
      simp [hr, ht]
    · simp [hr] at ht
      simp [hr, ht]
  intro n
  induction n with
  | zero => intro h0; omega
  | succ n ih =>
    intro _
    cases n with
    | zero => exact key s h
    | succ m =>
      obtain ⟨h1, h2, h3, h4⟩ := ih (by omega)
      have ht : (s.burst (m + 1)).callbacks =
          if (s.burst (m + 1)).renderScheduled then 1 else 0 := by rw [h1, h2]; rfl
      obtain ⟨k1, k2, k3, k4⟩ := key (s.burst (m + 1)) ht
      refine ⟨k1, k2, ?_, ?_⟩
      · show (renderSoon (s.burst (m + 1)).mutate).version = _
        rw [k3, h3]; omega
      · show (renderSoon (s.burst (m + 1)).mutate).rendered = _
        rw [k4, h4]

/-- C25: in every state the scheduler reaches, one frame callback is pending when
`renderScheduled` is true and none otherwise; after `n >= 1` handlers that each mutate the
state and call `renderSoon`, exactly one callback is pending; the next display refresh
makes exactly one more call of `render`, which reads the state after all `n` mutations, and
leaves the flag false with no callback pending, so that a later `renderSoon` registers a
new callback. -/
theorem renderSoon_coalesces (es : List SchedEvent) (n : Nat) (hn : 1 ≤ n) :
    ((Scheduler.init.run es).callbacks =
      if (Scheduler.init.run es).renderScheduled then 1 else 0) ∧
    ((Scheduler.init.run es).burst n).callbacks = 1 ∧
    ((Scheduler.init.run es).burst n).renderScheduled = true ∧
    ((Scheduler.init.run es).burst n).rendered = (Scheduler.init.run es).rendered ∧
    ((Scheduler.init.run es).burst n).frame.rendered =
      (Scheduler.init.run es).rendered ++ [(Scheduler.init.run es).version + n] ∧
    ((Scheduler.init.run es).burst n).frame.renderScheduled = false ∧
    ((Scheduler.init.run es).burst n).frame.callbacks = 0 ∧
    (renderSoon ((Scheduler.init.run es).burst n).frame).callbacks = 1 ∧
    (renderSoon ((Scheduler.init.run es).burst n).frame).renderScheduled = true := by
  have hinv := sched_run_inv es Scheduler.init rfl
  generalize Scheduler.init.run es = s at hinv ⊢
  obtain ⟨h1, h2, h3, h4⟩ := burst_spec s hinv n hn
  have hb : (s.burst n).callbacks = if (s.burst n).renderScheduled then 1 else 0 := by
    rw [h1, h2]; rfl
  have hf := frame_eq_callback (s.burst n) hb
  have hc := callback_inv (s.burst n) hb
  have hr : (s.burst n).callback.rendered = s.rendered ++ [s.version + n] := by
    unfold Scheduler.callback
    simp [h1, h3, h4]
  refine ⟨hinv, h1, h2, h4, by rw [hf, hr], by rw [hf]; exact hc.2, by rw [hf]; exact hc.1,
    ?_, ?_⟩
  · rw [hf]; unfold renderSoon; simp [hc.1, hc.2]
  · rw [hf]; unfold renderSoon; simp [hc.2]

/-- Witness of C25: three handlers in one burst from the initial state, then a refresh: one
render, which reads the third version. -/
theorem renderSoon_coalesces_witness :
    ((Scheduler.init.run []).burst 3).frame.rendered =
      (Scheduler.init.run []).rendered ++ [(Scheduler.init.run []).version + 3] :=
  (renderSoon_coalesces [] 3 (by decide)).2.2.2.2.1

/-! ## The payment poller -/

theorem stopPayPolling_spec (s : Pay) (h : s.Inv) :
    s.stopPayPolling.payPoll = none ∧ s.stopPayPolling.intervals = [] ∧
    s.stopPayPolling.nextHandle = s.nextHandle ∧ s.stopPayPolling.token = s.token ∧
    s.stopPayPolling.calls =
      s.calls ++ (match s.payPoll with
        | some pp => [TimerCall.clearInterval pp.timer]
        | none => []) := by
  obtain ⟨_, h2, h3⟩ := h
  unfold Pay.stopPayPolling
  cases hp : s.payPoll with
  | none =>
    rw [hp] at h3
    simp [h3]
  | some pp =>
    rw [hp] at h3
    have hne := (h2 pp hp).1
    simp [hne, h3]

theorem stopPayPolling_inv (s : Pay) (h : s.Inv) : s.stopPayPolling.Inv := by
  obtain ⟨h1, h2, h3, _, _⟩ := stopPayPolling_spec s h
  refine ⟨by rw [h3]; exact h.1, ?_, ?_⟩
  · intro pp hpp
    rw [h1] at hpp
    cases hpp
  · rw [h1, h2]

theorem startPayPolling_spec (s : Pay) (h : s.Inv) (orderId : String) :
    (String.mk (jsTrim orderId.toList) = "" →
      (s.startPayPolling orderId).payPoll = none ∧
      (s.startPayPolling orderId).intervals = [] ∧
      (s.startPayPolling orderId).nextHandle = s.nextHandle) ∧
    (String.mk (jsTrim orderId.toList) ≠ "" →
      (s.startPayPolling orderId).payPoll =
        some { order_id := String.mk (jsTrim orderId.toList), timer := s.nextHandle } ∧
      (s.startPayPolling orderId).intervals =
        [{ handle := s.nextHandle, order_id := String.mk (jsTrim orderId.toList) }] ∧
      (s.startPayPolling orderId).nextHandle = s.nextHandle + 1 ∧
      (s.startPayPolling orderId).calls =
        s.calls ++ (match s.payPoll with
          | some pp => [TimerCall.clearInterval pp.timer]
          | none => []) ++ [TimerCall.setInterval s.nextHandle]) := by
  obtain ⟨h1, h2, h3, _, h5⟩ := stopPayPolling_spec s h
  unfold Pay.startPayPolling
  constructor
  · intro he
    simp only [he, if_true]
    exact ⟨h1, h2, h3⟩
  · intro he
    simp only [he, if_false]
    refine ⟨by rw [h3], by rw [h2, h3]; rfl, by rw [h3], by rw [h5, h3]⟩

theorem startPayPolling_inv (s : Pay) (h : s.Inv) (orderId : String) :
    (s.startPayPolling orderId).Inv := by
  obtain ⟨ha, hb⟩ := startPayPolling_spec s h orderId
  by_cases he : String.mk (jsTrim orderId.toList) = ""
  · obtain ⟨h1, h2, h3⟩ := ha he
    refine ⟨by rw [h3]; exact h.1, ?_, ?_⟩
    · intro pp hpp
      rw [h1] at hpp
      cases hpp
    · rw [h1, h2]
  · obtain ⟨h1, h2, h3, _⟩ := hb he
    refine ⟨by rw [h3]; omega, ?_, ?_⟩
    · intro pp hpp
      rw [h1] at hpp
      cases hpp
      have := h.1
      rw [h3]
      show s.nextHandle ≠ 0 ∧ s.nextHandle < s.nextHandle + 1
      omega
    · rw [h1, h2]

theorem Inv_of_fields (s t : Pay) (h : s.Inv) (h1 : t.payPoll = s.payPoll)
    (h2 : t.intervals = s.intervals) (h3 : t.nextHandle = s.nextHandle) : t.Inv := by
  obtain ⟨a, b, c⟩ := h
  refine ⟨by rw [h3]; exact a, ?_, ?_⟩
  · intro pp hpp
    rw [h1] at hpp
    rw [h3]
    exact b pp hpp
  · rw [h1, h2]
    exact c

theorem onInterval_inv (s : Pay) (h : s.Inv) (handle : Nat) : (s.onInterval handle).Inv := by
  unfold Pay.onInterval
  split
  · exact h
  · split
    · exact h
    · exact Inv_of_fields s _ h rfl rfl rfl

theorem onResponse_inv (s : Pay) (h : s.Inv) (k : Nat) (res : PollResult) :
    (s.onResponse k res).Inv := by
  unfold Pay.onResponse
  split
  · exact h
  · cases res with
    | status st =>
      dsimp only
      split
      · exact stopPayPolling_inv _ (Inv_of_fields s _ h rfl rfl rfl)
      · exact Inv_of_fields s _ h rfl rfl rfl
    | unauthorized => exact Inv_of_fields s _ h rfl rfl rfl
    | failed => exact Inv_of_fields s _ h rfl rfl rfl

theorem onHashChange_inv (s : Pay) (h : s.Inv) (path orderId : String) :
    (s.onHashChange path orderId).Inv := by
  unfold Pay.onHashChange
  have h1 : (if path ≠ "#/pay" then s.stopPayPolling else s).Inv := by
    split
    · exact stopPayPolling_inv s h
    · exact h
  dsimp only
  split
  · exact startPayPolling_inv _ h1 orderId
  · exact h1

theorem pay_step_inv (s : Pay) (h : s.Inv) (e : PayEvent) : (s.step e).Inv := by
  cases e with
  | start orderId => exact startPayPolling_inv s h orderId
  | stop => exact stopPayPolling_inv s h
  | interval handle => exact onInterval_inv s h handle
  | response k res => exact onResponse_inv s h k res
  | hashChange path orderId => exact onHashChange_inv s h path orderId
  | login => exact Inv_of_fields s _ h rfl rfl rfl
  | logout => exact Inv_of_fields s _ h rfl rfl rfl

theorem pay_init_inv (token : Bool) : (Pay.init token).Inv := by
  refine ⟨Nat.le_refl 1, ?_, rfl⟩
  intro pp h
  cases h

theorem pay_run_inv (es : List PayEvent) : ∀ s : Pay, s.Inv → (s.run es).Inv := by
  induction es with
  | nil => intro s h; exact h
  | cons e es ih => intro s h; exact ih (s.step e) (pay_step_inv s h e)

/-- C22: in every state the poller reaches by calls of `startPayPolling` and
`stopPayPolling`, ticks, responses, navigations, logins and logouts, at most one interval
timer is not cancelled and it is the one recorded in `state.payPoll`; starting a poller for
a non-empty order id while the poller of `state.payPoll` is active first calls
`clearInterval` on the old timer and then `setInterval`, leaving the new timer as the only
one; and `startPayPolling` with an empty order id leaves no poller and no timer. -/
theorem payPoll_single_timer (token : Bool) (es : List PayEvent) :
    ((Pay.init token).run es).intervals.length ≤ 1 ∧
    (∀ i ∈ ((Pay.init token).run es).intervals,
      ((Pay.init token).run es).payPoll = some { order_id := i.order_id, timer := i.handle }) ∧
    (∀ pp : PayPoll, ((Pay.init token).run es).payPoll = some pp →
      ((Pay.init token).run es).intervals = [{ handle := pp.timer, order_id := pp.order_id }]) ∧
    (∀ (pp : PayPoll) (o2 : String), ((Pay.init token).run es).payPoll = some pp →
      String.mk (jsTrim o2.toList) ≠ "" →
      (((Pay.init token).run es).startPayPolling o2).calls =
        ((Pay.init token).run es).calls ++
          [TimerCall.clearInterval pp.timer,
           TimerCall.setInterval ((Pay.init token).run es).nextHandle] ∧
      (((Pay.init token).run es).startPayPolling o2).intervals =
        [{ handle := ((Pay.init token).run es).nextHandle,
           order_id := String.mk (jsTrim o2.toList) }] ∧
      (((Pay.init token).run es).startPayPolling o2).payPoll =
        some { order_id := String.mk (jsTrim o2.toList),
               timer := ((Pay.init token).run es).nextHandle } ∧
      pp.timer ≠ ((Pay.init token).run es).nextHandle) ∧
    (∀ o2 : String, String.mk (jsTrim o2.toList) = "" →
      (((Pay.init token).run es).startPayPolling o2).payPoll = none ∧
      (((Pay.init token).run es).startPayPolling o2).intervals = []) := by
  have hinv := pay_run_inv es (Pay.init token) (pay_init_inv token)
  generalize (Pay.init token).run es = s at hinv ⊢
  have h3 := hinv.2.2
  refine ⟨?_, ?_, ?_, ?_, ?_⟩
  · rw [h3]; split <;> simp
  · intro i hi
    rw [h3] at hi
    cases hp : s.payPoll with
    | none => rw [hp] at hi; cases hi
    | some pp =>
      rw [hp] at hi
      simp only [List.mem_singleton] at hi
      rw [hi]
  · intro pp hp
    rw [h3, hp]
  · intro pp o2 hp he
    obtain ⟨k1, k2, _, k4⟩ := (startPayPolling_spec s hinv o2).2 he
    refine ⟨?_, k2, k1, ?_⟩
    · rw [k4, hp]; simp
    · exact Nat.ne_of_lt (hinv.2.1 pp hp).2
  · intro o2 he
    obtain ⟨k1, k2, _⟩ := (startPayPolling_spec s hinv o2).1 he
    exact ⟨k1, k2⟩

/-- Witness of C22: while the poller of order O1 is active, starting the poller of order O2
cancels timer 1 and then creates the next timer. -/
theorem payPoll_single_timer_witness :
    (((Pay.init true).run [.start "O1"]).startPayPolling "O2").calls =
      ((Pay.init true).run [.start "O1"]).calls ++
        [TimerCall.clearInterval 1,
         TimerCall.setInterval ((Pay.init true).run [.start "O1"]).nextHandle] :=
  ((payPoll_single_timer true [.start "O1"]).2.2.2.1 { order_id := "O1", timer := 1 } "O2"
    (by decide) (by decide)).1

/-- C23 fails in the code: the poller of order A is started and its timer ticks once, so a
status request for A is in flight; a navigation to the payment view of order B starts the
poller of B (timer 2); then the response for A arrives with the status ISSUED and
`stopPayPolling()` cancels the timer of B and clears `state.payPoll`, although no response
for B has arrived and the payment view has not been left. -/
theorem late_response_stops_other_poller :
    ((Pay.init true).run
        [.start "A", .interval 1, .hashChange "#/pay" "B"]).payPoll =
      some { order_id := "B", timer := 2 } ∧
    ((Pay.init true).run
        [.start "A", .interval 1, .hashChange "#/pay" "B"]).inflight = ["A"] ∧
    (Pay.init true).run
        [.start "A", .interval 1, .hashChange "#/pay" "B", .response 0 (.status "ISSUED")] =
      { token := true, payPoll := none, payInfo := some ("A", "ISSUED"), intervals := [],
        nextHandle := 3,
        calls := [.setInterval 1, .clearInterval 1, .setInterval 2, .clearInterval 2],
        inflight := [] } := by
  decide

/-! ## Logout -/

theorem onInterval_of_no_token (s : Pay) (h : s.token = false) (handle : Nat) :
    s.onInterval handle = s := by
  unfold Pay.onInterval
  split
  · rfl
  · simp [h]

/-- The hash of the login redirect is longer than the hash it replaces, `encodeURIComponent`
never shortening its argument: `setHash` always changes the hash. -/
theorem loginHash_ne (enc : String → String) (henc : ∀ s : String, s.length ≤ (enc s).length)
    (hash : String) : hash ≠ "#/login?next=" ++ enc (nextTarget none hash) := by
  intro h
  have hl := congrArg String.length h
  rw [String.length_append] at hl
  have h1 := henc (nextTarget none hash)
  have h2 : hash.length ≤ (nextTarget none hash).length := by
    show hash.length ≤ (if hash ≠ "" then hash else "#/").length
    by_cases hx : hash = ""
    · rw [hx]
      decide
    · rw [if_pos hx]
  have h3 : "#/login?next=".length = 13 := by decide
  omega

/-- On the hash of a login redirect the rows of the list contribute no key: `syncRemainWS`
asks for the keys of the open booking session only. -/
theorem syncKeys_login (v : View) (x : String) :
    syncKeys { v with hash := "#/login?next=" ++ x }
      = syncKeys { v with hash := "#/login" } := by
  have hd : ("#/login?next=" ++ x).toList
      = '#' :: '/' :: 'l' :: ("ogin?next=".toList ++ x.toList) := by
    show ("#/login?next=" ++ x).data = _
    rw [String.data_append]
    rfl
  have h0 : "#/login?next=" ++ x ≠ "" := by
    intro h
    have := congrArg String.toList h
    rw [hd] at this
    cases this
  have h1 : "#/login?next=" ++ x ≠ "#/trains" := by
    intro h
    have := congrArg String.toList h
    rw [hd] at this
    have e : "#/trains".toList = ['#', '/', 't', 'r', 'a', 'i', 'n', 's'] := rfl
    rw [e] at this
    simp at this
  have h2 : "#/login?next=" ++ x ≠ "#/" := by
    intro h
    have := congrArg String.toList h
    rw [hd] at this
    have e : "#/".toList = ['#', '/'] := rfl
    rw [e] at this
    simp at this
  have h3 : "#/search".toList.isPrefixOf ("#/login?next=" ++ x).toList = false := by
    rw [hd]
    have e : "#/search".toList = ['#', '/', 's', 'e', 'a', 'r', 'c', 'h'] := rfl
    rw [e]
    simp [List.isPrefixOf]
  have k : ∀ (m : List Key) (ids : List String),
      m ++ (if ((if "#/login?next=" ++ x ≠ "" then "#/login?next=" ++ x else "#/") = "#/trains" ∨
          (if "#/login?next=" ++ x ≠ "" then "#/login?next=" ++ x else "#/") = "#/" ∨
          "#/search".toList.isPrefixOf
            (if "#/login?next=" ++ x ≠ "" then "#/login?next=" ++ x else "#/").toList = true) ∧
          v.seat_type ≠ "" then
        ids.map (fun id => keyOf id v.seat_type v.travel_date) else []) = m ++ [] := by
    intro m ids
    rw [if_pos h0, if_neg]
    rintro ⟨h | h | h, -⟩
    · exact h1 h
    · exact h2 h
    · rw [h3] at h
      cases h
  have k2 : ∀ (m : List Key) (ids : List String),
      m ++ (if ((if ("#/login" : String) ≠ "" then "#/login" else "#/") = "#/trains" ∨
          (if ("#/login" : String) ≠ "" then "#/login" else "#/") = "#/" ∨
          "#/search".toList.isPrefixOf
            (if ("#/login" : String) ≠ "" then "#/login" else "#/").toList = true) ∧
          v.seat_type ≠ "" then
        ids.map (fun id => keyOf id v.seat_type v.travel_date) else []) = m ++ [] := by
    intro m ids
    rw [if_neg]
    rintro ⟨h, -⟩
    revert h
    decide
  unfold syncKeys
  exact (k _ _).trans (k2 _ _).symm

/-- Without a booking session, `syncRemainWS` on the login view asks for no key. -/
theorem syncKeys_login_nil (v : View) (h : ∀ m : BuyModal, v.modal ≠ ModalState.buy m) :
    syncKeys { v with hash := "#/login" } = [] := by
  unfold syncKeys
  cases hm : v.modal with
  | closed => simp
  | buy m => exact absurd hm (h m)
  | other t => simp

/-- A call of `sync` with no key, from a well-formed state: the desired set and the table
are empty, no channel of a tracked record is live, and every record that was tracked is
closed by us, its timer cancelled and its channel no longer live. -/
theorem sync_nil_teardown (env : Env) (s : Mux) (h : WF s) :
    (sync env s []).desired = [] ∧ (sync env s []).conns = [] ∧
    trackedLive (sync env s []) = [] ∧
    ∀ (k : Key) (r : Nat), (k, r) ∈ s.conns →
      Evicted (sync env s []) r ∧
      ∀ w : Nat, currentWs s r = some w →
        ∃ ch : Channel, (sync env s []).channels[w]? = some ch ∧ ch.status.live = false := by
  have hd : (sync env s []).desired = [] := by
    rw [sync_desired]
    rfl
  have hc : (sync env s []).conns = [] := by
    cases hx : (sync env s []).conns with
    | nil => rfl
    | cons e es =>
      have hmem : e.1 ∈ (sync env s []).conns.map Prod.fst := by
        rw [hx]
        simp
      rw [mem_sync_conns, hd] at hmem
      cases hmem
  refine ⟨hd, hc, trackedLive_eq_nil_of_conns _ hc, ?_⟩
  intro k r hk
  refine ⟨evicted_sync env s h [] k r hk (by simp), ?_⟩
  intro w hw
  have hws : (s.records[r]?).bind (fun o => o.ws) = some w := hw
  obtain ⟨o, ho, hk2⟩ := h.tracked k r hk
  have how : o.ws = some w := by
    rw [ho] at hws
    exact hws
  obtain ⟨c, hcw, _⟩ := h.recWs r o w ho how
  have hlt : w < s.channels.length := (List.getElem?_eq_some.mp hcw).1
  have hch := (sync_channels_old env s [] h w hlt).1
    ⟨k, r, hk, by rw [hd]; exact List.not_mem_nil _, hws⟩
  exact ⟨closingCh c, by rw [hch, hcw]; rfl, closingCh_not_live c⟩

/-- The forced logout as the `hashchange` handler of the login view run on the logged-out
client, and the keys its render syncs to. -/
theorem forcedLogout_eq (enc : String → String) (env : Env) (c : Client)
    (henc : ∀ s : String, s.length ≤ (enc s).length) :
    (forcedLogout enc env c).pay = ({ c.pay with token := false } : Pay).stopPayPolling ∧
    (forcedLogout enc env c).mux
      = sync env (setMax c.mux 8) (syncKeys { c.view with hash := "#/login" }) := by
  have hne := loginHash_ne enc henc c.view.hash
  have hfl : forcedLogout enc env c
      = onHashChangeLogin env
          { logout c with
            view := { c.view with
                      hash := "#/login?next=" ++ enc (nextTarget none c.view.hash) } } := by
    unfold forcedLogout
    exact if_pos hne
  constructor
  · rw [hfl]
    unfold onHashChangeLogin syncRemainWS logout Pay.onHashChange
    simp
  · rw [hfl, ← syncKeys_login c.view (enc (nextTarget none c.view.hash))]
    rfl

/-- C24 as amended: after `doLogout` and after the forced logout the credential is empty
and a tick of the poller returns without sending a status request. The forced logout, by
the `hashchange` handler of its redirect to the login view, also cancels the poller, and the
render that ends that handler syncs the multiplexer to the keys of the open booking session
only: without a booking session the desired set and the connection table are empty, and
every record that was tracked is closed, its backoff timer cancelled and its channel no
longer live. `doLogout` leaves the multiplexer as it is (no channel closed, no backoff timer
cancelled) and the poller and its timer as they are, and the render that follows syncs the
multiplexer to the same keys as without the logout. -/
theorem logout_effect (enc : String → String) (env : Env) (c : Client) (token : Bool)
    (es : List PayEvent) (hp : c.pay = (Pay.init token).run es)
    (hm : Reachable env c.mux) (henc : ∀ s : String, s.length ≤ (enc s).length) :
    (doLogout c).pay.token = false ∧ (forcedLogout enc env c).pay.token = false ∧
    (∀ handle : Nat, (doLogout c).pay.onInterval handle = (doLogout c).pay) ∧
    (∀ handle : Nat,
      (forcedLogout enc env c).pay.onInterval handle = (forcedLogout enc env c).pay) ∧
    (forcedLogout enc env c).pay.payPoll = none ∧
    (forcedLogout enc env c).pay.intervals = [] ∧
    (forcedLogout enc env c).mux
      = sync env (setMax c.mux 8) (syncKeys { c.view with hash := "#/login" }) ∧
    ((∀ m : BuyModal, c.view.modal ≠ ModalState.buy m) →
      (forcedLogout enc env c).mux.desired = [] ∧ (forcedLogout enc env c).mux.conns = [] ∧
      trackedLive (forcedLogout enc env c).mux = [] ∧
      ∀ (k : Key) (r : Nat), (k, r) ∈ c.mux.conns →
        Evicted (forcedLogout enc env c).mux r ∧
        ∀ w : Nat, currentWs c.mux r = some w →
          ∃ ch : Channel, (forcedLogout enc env c).mux.channels[w]? = some ch ∧
            ch.status.live = false) ∧
    (doLogout c).mux = c.mux ∧
    (doLogout c).pay.payPoll = c.pay.payPoll ∧
    (doLogout c).pay.intervals = c.pay.intervals ∧
    (syncRemainWS env (doLogout c)).mux = (syncRemainWS env c).mux := by
  have hinv : c.pay.Inv := by
    rw [hp]
    exact pay_run_inv es (Pay.init token) (pay_init_inv token)
  have hinv1 : ({ c.pay with token := false } : Pay).Inv :=
    Inv_of_fields c.pay _ hinv rfl rfl rfl
  have hs := stopPayPolling_spec _ hinv1
  obtain ⟨hf, hmux⟩ := forcedLogout_eq enc env c henc
  have hft : (forcedLogout enc env c).pay.token = false := by
    rw [hf, hs.2.2.2.1]
  have hwf : WF (setMax c.mux 8) := WF_of_reachable env _ (Reachable.step (.setMax 8) hm)
  refine ⟨rfl, hft, fun handle => onInterval_of_no_token _ rfl handle,
    fun handle => onInterval_of_no_token _ hft handle, by rw [hf]; exact hs.1,
    by rw [hf]; exact hs.2.1, hmux, ?_, rfl, rfl, rfl, rfl⟩
  intro hmod
  rw [hmux, syncKeys_login_nil c.view hmod]
  exact sync_nil_teardown env (setMax c.mux 8) hwf

/-- Witness of C24 as amended: on the payment view of order O1 the forced logout cancels the
poller and `doLogout` leaves it; on the train list with the channel of row G1 open, the
forced logout empties the connection table and leaves no tracked channel live. -/
theorem logout_effect_witness :
    (forcedLogout (fun x => x) calmEnv clientOnPay).pay.payPoll = none ∧
    (doLogout clientOnPay).pay.payPoll = clientOnPay.pay.payPoll ∧
    (forcedLogout (fun x => x) calmEnv clientOnTrains).mux.conns = [] ∧
    trackedLive (forcedLogout (fun x => x) calmEnv clientOnTrains).mux = [] :=
  ⟨(logout_effect (fun x => x) calmEnv clientOnPay true [.start "O1"] rfl Reachable.init
      (fun _ => le_refl _)).2.2.2.2.1,
   (logout_effect (fun x => x) calmEnv clientOnPay true [.start "O1"] rfl Reachable.init
      (fun _ => le_refl _)).2.2.2.2.2.2.2.2.2.1,
   ((logout_effect (fun x => x) calmEnv clientOnTrains true [] rfl
      (Reachable.step (.wsOpen 0)
        (Reachable.step (.sync [keyOf "G1" "second" "2025-01-01"]) Reachable.init))
      (fun _ => le_refl _)).2.2.2.2.2.2.2.1 (by intro m h; cases h)).2.1,
   ((logout_effect (fun x => x) calmEnv clientOnTrains true [] rfl
      (Reachable.step (.wsOpen 0)
        (Reachable.step (.sync [keyOf "G1" "second" "2025-01-01"]) Reachable.init))
      (fun _ => le_refl _)).2.2.2.2.2.2.2.1 (by intro m h; cases h)).2.2.1⟩

/-- C24 fails as stated: after `doLogout` on the payment view the poller of order O1 is
still recorded and its interval timer is not cancelled; after `doLogout` on the train
list, and also after the render it schedules, the channel of the visible row is still
live; and after the forced logout with the booking session of train G1 open (an
unauthorized response to the order request), whatever `encodeURIComponent` returns, the
session stays open over the login view and the channel of its seat class is still live. -/
theorem logout_leaves_poller_and_channel :
    (doLogout clientOnPay).pay.payPoll = some { order_id := "O1", timer := 1 } ∧
    (doLogout clientOnPay).pay.intervals = [{ handle := 1, order_id := "O1" }] ∧
    liveChannels (doLogout clientOnTrains).mux = [0] ∧
    liveChannels (syncRemainWS calmEnv (doLogout clientOnTrains)).mux = [0] ∧
    ¬ TornDown (doLogout clientOnPay) ∧ ¬ TornDown (doLogout clientOnTrains) ∧
    ¬ TornDown (syncRemainWS calmEnv (doLogout clientOnTrains)) ∧
    (∀ enc : String → String, (∀ s : String, s.length ≤ (enc s).length) →
      liveChannels (forcedLogout enc calmEnv clientBooking).mux = [0] ∧
      ¬ TornDown (forcedLogout enc calmEnv clientBooking)) := by
  have h1 : (doLogout clientOnPay).pay.payPoll = some { order_id := "O1", timer := 1 } := by
    decide
  have h2 : (doLogout clientOnPay).pay.intervals = [{ handle := 1, order_id := "O1" }] := by
    decide
  have h3 : liveChannels (doLogout clientOnTrains).mux = [0] := by decide
  have h4 : liveChannels (syncRemainWS calmEnv (doLogout clientOnTrains)).mux = [0] := by
    decide
  refine ⟨h1, h2, h3, h4, ?_, ?_, ?_, ?_⟩
  · intro h
    have h5 := h.2.2.1
    rw [h1] at h5
    cases h5
  · intro h
    have h5 := h.1
    rw [h3] at h5
    cases h5
  · intro h
    have h5 := h.1
    rw [h4] at h5
    cases h5
  · intro enc henc
    have h7 : liveChannels (forcedLogout enc calmEnv clientBooking).mux = [0] := by
      rw [(forcedLogout_eq enc calmEnv clientBooking henc).2]
      decide
    refine ⟨h7, ?_⟩
    intro h
    have h5 := h.1
    rw [h7] at h5
    cases h5

/-! ## Subscription keys -/

theorem jsSplit_ne_nil (sep : Char) (cs : List Char) : jsSplit sep cs ≠ [] := by
  cases cs with
  | nil => simp [jsSplit]
  | cons c cs =>
    unfold jsSplit
    split
    · simp
    · split <;> simp

theorem jsSplit_of_not_mem (sep : Char) (a : List Char) (h : sep ∉ a) :
    jsSplit sep a = [a] := by
  induction a with
  | nil => rfl
  | cons c cs ih =>
    have hc : c ≠ sep := fun e => h (by simp [e])
    have hcs : sep ∉ cs := fun e => h (List.mem_cons_of_mem _ e)
    rw [jsSplit, if_neg hc, ih hcs]

theorem jsSplit_append (sep : Char) (a rest : List Char) (h : sep ∉ a) :
    jsSplit sep (a ++ sep :: rest) = a :: jsSplit sep rest := by
  induction a with
  | nil => simp [jsSplit]
  | cons c cs ih =>
    have hc : c ≠ sep := fun e => h (by simp [e])
    have hcs : sep ∉ cs := fun e => h (List.mem_cons_of_mem _ e)
    rw [List.cons_append, jsSplit, if_neg hc, ih hcs]

theorem keyOf_toList (a b c : String) :
    (keyOf a b c).toList = a.toList ++ '|' :: (b.toList ++ '|' :: c.toList) := by
  unfold keyOf
  simp [String.toList]

theorem parseKey_keyOf (a b c : String) (ha : '|' ∉ a.toList) (hb : '|' ∉ b.toList)
    (hc : '|' ∉ c.toList) :
    parseKey (keyOf a b c) = { trainId := some a, seatType := some b, travelDate := some c } := by
  unfold parseKey
  rw [keyOf_toList, jsSplit_append _ _ _ ha, jsSplit_append _ _ _ hb, jsSplit_of_not_mem _ _ hc]
  rfl

/-- C27 as amended: for triples whose components contain no `|`, `keyOf` maps two triples
to the same key iff they are equal, and `parseKey (keyOf a b c)` returns `a`, `b`, `c`. -/
theorem keyOf_injective (a b c a2 b2 c2 : String) (ha : '|' ∉ a.toList)
    (hb : '|' ∉ b.toList) (hc : '|' ∉ c.toList) (ha2 : '|' ∉ a2.toList)
    (hb2 : '|' ∉ b2.toList) (hc2 : '|' ∉ c2.toList) :
    (keyOf a b c = keyOf a2 b2 c2 ↔ a = a2 ∧ b = b2 ∧ c = c2) ∧
    parseKey (keyOf a b c) = { trainId := some a, seatType := some b, travelDate := some c } := by
  refine ⟨⟨?_, ?_⟩, parseKey_keyOf a b c ha hb hc⟩
  · intro h
    have h1 := parseKey_keyOf a b c ha hb hc
    have h2 := parseKey_keyOf a2 b2 c2 ha2 hb2 hc2
    rw [h, h2] at h1
    simp only [ParsedKey.mk.injEq, Option.some.injEq] at h1
    exact ⟨h1.1.symm, h1.2.1.symm, h1.2.2.symm⟩
  · rintro ⟨rfl, rfl, rfl⟩
    rfl

/-- Witness of C27 as amended: the key of train G1, seat class `second`, 2025-01-01. -/
theorem keyOf_injective_witness :
    parseKey (keyOf "G1" "second" "2025-01-01") =
      { trainId := some "G1", seatType := some "second", travelDate := some "2025-01-01" } :=
  (keyOf_injective "G1" "second" "2025-01-01" "G1" "second" "2025-01-01" (by decide)
    (by decide) (by decide) (by decide) (by decide) (by decide)).2

/-- C27 fails as stated: the triples (`G1|a`, `b`, `d`) and (`G1`, `a|b`, `d`) differ and have
the same key, and `parseKey` returns `G1`, `a`, `b` for it. -/
theorem keyOf_bar_collision :
    keyOf "G1|a" "b" "d" = keyOf "G1" "a|b" "d" ∧
    ¬ (("G1|a" : String) = "G1" ∧ ("b" : String) = "a|b" ∧ ("d" : String) = "d") ∧
    parseKey (keyOf "G1|a" "b" "d") =
      { trainId := some "G1", seatType := some "a", travelDate := some "b" } ∧
    parseKey (keyOf "G1|a" "b" "d") ≠
      { trainId := some "G1|a", seatType := some "b", travelDate := some "d" } := by
  decide

/-! ## Single-digit errors of the identifier -/

theorem dropWhile_append_of_all {α : Type} (p : α → Bool) (ws l : List α)
    (h : ∀ x ∈ ws, p x = true) : (ws ++ l).dropWhile p = l.dropWhile p := by
  induction ws with
  | nil => rfl
  | cons a ws ih =>
    rw [List.cons_append, List.dropWhile_cons_of_pos (h a (List.mem_cons_self _ _))]
    exact ih (fun x hx => h x (List.mem_cons_of_mem _ hx))

theorem dropWhile_of_none {α : Type} (p : α → Bool) (l : List α)
    (h : ∀ x ∈ l, p x = false) : l.dropWhile p = l := by
  cases l with
  | nil => rfl
  | cons a l =>
    exact List.dropWhile_cons_of_neg (by rw [h a (List.mem_cons_self _ _)]; simp)

/-- A string is its trimmed form between two runs of white space. -/
theorem jsTrim_decomp (l : List Char) :
    ∃ ws1 ws2 : List Char, l = ws1 ++ jsTrim l ++ ws2 ∧
      (∀ x ∈ ws1, isJsSpace x = true) ∧ (∀ x ∈ ws2, isJsSpace x = true) := by
  refine ⟨l.takeWhile isJsSpace,
    (((l.dropWhile isJsSpace).reverse).takeWhile isJsSpace).reverse, ?_, ?_, ?_⟩
  · unfold jsTrim
    rw [List.append_assoc, ← List.reverse_append, List.takeWhile_append_dropWhile,
      List.reverse_reverse, List.takeWhile_append_dropWhile]
  · intro x hx
    exact List.mem_takeWhile_imp hx
  · intro x hx
    exact List.mem_takeWhile_imp (List.mem_reverse.mp hx)

/-- Trimming removes the white space around a text that contains none. -/
theorem jsTrim_core (ws1 u ws2 : List Char) (h1 : ∀ x ∈ ws1, isJsSpace x = true)
    (h2 : ∀ x ∈ ws2, isJsSpace x = true) (hu : ∀ x ∈ u, isJsSpace x = false) :
    jsTrim (ws1 ++ u ++ ws2) = u := by
  unfold jsTrim
  rw [List.append_assoc, dropWhile_append_of_all _ _ _ h1]
  cases u with
  | nil =>
    rw [List.nil_append, List.dropWhile_eq_nil_iff.mpr h2]
    rfl
  | cons a u =>
    rw [List.cons_append,
      List.dropWhile_cons_of_neg (by rw [hu a (List.mem_cons_self _ _)]; simp),
      ← List.cons_append, List.reverse_append,
      dropWhile_append_of_all _ _ _ (fun x hx => h2 x (List.mem_reverse.mp hx)),
      dropWhile_of_none _ _ (fun x hx => hu x (List.mem_reverse.mp hx)),
      List.reverse_reverse]

theorem isDigit_bounds (c : Char) (h : isDigit c = true) : 48 ≤ c.toNat ∧ c.toNat ≤ 57 := by
  simpa [isDigit] using h

theorem toNat_X (c : Char) : c = 'X' ↔ c.toNat = 88 := by
  constructor
  · intro h; rw [h]; rfl
  · intro h
    rw [← Char.ofNat_toNat c, h]

theorem toNat_x (c : Char) : c = 'x' ↔ c.toNat = 120 := by
  constructor
  · intro h; rw [h]; rfl
  · intro h
    rw [← Char.ofNat_toNat c, h]

theorem isJsSpace_of_digitOrX (c : Char) (h : isDigitOrX c = true ∨ c = 'x') :
    isJsSpace c = false := by
  have hn : (48 ≤ c.toNat ∧ c.toNat ≤ 57) ∨ c.toNat = 88 ∨ c.toNat = 120 := by
    rcases h with h | h
    · simp only [isDigitOrX, Bool.or_eq_true, decide_eq_true_eq] at h
      rcases h with h | h
      · exact Or.inl (isDigit_bounds c h)
      · exact Or.inr (Or.inl ((toNat_X c).mp h))
    · exact Or.inr (Or.inr ((toNat_x c).mp h))
  unfold isJsSpace
  simp only [Bool.or_eq_false_iff, Bool.and_eq_false_imp, decide_eq_false_iff_not,
    decide_eq_true_eq, beq_eq_false_iff_ne, ne_eq]
  omega

/-- The upper-case form of a digit, of `X` and of `x`. -/
theorem upperChar_of_digitOrX (c : Char) (h : isDigitOrX c = true ∨ c = 'x') :
    upperChar c = [if c = 'x' then 'X' else c] := by
  rcases h with h | h
  · have hn : (48 ≤ c.toNat ∧ c.toNat ≤ 57) ∨ c.toNat = 88 := by
      simp only [isDigitOrX, Bool.or_eq_true, decide_eq_true_eq] at h
      rcases h with h | h
      · exact Or.inl (isDigit_bounds c h)
      · exact Or.inr ((toNat_X c).mp h)
    have hx : c ≠ 'x' := by
      intro hx
      have := (toNat_x c).mp hx
      omega
    rw [if_neg hx]
    unfold upperChar
    rw [if_neg (by omega), if_neg (by omega), if_neg (by omega), if_neg (by omega),
      if_neg (by omega), if_neg (by omega), if_neg (by omega), if_neg (by omega),
      if_neg (by omega), if_neg (by omega), if_neg (by omega)]
  · subst h
    rfl

theorem lower_to_X (m : Nat) (h1 : 97 ≤ m) (h2 : m ≤ 122)
    (h : isDigitOrX (Char.ofNat (m - 32)) = true) : m = 120 := by
  interval_cases m <;> first | rfl | (exact absurd h (by decide))

/-- A character whose upper-case form consists of digits and `X` is a digit, `X` or `x`. -/
theorem digitOrX_of_upperChar (c : Char) (h : ∀ x ∈ upperChar c, isDigitOrX x = true) :
    isDigitOrX c = true ∨ c = 'x' := by
  unfold upperChar at h
  by_cases h0 : 97 ≤ c.toNat ∧ c.toNat ≤ 122
  · rw [if_pos h0] at h
    right
    exact (toNat_x c).mpr (lower_to_X c.toNat h0.1 h0.2 (h _ (List.mem_singleton.mpr rfl)))
  · rw [if_neg h0] at h
    left
    split at h
    · exact absurd (h 'I' (by simp)) (by decide)
    · split at h
      · exact absurd (h 'S' (by simp)) (by decide)
      · split at h
        · exact absurd (h 'S' (by simp)) (by decide)
        · split at h
          · exact absurd (h 'F' (by simp)) (by decide)
          · split at h
            · exact absurd (h 'F' (by simp)) (by decide)
            · split at h
              · exact absurd (h 'F' (by simp)) (by decide)
              · split at h
                · exact absurd (h 'F' (by simp)) (by decide)
                · split at h
                  · exact absurd (h 'F' (by simp)) (by decide)
                  · split at h
                    · exact absurd (h 'S' (by simp)) (by decide)
                    · split at h
                      · exact absurd (h 'S' (by simp)) (by decide)
                      · exact h c (List.mem_singleton.mpr rfl)

theorem digitOrX_of_jsToUpperCase (u : List Char)
    (h : ∀ x ∈ jsToUpperCase u, isDigitOrX x = true) :
    ∀ c ∈ u, isDigitOrX c = true ∨ c = 'x' := by
  intro c hc
  apply digitOrX_of_upperChar
  intro x hx
  exact h x (List.mem_flatMap.mpr ⟨c, hc, hx⟩)

theorem jsToUpperCase_of_digitOrX (u : List Char)
    (h : ∀ c ∈ u, isDigitOrX c = true ∨ c = 'x') :
    jsToUpperCase u = u.map (fun c => if c = 'x' then 'X' else c) := by
  induction u with
  | nil => rfl
  | cons a u ih =>
    unfold jsToUpperCase at ih ⊢
    rw [List.flatMap_cons, upperChar_of_digitOrX a (h a (List.mem_cons_self _ _)),
      ih (fun c hc => h c (List.mem_cons_of_mem _ hc))]
    rfl

theorem weight_mul_mod_ne :
    ∀ k : Fin 17, ∀ a b : Fin 10, a ≠ b →
      (a.val * weights.getD k.val 0) % 11 ≠ (b.val * weights.getD k.val 0) % 11 := by
  decide

theorem mapping_injective :
    ∀ a b : Fin 11, mapping[a.val]? = mapping[b.val]? → a = b := by
  decide

theorem mapping_digitOrX : ∀ a : Fin 11, ∃ z : Char, mapping[a.val]? = some z ∧
    isDigitOrX z = true := by
  decide

theorem digitVal_lt (c : Char) (h : isDigit c = true) : digitVal c < 10 := by
  have := isDigit_bounds c h
  unfold digitVal
  omega

theorem digitVal_ne (c d : Char) (hc : isDigit c = true) (hd : isDigit d = true)
    (hne : d ≠ c) : digitVal d ≠ digitVal c := by
  have h1 := isDigit_bounds c hc
  have h2 := isDigit_bounds d hd
  unfold digitVal
  intro h
  apply hne
  have ht : d.toNat = c.toNat := by omega
  rw [← Char.ofNat_toNat d, ← Char.ofNat_toNat c, ht]

/-- Replacing one of the first 17 digits by another digit changes the weighted sum
modulo 11. -/
theorem weightedSum_set_ne (t : List Char) (k : Nat) (c d : Char) (hk : k < 17)
    (hc : t[k]? = some c) (hcd : isDigit c = true) (hd : isDigit d = true) (hne : d ≠ c) :
    weightedSum (t.set k d) % 11 ≠ weightedSum t % 11 := by
  have hlt : k < t.length := by
    by_contra hge
    rw [List.getElem?_eq_none (by omega)] at hc
    cases hc
  unfold weightedSum
  rw [foldl_range_eq_sum (fun i => digitVal ((t.set k d).getD i '0') * weights.getD i 0),
    foldl_range_eq_sum (fun i => digitVal (t.getD i '0') * weights.getD i 0)]
  have hmem : k ∈ Finset.range 17 := Finset.mem_range.mpr hk
  rw [← Finset.add_sum_erase _ _ hmem, ← Finset.add_sum_erase _ _ hmem]
  have hrest : ∑ x ∈ (Finset.range 17).erase k,
        digitVal ((t.set k d).getD x '0') * weights.getD x 0 =
      ∑ x ∈ (Finset.range 17).erase k, digitVal (t.getD x '0') * weights.getD x 0 := by
    apply Finset.sum_congr rfl
    intro x hx
    have hxk : k ≠ x := fun e => (Finset.mem_erase.mp hx).1 e.symm
    simp only [List.getD_eq_getElem?_getD, List.getElem?_set, if_neg hxk]
  rw [hrest]
  have h1 : (t.set k d).getD k '0' = d := by
    rw [List.getD_eq_getElem?_getD, List.getElem?_set, if_pos rfl, if_pos hlt]
    rfl
  have h2 : t.getD k '0' = c := by
    rw [List.getD_eq_getElem?_getD, hc]
    rfl
  rw [h1, h2]
  have hw := weight_mul_mod_ne ⟨k, hk⟩ ⟨digitVal d, digitVal_lt d hd⟩
    ⟨digitVal c, digitVal_lt c hcd⟩
    (by
      intro h
      exact digitVal_ne c d hcd hd hne (congrArg Fin.val h))
  simp only at hw
  omega

theorem validateIDCard_eq_empty (s : String) (h : validateIDCard s = "") :
    matchSeq (List.replicate 17 isDigit ++ [isDigitOrX]) (jsToUpperCase (jsTrim s.toList))
      = true ∧
    mapping[weightedSum (jsToUpperCase (jsTrim s.toList)) % 11]? =
      (jsToUpperCase (jsTrim s.toList))[17]? := by
  unfold validateIDCard at h
  dsimp only at h
  split at h
  · exact absurd h (by decide)
  · split at h
    · exact absurd h (by decide)
    · rename_i hm
      split at h
      · exact absurd h (by decide)
      · rename_i he
        exact ⟨by simpa using hm, not_not.mp he⟩

theorem validateIDCard_of_shape (s : String)
    (hm : matchSeq (List.replicate 17 isDigit ++ [isDigitOrX])
      (jsToUpperCase (jsTrim s.toList)) = true) :
    validateIDCard s =
      if mapping[weightedSum (jsToUpperCase (jsTrim s.toList)) % 11]? ≠
          (jsToUpperCase (jsTrim s.toList))[17]? then idChecksum
      else "" := by
  have hne : jsToUpperCase (jsTrim s.toList) ≠ [] := by
    intro h
    rw [h] at hm
    revert hm
    decide
  unfold validateIDCard
  dsimp only
  rw [if_neg hne, hm]
  rfl

theorem mem_of_idShape (t : List Char) (h : IdShape t) : ∀ x ∈ t, isDigitOrX x = true := by
  intro x hx
  obtain ⟨j, hj⟩ := List.mem_iff_getElem?.mp hx
  have hjl : j < t.length := by
    by_contra hge
    rw [List.getElem?_eq_none (by omega)] at hj
    cases hj
  rw [isDigitOrX_iff]
  by_cases hj17 : j < 17
  · exact Or.inl (h.2.1 j hj17 x hj)
  · have : j = 17 := by have := h.1; omega
    subst this
    exact h.2.2 x hj

theorem single_digit_error (s : String) (i : Nat) (c d : Char)
    (hacc : validateIDCard s = "") (hi : i < 17) (hc : s.toList[i]? = some c)
    (hcd : isDigit c = true) (hd : isDigit d = true) (hne : d ≠ c) :
    validateIDCard (String.mk (s.toList.set i d)) = idChecksum := by
  obtain ⟨hm, hsum⟩ := validateIDCard_eq_empty s hacc
  obtain ⟨ws1, ws2, hl, h1, h2⟩ := jsTrim_decomp s.toList
  generalize hu : jsTrim s.toList = u at hm hsum hl
  have hshape := (matchSeq_id_iff _).mp hm
  have hall := digitOrX_of_jsToUpperCase u (mem_of_idShape _ hshape)
  have hup := jsToUpperCase_of_digitOrX u hall
  rw [hup] at hm hsum hshape
  have hulen : u.length = 18 := by simpa using hshape.1
  have hcns : isJsSpace c = false :=
    isJsSpace_of_digitOrX c (Or.inl (by simp [isDigitOrX, hcd]))
  have hdns : isJsSpace d = false :=
    isJsSpace_of_digitOrX d (Or.inl (by simp [isDigitOrX, hd]))
  -- the position lies inside the trimmed part
  have hge : ws1.length ≤ i := by
    by_contra hlt
    rw [hl, List.append_assoc, List.getElem?_append_left (by omega)] at hc
    have := h1 c (List.getElem?_mem hc)
    rw [hcns] at this
    cases this
  have hlt : i - ws1.length < u.length := by
    by_contra hge2
    rw [hl, List.getElem?_append_right (by simp; omega)] at hc
    have := h2 c (List.getElem?_mem hc)
    rw [hcns] at this
    cases this
  have huk : u[i - ws1.length]? = some c := by
    rw [hl, List.append_assoc, List.getElem?_append_right hge,
      List.getElem?_append_left hlt] at hc
    exact hc
  have hset : s.toList.set i d = ws1 ++ u.set (i - ws1.length) d ++ ws2 := by
    rw [hl, List.append_assoc, List.set_append, if_neg (by omega), List.set_append,
      if_pos hlt, List.append_assoc]
  have hall2 : ∀ x ∈ u.set (i - ws1.length) d, isDigitOrX x = true ∨ x = 'x' := by
    intro x hx
    rcases List.mem_or_eq_of_mem_set hx with h | h
    · exact hall x h
    · rw [h]
      exact Or.inl (by simp [isDigitOrX, hd])
  have htrim : jsTrim (String.mk (s.toList.set i d)).toList = u.set (i - ws1.length) d := by
    show jsTrim (s.toList.set i d) = _
    rw [hset]
    exact jsTrim_core ws1 _ ws2 h1 h2 (fun x hx => isJsSpace_of_digitOrX x (hall2 x hx))
  have hdx : d ≠ 'x' := by
    intro h
    have h3 := isDigit_bounds d hd
    have h4 := (toNat_x d).mp h
    omega
  have hcx : c ≠ 'x' := by
    intro h
    have h3 := isDigit_bounds c hcd
    have h4 := (toNat_x c).mp h
    omega
  have hup2 : jsToUpperCase (u.set (i - ws1.length) d) =
      (u.map (fun c => if c = 'x' then 'X' else c)).set (i - ws1.length) d := by
    rw [jsToUpperCase_of_digitOrX _ hall2, List.map_set, if_neg hdx]
  generalize htdef : u.map (fun c => if c = 'x' then 'X' else c) = t at hm hsum hshape hup2
  have htk : t[i - ws1.length]? = some c := by
    rw [← htdef, List.getElem?_map, huk]
    simp [hcx]
  have hk : i - ws1.length < 17 := by omega
  have hshape2 : IdShape (t.set (i - ws1.length) d) := by
    refine ⟨by rw [List.length_set]; exact hshape.1, ?_, ?_⟩
    · intro j hj x hx
      rw [List.getElem?_set] at hx
      split at hx
      · split at hx
        · cases hx
          exact (isDigit_iff d).mp hd
        · cases hx
      · exact hshape.2.1 j hj x hx
    · intro x hx
      rw [List.getElem?_set, if_neg (by omega)] at hx
      exact hshape.2.2 x hx
  have hv := validateIDCard_of_shape (String.mk (s.toList.set i d))
    (by rw [htrim, hup2]; exact (matchSeq_id_iff _).mpr hshape2)
  rw [hv, htrim, hup2, if_pos]
  rw [List.getElem?_set, if_neg (by omega), ← hsum]
  intro heq
  have hne2 := weightedSum_set_ne t (i - ws1.length) c d hk htk hcd hd hne
  have := mapping_injective ⟨weightedSum (t.set (i - ws1.length) d) % 11, Nat.mod_lt _ (by decide)⟩
    ⟨weightedSum t % 11, Nat.mod_lt _ (by decide)⟩ heq
  exact hne2 (congrArg Fin.val this)

theorem weightedSum_append (p : List Char) (z : Char) (hlen : p.length = 17) :
    weightedSum (p ++ [z]) = weightedSum p := by
  unfold weightedSum
  rw [foldl_range_eq_sum (fun i => digitVal ((p ++ [z]).getD i '0') * weights.getD i 0),
    foldl_range_eq_sum (fun i => digitVal (p.getD i '0') * weights.getD i 0)]
  apply Finset.sum_congr rfl
  intro x hx
  have hx17 : x < p.length := by rw [hlen]; exact Finset.mem_range.mp hx
  simp only [List.getD_eq_getElem?_getD, List.getElem?_append_left hx17]

theorem validateIDCard_append (p : List Char) (z : Char) (hlen : p.length = 17)
    (hp : ∀ x ∈ p, isDigit x = true) (hz : isDigitOrX z = true) :
    validateIDCard (String.mk (p ++ [z])) =
      if mapping[weightedSum p % 11]? ≠ some z then idChecksum else "" := by
  have hall : ∀ x ∈ p ++ [z], isDigitOrX x = true := by
    intro x hx
    rcases List.mem_append.mp hx with h | h
    · simp [isDigitOrX, hp x h]
    · rw [List.mem_singleton.mp h]; exact hz
  have htrim : jsTrim (String.mk (p ++ [z])).toList = p ++ [z] := by
    have := jsTrim_core [] (p ++ [z]) [] (fun x hx => by cases hx) (fun x hx => by cases hx)
      (fun x hx => isJsSpace_of_digitOrX x (Or.inl (hall x hx)))
    simpa using this
  have hup : jsToUpperCase (p ++ [z]) = p ++ [z] := by
    rw [jsToUpperCase_of_digitOrX _ (fun x hx => Or.inl (hall x hx))]
    conv_rhs => rw [← List.map_id (p ++ [z])]
    apply List.map_congr_left
    intro x hx
    have hx2 : x ≠ 'x' := by
      intro h
      have := hall x hx
      rw [h] at this
      revert this
      decide
    simp [hx2]
  have hshape : IdShape (p ++ [z]) := by
    refine ⟨by simp [hlen], ?_, ?_⟩
    · intro j hj x hx
      rw [List.getElem?_append_left (by omega)] at hx
      exact (isDigit_iff x).mp (hp x (List.getElem?_mem hx))
    · intro x hx
      rw [List.getElem?_append_right (by omega), hlen] at hx
      simp only [Nat.sub_self, List.getElem?_cons_zero, Option.some.injEq] at hx
      rw [← hx]
      exact (isDigitOrX_iff z).mp hz
  have hv := validateIDCard_of_shape (String.mk (p ++ [z]))
    (by rw [htrim, hup]; exact (matchSeq_id_iff _).mpr hshape)
  rw [hv, htrim, hup, weightedSum_append p z hlen]
  have h17 : (p ++ [z])[17]? = some z := by
    rw [List.getElem?_append_right (by omega), hlen]
    rfl
  rw [h17]

theorem check_char_unique (p : List Char) (hlen : p.length = 17)
    (hp : ∀ x ∈ p, isDigit x = true) :
    ∃! z : Char, isDigitOrX z = true ∧ validateIDCard (String.mk (p ++ [z])) = "" := by
  obtain ⟨z0, hz0, hd0⟩ :=
    mapping_digitOrX ⟨weightedSum p % 11, Nat.mod_lt _ (by decide)⟩
  simp only at hz0
  refine ⟨z0, ⟨hd0, ?_⟩, ?_⟩
  · rw [validateIDCard_append p z0 hlen hp hd0, if_neg (by simp [hz0])]
  · rintro z ⟨hz, hv⟩
    rw [validateIDCard_append p z hlen hp hz] at hv
    split at hv
    · exact absurd hv (by decide)
    · rename_i he
      have := not_not.mp he
      rw [hz0] at this
      exact (Option.some.inj this).symm

theorem first_17_digits (s : String) (hacc : validateIDCard s = "")
    (htrim : jsTrim s.toList = s.toList) (i : Nat) (hi : i < 17) :
    ∃ c : Char, s.toList[i]? = some c ∧ isDigit c = true := by
  obtain ⟨hm, _⟩ := validateIDCard_eq_empty s hacc
  rw [htrim] at hm
  have hshape := (matchSeq_id_iff _).mp hm
  have hall := digitOrX_of_jsToUpperCase s.toList (mem_of_idShape _ hshape)
  rw [jsToUpperCase_of_digitOrX _ hall] at hshape
  have hlen : s.toList.length = 18 := by simpa using hshape.1
  cases hc : s.toList[i]? with
  | none =>
    rw [List.getElem?_eq_none_iff] at hc
    omega
  | some c =>
    refine ⟨c, rfl, ?_⟩
    have h1 := hshape.2.1 i hi (if c = 'x' then 'X' else c)
      (by rw [List.getElem?_map, hc]; rfl)
    by_cases hx : c = 'x'
    · rw [if_pos hx] at h1
      exact absurd ((isDigit_iff 'X').mpr h1) (by decide)
    · rw [if_neg hx] at h1
      exact (isDigit_iff c).mpr h1

/-- C30: for every string accepted by `validateIDCard` and every position `i < 17` holding a
digit (every position below 17 does when the string has no white space around it),
replacing that digit by a different digit gives a string rejected with the checksum
message; and for every prefix of 17 digits exactly one character among the digits and `X`
makes the 18-character identifier valid. -/
theorem validateIDCard_single_digit :
    (∀ (s : String) (i : Nat) (c d : Char), validateIDCard s = "" → i < 17 →
      s.toList[i]? = some c → isDigit c = true → isDigit d = true → d ≠ c →
      validateIDCard (String.mk (s.toList.set i d)) = idChecksum) ∧
    (∀ (s : String) (i : Nat), validateIDCard s = "" → jsTrim s.toList = s.toList → i < 17 →
      ∃ c : Char, s.toList[i]? = some c ∧ isDigit c = true) ∧
    (∀ p : List Char, p.length = 17 → (∀ x ∈ p, isDigit x = true) →
      ∃! z : Char, isDigitOrX z = true ∧ validateIDCard (String.mk (p ++ [z])) = "") :=
  ⟨single_digit_error, fun s i hacc htrim hi => first_17_digits s hacc htrim i hi,
    check_char_unique⟩

/-- Witness of C30: the first digit of 11010519491231002X replaced by 2. -/
theorem validateIDCard_single_digit_witness :
    validateIDCard (String.mk ("11010519491231002X".toList.set 0 '2')) = idChecksum :=
  validateIDCard_single_digit.1 "11010519491231002X" 0 '1' '2' (by decide) (by decide)
    (by decide) (by decide) (by decide) (by decide)

/-! ## The monotonic update rule -/

theorem prevTime_propagate (s : Store) (trainId seatType : String) (remaining : JsNum)
    (k : String) : prevTime (propagate s trainId seatType remaining) k = prevTime s k := rfl

theorem applyRemainingUpdate_of_le (s : Store) (trainId seatType travelDate : String)
    (remaining : JsNum) (t : Int) (h0 : t ≠ 0) (hle : t ≤ prevTime s (keyOf trainId seatType travelDate)) :
    applyRemainingUpdate s trainId seatType travelDate remaining (.num t) = s := by
  simp [applyRemainingUpdate, JsNum.truthy, JsNum.le, h0, hle]

theorem applyRemainingUpdate_of_gt (s : Store) (trainId seatType travelDate : String)
    (u : Update) (h0 : u.tms ≠ 0)
    (hlt : prevTime s (keyOf trainId seatType travelDate) < u.tms) :
    applyRemainingUpdate s trainId seatType travelDate u.remaining (.num u.tms)
      = applyUnconditional s trainId seatType travelDate u := by
  simp [applyRemainingUpdate, applyUnconditional, JsNum.truthy, JsNum.le, h0, not_le.mpr hlt]

theorem prevTime_applyUnconditional (s : Store) (trainId seatType travelDate : String)
    (u : Update) (h0 : u.tms ≠ 0) :
    prevTime (applyUnconditional s trainId seatType travelDate u)
      (keyOf trainId seatType travelDate) = u.tms := by
  unfold applyUnconditional
  rw [prevTime_propagate]
  simp [prevTime, mapGet_mapSet_self, h0]

theorem feed_eq_increasingFrom (trainId seatType travelDate : String) (us : List Update) :
    ∀ (s : Store) (earlier : List Int),
      (∀ u ∈ us, 0 < u.tms) →
      (∀ e ∈ earlier, e ≤ prevTime s (keyOf trainId seatType travelDate)) →
      (prevTime s (keyOf trainId seatType travelDate) = 0 ∨
        prevTime s (keyOf trainId seatType travelDate) ∈ earlier) →
      0 ≤ prevTime s (keyOf trainId seatType travelDate) →
      feed s trainId seatType travelDate us
        = feedUnconditional s trainId seatType travelDate (increasingFrom earlier us) := by
  induction us with
  | nil => intro s earlier _ _ _ _; rfl
  | cons u us ih =>
    intro s earlier hpos hmax hin h0
    have hu : 0 < u.tms := hpos u (List.mem_cons_self _ _)
    have hpos' : ∀ v ∈ us, 0 < v.tms := fun v hv => hpos v (List.mem_cons_of_mem _ hv)
    by_cases hle : u.tms ≤ prevTime s (keyOf trainId seatType travelDate)
    · have hskip : ¬ (∀ e ∈ earlier, e < u.tms) := by
        intro hall
        rcases hin with h | h
        · omega
        · have := hall _ h
          omega
      have hstep : feed s trainId seatType travelDate (u :: us)
          = feed s trainId seatType travelDate us := by
        simp only [feed, List.foldl_cons]
        rw [applyRemainingUpdate_of_le s trainId seatType travelDate u.remaining u.tms
          (by omega) hle]
      rw [hstep]
      have hfrom : increasingFrom earlier (u :: us) = increasingFrom (earlier ++ [u.tms]) us := by
        simp only [increasingFrom, List.all_eq_true, decide_eq_true_eq]
        rw [if_neg hskip]
      rw [hfrom]
      apply ih s (earlier ++ [u.tms]) hpos'
      · intro e he
        rcases List.mem_append.mp he with h | h
        · exact hmax e h
        · simp at h; omega
      · rcases hin with h | h
        · exact Or.inl h
        · exact Or.inr (List.mem_append_left _ h)
      · exact h0
    · have hlt : prevTime s (keyOf trainId seatType travelDate) < u.tms := by omega
      have hkeep : ∀ e ∈ earlier, e < u.tms := fun e he => lt_of_le_of_lt (hmax e he) hlt
      have hstep : feed s trainId seatType travelDate (u :: us)
          = feed (applyUnconditional s trainId seatType travelDate u)
              trainId seatType travelDate us := by
        simp only [feed, List.foldl_cons]
        rw [applyRemainingUpdate_of_gt s trainId seatType travelDate u (by omega) hlt]
      rw [hstep]
      have hfrom : increasingFrom earlier (u :: us)
          = u :: increasingFrom (earlier ++ [u.tms]) us := by
        simp only [increasingFrom, List.all_eq_true, decide_eq_true_eq]
        rw [if_pos hkeep]
      rw [hfrom]
      have hprev := prevTime_applyUnconditional s trainId seatType travelDate u (by omega)
      simp only [feedUnconditional, List.foldl_cons]
      apply ih (applyUnconditional s trainId seatType travelDate u) (earlier ++ [u.tms]) hpos'
      · intro e he
        rw [hprev]
        rcases List.mem_append.mp he with h | h
        · exact le_of_lt (hkeep e h)
        · simp at h; omega
      · rw [hprev]
        exact Or.inr (by simp)
      · rw [hprev]; omega

/-- C1 (as amended): a message with a non-zero timestamp `t` that is at most the key's
last-applied timestamp is discarded and leaves the whole store unchanged, so such a message
changes the store only if `t` strictly exceeds the last-applied timestamp; a message whose
timestamp is 0 (absent time) or `NaN` (unparseable time) is never discarded: its count is
propagated to the rows and the fare detail and the last-applied timestamps stay as they
are. -/
theorem applyRemainingUpdate_monotonic (s : Store) (trainId seatType travelDate : String)
    (remaining : JsNum) (t : Int) :
    (t ≠ 0 → t ≤ prevTime s (keyOf trainId seatType travelDate) →
      applyRemainingUpdate s trainId seatType travelDate remaining (.num t) = s) ∧
    (t ≠ 0 → applyRemainingUpdate s trainId seatType travelDate remaining (.num t) ≠ s →
      prevTime s (keyOf trainId seatType travelDate) < t) ∧
    applyRemainingUpdate s trainId seatType travelDate remaining (.num 0)
      = propagate s trainId seatType remaining ∧
    applyRemainingUpdate s trainId seatType travelDate remaining .nan
      = propagate s trainId seatType remaining ∧
    (propagate s trainId seatType remaining).lastTime = s.lastTime ∧
    (∀ dateParse : String → JsNum, tmsOf dateParse none = .num 0) := by
  refine ⟨applyRemainingUpdate_of_le s trainId seatType travelDate remaining t, ?_, ?_, ?_,
    rfl, fun _ => rfl⟩
  · intro h0 hne
    by_contra hle
    exact hne (applyRemainingUpdate_of_le s trainId seatType travelDate remaining t h0
      (not_lt.mp hle))
  · simp [applyRemainingUpdate, JsNum.truthy]
  · simp [applyRemainingUpdate, JsNum.truthy]

/-- Witness of C1: the update (t = 7, count = 3) on a key last applied at t = 10 is
discarded. -/
theorem applyRemainingUpdate_monotonic_witness :
    applyRemainingUpdate storeAt10 "G1" "second" "2025-01-01" 3 (.num 7) = storeAt10 :=
  (applyRemainingUpdate_monotonic storeAt10 "G1" "second" "2025-01-01" 3 7).1
    (by decide) (by decide)

/-- Counterexample to C1 as stated: on a key last applied at t = 10, a message with
timestamp 0 (0 ≤ 10) is not discarded; it changes the row's remaining count from 5 to 3. -/
theorem applyRemainingUpdate_zero_not_discarded :
    prevTime storeAt10 (keyOf "G1" "second" "2025-01-01") = 10 ∧
    (applyRemainingUpdate storeAt10 "G1" "second" "2025-01-01" 3 (.num 0)).trains
      = [{ train_id := "G1", seat_type := "second", remaining_seat_count := 3 }] ∧
    applyRemainingUpdate storeAt10 "G1" "second" "2025-01-01" 3 (.num 0) ≠ storeAt10 := by
  decide

/-- C2 (as amended): for any sequence of updates on one key, each with a positive
timestamp, fed from a store in which the key has no applied update, the monotonic filter
ends in the same store (rows, fare detail, last-applied timestamps) as applying without
filter the updates whose timestamp strictly exceeds that of every earlier message. -/
theorem feed_eq_increasingSubseq (s : Store) (trainId seatType travelDate : String)
    (us : List Update) (hfresh : mapGet s.lastTime (keyOf trainId seatType travelDate) = none)
    (hpos : ∀ u ∈ us, 0 < u.tms) :
    feed s trainId seatType travelDate us
      = feedUnconditional s trainId seatType travelDate (increasingSubseq us) := by
  have hprev : prevTime s (keyOf trainId seatType travelDate) = 0 := by
    simp [prevTime, hfresh]
  exact feed_eq_increasingFrom trainId seatType travelDate us s [] hpos
    (by intro e he; cases he) (Or.inl hprev) (by omega)

/-- Witness of C2: (t = 10, count = 5) then (t = 7, count = 3) ends at count 5, t = 10. -/
theorem feed_eq_increasingSubseq_witness :
    feed storeFresh "G1" "second" "2025-01-01" [⟨10, 5⟩, ⟨7, 3⟩]
      = feedUnconditional storeFresh "G1" "second" "2025-01-01"
          (increasingSubseq [⟨10, 5⟩, ⟨7, 3⟩]) ∧
    (feed storeFresh "G1" "second" "2025-01-01" [⟨10, 9⟩, ⟨7, 3⟩]).trains
      = [{ train_id := "G1", seat_type := "second", remaining_seat_count := 9 }] ∧
    prevTime (feed storeFresh "G1" "second" "2025-01-01" [⟨10, 9⟩, ⟨7, 3⟩])
      (keyOf "G1" "second" "2025-01-01") = 10 :=
  ⟨feed_eq_increasingSubseq storeFresh "G1" "second" "2025-01-01" [⟨10, 5⟩, ⟨7, 3⟩]
    (by decide) (by decide), by decide, by decide⟩

/-- Counterexample to C2 as stated: a single message carrying the timestamp -1000 (a time
before the epoch) and count 3 is discarded by the filter (the row keeps 5 seats, no
timestamp is recorded), while it is the whole timestamp-increasing subsequence, whose
unconditional application sets the row to 3. -/
theorem feed_negative_timestamp :
    increasingSubseq [⟨-1000, 3⟩] = [⟨-1000, 3⟩] ∧
    (feed storeFresh "G1" "second" "2025-01-01" [⟨-1000, 3⟩]).trains
      = [{ train_id := "G1", seat_type := "second", remaining_seat_count := 5 }] ∧
    (feedUnconditional storeFresh "G1" "second" "2025-01-01"
        (increasingSubseq [⟨-1000, 3⟩])).trains
      = [{ train_id := "G1", seat_type := "second", remaining_seat_count := 3 }] ∧
    feed storeFresh "G1" "second" "2025-01-01" [⟨-1000, 3⟩]
      ≠ feedUnconditional storeFresh "G1" "second" "2025-01-01"
          (increasingSubseq [⟨-1000, 3⟩]) := by
  decide

/-! ## Propagation of a count and render suppression -/

theorem strictNe_eq_false_iff (a b : JsNum) : a.strictNe b = false ↔ a = b ∧ b ≠ .nan := by
  cases a <;> cases b <;> simp [JsNum.strictNe]

theorem strictNe_iff_ne (a b : JsNum) (hb : b ≠ .nan) : a.strictNe b = true ↔ a ≠ b := by
  cases a <;> cases b <;> simp [JsNum.strictNe] at hb ⊢

/-- A row after the loop of lines 133-140. -/
theorem updateRows_getElem? (rows : List TrainRow) (trainId seatType : String)
    (remaining : JsNum) (j : Nat) :
    (updateRows rows trainId seatType remaining)[j]? =
      (rows[j]?).map (fun it =>
        if it.train_id = trainId ∧ it.seat_type = seatType then
          { it with remaining_seat_count := remaining }
        else it) := by
  unfold updateRows
  rw [List.getElem?_map]
  cases rows[j]? with
  | none => rfl
  | some it =>
    simp only [Option.map_some', Option.some.injEq]
    by_cases hm : it.train_id = trainId ∧ it.seat_type = seatType
    · rw [if_pos hm, if_pos hm]
      cases hs : it.remaining_seat_count.strictNe remaining
      · have := ((strictNe_eq_false_iff _ _).mp hs).1
        rw [if_neg (by simp)]
        cases it
        simp only at this
        subst this
        rfl
      · rw [if_pos rfl]
    · rw [if_neg hm, if_neg hm]

/-- A fare entry after the loop of lines 143-150. -/
theorem updateSeatTypes_getElem? (sts : List SeatTypeInfo) (seatType : String)
    (remaining : JsNum) (j : Nat) :
    (updateSeatTypes sts seatType remaining)[j]? =
      (sts[j]?).map (fun st =>
        if st.seat_type = seatType then { st with remaining := remaining } else st) := by
  unfold updateSeatTypes
  rw [List.getElem?_map]
  cases sts[j]? with
  | none => rfl
  | some st =>
    simp only [Option.map_some', Option.some.injEq]
    by_cases hm : st.seat_type = seatType
    · rw [if_pos hm, if_pos hm]
      cases hs : st.remaining.strictNe remaining
      · have := ((strictNe_eq_false_iff _ _).mp hs).1
        rw [if_neg (by simp)]
        cases st
        simp only at this
        subst this
        rfl
      · rw [if_pos rfl]
    · rw [if_neg hm, if_neg hm]

theorem updateSeatTypes_length (sts : List SeatTypeInfo) (seatType : String)
    (remaining : JsNum) : (updateSeatTypes sts seatType remaining).length = sts.length := by
  simp [updateSeatTypes]

/-- The modal after lines 141-151, for a booking session of the train. -/
theorem updateModal_of_buy (md : Modal) (sts : List SeatTypeInfo) (trainId seatType : String)
    (remaining : JsNum) (ht : md.type = "buy") (htr : md.train = some trainId)
    (hd : md.detail = some sts) :
    updateModal (some md) trainId seatType remaining =
      some { md with detail := some (updateSeatTypes sts seatType remaining) } := by
  unfold updateModal modalMatches
  dsimp only
  rw [if_pos ⟨ht, htr⟩, hd]
  dsimp only
  by_cases hl : sts.length ≠ 0
  · rw [if_pos hl]
  · rw [if_neg hl]
    have hnil : sts = [] := by
      cases sts with
      | nil => rfl
      | cons a l => simp at hl
    subst hnil
    cases md
    simp only at hd
    subst hd
    rfl

theorem updateModal_of_not_buy (m : Option Modal) (trainId seatType : String)
    (remaining : JsNum)
    (h : ∀ md, m = some md → ¬ (md.type = "buy" ∧ md.train = some trainId)) :
    updateModal m trainId seatType remaining = m := by
  unfold updateModal modalMatches
  cases m with
  | none => rfl
  | some md => simp [h md rfl]

/-- C28: an update with timestamp 0, which is what the handler passes for a message without
`time`, is applied whatever the last-applied timestamp of its key: the last-applied
timestamps stay as they are, every row of the train and seat class gets the count of the
message and the other rows stay as they are, and in an open booking session of the train
every fare entry of the seat class gets the count and the other entries stay as they
are. -/
theorem applyRemainingUpdate_no_timestamp (s : Store) (trainId seatType travelDate : String)
    (remaining : JsNum) :
    (∀ (dateParse : String → JsNum) (data : MsgData), data.time = none →
      data.remaining = some remaining →
      onMessage dateParse s trainId seatType travelDate data =
        applyRemainingUpdate s (strOr data.train_id trainId) (strOr data.seat_type seatType)
          (strOr data.travel_date travelDate) remaining (.num 0)) ∧
    (applyRemainingUpdate s trainId seatType travelDate remaining (.num 0)).lastTime
      = s.lastTime ∧
    (∀ j : Nat,
      (applyRemainingUpdate s trainId seatType travelDate remaining (.num 0)).trains[j]? =
        (s.trains[j]?).map (fun it =>
          if it.train_id = trainId ∧ it.seat_type = seatType then
            { it with remaining_seat_count := remaining }
          else it)) ∧
    (∀ (md : Modal) (sts : List SeatTypeInfo), s.modal = some md → md.type = "buy" →
      md.train = some trainId → md.detail = some sts →
      ∃ sts2 : List SeatTypeInfo,
        (applyRemainingUpdate s trainId seatType travelDate remaining (.num 0)).modal =
          some { md with detail := some sts2 } ∧
        ∀ j : Nat, sts2[j]? =
          (sts[j]?).map (fun st =>
            if st.seat_type = seatType then { st with remaining := remaining } else st)) ∧
    ((∀ md, s.modal = some md → ¬ (md.type = "buy" ∧ md.train = some trainId)) →
      (applyRemainingUpdate s trainId seatType travelDate remaining (.num 0)).modal
        = s.modal) := by
  have h0 : applyRemainingUpdate s trainId seatType travelDate remaining (.num 0) =
      propagate s trainId seatType remaining := by
    simp [applyRemainingUpdate, JsNum.truthy]
  rw [h0]
  refine ⟨?_, rfl, ?_, ?_, ?_⟩
  · intro dateParse data ht hr
    unfold onMessage
    rw [hr, ht]
    rfl
  · intro j
    exact updateRows_getElem? s.trains trainId seatType remaining j
  · intro md sts hm ht htr hd
    refine ⟨updateSeatTypes sts seatType remaining, ?_, ?_⟩
    · show updateModal s.modal trainId seatType remaining = _
      rw [hm]
      exact updateModal_of_buy md sts trainId seatType remaining ht htr hd
    · intro j
      exact updateSeatTypes_getElem? sts seatType remaining j
  · intro h
    exact updateModal_of_not_buy s.modal trainId seatType remaining h

/-- Witness of C28: on a key last applied at t = 10, a message without `time` carrying the
count 3 sets the row to 3 and leaves the last-applied timestamp at 10. -/
theorem applyRemainingUpdate_no_timestamp_witness :
    onMessage (fun _ => .nan) storeAt10 "G1" "second" "2025-01-01"
        { train_id := none, seat_type := none, travel_date := none, remaining := some 3,
          time := none } =
      applyRemainingUpdate storeAt10 "G1" "second" "2025-01-01" 3 (.num 0) ∧
    (applyRemainingUpdate storeAt10 "G1" "second" "2025-01-01" 3 (.num 0)).lastTime
      = storeAt10.lastTime :=
  ⟨(applyRemainingUpdate_no_timestamp storeAt10 "G1" "second" "2025-01-01" 3).1
      (fun _ => .nan)
      { train_id := none, seat_type := none, travel_date := none, remaining := some 3,
        time := none } rfl rfl,
   (applyRemainingUpdate_no_timestamp storeAt10 "G1" "second" "2025-01-01" 3).2.1⟩

theorem modalMatches_eq_some_iff (m : Option Modal) (trainId : String) (md : Modal)
    (sts : List SeatTypeInfo) :
    modalMatches m trainId = some (md, sts) ↔
      m = some md ∧ md.type = "buy" ∧ md.train = some trainId ∧ md.detail = some sts ∧
        sts.length ≠ 0 := by
  unfold modalMatches
  cases m with
  | none => simp
  | some m0 =>
    dsimp only
    by_cases hb : m0.type = "buy" ∧ m0.train = some trainId
    · rw [if_pos hb]
      cases hd : m0.detail with
      | none =>
        dsimp only
        constructor
        · intro h; cases h
        · rintro ⟨h1, _, _, h4, _⟩
          cases h1
          rw [hd] at h4
          cases h4
      | some l =>
        dsimp only
        by_cases hl : l.length ≠ 0
        · rw [if_pos hl]
          constructor
          · intro h
            cases h
            exact ⟨rfl, hb.1, hb.2, hd, hl⟩
          · rintro ⟨h1, _, _, h4, _⟩
            cases h1
            rw [hd] at h4
            cases h4
            rfl
        · rw [if_neg hl]
          constructor
          · intro h; cases h
          · rintro ⟨h1, _, _, h4, h5⟩
            cases h1
            rw [hd] at h4
            cases h4
            exact absurd h5 hl
    · rw [if_neg hb]
      constructor
      · intro h; cases h
      · rintro ⟨h1, h2, h3, _⟩
        cases h1
        exact absurd ⟨h2, h3⟩ hb

theorem rowsChanged_iff (rows : List TrainRow) (trainId seatType : String) (remaining : JsNum) :
    rowsChanged rows trainId seatType remaining = true ↔
      ∃ it ∈ rows, it.train_id = trainId ∧ it.seat_type = seatType ∧
        it.remaining_seat_count.strictNe remaining = true := by
  unfold rowsChanged
  simp only [List.any_eq_true, Bool.and_eq_true, decide_eq_true_eq, and_assoc]

theorem seatTypesChanged_iff (sts : List SeatTypeInfo) (seatType : String) (remaining : JsNum) :
    seatTypesChanged sts seatType remaining = true ↔
      ∃ st ∈ sts, st.seat_type = seatType ∧ st.remaining.strictNe remaining = true := by
  unfold seatTypesChanged
  simp only [List.any_eq_true, Bool.and_eq_true, decide_eq_true_eq]

theorem modalChanged_iff (m : Option Modal) (trainId seatType : String) (remaining : JsNum) :
    modalChanged m trainId seatType remaining = true ↔
      ∃ (md : Modal) (sts : List SeatTypeInfo) (st : SeatTypeInfo),
        m = some md ∧ md.type = "buy" ∧ md.train = some trainId ∧ md.detail = some sts ∧
        st ∈ sts ∧ st.seat_type = seatType ∧ st.remaining.strictNe remaining = true := by
  unfold modalChanged
  cases hmm : modalMatches m trainId with
  | none =>
    simp only [Bool.false_eq_true, false_iff]
    rintro ⟨md, sts, st, h1, h2, h3, h4, h5, _⟩
    have hl : sts.length ≠ 0 := by
      intro h0
      rw [List.length_eq_zero] at h0
      rw [h0] at h5
      cases h5
    rw [(modalMatches_eq_some_iff m trainId md sts).mpr ⟨h1, h2, h3, h4, hl⟩] at hmm
    cases hmm
  | some p =>
    obtain ⟨md, sts⟩ := p
    obtain ⟨h1, h2, h3, h4, _⟩ := (modalMatches_eq_some_iff m trainId md sts).mp hmm
    dsimp only
    rw [seatTypesChanged_iff]
    constructor
    · rintro ⟨st, hst, h5, h6⟩
      exact ⟨md, sts, st, h1, h2, h3, h4, hst, h5, h6⟩
    · rintro ⟨md2, sts2, st, k1, _, _, k4, hst, h5, h6⟩
      rw [h1] at k1
      cases k1
      rw [h4] at k4
      cases k4
      exact ⟨st, hst, h5, h6⟩

theorem updateRows_idem (rows : List TrainRow) (trainId seatType : String) (i : Int) :
    updateRows (updateRows rows trainId seatType (.num i)) trainId seatType (.num i) =
      updateRows rows trainId seatType (.num i) ∧
    rowsChanged (updateRows rows trainId seatType (.num i)) trainId seatType (.num i)
      = false := by
  constructor
  · apply List.ext_getElem?
    intro j
    rw [updateRows_getElem?, updateRows_getElem?]
    cases rows[j]? with
    | none => rfl
    | some it =>
      simp only [Option.map_some', Option.some.injEq]
      by_cases hm : it.train_id = trainId ∧ it.seat_type = seatType
      · rw [if_pos hm, if_pos hm]
      · rw [if_neg hm, if_neg hm]
  · rw [Bool.eq_false_iff]
    intro h
    obtain ⟨it, hit, h1, h2, h3⟩ := (rowsChanged_iff _ _ _ _).mp h
    obtain ⟨j, hj⟩ := List.mem_iff_getElem?.mp hit
    rw [updateRows_getElem?] at hj
    cases hr : rows[j]? with
    | none => rw [hr] at hj; cases hj
    | some it0 =>
      rw [hr] at hj
      simp only [Option.map_some', Option.some.injEq] at hj
      by_cases hm : it0.train_id = trainId ∧ it0.seat_type = seatType
      · rw [if_pos hm] at hj
        rw [← hj] at h3
        simp [JsNum.strictNe] at h3
      · rw [if_neg hm] at hj
        rw [← hj] at h1 h2
        exact hm ⟨h1, h2⟩

theorem updateSeatTypes_idem (sts : List SeatTypeInfo) (seatType : String) (i : Int) :
    updateSeatTypes (updateSeatTypes sts seatType (.num i)) seatType (.num i) =
      updateSeatTypes sts seatType (.num i) ∧
    seatTypesChanged (updateSeatTypes sts seatType (.num i)) seatType (.num i) = false := by
  constructor
  · apply List.ext_getElem?
    intro j
    rw [updateSeatTypes_getElem?, updateSeatTypes_getElem?]
    cases sts[j]? with
    | none => rfl
    | some st =>
      simp only [Option.map_some', Option.some.injEq]
      by_cases hm : st.seat_type = seatType
      · rw [if_pos hm, if_pos hm]
      · rw [if_neg hm, if_neg hm]
  · rw [Bool.eq_false_iff]
    intro h
    obtain ⟨st, hst, h1, h3⟩ := (seatTypesChanged_iff _ _ _).mp h
    obtain ⟨j, hj⟩ := List.mem_iff_getElem?.mp hst
    rw [updateSeatTypes_getElem?] at hj
    cases hr : sts[j]? with
    | none => rw [hr] at hj; cases hj
    | some st0 =>
      rw [hr] at hj
      simp only [Option.map_some', Option.some.injEq] at hj
      by_cases hm : st0.seat_type = seatType
      · rw [if_pos hm] at hj
        rw [← hj] at h3
        simp [JsNum.strictNe] at h3
      · rw [if_neg hm] at hj
        rw [← hj] at h1
        exact hm h1

theorem updateModal_idem (m : Option Modal) (trainId seatType : String) (i : Int) :
    updateModal (updateModal m trainId seatType (.num i)) trainId seatType (.num i) =
      updateModal m trainId seatType (.num i) ∧
    modalChanged (updateModal m trainId seatType (.num i)) trainId seatType (.num i)
      = false := by
  cases hmm : modalMatches m trainId with
  | none =>
    have h1 : updateModal m trainId seatType (.num i) = m := by
      unfold updateModal; rw [hmm]
    rw [h1, h1]
    refine ⟨rfl, ?_⟩
    unfold modalChanged
    rw [hmm]
  | some p =>
    obtain ⟨md, sts⟩ := p
    obtain ⟨k1, k2, k3, k4, k5⟩ := (modalMatches_eq_some_iff m trainId md sts).mp hmm
    have h1 : updateModal m trainId seatType (.num i) =
        some { md with detail := some (updateSeatTypes sts seatType (.num i)) } := by
      unfold updateModal; rw [hmm]
    have h2 : modalMatches
        (some { md with detail := some (updateSeatTypes sts seatType (.num i)) }) trainId =
        some ({ md with detail := some (updateSeatTypes sts seatType (.num i)) },
          updateSeatTypes sts seatType (.num i)) :=
      (modalMatches_eq_some_iff _ trainId _ _).mpr
        ⟨rfl, k2, k3, rfl, by rw [updateSeatTypes_length]; exact k5⟩
    rw [h1]
    constructor
    · unfold updateModal
      rw [h2]
      dsimp only
      rw [(updateSeatTypes_idem sts seatType i).1]
    · unfold modalChanged
      rw [h2]
      exact (updateSeatTypes_idem sts seatType i).2

theorem propagate_idem (s : Store) (trainId seatType : String) (i : Int) :
    propagate (propagate s trainId seatType (.num i)) trainId seatType (.num i) =
      propagate s trainId seatType (.num i) ∧
    propagate { propagate s trainId seatType (.num i) with renderScheduled := false }
        trainId seatType (.num i) =
      { propagate s trainId seatType (.num i) with renderScheduled := false } := by
  have hr := updateRows_idem s.trains trainId seatType i
  have hm := updateModal_idem s.modal trainId seatType i
  constructor
  · unfold propagate
    simp only [hr.1, hr.2, hm.1, hm.2, Bool.or_false, Bool.false_eq_true, if_false]
  · unfold propagate
    simp only [hr.1, hr.2, hm.1, hm.2, Bool.or_false, Bool.false_eq_true, if_false]

/-- The last-applied timestamps after an accepted update. -/
theorem applyRemainingUpdate_accepted (s : Store) (trainId seatType travelDate : String)
    (remaining : JsNum) (tms : JsNum)
    (hacc : (tms.truthy && tms.le (prevTime s (keyOf trainId seatType travelDate))) = false) :
    applyRemainingUpdate s trainId seatType travelDate remaining tms =
      propagate
        { s with
          lastTime :=
            match tms with
            | .num t =>
              if t ≠ 0 then mapSet s.lastTime (keyOf trainId seatType travelDate) t
              else s.lastTime
            | .nan => s.lastTime }
        trainId seatType remaining := by
  unfold applyRemainingUpdate
  simp only [hacc, Bool.false_eq_true, if_false]
  cases tms with
  | nan => rfl
  | num t =>
    dsimp only
    split <;> rfl

theorem applyRemainingUpdate_twice (s : Store) (trainId seatType travelDate : String)
    (i : Int) (tms : JsNum)
    (hacc : (tms.truthy && tms.le (prevTime s (keyOf trainId seatType travelDate))) = false) :
    applyRemainingUpdate
        (applyRemainingUpdate s trainId seatType travelDate (.num i) tms)
        trainId seatType travelDate (.num i) tms =
      applyRemainingUpdate s trainId seatType travelDate (.num i) tms ∧
    applyRemainingUpdate
        { applyRemainingUpdate s trainId seatType travelDate (.num i) tms with
          renderScheduled := false }
        trainId seatType travelDate (.num i) tms =
      { applyRemainingUpdate s trainId seatType travelDate (.num i) tms with
        renderScheduled := false } := by
  rw [applyRemainingUpdate_accepted s trainId seatType travelDate (.num i) tms hacc]
  cases tms with
  | nan =>
    dsimp only
    have h1 : ∀ x : Store, applyRemainingUpdate x trainId seatType travelDate (.num i) .nan =
        propagate x trainId seatType (.num i) := by
      intro x; simp [applyRemainingUpdate, JsNum.truthy]
    rw [h1, h1]
    exact propagate_idem s trainId seatType i
  | num t =>
    dsimp only
    by_cases h0 : t = 0
    · subst h0
      have h1 : ∀ x : Store, applyRemainingUpdate x trainId seatType travelDate (.num i)
          (.num 0) = propagate x trainId seatType (.num i) := by
        intro x; simp [applyRemainingUpdate, JsNum.truthy]
      rw [h1, h1]
      simp only [ne_eq, not_true_eq_false, if_false]
      exact propagate_idem s trainId seatType i
    · simp only [ne_eq, h0, not_false_eq_true, if_true]
      have hp : ∀ x : Store, x.lastTime =
          mapSet s.lastTime (keyOf trainId seatType travelDate) t →
          t ≤ prevTime x (keyOf trainId seatType travelDate) := by
        intro x hx
        simp [prevTime, hx, mapGet_mapSet_self, h0]
      exact ⟨applyRemainingUpdate_of_le _ trainId seatType travelDate (.num i) t h0 (hp _ rfl),
        applyRemainingUpdate_of_le _ trainId seatType travelDate (.num i) t h0 (hp _ rfl)⟩

/-- C29 as amended: for an accepted update whose count is a number other than `NaN`,
`applyRemainingUpdate` sets the render flag (from a cleared flag) iff a row of the train
and seat class, or a fare entry of the seat class in an open booking session of the
train, held a count different from the incoming one; rows and fare entries that do not
match are left as they are; and applying the same update again returns the same state,
also when the flag has been cleared in between, so that no render is scheduled. -/
theorem applyRemainingUpdate_render (s : Store) (trainId seatType travelDate : String)
    (i : Int) (tms : JsNum)
    (hacc : (tms.truthy && tms.le (prevTime s (keyOf trainId seatType travelDate))) = false) :
    ((applyRemainingUpdate { s with renderScheduled := false } trainId seatType travelDate
        (.num i) tms).renderScheduled = true ↔
      (∃ it ∈ s.trains, it.train_id = trainId ∧ it.seat_type = seatType ∧
        it.remaining_seat_count ≠ .num i) ∨
      (∃ (md : Modal) (sts : List SeatTypeInfo) (st : SeatTypeInfo),
        s.modal = some md ∧ md.type = "buy" ∧ md.train = some trainId ∧
        md.detail = some sts ∧ st ∈ sts ∧ st.seat_type = seatType ∧
        st.remaining ≠ .num i)) ∧
    (∀ (j : Nat) (it : TrainRow), s.trains[j]? = some it →
      ¬ (it.train_id = trainId ∧ it.seat_type = seatType) →
      (applyRemainingUpdate s trainId seatType travelDate (.num i) tms).trains[j]?
        = some it) ∧
    ((∀ md, s.modal = some md → ¬ (md.type = "buy" ∧ md.train = some trainId)) →
      (applyRemainingUpdate s trainId seatType travelDate (.num i) tms).modal = s.modal) ∧
    (∀ (md : Modal) (sts : List SeatTypeInfo), s.modal = some md → md.type = "buy" →
      md.train = some trainId → md.detail = some sts →
      ∃ sts2 : List SeatTypeInfo,
        (applyRemainingUpdate s trainId seatType travelDate (.num i) tms).modal =
          some { md with detail := some sts2 } ∧
        ∀ (j : Nat) (st : SeatTypeInfo), sts[j]? = some st → st.seat_type ≠ seatType →
          sts2[j]? = some st) ∧
    applyRemainingUpdate
        (applyRemainingUpdate s trainId seatType travelDate (.num i) tms)
        trainId seatType travelDate (.num i) tms =
      applyRemainingUpdate s trainId seatType travelDate (.num i) tms ∧
    applyRemainingUpdate
        { applyRemainingUpdate s trainId seatType travelDate (.num i) tms with
          renderScheduled := false }
        trainId seatType travelDate (.num i) tms =
      { applyRemainingUpdate s trainId seatType travelDate (.num i) tms with
        renderScheduled := false } := by
  have hne : (JsNum.num i) ≠ .nan := by intro h; cases h
  have h2 := applyRemainingUpdate_twice s trainId seatType travelDate i tms hacc
  refine ⟨?_, ?_, ?_, ?_, h2.1, h2.2⟩
  · rw [applyRemainingUpdate_accepted { s with renderScheduled := false } trainId seatType
      travelDate (.num i) tms hacc]
    show (if rowsChanged s.trains trainId seatType (.num i) ||
        modalChanged s.modal trainId seatType (.num i) then true else false) = true ↔ _
    split
    · rename_i h
      simp only [Bool.or_eq_true, rowsChanged_iff, modalChanged_iff,
        strictNe_iff_ne _ _ hne] at h
      simp only [true_iff]
      exact h
    · rename_i h
      simp only [Bool.or_eq_true, rowsChanged_iff, modalChanged_iff,
        strictNe_iff_ne _ _ hne] at h
      simp only [Bool.false_eq_true, false_iff]
      exact h
  · intro j it hj hm
    rw [applyRemainingUpdate_accepted s trainId seatType travelDate (.num i) tms hacc]
    show (updateRows s.trains trainId seatType (.num i))[j]? = some it
    rw [updateRows_getElem?, hj]
    simp only [Option.map_some', Option.some.injEq]
    rw [if_neg hm]
  · intro h
    rw [applyRemainingUpdate_accepted s trainId seatType travelDate (.num i) tms hacc]
    exact updateModal_of_not_buy s.modal trainId seatType (.num i) h
  · intro md sts hm ht htr hd
    rw [applyRemainingUpdate_accepted s trainId seatType travelDate (.num i) tms hacc]
    refine ⟨updateSeatTypes sts seatType (.num i), ?_, ?_⟩
    · show updateModal s.modal trainId seatType (.num i) = _
      rw [hm]
      exact updateModal_of_buy md sts trainId seatType (.num i) ht htr hd
    · intro j st hj hst
      rw [updateSeatTypes_getElem?, hj]
      simp only [Option.map_some', Option.some.injEq]
      rw [if_neg hst]

/-- Witness of C29 as amended: the update (t = 12, count = 3) on a key last applied at
t = 10 is accepted; applied a second time it changes nothing. -/
theorem applyRemainingUpdate_render_witness :
    applyRemainingUpdate
        (applyRemainingUpdate storeAt10 "G1" "second" "2025-01-01" (.num 3) (.num 12))
        "G1" "second" "2025-01-01" (.num 3) (.num 12) =
      applyRemainingUpdate storeAt10 "G1" "second" "2025-01-01" (.num 3) (.num 12) :=
  (applyRemainingUpdate_render storeAt10 "G1" "second" "2025-01-01" 3 (.num 12)
    (by decide)).2.2.2.2.1

/-- C29 fails as stated: a message without `time` whose `remaining` is not numeric reaches
`applyRemainingUpdate` with the count `NaN` and the timestamp 0; applied to a store whose
matching row already holds `NaN` and whose render flag is cleared, the same update sets
the flag again, although the row is left as it was. -/
theorem applyRemainingUpdate_nan_rerenders :
    (applyRemainingUpdate storeFresh "G1" "second" "2025-01-01" .nan (.num 0)) =
      { storeFresh with
        trains := [{ train_id := "G1", seat_type := "second", remaining_seat_count := .nan }]
        renderScheduled := true } ∧
    (applyRemainingUpdate
        { applyRemainingUpdate storeFresh "G1" "second" "2025-01-01" .nan (.num 0) with
          renderScheduled := false }
        "G1" "second" "2025-01-01" .nan (.num 0)) =
      { storeFresh with
        trains := [{ train_id := "G1", seat_type := "second", remaining_seat_count := .nan }]
        renderScheduled := true } := by
  decide

end RemainWS
